import Mathlib

/-! # Normal task submitter

A shallow embedding of `src/ray/core_worker/transport/normal_task_submitter.cc`
and a verification development over it.

Conventions of the embedding.

* Binary identifiers (`TaskID`, `NodeID`, `WorkerID`, `ActorID`) are natural
  numbers; `0` stands for the empty string / the nil id.
* `absl::flat_hash_map` and `absl::flat_hash_set` are association lists and
  lists; `operator[]` inserts a default-constructed value when the key is
  absent (`Map.index`), `emplace` never overwrites, `erase` removes the key.
* The submitter's members are the fields of `State`.  Every function of the
  source is a function on `State`; a failed `RAY_CHECK`, `QuickExit()` and an
  exhausted call stack are the three ways a function can abort (`Abort`).
* An asynchronous call (`RequestWorkerLease`, `PushNormalTask`, ...) appends
  the request to `State.calls` and registers its completion closure, as data,
  in `State.callbacks`.  A closure is run by the matching `Event`.
* Values the collaborators return to the submitter (the clock, the task
  manager's answers, `TaskID::FromRandom`, the lease policy, the rate limiter)
  are inputs: fields of `Env`, of `Clock`, or arguments of the event.
-/

namespace NormalTaskSubmitter

/-! ## Association lists standing for hash maps and hash sets -/

namespace Map

/-- Lookup, the `find` of a hash map. -/
def find {K V : Type} [DecidableEq K] (k : K) : List (K × V) → Option V
  | [] => none
  | p :: m => if p.1 = k then some p.2 else find k m

/-- Removal of a key, the `erase` of a hash map. -/
def erase {K V : Type} [DecidableEq K] (k : K) (m : List (K × V)) : List (K × V) :=
  m.filter (fun p => decide (p.1 ≠ k))

/-- Insertion that keeps an existing value, the `emplace` of a hash map. -/
def emplace {K V : Type} [DecidableEq K] (k : K) (v : V) (m : List (K × V)) :
    List (K × V) :=
  match find k m with
  | some _ => m
  | none => m ++ [(k, v)]

/-- Assignment through a reference obtained from the map. -/
def set {K V : Type} [DecidableEq K] (k : K) (v : V) (m : List (K × V)) :
    List (K × V) :=
  match find k m with
  | some _ => m.map (fun p => if p.1 = k then (k, v) else p)
  | none => m ++ [(k, v)]

/-- The map after `m[k]`: a default value is inserted when `k` is absent. -/
def index {K V : Type} [DecidableEq K] [Inhabited V] (k : K) (m : List (K × V)) :
    List (K × V) :=
  emplace k default m

/-- The value `m[k]` refers to. -/
def get {K V : Type} [DecidableEq K] [Inhabited V] (k : K) (m : List (K × V)) : V :=
  (find k m).getD default

end Map

namespace HashSet

/-- Insertion into a hash set. -/
def insert {A : Type} [DecidableEq A] (a : A) (xs : List A) : List A :=
  if a ∈ xs then xs else xs ++ [a]

/-- Removal from a hash set. -/
def erase {A : Type} [DecidableEq A] (a : A) (xs : List A) : List A :=
  xs.filter (fun x => decide (x ≠ a))

end HashSet

/-! ## Data model -/

abbrev TaskID := Nat
abbrev NodeID := Nat
abbrev WorkerID := Nat
abbrev ActorID := Nat
abbrev ObjectID := Nat
abbrev SchedulingClass := Nat

/-- The `rpc::Address` message. -/
structure Address where
  raylet_id : NodeID := 0
  ip_address : Nat := 0
  port : Nat := 0
  worker_id : WorkerID := 0
deriving DecidableEq, Repr, Inhabited

/-- A piece of a composed text: literal text or a rendered identifier. -/
inductive MsgAtom where
  | text (s : String)
  | node_id (id : NodeID)
  | ip_address (ip : Nat)
  | task_id (id : TaskID)
deriving DecidableEq, Repr

abbrev Message := List MsgAtom

/-- The scheduling key: scheduling class, dependency ids, actor creation id
(`0` is `ActorID::Nil()`), runtime environment hash. -/
structure SchedulingKey where
  scheduling_class : SchedulingClass := 0
  dependency_ids : List ObjectID := []
  actor_creation_id : ActorID := 0
  runtime_env_hash : Nat := 0
deriving DecidableEq, Repr, Inhabited

/-- Modelled from the spec: the kind of a task; `TaskSpecification` is declared
outside this file.  The spec distinguishes normal tasks, actor-creation tasks
and actor-method tasks. -/
inductive TaskKind where
  | normal
  | actor_creation
  | actor_method
deriving DecidableEq, Repr, Inhabited

/-- Modelled from the spec: the task specification, restricted to the
accessors the submitter uses. -/
structure TaskSpecification where
  task_id : TaskID := 0
  kind : TaskKind := TaskKind.normal
  name : String := ""
  scheduling_class : SchedulingClass := 0
  dependency_ids : List ObjectID := []
  actor_creation_id : ActorID := 0
  runtime_env_hash : Nat := 0
  retry_exceptions : Bool := false
  caller_worker_id : WorkerID := 0
  dependency_resolution_timestamp_ms : Int := 0
  lease_grant_timestamp_ms : Int := 0
deriving DecidableEq, Repr, Inhabited

/-- Modelled from the spec: `IsNormalTask`, "a normal (non-actor-method) task". -/
def TaskSpecification.IsNormalTask (t : TaskSpecification) : Bool :=
  decide (t.kind ≠ TaskKind.actor_method)

/-- Modelled from the spec: `IsActorCreationTask`. -/
def TaskSpecification.IsActorCreationTask (t : TaskSpecification) : Bool :=
  decide (t.kind = TaskKind.actor_creation)

/-- The scheduling key built in `SubmitTask` and `CancelTask`. -/
def TaskSpecification.GetSchedulingKey (t : TaskSpecification) : SchedulingKey :=
  { scheduling_class := t.scheduling_class
    dependency_ids := t.dependency_ids
    actor_creation_id := if t.IsActorCreationTask then t.actor_creation_id else 0
    runtime_env_hash := t.runtime_env_hash }

abbrev ResourceMapping := List Nat

/-- A lease client: the local raylet's client or the cached client of a
remote raylet. -/
inductive LeaseClient where
  | local_client
  | remote_client (raylet_id : NodeID)
deriving DecidableEq, Repr

/-- Modelled from the spec: `SchedulingKeyEntry`, declared in the header. -/
structure SchedulingKeyEntry where
  pending_lease_requests : List (TaskID × Address) := []
  resource_spec : TaskSpecification := {}
  task_queue : List TaskSpecification := []
  active_workers : List Address := []
  num_busy_workers : Nat := 0
  last_reported_backlog_size : Nat := 0
deriving DecidableEq, Repr

instance : Inhabited SchedulingKeyEntry := ⟨{}⟩

/-- Modelled from the spec: `CanDelete`, "entry may be deleted iff task_queue,
pending_lease_requests, and active_workers are all empty". -/
def SchedulingKeyEntry.CanDelete (e : SchedulingKeyEntry) : Bool :=
  e.pending_lease_requests.isEmpty && e.task_queue.isEmpty && e.active_workers.isEmpty

/-- Modelled from the spec: `AllWorkersBusy`, no leased worker of the key is
idle; `num_busy_workers` counts the leased workers executing a task. -/
def SchedulingKeyEntry.AllWorkersBusy (e : SchedulingKeyEntry) : Bool :=
  decide (e.active_workers.length = e.num_busy_workers)

/-- Modelled from the spec: `BacklogSize`,
`task_queue.size - min(task_queue.size, pending_lease_requests.size)`. -/
def SchedulingKeyEntry.BacklogSize (e : SchedulingKeyEntry) : Nat :=
  e.task_queue.length - min e.task_queue.length e.pending_lease_requests.length

/-- Modelled from the spec: `LeaseEntry`, declared in the header; `lease_client`
is a shared pointer, null in a default-constructed entry. -/
structure LeaseEntry where
  lease_client : Option LeaseClient := none
  lease_expiration_time : Int := 0
  assigned_resources : ResourceMapping := []
  scheduling_key : SchedulingKey := {}
  task_id : TaskID := 0
  is_busy : Bool := false
deriving DecidableEq, Repr

instance : Inhabited LeaseEntry := ⟨{}⟩

inductive ErrorType where
  | WORKER_DIED
  | TASK_CANCELLED
  | DEPENDENCY_RESOLUTION_FAILED
  | RUNTIME_ENV_SETUP_FAILED
  | TASK_UNSCHEDULABLE_ERROR
  | TASK_PLACEMENT_GROUP_REMOVED
  | ACTOR_PLACEMENT_GROUP_REMOVED
  | LOCAL_RAYLET_DIED
  | NODE_DIED
  | TASK_EXECUTION_EXCEPTION
  | OTHER (code : Nat)
deriving DecidableEq, Repr

/-- The `rpc::RayErrorInfo` message. -/
structure RayErrorInfo where
  error_type : ErrorType := ErrorType.WORKER_DIED
  error_message : Message := []
  runtime_env_setup_failed_error_message : Option Message := none
deriving DecidableEq, Repr

inductive StatusCode where
  | OK
  | RpcError
  | Other
deriving DecidableEq, Repr

/-- The `ray::Status` value; `rpc_code 14` is `grpc::StatusCode::UNAVAILABLE`. -/
structure Status where
  code : StatusCode := StatusCode.OK
  rpc_code : Nat := 0
  message : Message := []
deriving DecidableEq, Repr

def Status.ok (st : Status) : Bool := decide (st.code = StatusCode.OK)

def Status.IsRpcError (st : Status) : Bool := decide (st.code = StatusCode.RpcError)

def grpc_UNAVAILABLE : Nat := 14

inductive SchedulingFailureType where
  | SCHEDULING_CANCELLED_RUNTIME_ENV_SETUP_FAILED
  | SCHEDULING_CANCELLED_PLACEMENT_GROUP_REMOVED
  | SCHEDULING_CANCELLED_UNSCHEDULABLE
  | OTHER (code : Nat)
deriving DecidableEq, Repr

structure RequestWorkerLeaseReply where
  canceled : Bool := false
  failure_type : SchedulingFailureType := SchedulingFailureType.OTHER 0
  scheduling_failure_message : Message := []
  rejected : Bool := false
  worker_address : Address := {}
  resource_mapping : ResourceMapping := []
  retry_at_raylet_address : Address := {}
deriving DecidableEq, Repr

structure CancelWorkerLeaseReply where
  success : Bool := false
deriving DecidableEq, Repr

structure PushTaskReply where
  worker_exiting : Bool := false
  was_cancelled_before_running : Bool := false
  is_retryable_error : Bool := false
  is_application_error : Bool := false
  task_execution_error : Message := []
deriving DecidableEq, Repr

structure GetTaskFailureCauseReply where
  has_failure_cause : Bool := false
  failure_cause : RayErrorInfo := {}
  fail_task_immediately : Bool := false
deriving DecidableEq, Repr

structure CancelTaskReply where
  attempt_succeeded : Bool := false
  requested_task_running : Bool := false
deriving DecidableEq, Repr

structure PushTaskRequest where
  task_spec : TaskSpecification
  resource_mapping : ResourceMapping
  intended_worker_id : WorkerID
deriving DecidableEq, Repr

structure CancelTaskRequest where
  intended_task_id : TaskID
  force_kill : Bool
  recursive : Bool
  caller_worker_id : WorkerID
deriving DecidableEq, Repr

structure RemoteCancelTaskRequest where
  force_kill : Bool
  recursive : Bool
  remote_object_id : ObjectID
deriving DecidableEq, Repr

structure WorkerBacklogReport where
  resource_spec : TaskSpecification
  backlog_size : Nat
deriving DecidableEq, Repr

/-- The calls the submitter makes on its collaborators, in the order made. -/
inductive Call where
  | ResolveDependencies (task_spec : TaskSpecification)
  | CancelDependencyResolution (task_id : TaskID)
  | MarkDependenciesResolved (task_id : TaskID)
  | FailOrRetryPendingTask (task_id : TaskID) (error_type : ErrorType) (status : Status)
      (error_info : Option RayErrorInfo) (mark_task_object_failed : Bool)
      (fail_immediately : Bool)
  | FailPendingTask (task_id : TaskID) (error_type : ErrorType) (status : Option Status)
      (error_info : Option RayErrorInfo)
  | MarkTaskWaitingForExecution (task_id : TaskID) (node_id : NodeID) (worker_id : WorkerID)
  | MarkTaskCanceled (task_id : TaskID)
  | IsTaskPending (task_id : TaskID)
  | RetryTaskIfPossible (task_id : TaskID) (error_info : RayErrorInfo)
  | CompletePendingTask (task_id : TaskID) (reply : PushTaskReply) (addr : Address)
      (is_application_error : Bool)
  | MarkGeneratorFailedAndResubmit (task_id : TaskID)
  | GetOrConnectByAddress (raylet_address : Address)
  | RequestWorkerLease (client : LeaseClient) (resource_spec : TaskSpecification)
      (grant_or_reject : Bool) (backlog_size : Nat) (is_selected_based_on_locality : Bool)
  | CancelWorkerLease (client : LeaseClient) (task_id : TaskID)
  | ReturnWorker (client : LeaseClient) (port : Nat) (worker_id : WorkerID)
      (was_error : Bool) (error_detail : Message) (worker_exiting : Bool)
  | LogErrorReturningWorker (status : Status)
  | ReportWorkerBacklog (worker_id : WorkerID) (reports : List WorkerBacklogReport)
  | GetTaskFailureCause (client : LeaseClient) (task_id : TaskID)
  | GetOrConnect (addr : Address)
  | PushNormalTask (addr : Address) (scheduling_key : SchedulingKey)
      (request : PushTaskRequest)
  | CancelTask (addr : Address) (request : CancelTaskRequest)
  | RemoteCancelTask (addr : Address) (request : RemoteCancelTaskRequest)
deriving DecidableEq, Repr

/-- The completion closures handed to the collaborators, with the values each
captures. -/
inductive Callback where
  | resolve (task_spec : TaskSpecification)
  | lease (scheduling_key : SchedulingKey) (task_id : TaskID) (task_name : String)
      (is_spillback : Bool) (raylet_address : Address)
  | cancel_lease (scheduling_key : SchedulingKey)
  | push (task_spec : TaskSpecification) (task_id : TaskID) (is_actor_creation : Bool)
      (scheduling_key : SchedulingKey) (addr : Address)
      (assigned_resources : ResourceMapping)
  | failure_cause (status : Status) (task_id : TaskID) (addr : Address)
  | cancel_task (task_spec : TaskSpecification) (scheduling_key : SchedulingKey)
      (force_kill : Bool) (recursive : Bool)
  | cancel_retry (task_spec : TaskSpecification) (force_kill : Bool) (recursive : Bool)
deriving DecidableEq, Repr

inductive WorkerType where
  | WORKER
  | DRIVER
deriving DecidableEq, Repr

/-- The constructor arguments of the submitter and the collaborators whose
answers are functions of their arguments. -/
structure Env where
  /-- The value of `GetMaxPendingLeaseRequestsPerSchedulingCategory()`. -/
  max_pending_lease_requests : Nat
  lease_timeout_ms : Int
  cancellation_retry_ms : Int
  worker_type : WorkerType
  local_raylet_id : NodeID
  rpc_address : Address
  /-- The id returned by the `n`-th call of `TaskID::FromRandom(job_id_)`. -/
  from_random : Nat → TaskID
  /-- The answer of `lease_policy_->GetBestNodeForTask`. -/
  best_node : TaskSpecification → Address × Bool
  /-- The status returned by the `ReturnWorker` call for a worker. -/
  return_worker_status : Address → Status

/-- The clock readings during one atomic section.  A section reads
`current_time_ms()` and `current_sys_time_ms()` at most twice each. -/
structure Clock where
  /-- The first reading of `current_time_ms()`. -/
  mono : Int := 0
  /-- The first reading of `current_sys_time_ms()`. -/
  sys : Int := 0
  /-- The reading of `high_resolution_clock::now()`. -/
  hires : Int := 0
  /-- The second reading of `current_time_ms()`: the one `OnWorkerIdle` makes
  after `AddWorkerLeaseClient` has made the first. -/
  mono_again : Int := 0
  /-- The second reading of `current_sys_time_ms()`: the one `OnWorkerIdle`
  makes after the resolution closure has made the first. -/
  sys_again : Int := 0
deriving DecidableEq, Repr

/-- The readings left to a callee after `current_time_ms()` has been read
once. -/
def Clock.afterMono (clk : Clock) : Clock := { clk with mono := clk.mono_again }

/-- The readings left to a callee after `current_sys_time_ms()` has been read
once. -/
def Clock.afterSys (clk : Clock) : Clock := { clk with sys := clk.sys_again }

/-- The value of an `int64_t` that holds the integer `x`: `x` wrapped into the
range of 64-bit two's complement numbers. -/
def wrapInt64 (x : Int) : Int := (x + 2 ^ 63) % 2 ^ 64 - 2 ^ 63

inductive Abort where
  | check_failed
  | quick_exit
  | stack_exhausted
deriving DecidableEq, Repr

/-- The members of `NormalTaskSubmitter`, the calls made so far and the
closures registered and not yet run. -/
structure State where
  scheduling_key_entries : List (SchedulingKey × SchedulingKeyEntry) := []
  worker_to_lease_entry : List (Address × LeaseEntry) := []
  executing_tasks : List (TaskID × Address) := []
  cancelled_tasks : List TaskID := []
  generators_to_resubmit : List TaskID := []
  failed_tasks_pending_failure_cause : List TaskID := []
  remote_lease_clients : List NodeID := []
  num_tasks_submitted : Nat := 0
  num_leases_requested : Nat := 0
  cancel_retry_timer_expiry : Int := 0
  /-- The number of calls of `TaskID::FromRandom` made so far. -/
  random_draws : Nat := 0
  calls : List Call := []
  callbacks : List Callback := []
deriving DecidableEq, Repr

namespace State

/-- Record a call on a collaborator. -/
def call (s : State) (c : Call) : State := { s with calls := s.calls ++ [c] }

/-- Register a completion closure. -/
def register (s : State) (cb : Callback) : State :=
  { s with callbacks := s.callbacks ++ [cb] }

/-- The state after evaluating `scheduling_key_entries_[key]`. -/
def touchEntry (s : State) (key : SchedulingKey) : State :=
  { s with scheduling_key_entries := Map.index key s.scheduling_key_entries }

/-- The value of `scheduling_key_entries_[key]`. -/
def entry (s : State) (key : SchedulingKey) : SchedulingKeyEntry :=
  Map.get key s.scheduling_key_entries

/-- A write through the reference `scheduling_key_entries_[key]`. -/
def setEntry (s : State) (key : SchedulingKey) (e : SchedulingKeyEntry) : State :=
  { s with scheduling_key_entries := Map.set key e s.scheduling_key_entries }

def eraseEntry (s : State) (key : SchedulingKey) : State :=
  { s with scheduling_key_entries := Map.erase key s.scheduling_key_entries }

/-- The state after evaluating `worker_to_lease_entry_[addr]`. -/
def touchLease (s : State) (addr : Address) : State :=
  { s with worker_to_lease_entry := Map.index addr s.worker_to_lease_entry }

/-- The value of `worker_to_lease_entry_[addr]`. -/
def lease (s : State) (addr : Address) : LeaseEntry :=
  Map.get addr s.worker_to_lease_entry

/-- A write through the reference `worker_to_lease_entry_[addr]`. -/
def setLease (s : State) (addr : Address) (l : LeaseEntry) : State :=
  { s with worker_to_lease_entry := Map.set addr l s.worker_to_lease_entry }

def eraseLease (s : State) (addr : Address) : State :=
  { s with worker_to_lease_entry := Map.erase addr s.worker_to_lease_entry }

/-- `worker_to_lease_entry_.emplace(addr, lease_entry)`. -/
def emplaceLease (s : State) (addr : Address) (l : LeaseEntry) : State :=
  { s with worker_to_lease_entry := Map.emplace addr l s.worker_to_lease_entry }

/-- `executing_tasks_.emplace(task_id, addr)`. -/
def emplaceExecuting (s : State) (task_id : TaskID) (addr : Address) : State :=
  { s with executing_tasks := Map.emplace task_id addr s.executing_tasks }

/-- `executing_tasks_.erase(task_id)`. -/
def eraseExecuting (s : State) (task_id : TaskID) : State :=
  { s with executing_tasks := Map.erase task_id s.executing_tasks }

/-- `cancelled_tasks_.erase(task_id)`. -/
def eraseCancelled (s : State) (task_id : TaskID) : State :=
  { s with cancelled_tasks := HashSet.erase task_id s.cancelled_tasks }

/-- `cancelled_tasks_.emplace(task_id)`. -/
def insertCancelled (s : State) (task_id : TaskID) : State :=
  { s with cancelled_tasks := HashSet.insert task_id s.cancelled_tasks }

/-- `generators_to_resubmit_.erase(task_id)`. -/
def eraseGenerator (s : State) (task_id : TaskID) : State :=
  { s with generators_to_resubmit := HashSet.erase task_id s.generators_to_resubmit }

/-- `generators_to_resubmit_.insert(task_id)`. -/
def insertGenerator (s : State) (task_id : TaskID) : State :=
  { s with generators_to_resubmit := HashSet.insert task_id s.generators_to_resubmit }

/-- `failed_tasks_pending_failure_cause_.erase(task_id)`. -/
def eraseFailed (s : State) (task_id : TaskID) : State :=
  { s with
    failed_tasks_pending_failure_cause :=
      HashSet.erase task_id s.failed_tasks_pending_failure_cause }

/-- `failed_tasks_pending_failure_cause_.insert(task_id)`. -/
def insertFailed (s : State) (task_id : TaskID) : State :=
  { s with
    failed_tasks_pending_failure_cause :=
      HashSet.insert task_id s.failed_tasks_pending_failure_cause }

/-- `remote_lease_clients_.emplace(raylet_id, client)`. -/
def addRemoteLeaseClient (s : State) (raylet_id : NodeID) : State :=
  { s with remote_lease_clients := s.remote_lease_clients ++ [raylet_id] }

/-- `num_tasks_submitted_.fetch_add(1)`. -/
def countTaskSubmitted (s : State) : State :=
  { s with num_tasks_submitted := s.num_tasks_submitted + 1 }

/-- `num_leases_requested_++`. -/
def countLeaseRequested (s : State) : State :=
  { s with num_leases_requested := s.num_leases_requested + 1 }

/-- One more call of `TaskID::FromRandom` has been made. -/
def countRandomDraw (s : State) : State :=
  { s with random_draws := s.random_draws + 1 }

/-- `cancel_retry_timer_.expires_after(...)` at the given reading of the clock. -/
def setTimerExpiry (s : State) (expiry : Int) : State :=
  { s with cancel_retry_timer_expiry := expiry }

/-- Every entry records its backlog size as reported. -/
def markBacklogReported (s : State) : State :=
  { s with
    scheduling_key_entries := s.scheduling_key_entries.map (fun ke =>
      (ke.1, { ke.2 with last_reported_backlog_size := ke.2.BacklogSize })) }

/-- A registered closure is handed back to be run. -/
def unregister (s : State) (cb : Callback) : State :=
  { s with callbacks := s.callbacks.erase cb }

/-- The closures that satisfy `keep` stay registered. -/
def keepCallbacks (s : State) (keep : Callback → Bool) : State :=
  { s with callbacks := s.callbacks.filter keep }

end State

/-! ## The functions of the submitter -/

/-- `GetOrConnectLeaseClient`: the local client for the local raylet, else the
cached client of the remote raylet, connected on first use. -/
def GetOrConnectLeaseClient (env : Env) (raylet_address : Address) (s : State) :
    LeaseClient × State :=
  if raylet_address.raylet_id ≠ env.local_raylet_id then
    if raylet_address.raylet_id ∈ s.remote_lease_clients then
      (LeaseClient.remote_client raylet_address.raylet_id, s)
    else
      let s := s.call (Call.GetOrConnectByAddress raylet_address)
      (LeaseClient.remote_client raylet_address.raylet_id,
        s.addRemoteLeaseClient raylet_address.raylet_id)
  else
    (LeaseClient.local_client, s)

/-- One iteration of the first loop of `ReportWorkerBacklogInternal`, on the
map `backlogs`. -/
def backlogStep (backlogs : List (SchedulingClass × (TaskSpecification × Nat)))
    (ke : SchedulingKey × SchedulingKeyEntry) :
    List (SchedulingClass × (TaskSpecification × Nat)) :=
  let scheduling_class := ke.1.scheduling_class
  let backlogs :=
    match Map.find scheduling_class backlogs with
    | none => Map.set scheduling_class (ke.2.resource_spec, 0) backlogs
    | some _ => backlogs
  let cur := Map.get scheduling_class backlogs
  Map.set scheduling_class (cur.1, cur.2 + ke.2.BacklogSize) backlogs

/-- The map `backlogs` after the first loop of `ReportWorkerBacklogInternal`. -/
def collectBacklogs (entries : List (SchedulingKey × SchedulingKeyEntry)) :
    List (SchedulingClass × (TaskSpecification × Nat)) :=
  entries.foldl backlogStep []

/-- The reports built by the second loop of `ReportWorkerBacklogInternal`. -/
def backlogReports (backlogs : List (SchedulingClass × (TaskSpecification × Nat))) :
    List WorkerBacklogReport :=
  backlogs.map (fun b => { resource_spec := b.2.1, backlog_size := b.2.2 })

/-- `ReportWorkerBacklogInternal`. -/
def ReportWorkerBacklogInternal (env : Env) (s : State) : State :=
  let backlogs := collectBacklogs s.scheduling_key_entries
  let s := s.markBacklogReported
  s.call (Call.ReportWorkerBacklog env.rpc_address.worker_id (backlogReports backlogs))

/-- `ReportWorkerBacklog`. -/
def ReportWorkerBacklog (env : Env) (s : State) : State :=
  ReportWorkerBacklogInternal env s

/-- `ReportWorkerBacklogIfNeeded`. -/
def ReportWorkerBacklogIfNeeded (env : Env) (scheduling_key : SchedulingKey) (s : State) :
    State :=
  let s := s.touchEntry scheduling_key
  let scheduling_key_entry := s.entry scheduling_key
  if scheduling_key_entry.last_reported_backlog_size ≠ scheduling_key_entry.BacklogSize then
    ReportWorkerBacklogInternal env s
  else
    s

/-- The body of the loop of `CancelWorkerLeaseIfNeeded` for one pending lease
request. -/
def cancelOneLease (env : Env) (scheduling_key : SchedulingKey) (s : State)
    (pending_lease_request : TaskID × Address) : State :=
  let r := GetOrConnectLeaseClient env pending_lease_request.2 s
  (r.2.call (Call.CancelWorkerLease r.1 pending_lease_request.1)).register
    (Callback.cancel_lease scheduling_key)

/-- `CancelWorkerLeaseIfNeeded`. -/
def CancelWorkerLeaseIfNeeded (env : Env) (scheduling_key : SchedulingKey) (s : State) :
    State :=
  let s := s.touchEntry scheduling_key
  let scheduling_key_entry := s.entry scheduling_key
  if !scheduling_key_entry.task_queue.isEmpty then
    s
  else
    scheduling_key_entry.pending_lease_requests.foldl (cancelOneLease env scheduling_key) s

/-- The part of `RequestNewWorkerIfNeeded` that sends one lease request, from
`num_leases_requested_++` to `ReportWorkerBacklogIfNeeded`; `raylet_address` is
the hint the function was called with. -/
def sendLeaseRequest (env : Env) (scheduling_key : SchedulingKey)
    (raylet_address : Option Address) (s : State) : State :=
  let scheduling_key_entry := s.entry scheduling_key
  let s := s.countLeaseRequested
  let resource_spec : TaskSpecification :=
    { scheduling_key_entry.resource_spec with task_id := env.from_random s.random_draws }
  let s := s.countRandomDraw
  let is_spillback := raylet_address.isSome
  let best :=
    match raylet_address with
    | none => env.best_node resource_spec
    | some a => (a, false)
  let raylet_address := best.1
  let is_selected_based_on_locality := best.2
  let r := GetOrConnectLeaseClient env raylet_address s
  let lease_client := r.1
  let s := r.2
  let task_id := resource_spec.task_id
  let task_name := resource_spec.name
  let s := s.call (Call.RequestWorkerLease lease_client resource_spec is_spillback
    scheduling_key_entry.task_queue.length is_selected_based_on_locality)
  let s := s.register
    (Callback.lease scheduling_key task_id task_name is_spillback raylet_address)
  let s := s.setEntry scheduling_key
    { scheduling_key_entry with
      pending_lease_requests :=
        Map.emplace task_id raylet_address scheduling_key_entry.pending_lease_requests }
  ReportWorkerBacklogIfNeeded env scheduling_key s

/-- `RequestNewWorkerIfNeeded`; the first argument bounds the depth of the
recursion. -/
def RequestNewWorkerIfNeeded (env : Env) :
    Nat → SchedulingKey → Option Address → State → Except Abort State
  | 0, _, _, _ => Except.error Abort.stack_exhausted
  | depth + 1, scheduling_key, raylet_address, s =>
    let s := s.touchEntry scheduling_key
    let scheduling_key_entry := s.entry scheduling_key
    let kMaxPendingLeaseRequestsPerSchedulingCategory := env.max_pending_lease_requests
    if scheduling_key_entry.pending_lease_requests.length ≥
        kMaxPendingLeaseRequestsPerSchedulingCategory then
      Except.ok s
    else if !scheduling_key_entry.AllWorkersBusy then
      Except.ok s
    else if scheduling_key_entry.task_queue.isEmpty then
      if scheduling_key_entry.CanDelete then
        Except.ok (s.eraseEntry scheduling_key)
      else
        Except.ok s
    else if scheduling_key_entry.task_queue.length ≤
        scheduling_key_entry.pending_lease_requests.length then
      Except.ok s
    else
      let s := sendLeaseRequest env scheduling_key raylet_address s
      let scheduling_key_entry := s.entry scheduling_key
      if scheduling_key_entry.task_queue.length >
            scheduling_key_entry.pending_lease_requests.length ∧
          scheduling_key_entry.pending_lease_requests.length <
            kMaxPendingLeaseRequestsPerSchedulingCategory then
        RequestNewWorkerIfNeeded env depth scheduling_key none s
      else
        Except.ok s

/-- `AddWorkerLeaseClient`. -/
def AddWorkerLeaseClient (env : Env) (clk : Clock) (addr : Address)
    (lease_client : LeaseClient) (assigned_resources : ResourceMapping)
    (scheduling_key : SchedulingKey) (task_id : TaskID) (s : State) : Except Abort State :=
  let s := s.call (Call.GetOrConnect addr)
  let expiration := wrapInt64 (clk.mono + env.lease_timeout_ms)
  let new_lease_entry : LeaseEntry :=
    { lease_client := some lease_client
      lease_expiration_time := expiration
      assigned_resources := assigned_resources
      scheduling_key := scheduling_key
      task_id := task_id }
  let s := s.emplaceLease addr new_lease_entry
  let s := s.touchEntry scheduling_key
  let scheduling_key_entry := s.entry scheduling_key
  if addr ∈ scheduling_key_entry.active_workers then
    Except.error Abort.check_failed
  else
    let scheduling_key_entry :=
      { scheduling_key_entry with
        active_workers := HashSet.insert addr scheduling_key_entry.active_workers }
    let s := s.setEntry scheduling_key scheduling_key_entry
    if scheduling_key_entry.active_workers.length ≥ 1 then
      Except.ok s
    else
      Except.error Abort.check_failed

/-- `ReturnWorker`. -/
def ReturnWorker (env : Env) (addr : Address) (was_error : Bool) (error_detail : Message)
    (worker_exiting : Bool) (scheduling_key : SchedulingKey) (s : State) :
    Except Abort State :=
  let s := s.touchEntry scheduling_key
  let scheduling_key_entry := s.entry scheduling_key
  if scheduling_key_entry.active_workers.length < 1 then
    Except.error Abort.check_failed
  else
    let s := s.touchLease addr
    let lease_entry := s.lease addr
    match lease_entry.lease_client with
    | none => Except.error Abort.check_failed
    | some lease_client =>
      if lease_entry.is_busy then
        Except.error Abort.check_failed
      else
        let scheduling_key_entry :=
          { scheduling_key_entry with
            active_workers := HashSet.erase addr scheduling_key_entry.active_workers }
        let s := s.setEntry scheduling_key scheduling_key_entry
        let s := if scheduling_key_entry.CanDelete then s.eraseEntry scheduling_key else s
        let s := s.call (Call.ReturnWorker lease_client addr.port addr.worker_id was_error
          error_detail worker_exiting)
        let status := env.return_worker_status addr
        let s := if !status.ok then s.call (Call.LogErrorReturningWorker status) else s
        Except.ok (s.eraseLease addr)

/-- `PushNormalTask`: the request is sent and the reply closure registered. -/
def PushNormalTask (addr : Address) (scheduling_key : SchedulingKey)
    (task_spec : TaskSpecification) (assigned_resources : ResourceMapping) (s : State) :
    State :=
  let task_id := task_spec.task_id
  let is_actor_creation := task_spec.IsActorCreationTask
  let request : PushTaskRequest :=
    { task_spec := task_spec
      resource_mapping := assigned_resources
      intended_worker_id := addr.worker_id }
  let s := s.call (Call.MarkTaskWaitingForExecution task_id addr.raylet_id addr.worker_id)
  let s := s.call (Call.PushNormalTask addr scheduling_key request)
  s.register (Callback.push task_spec task_id is_actor_creation scheduling_key addr
    assigned_resources)

/-- The `while` loop of `OnWorkerIdle`; the first argument bounds the number
of iterations and is the length of the queue at entry. -/
def dispatchWhile (clk : Clock) (addr : Address) (scheduling_key : SchedulingKey)
    (assigned_resources : ResourceMapping) : Nat → State → Except Abort State
  | 0, s => Except.ok s
  | n + 1, s =>
    let scheduling_key_entry := s.entry scheduling_key
    let lease_entry := s.lease addr
    match scheduling_key_entry.task_queue with
    | [] => Except.ok s
    | front :: rest =>
      if lease_entry.is_busy then
        Except.ok s
      else
        let s := s.setEntry scheduling_key { scheduling_key_entry with task_queue := rest }
        let s := s.setLease addr { lease_entry with is_busy := true }
        let scheduling_key_entry := s.entry scheduling_key
        if scheduling_key_entry.active_workers.length < 1 then
          Except.error Abort.check_failed
        else
          let s := s.setEntry scheduling_key
            { scheduling_key_entry with
              num_busy_workers := scheduling_key_entry.num_busy_workers + 1 }
          let task_spec := { front with lease_grant_timestamp_ms := clk.sys }
          let s := s.emplaceExecuting task_spec.task_id addr
          let s := PushNormalTask addr scheduling_key task_spec assigned_resources s
          dispatchWhile clk addr scheduling_key assigned_resources n s

/-- `OnWorkerIdle`. -/
def OnWorkerIdle (env : Env) (depth : Nat) (clk : Clock) (addr : Address)
    (scheduling_key : SchedulingKey) (was_error : Bool) (error_detail : Message)
    (worker_exiting : Bool) (assigned_resources : ResourceMapping) (s : State) :
    Except Abort State :=
  let s := s.touchLease addr
  let lease_entry := s.lease addr
  match lease_entry.lease_client with
  | none => Except.ok s
  | some _ =>
    let s := s.touchEntry scheduling_key
    let scheduling_key_entry := s.entry scheduling_key
    if (was_error || worker_exiting || decide (clk.mono > lease_entry.lease_expiration_time))
        || scheduling_key_entry.task_queue.isEmpty then
      if scheduling_key_entry.active_workers.length < 1 then
        Except.error Abort.check_failed
      else
        (if !lease_entry.is_busy then
          ReturnWorker env addr was_error error_detail worker_exiting scheduling_key s
        else
          Except.ok s) >>= fun s =>
        RequestNewWorkerIfNeeded env depth scheduling_key none s
    else
      let s := s.call (Call.GetOrConnect addr)
      dispatchWhile clk addr scheduling_key assigned_resources
        scheduling_key_entry.task_queue.length s >>= fun s =>
      let s := CancelWorkerLeaseIfNeeded env scheduling_key s
      RequestNewWorkerIfNeeded env depth scheduling_key none s

/-- `SubmitTask`: the task is handed to the resolver. -/
def SubmitTask (task_spec : TaskSpecification) (s : State) : Except Abort State :=
  if !task_spec.IsNormalTask then
    Except.error Abort.check_failed
  else
    let s := s.countTaskSubmitted
    let s := s.call (Call.ResolveDependencies task_spec)
    Except.ok (s.register (Callback.resolve task_spec))

/-- The loop over `active_workers` in the resolution closure of `SubmitTask`:
the first worker that is not busy is handed to `OnWorkerIdle`. -/
def dispatchToIdleWorker (env : Env) (depth : Nat) (clk : Clock)
    (scheduling_key : SchedulingKey) : List Address → State → Except Abort State
  | [], s => Except.ok s
  | active_worker_addr :: rest, s =>
    match Map.find active_worker_addr s.worker_to_lease_entry with
    | none => Except.error Abort.check_failed
    | some lease_entry =>
      if !lease_entry.is_busy then
        OnWorkerIdle env depth clk active_worker_addr scheduling_key false [] false
          lease_entry.assigned_resources s
      else
        dispatchToIdleWorker env depth clk scheduling_key rest s

/-- The closure `SubmitTask` passes to `ResolveDependencies`; `will_retry` is
the answer of `FailOrRetryPendingTask`. -/
def OnDependenciesResolved (env : Env) (depth : Nat) (clk : Clock)
    (task_spec : TaskSpecification) (status : Status) (will_retry : Bool) (s : State) :
    Except Abort State :=
  let s := s.call (Call.MarkDependenciesResolved task_spec.task_id)
  if !status.ok then
    let s := s.call (Call.FailOrRetryPendingTask task_spec.task_id
      ErrorType.DEPENDENCY_RESOLUTION_FAILED status none true false)
    if !will_retry then
      Except.ok (s.eraseCancelled task_spec.task_id)
    else
      Except.ok s
  else if task_spec.task_id ∈ s.cancelled_tasks then
    let s := s.eraseCancelled task_spec.task_id
    Except.ok (s.call (Call.FailPendingTask task_spec.task_id ErrorType.TASK_CANCELLED
      none none))
  else
    let task_spec := { task_spec with dependency_resolution_timestamp_ms := clk.sys }
    let scheduling_key := task_spec.GetSchedulingKey
    let s := s.touchEntry scheduling_key
    let scheduling_key_entry := s.entry scheduling_key
    let s := s.setEntry scheduling_key
      { scheduling_key_entry with
        task_queue := scheduling_key_entry.task_queue ++ [task_spec]
        resource_spec := task_spec }
    let scheduling_key_entry := s.entry scheduling_key
    (if !scheduling_key_entry.AllWorkersBusy then
      dispatchToIdleWorker env depth clk.afterSys scheduling_key
        scheduling_key_entry.active_workers s
    else
      Except.ok s) >>= fun s =>
    RequestNewWorkerIfNeeded env depth scheduling_key none s

/-- The values the lease-reply closure holds when it leaves its locked
section: the queue to fail and the error to fail it with. -/
structure LeaseReplyOutcome where
  state : State
  tasks_to_fail : List TaskSpecification := []
  error_type : ErrorType := ErrorType.WORKER_DIED
  error_info : RayErrorInfo := {}
  error_status : Status := {}

/-- The branch of the lease-reply closure that fails every queued task of the
key: the queue is moved out and the entry deleted if it can be. -/
def drainQueue (scheduling_key : SchedulingKey) (error_type : ErrorType)
    (error_info : RayErrorInfo) (error_status : Status) (s : State) : LeaseReplyOutcome :=
  let scheduling_key_entry := s.entry scheduling_key
  let tasks_to_fail := scheduling_key_entry.task_queue
  let scheduling_key_entry := { scheduling_key_entry with task_queue := [] }
  let s := s.setEntry scheduling_key scheduling_key_entry
  let s := if scheduling_key_entry.CanDelete then s.eraseEntry scheduling_key else s
  { state := s
    tasks_to_fail := tasks_to_fail
    error_type := error_type
    error_info := error_info
    error_status := error_status }

/-- The locked section of the closure `RequestNewWorkerIfNeeded` passes to
`RequestWorkerLease`. -/
def leaseReplyLocked (env : Env) (depth : Nat) (clk : Clock)
    (scheduling_key : SchedulingKey) (task_id : TaskID) (task_name : String)
    (is_spillback : Bool) (raylet_address : Address) (status : Status)
    (reply : RequestWorkerLeaseReply) (s : State) : Except Abort LeaseReplyOutcome :=
  let s := s.touchEntry scheduling_key
  let scheduling_key_entry := s.entry scheduling_key
  let r := GetOrConnectLeaseClient env raylet_address s
  let lease_client := r.1
  let s := r.2
  let s := s.setEntry scheduling_key
    { scheduling_key_entry with
      pending_lease_requests := Map.erase task_id scheduling_key_entry.pending_lease_requests }
  if status.ok then
    if reply.canceled then
      if reply.failure_type = SchedulingFailureType.SCHEDULING_CANCELLED_RUNTIME_ENV_SETUP_FAILED
          ∨ reply.failure_type =
            SchedulingFailureType.SCHEDULING_CANCELLED_PLACEMENT_GROUP_REMOVED
          ∨ reply.failure_type = SchedulingFailureType.SCHEDULING_CANCELLED_UNSCHEDULABLE then
        let error_type :=
          if reply.failure_type =
              SchedulingFailureType.SCHEDULING_CANCELLED_RUNTIME_ENV_SETUP_FAILED then
            ErrorType.RUNTIME_ENV_SETUP_FAILED
          else if reply.failure_type =
              SchedulingFailureType.SCHEDULING_CANCELLED_UNSCHEDULABLE then
            ErrorType.TASK_UNSCHEDULABLE_ERROR
          else
            ErrorType.TASK_PLACEMENT_GROUP_REMOVED
        let error_info : RayErrorInfo :=
          { runtime_env_setup_failed_error_message :=
              if reply.failure_type =
                  SchedulingFailureType.SCHEDULING_CANCELLED_RUNTIME_ENV_SETUP_FAILED then
                some reply.scheduling_failure_message
              else
                none
            error_message :=
              reply.scheduling_failure_message ++
                [MsgAtom.text " task_id=", MsgAtom.task_id task_id,
                  MsgAtom.text ", task_name=", MsgAtom.text task_name] }
        Except.ok (drainQueue scheduling_key error_type error_info {} s)
      else
        (RequestNewWorkerIfNeeded env depth scheduling_key none s).map
          (fun s => { state := s })
    else if reply.rejected then
      if !is_spillback then
        Except.error Abort.check_failed
      else
        (RequestNewWorkerIfNeeded env depth scheduling_key none s).map
          (fun s => { state := s })
    else if reply.worker_address.raylet_id ≠ 0 then
      AddWorkerLeaseClient env clk reply.worker_address lease_client reply.resource_mapping
        scheduling_key task_id s >>= fun s =>
      if (s.entry scheduling_key).active_workers.length < 1 then
        Except.error Abort.check_failed
      else
        (OnWorkerIdle env depth clk.afterMono reply.worker_address scheduling_key false []
          false reply.resource_mapping s).map (fun s => { state := s })
    else
      if is_spillback then
        Except.error Abort.check_failed
      else
        (RequestNewWorkerIfNeeded env depth scheduling_key
          (some reply.retry_at_raylet_address) s).map (fun s => { state := s })
  else if lease_client ≠ LeaseClient.local_client then
    (RequestNewWorkerIfNeeded env depth scheduling_key none s).map (fun s => { state := s })
  else
    if status.IsRpcError && decide (status.rpc_code = grpc_UNAVAILABLE) then
      if env.worker_type = WorkerType.WORKER then
        Except.error Abort.quick_exit
      else if env.worker_type ≠ WorkerType.DRIVER then
        Except.error Abort.check_failed
      else
        let error_info : RayErrorInfo :=
          { error_message :=
              [MsgAtom.text "The worker failed to receive a response from the local raylet",
                MsgAtom.text "(id: ", MsgAtom.node_id raylet_address.raylet_id,
                MsgAtom.text " ,ip: ", MsgAtom.ip_address raylet_address.ip_address,
                MsgAtom.text ") ",
                MsgAtom.text "because the raylet is unavailable (crashed)."] }
        Except.ok (drainQueue scheduling_key ErrorType.LOCAL_RAYLET_DIED error_info status s)
    else
      (RequestNewWorkerIfNeeded env depth scheduling_key none s).map (fun s => { state := s })

/-- The call of `FailPendingTask` the lease-reply closure makes for one task of
`tasks_to_fail`. -/
def failOneTask (error_type : ErrorType) (error_status : Status) (error_info : RayErrorInfo)
    (s : State) (task_spec : TaskSpecification) : State :=
  if task_spec.IsActorCreationTask ∧ error_type = ErrorType.TASK_PLACEMENT_GROUP_REMOVED then
    s.call (Call.FailPendingTask task_spec.task_id ErrorType.ACTOR_PLACEMENT_GROUP_REMOVED
      (some error_status) (some error_info))
  else
    s.call (Call.FailPendingTask task_spec.task_id error_type (some error_status)
      (some error_info))

/-- The closure `RequestNewWorkerIfNeeded` passes to `RequestWorkerLease`. -/
def OnLeaseReply (env : Env) (depth : Nat) (clk : Clock)
    (scheduling_key : SchedulingKey) (task_id : TaskID) (task_name : String)
    (is_spillback : Bool) (raylet_address : Address) (status : Status)
    (reply : RequestWorkerLeaseReply) (s : State) : Except Abort State :=
  leaseReplyLocked env depth clk scheduling_key task_id task_name is_spillback raylet_address
    status reply s >>= fun o =>
  let error_info := { o.error_info with error_type := o.error_type }
  Except.ok (o.tasks_to_fail.foldl (failOneTask o.error_type o.error_status error_info) o.state)

/-- The closure `CancelWorkerLeaseIfNeeded` passes to `CancelWorkerLease`. -/
def OnCancelLeaseReply (env : Env) (scheduling_key : SchedulingKey) (status : Status)
    (reply : CancelWorkerLeaseReply) (s : State) : State :=
  if status.ok && !reply.success then
    CancelWorkerLeaseIfNeeded env scheduling_key s
  else
    s

/-- `HandleGetTaskFailureCause`; `will_retry` is the answer of
`FailOrRetryPendingTask`, which is also the value returned. -/
def HandleGetTaskFailureCause (task_execution_status : Status) (task_id : TaskID)
    (addr : Address) (get_task_failure_cause_reply_status : Status)
    (get_task_failure_cause_reply : GetTaskFailureCauseReply) (will_retry : Bool)
    (s : State) : Bool × State :=
  if get_task_failure_cause_reply_status.ok then
    let task_error_type :=
      if get_task_failure_cause_reply.has_failure_cause then
        get_task_failure_cause_reply.failure_cause.error_type
      else
        ErrorType.WORKER_DIED
    let error_info :=
      if get_task_failure_cause_reply.has_failure_cause then
        some get_task_failure_cause_reply.failure_cause
      else
        none
    let fail_immediately := get_task_failure_cause_reply.fail_task_immediately
    (will_retry, s.call (Call.FailOrRetryPendingTask task_id task_error_type
      task_execution_status error_info true fail_immediately))
  else
    let buffer : Message :=
      [MsgAtom.text "Task failed due to the node (where this task was running) ",
        MsgAtom.text " was dead or unavailable. The node IP: ",
        MsgAtom.ip_address addr.ip_address,
        MsgAtom.text ", node ID: ", MsgAtom.node_id addr.raylet_id,
        MsgAtom.text "This can happen if the instance where the node was running failed, ",
        MsgAtom.text "the node was preempted, or raylet crashed unexpectedly ",
        MsgAtom.text "(e.g., due to OOM) etc.",
        MsgAtom.text "To see node death information, use ray list nodes --filter node_id=",
        MsgAtom.node_id addr.raylet_id,
        MsgAtom.text "or check Ray dashboard cluster page, or search the node ID in GCS log, ",
        MsgAtom.text "or use ray logs raylet.out -ip ",
        MsgAtom.ip_address addr.ip_address]
    let error_info : RayErrorInfo :=
      { error_message := buffer, error_type := ErrorType.NODE_DIED }
    (will_retry, s.call (Call.FailOrRetryPendingTask task_id ErrorType.NODE_DIED
      task_execution_status (some error_info) true false))

/-- The closure the push-reply closure passes to `GetTaskFailureCause`. -/
def OnFailureCauseReply (status : Status) (task_id : TaskID) (addr : Address)
    (get_task_failure_cause_reply_status : Status)
    (get_task_failure_cause_reply : GetTaskFailureCauseReply) (will_retry : Bool)
    (s : State) : State :=
  let r := HandleGetTaskFailureCause status task_id addr get_task_failure_cause_reply_status
    get_task_failure_cause_reply will_retry s
  let s := r.2
  let s := if !r.1 then s.eraseCancelled task_id else s
  s.eraseFailed task_id

/-- The locked section of the closure `PushNormalTask` passes to the worker
client; the value returned with the state is `resubmit_generator`. -/
def pushReplyLocked (env : Env) (depth : Nat) (clk : Clock) (task_id : TaskID)
    (is_actor_creation : Bool) (scheduling_key : SchedulingKey) (addr : Address)
    (assigned_resources : ResourceMapping) (status : Status) (reply : PushTaskReply)
    (s : State) : Except Abort (Bool × State) :=
  let s := s.eraseExecuting task_id
  let resubmit_generator := decide (task_id ∈ s.generators_to_resubmit)
  let s := s.eraseGenerator task_id
  let s := s.touchLease addr
  let lease_entry := s.lease addr
  if !lease_entry.is_busy then
    Except.error Abort.check_failed
  else
    let s := s.setLease addr { lease_entry with is_busy := false }
    let s := s.touchEntry scheduling_key
    let scheduling_key_entry := s.entry scheduling_key
    if scheduling_key_entry.active_workers.length < 1 then
      Except.error Abort.check_failed
    else if scheduling_key_entry.num_busy_workers < 1 then
      Except.error Abort.check_failed
    else
      let s := s.setEntry scheduling_key
        { scheduling_key_entry with
          num_busy_workers := scheduling_key_entry.num_busy_workers - 1 }
      (if !status.ok then
        let s := s.insertFailed task_id
        let s := s.touchLease addr
        let cur_lease_entry := s.lease addr
        match cur_lease_entry.lease_client with
        | none => Except.error Abort.check_failed
        | some lease_client =>
          let s := s.call (Call.GetTaskFailureCause lease_client cur_lease_entry.task_id)
          Except.ok (s.register (Callback.failure_cause status task_id addr))
      else
        Except.ok s) >>= fun s =>
      (if !status.ok || !is_actor_creation || reply.worker_exiting then
        OnWorkerIdle env depth clk addr scheduling_key (!status.ok) status.message
          reply.worker_exiting assigned_resources s
      else
        Except.ok s) >>= fun s =>
      Except.ok (resubmit_generator, s)

/-- The part of the push-reply closure that runs after the lock is released;
`retry_accepted` is the answer of `RetryTaskIfPossible`. -/
def pushReplyOutcome (task_spec : TaskSpecification) (task_id : TaskID) (addr : Address)
    (status : Status) (reply : PushTaskReply) (resubmit_generator : Bool)
    (retry_accepted : Bool) (s : State) : State :=
  if status.ok then
    if reply.was_cancelled_before_running then
      s.call (Call.FailPendingTask task_id ErrorType.TASK_CANCELLED none none)
    else if resubmit_generator then
      s.call (Call.MarkGeneratorFailedAndResubmit task_id)
    else if !task_spec.retry_exceptions || !reply.is_retryable_error then
      s.call (Call.CompletePendingTask task_id reply addr reply.is_application_error)
    else
      let s := s.call (Call.RetryTaskIfPossible task_id
        { error_type := ErrorType.TASK_EXECUTION_EXCEPTION
          error_message := reply.task_execution_error })
      if !retry_accepted then
        s.call (Call.CompletePendingTask task_id reply addr reply.is_application_error)
      else
        s
  else
    s

/-- The closure `PushNormalTask` passes to the worker client. -/
def OnPushReply (env : Env) (depth : Nat) (clk : Clock) (task_spec : TaskSpecification)
    (task_id : TaskID) (is_actor_creation : Bool) (scheduling_key : SchedulingKey)
    (addr : Address) (assigned_resources : ResourceMapping) (status : Status)
    (reply : PushTaskReply) (retry_accepted : Bool) (s : State) : Except Abort State :=
  pushReplyLocked env depth clk task_id is_actor_creation scheduling_key addr
    assigned_resources status reply s >>= fun r =>
  Except.ok (pushReplyOutcome task_spec task_id addr status reply r.1 retry_accepted r.2)

/-- The closures the resolver keeps when the resolution of a task is
cancelled: all but the resolution closures of that task. -/
def keepOnCancel (task_id : TaskID) : Callback → Bool
  | Callback.resolve task_spec => decide (task_spec.task_id ≠ task_id)
  | _ => true

/-- Modelled from the spec: the dependency resolver is outside this file;
cancelling the dependency resolution of a task drops the completion closure
the resolver holds for it. -/
def CancelDependencyResolution (task_id : TaskID) (s : State) : State :=
  let s := s.call (Call.CancelDependencyResolution task_id)
  s.keepCallbacks (keepOnCancel task_id)

/-- The position of the first task of the queue with the given id, the
iterator the loop of `CancelTask` stops at. -/
def queuedIndex (task_id : TaskID) : List TaskSpecification → Option Nat
  | [] => none
  | spec :: rest =>
    if spec.task_id = task_id then some 0 else (queuedIndex task_id rest).map (· + 1)

/-- `CancelTask`; `is_pending` is the answer of `IsTaskPending`.  The value
returned with the state is the status the function returns. -/
def CancelTask (env : Env) (task_spec : TaskSpecification) (force_kill : Bool)
    (recursive : Bool) (is_pending : Bool) (s : State) : Except Abort (Status × State) :=
  let scheduling_key := task_spec.GetSchedulingKey
  let task_id := task_spec.task_id
  let s := s.eraseGenerator task_id
  if task_id ∈ s.cancelled_tasks then
    Except.ok ({}, s)
  else
    let s := s.call (Call.MarkTaskCanceled task_id)
    let s := s.call (Call.IsTaskPending task_id)
    if !is_pending then
      Except.ok ({}, s)
    else
      let s := s.touchEntry scheduling_key
      let scheduling_key_entry := s.entry scheduling_key
      match queuedIndex task_id scheduling_key_entry.task_queue with
      | some i =>
        let s := s.setEntry scheduling_key
          { scheduling_key_entry with task_queue := scheduling_key_entry.task_queue.eraseIdx i }
        let s := CancelWorkerLeaseIfNeeded env scheduling_key s
        let s := s.call (Call.FailPendingTask task_id ErrorType.TASK_CANCELLED none none)
        Except.ok ({}, s)
      | none =>
        if task_id ∈ s.cancelled_tasks then
          Except.error Abort.check_failed
        else
          let s := s.insertCancelled task_id
          match Map.find task_id s.executing_tasks with
          | none =>
            let s :=
              if task_id ∈ s.failed_tasks_pending_failure_cause then
                s
              else
                let s := CancelDependencyResolution task_id s
                s.call (Call.FailPendingTask task_id ErrorType.TASK_CANCELLED none none)
            let s :=
              if (s.entry scheduling_key).CanDelete then s.eraseEntry scheduling_key else s
            Except.ok ({}, s)
          | some worker_addr =>
            let s := s.call (Call.GetOrConnect worker_addr)
            let request : CancelTaskRequest :=
              { intended_task_id := task_id
                force_kill := force_kill
                recursive := recursive
                caller_worker_id := task_spec.caller_worker_id }
            let s := s.call (Call.CancelTask worker_addr request)
            Except.ok ({}, s.register
              (Callback.cancel_task task_spec scheduling_key force_kill recursive))

/-- The closure `CancelTask` passes to the worker client. -/
def OnCancelTaskReply (env : Env) (clk : Clock) (task_spec : TaskSpecification)
    (force_kill : Bool) (recursive : Bool) (status : Status) (reply : CancelTaskReply)
    (s : State) : State :=
  let s := s.eraseCancelled task_spec.task_id
  if !status.ok then
    s
  else if !reply.attempt_succeeded then
    if reply.requested_task_running then
      let s :=
        if s.cancel_retry_timer_expiry ≤ clk.hires then
          s.setTimerExpiry (clk.hires + env.cancellation_retry_ms)
        else
          s
      s.register (Callback.cancel_retry task_spec force_kill recursive)
    else
      s
  else
    s

/-- `CancelRemoteTask`. -/
def CancelRemoteTask (object_id : ObjectID) (worker_addr : Address) (force_kill : Bool)
    (recursive : Bool) (s : State) : Status × State :=
  let s := s.call (Call.GetOrConnect worker_addr)
  let request : RemoteCancelTaskRequest :=
    { force_kill := force_kill, recursive := recursive, remote_object_id := object_id }
  ({}, s.call (Call.RemoteCancelTask worker_addr request))

/-- `QueueGeneratorForResubmit`. -/
def QueueGeneratorForResubmit (spec : TaskSpecification) (s : State) : Bool × State :=
  if spec.task_id ∈ s.cancelled_tasks then
    (false, s)
  else
    (true, s.insertGenerator spec.task_id)

/-! ## Runs of the submitter -/

/-- What can happen to the submitter: a call of its interface, or the run of a
closure it registered, with the values the collaborator passes to it. -/
inductive Event where
  | SubmitTask (task_spec : TaskSpecification)
  | CancelTask (task_spec : TaskSpecification) (force_kill : Bool) (recursive : Bool)
      (is_pending : Bool)
  | CancelRemoteTask (object_id : ObjectID) (worker_addr : Address) (force_kill : Bool)
      (recursive : Bool)
  | QueueGeneratorForResubmit (spec : TaskSpecification)
  | ReportWorkerBacklog
  | resolved (task_spec : TaskSpecification) (status : Status) (will_retry : Bool)
  | lease_reply (scheduling_key : SchedulingKey) (task_id : TaskID) (task_name : String)
      (is_spillback : Bool) (raylet_address : Address) (status : Status)
      (reply : RequestWorkerLeaseReply)
  | cancel_lease_reply (scheduling_key : SchedulingKey) (status : Status)
      (reply : CancelWorkerLeaseReply)
  | push_reply (task_spec : TaskSpecification) (task_id : TaskID) (is_actor_creation : Bool)
      (scheduling_key : SchedulingKey) (addr : Address)
      (assigned_resources : ResourceMapping) (status : Status) (reply : PushTaskReply)
      (retry_accepted : Bool)
  | failure_cause_reply (status : Status) (task_id : TaskID) (addr : Address)
      (reply_status : Status) (reply : GetTaskFailureCauseReply) (will_retry : Bool)
  | cancel_task_reply (task_spec : TaskSpecification) (scheduling_key : SchedulingKey)
      (force_kill : Bool) (recursive : Bool) (status : Status) (reply : CancelTaskReply)
  | cancel_retry_fired (task_spec : TaskSpecification) (force_kill : Bool) (recursive : Bool)
      (is_pending : Bool)
deriving DecidableEq, Repr

/-- Take a registered closure out of the state to run it; a closure that is
not registered cannot run. -/
def takeCallback (cb : Callback) (s : State) : Option State :=
  if cb ∈ s.callbacks then some (s.unregister cb) else none

/-- One atomic step of the submitter. -/
def step (env : Env) (depth : Nat) (clk : Clock) (ev : Event) (s : State) :
    Except Abort State :=
  match ev with
  | Event.SubmitTask task_spec => SubmitTask task_spec s
  | Event.CancelTask task_spec force_kill recursive is_pending =>
    (CancelTask env task_spec force_kill recursive is_pending s).map (fun r => r.2)
  | Event.CancelRemoteTask object_id worker_addr force_kill recursive =>
    Except.ok (CancelRemoteTask object_id worker_addr force_kill recursive s).2
  | Event.QueueGeneratorForResubmit spec => Except.ok (QueueGeneratorForResubmit spec s).2
  | Event.ReportWorkerBacklog => Except.ok (ReportWorkerBacklog env s)
  | Event.resolved task_spec status will_retry =>
    match takeCallback (Callback.resolve task_spec) s with
    | none => Except.error Abort.check_failed
    | some s => OnDependenciesResolved env depth clk task_spec status will_retry s
  | Event.lease_reply scheduling_key task_id task_name is_spillback raylet_address status
      reply =>
    match takeCallback
        (Callback.lease scheduling_key task_id task_name is_spillback raylet_address) s with
    | none => Except.error Abort.check_failed
    | some s =>
      OnLeaseReply env depth clk scheduling_key task_id task_name is_spillback raylet_address
        status reply s
  | Event.cancel_lease_reply scheduling_key status reply =>
    match takeCallback (Callback.cancel_lease scheduling_key) s with
    | none => Except.error Abort.check_failed
    | some s => Except.ok (OnCancelLeaseReply env scheduling_key status reply s)
  | Event.push_reply task_spec task_id is_actor_creation scheduling_key addr
      assigned_resources status reply retry_accepted =>
    match takeCallback (Callback.push task_spec task_id is_actor_creation scheduling_key addr
        assigned_resources) s with
    | none => Except.error Abort.check_failed
    | some s =>
      OnPushReply env depth clk task_spec task_id is_actor_creation scheduling_key addr
        assigned_resources status reply retry_accepted s
  | Event.failure_cause_reply status task_id addr reply_status reply will_retry =>
    match takeCallback (Callback.failure_cause status task_id addr) s with
    | none => Except.error Abort.check_failed
    | some s =>
      Except.ok (OnFailureCauseReply status task_id addr reply_status reply will_retry s)
  | Event.cancel_task_reply task_spec scheduling_key force_kill recursive status reply =>
    match takeCallback (Callback.cancel_task task_spec scheduling_key force_kill recursive)
        s with
    | none => Except.error Abort.check_failed
    | some s => Except.ok (OnCancelTaskReply env clk task_spec force_kill recursive status
        reply s)
  | Event.cancel_retry_fired task_spec force_kill recursive is_pending =>
    match takeCallback (Callback.cancel_retry task_spec force_kill recursive) s with
    | none => Except.error Abort.check_failed
    | some s =>
      (CancelTask env task_spec force_kill recursive is_pending s).map (fun r => r.2)

/-- One input of a run: the event, the clock readings during it and the stack
depth available to it. -/
structure Input where
  event : Event
  clk : Clock := {}
  depth : Nat := 64

/-- A run: the steps are taken in order, an abort ends the run. -/
def run (env : Env) : List Input → State → Except Abort State
  | [], s => Except.ok s
  | i :: rest, s => step env i.depth i.clk i.event s >>= run env rest

/-- The states the submitter can be in: those a run from the initial state
reaches. -/
inductive Reachable (env : Env) : State → Prop where
  | init : Reachable env {}
  | step {s s' : State} (depth : Nat) (clk : Clock) (ev : Event) :
      Reachable env s → step env depth clk ev s = Except.ok s' → Reachable env s'

/-- The submitter is quiescent: no reply to a lease request, lease
cancellation, push, failure-cause request or task cancellation is outstanding,
no task is pending in the resolver and no cancellation retry is scheduled. -/
def State.quiescent (s : State) : Prop := s.callbacks = []

instance (s : State) : Decidable s.quiescent := by
  unfold State.quiescent; exact inferInstance

/-! ## The view of a state that the invariants are stated on -/

def Callback.isPush : Callback → Bool
  | Callback.push _ _ _ _ _ _ => true
  | _ => false

def Callback.isLease : Callback → Bool
  | Callback.lease _ _ _ _ _ => true
  | _ => false

/-- The worker a push closure waits for. -/
def Callback.pushAddr : Callback → Option Address
  | Callback.push _ _ _ _ addr _ => some addr
  | _ => none

/-- The scheduling key a push closure was registered under. -/
def Callback.pushKey : Callback → Option SchedulingKey
  | Callback.push _ _ _ scheduling_key _ _ => some scheduling_key
  | _ => none

/-- The payload of a `RequestWorkerLease` call. -/
def Call.requested : Call → Option TaskSpecification
  | Call.RequestWorkerLease _ resource_spec _ _ _ => some resource_spec
  | _ => none

/-- The scheduling key and task of a `PushNormalTask` call. -/
def Call.pushed : Call → Option (SchedulingKey × TaskSpecification)
  | Call.PushNormalTask _ scheduling_key request => some (scheduling_key, request.task_spec)
  | _ => none

/-- The part of a state the lease and dispatch invariants depend on: per key
the pending lease requests, the queue, the active workers and the busy count;
per worker the busy flag; the executing tasks; the registered push and lease
closures; the tasks pushed and the lease payloads sent so far; the number of
random ids drawn. -/
@[ext]
structure View where
  pending : SchedulingKey → List (TaskID × Address)
  queue : SchedulingKey → List TaskSpecification
  active : SchedulingKey → List Address
  busy : SchedulingKey → Nat
  lease_busy : Address → Bool
  exec : TaskID → Option Address
  pushes : List Callback
  leases : List Callback
  pushed : List (SchedulingKey × TaskSpecification)
  requested : List TaskSpecification
  draws : Nat

/-- The view of a state. -/
def State.view (s : State) : View :=
  { pending := fun k => (s.entry k).pending_lease_requests
    queue := fun k => (s.entry k).task_queue
    active := fun k => (s.entry k).active_workers
    busy := fun k => (s.entry k).num_busy_workers
    lease_busy := fun a => (s.lease a).is_busy
    exec := fun t => Map.find t s.executing_tasks
    pushes := s.callbacks.filter Callback.isPush
    leases := s.callbacks.filter Callback.isLease
    pushed := s.calls.filterMap Call.pushed
    requested := s.calls.filterMap Call.requested
    draws := s.random_draws }

/-- The view after a task is appended to the queue of a key. -/
def View.enqueue (k : SchedulingKey) (t : TaskSpecification) (A : View) : View :=
  { A with queue := Function.update A.queue k (A.queue k ++ [t]) }

/-- The kinds of changes of the view: a change that shortens a queue, a change
that adds a pending lease request, and the others. -/
inductive Kind where
  | neutral
  | shrink
  | request
deriving DecidableEq

/-- The atomic changes of the view the submitter makes. -/
inductive Move (env : Env) : Kind → View → View → Prop where
  | gc (A : View) (k : SchedulingKey) :
      A.pending k = [] → A.queue k = [] → A.active k = [] →
      Move env Kind.neutral A { A with busy := Function.update A.busy k 0 }
  | leaseReplied (A : View) (k : SchedulingKey) (id : TaskID) (name : String) (sp : Bool)
      (addr : Address) :
      Callback.lease k id name sp addr ∈ A.leases →
      Move env Kind.neutral A
        { A with
          leases := A.leases.erase (Callback.lease k id name sp addr)
          pending := Function.update A.pending k (Map.erase id (A.pending k)) }
  | grant (A : View) (a : Address) (k : SchedulingKey) :
      a ∉ A.active k →
      Move env Kind.neutral A
        { A with active := Function.update A.active k (HashSet.insert a (A.active k)) }
  | returned (A : View) (a : Address) (k : SchedulingKey) :
      A.lease_busy a = false →
      Move env Kind.neutral A
        { A with active := Function.update A.active k (HashSet.erase a (A.active k)) }
  | pushReplied (A : View) (spec : TaskSpecification) (t : TaskID) (ac : Bool)
      (k : SchedulingKey) (a : Address) (res : ResourceMapping) :
      Callback.push spec t ac k a res ∈ A.pushes → A.lease_busy a = true → 1 ≤ A.busy k →
      Move env Kind.neutral A
        { A with
          pushes := A.pushes.erase (Callback.push spec t ac k a res)
          exec := Function.update A.exec t none
          lease_busy := Function.update A.lease_busy a false
          busy := Function.update A.busy k (A.busy k - 1) }
  | shrinkQueue (A : View) (k : SchedulingKey) (q : List TaskSpecification) :
      q.Sublist (A.queue k) →
      Move env Kind.shrink A { A with queue := Function.update A.queue k q }
  | dispatch (A : View) (a : Address) (k : SchedulingKey) (front : TaskSpecification)
      (rest : List TaskSpecification) (sys : Int) (res : ResourceMapping) :
      A.queue k = front :: rest → A.lease_busy a = false → a ∈ A.active k →
      Move env Kind.shrink A
        { A with
          queue := Function.update A.queue k rest
          lease_busy := Function.update A.lease_busy a true
          busy := Function.update A.busy k (A.busy k + 1)
          exec := Function.update A.exec front.task_id
            (some ((A.exec front.task_id).getD a))
          pushes := A.pushes ++
            [Callback.push { front with lease_grant_timestamp_ms := sys } front.task_id
              front.IsActorCreationTask k a res]
          pushed := A.pushed ++ [(k, { front with lease_grant_timestamp_ms := sys })] }
  | request (A : View) (k : SchedulingKey) (spec : TaskSpecification) (name : String)
      (sp : Bool) (addr : Address) :
      (A.pending k).length < env.max_pending_lease_requests →
      (A.pending k).length < (A.queue k).length →
      spec.task_id = env.from_random A.draws →
      Move env Kind.request A
        { A with
          pending := Function.update A.pending k
            (Map.emplace spec.task_id addr (A.pending k))
          leases := A.leases ++ [Callback.lease k spec.task_id name sp addr]
          requested := A.requested ++ [spec]
          draws := A.draws + 1 }

/-- A change of the given kind is allowed when the kind is not the forbidden
one. -/
def MoveBut (env : Env) (forbidden : Kind) (A B : View) : Prop :=
  ∃ kd, kd ≠ forbidden ∧ Move env kd A B

/-- A sequence of changes none of which adds a pending lease request. -/
def MovesN (env : Env) : View → View → Prop :=
  Relation.ReflTransGen (MoveBut env Kind.request)

/-- A sequence of changes none of which shortens a queue. -/
def MovesR (env : Env) : View → View → Prop :=
  Relation.ReflTransGen (MoveBut env Kind.shrink)

/-- A sequence of neutral changes. -/
def MovesZ (env : Env) : View → View → Prop :=
  Relation.ReflTransGen (Move env Kind.neutral)

/-- What one step does to the view: first changes that add no pending lease
request, then changes that shorten no queue. -/
def Phased (env : Env) (A B : View) : Prop :=
  ∃ M, MovesN env A M ∧ MovesR env M B

/-- The number of registered push closures of a key. -/
def pushCount (k : SchedulingKey) (cbs : List Callback) : Nat :=
  cbs.countP (fun cb => decide (cb.pushKey = some k))

/-- The invariant of the lease and dispatch bookkeeping. -/
structure Inv (env : Env) (A : View) : Prop where
  pending_le : ∀ k, (A.pending k).length ≤ env.max_pending_lease_requests
  pending_cb : ∀ k p, p ∈ A.pending k →
    ∃ name sp, Callback.lease k p.1 name sp p.2 ∈ A.leases
  push_nodup : (A.pushes.filterMap Callback.pushAddr).Nodup
  push_busy : ∀ spec t ac k a res, Callback.push spec t ac k a res ∈ A.pushes →
    A.lease_busy a = true ∧ a ∈ A.active k
  exec_push : ∀ t a, A.exec t = some a →
    ∃ spec ac k res, Callback.push spec t ac k a res ∈ A.pushes
  busy_count : ∀ k, A.busy k = pushCount k A.pushes

/-- The task the resolution closure of an event appends to a queue, with the
key of the queue: the closure of a resolved task appends it unless the
resolution failed or the task is in `cancelled_tasks`. -/
def appendedBy (clk : Clock) (ev : Event) (s : State) :
    Option (SchedulingKey × TaskSpecification) :=
  match ev with
  | Event.resolved task_spec status _ =>
    if status.ok ∧ task_spec.task_id ∉ s.cancelled_tasks then
      some (task_spec.GetSchedulingKey,
        { task_spec with dependency_resolution_timestamp_ms := clk.sys })
    else
      none
  | _ => none

/-- The view after the task an event appends, if any, is appended. -/
def View.enqueueOpt (o : Option (SchedulingKey × TaskSpecification)) (A : View) : View :=
  match o with
  | some kt => A.enqueue kt.1 kt.2
  | none => A

/-- The tasks appended to the queue of key `k` along a run, in order. -/
def appendedAlong (env : Env) (k : SchedulingKey) :
    List Input → State → List TaskSpecification
  | [], _ => []
  | i :: rest, s =>
    let here :=
      match appendedBy i.clk i.event s with
      | some kt => if kt.1 = k then [kt.2] else []
      | none => []
    match step env i.depth i.clk i.event s with
    | Except.ok s' => here ++ appendedAlong env k rest s'
    | Except.error _ => []

/-- The tasks handed to `PushNormalTask` under key `k`, in order. -/
def pushedUnder (k : SchedulingKey) (s : State) : List TaskSpecification :=
  (s.calls.filterMap Call.pushed).filterMap (fun kt => if kt.1 = k then some kt.2 else none)

/-- A task with the stamp `OnWorkerIdle` puts on it removed. -/
def unstamp (t : TaskSpecification) : TaskSpecification :=
  { t with lease_grant_timestamp_ms := 0 }

/-! ## Derived observations on views -/

/-- The tasks pushed under a key followed by the tasks still in its queue,
without the stamps of `OnWorkerIdle`. -/
def servedThenQueued (k : SchedulingKey) (A : View) : List TaskSpecification :=
  (A.pushed.filterMap (fun kt => if kt.1 = k then some kt.2 else none)).map unstamp ++
    (A.queue k).map unstamp


/-- The ids of the lease requests sent are the random ids drawn, in order, and
the keys of the pending lease requests are among them. -/
structure LeaseIds (env : Env) (A : View) : Prop where
  requested : A.requested.map (fun spec => spec.task_id) =
    (List.range A.draws).map env.from_random
  pending : ∀ k p, p ∈ A.pending k → ∃ i, i < A.draws ∧ p.1 = env.from_random i

/-! ## Concrete scenarios -/

/-- A driver with at most two pending lease requests per scheduling key, whose
random ids are `1000, 1001, ...` and whose lease policy picks the local raylet. -/
def exampleEnv : Env :=
  { max_pending_lease_requests := 2
    lease_timeout_ms := 1000
    cancellation_retry_ms := 10
    worker_type := WorkerType.DRIVER
    local_raylet_id := 1
    rpc_address := { raylet_id := 1, worker_id := 9 }
    from_random := fun n => 1000 + n
    best_node := fun _ => ({ raylet_id := 1 }, false)
    return_worker_status := fun _ => {} }

def taskA : TaskSpecification := { task_id := 1 }

def taskB : TaskSpecification := { task_id := 2 }

/-- An actor-creation task. -/
def taskC : TaskSpecification :=
  { task_id := 3, kind := TaskKind.actor_creation, actor_creation_id := 7 }

/-- The scheduling key of `taskA` and `taskB`. -/
def keyAB : SchedulingKey := {}

/-- The scheduling key of `taskC`. -/
def keyC : SchedulingKey := { actor_creation_id := 7 }

def localRaylet : Address := { raylet_id := 1 }

def workerW : Address := { raylet_id := 1, worker_id := 5, port := 7 }

/-- The state a run from the initial state ends in, the initial state if the
run aborts. -/
def stateAfter (env : Env) (inputs : List Input) : State :=
  match run env inputs {} with
  | Except.ok s => s
  | Except.error _ => {}

/-- Two tasks of one key are submitted and resolved. -/
def twoQueued : List Input :=
  [{ event := Event.SubmitTask taskA },
   { event := Event.SubmitTask taskB },
   { event := Event.resolved taskA {} false },
   { event := Event.resolved taskB {} false }]

/-- Two tasks of one key are submitted and resolved, then the first is
cancelled while it is queued. -/
def twoQueuedOneCancelled : List Input :=
  twoQueued ++ [{ event := Event.CancelTask taskA false false true }]

/-- Two tasks of one key are submitted and resolved and a worker is leased:
the first task is pushed, the second stays queued. -/
def twoQueuedOneLeased : List Input :=
  twoQueued ++
  [{ event := Event.lease_reply keyAB 1000 "" false localRaylet {}
       { worker_address := workerW } }]

/-- A task is submitted and resolved and a worker is leased for it: the task
is executing. -/
def oneExecuting : List Input :=
  [{ event := Event.SubmitTask taskA },
   { event := Event.resolved taskA {} false },
   { event := Event.lease_reply keyAB 1000 "" false localRaylet {}
       { worker_address := workerW } }]

/-- An actor-creation task runs to its successful end. -/
def actorCreated : List Input :=
  [{ event := Event.SubmitTask taskC },
   { event := Event.resolved taskC {} false },
   { event := Event.lease_reply keyC 1000 "" false localRaylet {}
       { worker_address := workerW } },
   { event := Event.push_reply taskC 3 true keyC workerW [] {} {} false }]

/-- A task is cancelled while it executes, completes all the same, and the
worker then answers that it no longer has the task. -/
def cancelledButCompleted : List Input :=
  oneExecuting ++
  [{ event := Event.CancelTask taskA false false true },
   { event := Event.push_reply taskA 1 false keyAB workerW [] {} {} false },
   { event := Event.cancel_task_reply taskA keyAB false false {}
       { attempt_succeeded := false, requested_task_running := false } }]

/-- A task is submitted; its dependencies are being resolved. -/
def oneResolving : List Input :=
  [{ event := Event.SubmitTask taskA }]

/-- A pending task is cancelled before it is handed to `SubmitTask`. -/
def cancelledBeforeSubmit : List Input :=
  [{ event := Event.CancelTask taskA false false true }]

/-- A task is cancelled while its dependencies are being resolved. -/
def cancelledWhileResolving : List Input :=
  [{ event := Event.SubmitTask taskA },
   { event := Event.CancelTask taskA false false true }]

/-- The calls that report a terminal failure of a task to the task manager. -/
def Call.failureOf (task_id : TaskID) : Call → Bool
  | Call.FailPendingTask t _ _ _ => decide (t = task_id)
  | Call.FailOrRetryPendingTask t _ _ _ _ _ => decide (t = task_id)
  | _ => false

/-! ## Observables of a run -/

/-- The payloads of the `RequestWorkerLease` calls made so far, in order. -/
def leaseRequests (s : State) : List TaskSpecification :=
  s.calls.filterMap Call.requested

/-- The ids of the user tasks of a run: those of the tasks handed to
`SubmitTask`. -/
def userTaskIds (inputs : List Input) : List TaskID :=
  inputs.filterMap (fun i =>
    match i.event with
    | Event.SubmitTask task_spec => some task_spec.task_id
    | _ => none)

/-- The number of terminal failures of a task reported to the task manager so
far. -/
def failuresOf (task_id : TaskID) (s : State) : Nat :=
  s.calls.countP (Call.failureOf task_id)

/-! ## Projections of the call log -/

/-- The task a call reports to the task manager as failed, with the error
kind. -/
def Call.failed : Call → Option (TaskID × ErrorType)
  | Call.FailPendingTask t e _ _ => some (t, e)
  | Call.FailOrRetryPendingTask t e _ _ _ _ => some (t, e)
  | _ => none

/-- The calls made on a worker: a push of a task or the cancellation of one. -/
def Call.toWorker : Call → Bool
  | Call.PushNormalTask _ _ _ => true
  | Call.CancelTask _ _ => true
  | _ => false

/-- The payload, the `grant_or_reject` flag and the client of a
`RequestWorkerLease` call. -/
def Call.leaseSent : Call → Option (TaskSpecification × Bool × LeaseClient)
  | Call.RequestWorkerLease client resource_spec grant_or_reject _ _ =>
    some (resource_spec, grant_or_reject, client)
  | _ => none

/-- The client `GetOrConnectLeaseClient` returns for a raylet address. -/
def clientFor (env : Env) (raylet_address : Address) : LeaseClient :=
  (GetOrConnectLeaseClient env raylet_address {}).1

/-! ## Further scenarios -/

/-- An actor-creation task is submitted and resolved: it is queued and a lease
is requested for it. -/
def actorQueued : List Input :=
  [{ event := Event.SubmitTask taskC },
   { event := Event.resolved taskC {} false }]

/-- A lease reply that cancels the request because the placement group was
removed. -/
def groupRemoved : RequestWorkerLeaseReply :=
  { canceled := true
    failure_type := SchedulingFailureType.SCHEDULING_CANCELLED_PLACEMENT_GROUP_REMOVED }

/-- Two tasks of one key are queued with two lease requests pending, and the
first request is cancelled because the placement group was removed. -/
def twoQueuedGroupRemoved : List Input :=
  twoQueued ++ [{ event := Event.lease_reply keyAB 1000 "" false localRaylet {} groupRemoved }]

/-- The status of a call that failed because the peer is unavailable. -/
def unavailable : Status :=
  { code := StatusCode.RpcError, rpc_code := grpc_UNAVAILABLE }

/-- Two tasks of one key are queued with two lease requests pending, and the
first request fails because the local raylet is unavailable. -/
def twoQueuedRayletDied : List Input :=
  twoQueued ++ [{ event := Event.lease_reply keyAB 1000 "" false localRaylet unavailable {} }]

/-- A raylet other than the local one. -/
def remoteRaylet : Address := { raylet_id := 2 }

/-- A lease reply that redirects the request to `remoteRaylet`. -/
def redirected : RequestWorkerLeaseReply :=
  { retry_at_raylet_address := remoteRaylet }

/-- Two tasks of one key are queued with two lease requests pending, one task
is cancelled, and the first request is redirected. -/
def cancelledThenRedirected : List Input :=
  twoQueuedOneCancelled ++
    [{ event := Event.lease_reply keyAB 1000 "" false localRaylet {} redirected }]

/-- A task is queued with one lease request pending, and the request is
redirected. -/
def oneQueuedRedirected : List Input :=
  [{ event := Event.SubmitTask taskA },
   { event := Event.resolved taskA {} false },
   { event := Event.lease_reply keyAB 1000 "" false localRaylet {} redirected }]

/-! ## The lease-reply closure in two parts -/

/-- The state of the lease-reply closure after its first three statements:
the entry of the key is looked up, the client of the raylet is looked up or
connected, and the lease id of the reply is removed from the pending lease
requests of the key. -/
def leaseReplyStart (env : Env) (scheduling_key : SchedulingKey) (task_id : TaskID)
    (raylet_address : Address) (s : State) : State :=
  let s := s.touchEntry scheduling_key
  let scheduling_key_entry := s.entry scheduling_key
  let s := (GetOrConnectLeaseClient env raylet_address s).2
  s.setEntry scheduling_key
    { scheduling_key_entry with
      pending_lease_requests := Map.erase task_id scheduling_key_entry.pending_lease_requests }

/-- The call of `FailPendingTask` the lease-reply closure makes for a task it
fails with the given error. -/
def failCall (error_type : ErrorType) (error_status : Status) (error_info : RayErrorInfo)
    (task_spec : TaskSpecification) : Call :=
  Call.FailPendingTask task_spec.task_id
    (if task_spec.IsActorCreationTask = true ∧
        error_type = ErrorType.TASK_PLACEMENT_GROUP_REMOVED then
      ErrorType.ACTOR_PLACEMENT_GROUP_REMOVED
    else error_type)
    (some error_status) (some error_info)

/-- The error kind the lease-reply closure sets for a cancelled lease. -/
def cancelledErrorType (failure_type : SchedulingFailureType) : ErrorType :=
  if failure_type = SchedulingFailureType.SCHEDULING_CANCELLED_RUNTIME_ENV_SETUP_FAILED then
    ErrorType.RUNTIME_ENV_SETUP_FAILED
  else if failure_type = SchedulingFailureType.SCHEDULING_CANCELLED_UNSCHEDULABLE then
    ErrorType.TASK_UNSCHEDULABLE_ERROR
  else
    ErrorType.TASK_PLACEMENT_GROUP_REMOVED

/-- The error info the lease-reply closure composes for a cancelled lease,
before the error kind is set. -/
def cancelledErrorInfo (reply : RequestWorkerLeaseReply) (task_id : TaskID)
    (task_name : String) : RayErrorInfo :=
  { runtime_env_setup_failed_error_message :=
      if reply.failure_type =
          SchedulingFailureType.SCHEDULING_CANCELLED_RUNTIME_ENV_SETUP_FAILED then
        some reply.scheduling_failure_message
      else
        none
    error_message :=
      reply.scheduling_failure_message ++
        [MsgAtom.text " task_id=", MsgAtom.task_id task_id,
          MsgAtom.text ", task_name=", MsgAtom.text task_name] }

/-- The error info the lease-reply closure composes when the local raylet is
unavailable, before the error kind is set. -/
def rayletDiedErrorInfo (raylet_address : Address) : RayErrorInfo :=
  { error_message :=
      [MsgAtom.text "The worker failed to receive a response from the local raylet",
        MsgAtom.text "(id: ", MsgAtom.node_id raylet_address.raylet_id,
        MsgAtom.text " ,ip: ", MsgAtom.ip_address raylet_address.ip_address,
        MsgAtom.text ") ",
        MsgAtom.text "because the raylet is unavailable (crashed)."] }

/-- The state the lease-reply closure ends in when it fails the queue of the
key with the given error: the queue is drained, the entry deleted if it can
be, and every task of the queue reported as failed. -/
def failedQueueState (scheduling_key : SchedulingKey) (error_type : ErrorType)
    (error_info : RayErrorInfo) (error_status : Status) (s : State) : State :=
  let o := drainQueue scheduling_key error_type error_info error_status s
  { o.state with
    calls := s.calls ++
      (s.entry scheduling_key).task_queue.map
        (failCall error_type error_status { error_info with error_type := error_type }) }

/-- A task is submitted and resolved: it is queued and a lease is requested
for it. -/
def oneQueued : List Input :=
  [{ event := Event.SubmitTask taskA },
   { event := Event.resolved taskA {} false }]

/-- The state in which the resolution closure of `taskA` starts to run. -/
def resolvingStarted : State :=
  (stateAfter exampleEnv oneResolving).unregister (Callback.resolve taskA)

/-- The `i`-th lease request one call of `RequestNewWorkerIfNeeded` sends,
as payload, `grant_or_reject` flag and client: the payload is the resource
spec of the entry with the next random id; the first request goes to the
raylet of the hint, with `grant_or_reject` set, if there is a hint; every
other request goes to the raylet the lease policy picks. -/
def leaseSentAt (env : Env) (resource_spec : TaskSpecification) (hint : Option Address)
    (draws i : Nat) : TaskSpecification × Bool × LeaseClient :=
  let spec := { resource_spec with task_id := env.from_random (draws + i) }
  if i = 0 then
    (spec, hint.isSome, clientFor env (hint.getD (env.best_node spec).1))
  else
    (spec, false, clientFor env (env.best_node spec).1)

/-! ## The happy path -/

/-- The worker and task of a `PushNormalTask` call. -/
def Call.pushedTo : Call → Option (Address × TaskSpecification)
  | Call.PushNormalTask addr _ request => some (addr, request.task_spec)
  | _ => none

/-- The task of a `CompletePendingTask` call. -/
def Call.completed : Call → Option TaskID
  | Call.CompletePendingTask task_id _ _ _ => some task_id
  | _ => none

/-- The port and id of the worker of a `ReturnWorker` call, with the
`was_error` flag. -/
def Call.returned : Call → Option (Nat × WorkerID × Bool)
  | Call.ReturnWorker _ port worker_id was_error _ _ => some (port, worker_id, was_error)
  | _ => none

/-- The happy path of one task: it is submitted, its dependencies are
resolved, the reply to the lease request grants worker `w`, and the reply to
the push reports the task as done.  The replies are those to the closures the
submitter registered: the lease reply answers the request with the first
random id, sent to the raylet the lease policy picks, and the push reply
answers the push of the task as stamped at resolution and at dispatch. -/
def happyPath (env : Env) (t : TaskSpecification) (w : Address) (d : Nat)
    (c₁ c₂ c₃ c₄ : Clock) (resolve_status lease_status push_status : Status)
    (lease_reply : RequestWorkerLeaseReply) (push_reply : PushTaskReply)
    (retry_accepted : Bool) : List Input :=
  let resolved := { t with dependency_resolution_timestamp_ms := c₂.sys }
  let requested := { resolved with task_id := env.from_random 0 }
  let pushed := { resolved with lease_grant_timestamp_ms := c₃.sys }
  [{ event := Event.SubmitTask t, clk := c₁, depth := d + 1 },
   { event := Event.resolved t resolve_status false, clk := c₂, depth := d + 1 },
   { event := Event.lease_reply t.GetSchedulingKey (env.from_random 0) t.name false
       (env.best_node requested).1 lease_status lease_reply,
     clk := c₃, depth := d + 1 },
   { event := Event.push_reply pushed t.task_id false t.GetSchedulingKey w
       lease_reply.resource_mapping push_status push_reply retry_accepted,
     clk := c₄, depth := d + 1 }]

/-- A task with the stamps of its resolution and of its dispatch. -/
def stampedAt (t : TaskSpecification) (resolved granted : Int) : TaskSpecification :=
  { t with
    dependency_resolution_timestamp_ms := resolved
    lease_grant_timestamp_ms := granted }

/-! ## The lease table against the active workers -/

/-- The part of a state the lease-table invariant depends on: per key the
active workers, and per worker the scheduling key of its lease entry, if it
has one. -/
@[ext]
structure LView where
  active : SchedulingKey → List Address
  leaseKey : Address → Option SchedulingKey

/-- The lease view of a state. -/
def State.lview (s : State) : LView :=
  { active := fun k => (s.entry k).active_workers
    leaseKey := fun a =>
      (Map.find a s.worker_to_lease_entry).map (fun l => l.scheduling_key) }

/-- The lease-table invariant: the active workers of a key are the workers
whose lease entry is of that key. -/
structure LInv (L : LView) : Prop where
  active_leased : ∀ k a, a ∈ L.active k → L.leaseKey a = some k
  leased_active : ∀ a k, L.leaseKey a = some k → a ∈ L.active k

/-- The lease view after a worker is returned. -/
def LView.returned (a : Address) (k : SchedulingKey) (L : LView) : LView :=
  { active := Function.update L.active k (HashSet.erase a (L.active k))
    leaseKey := Function.update L.leaseKey a none }

/-- The lease view after a worker is granted. -/
def LView.granted (a : Address) (k : SchedulingKey) (L : LView) : LView :=
  { active := Function.update L.active k (HashSet.insert a (L.active k))
    leaseKey := Function.update L.leaseKey a (some k) }

/-- An event grants a fresh worker: if it is a lease reply that grants a
worker, the worker has no lease entry. -/
def grantsFresh (ev : Event) (s : State) : Bool :=
  match ev with
  | Event.lease_reply _ _ _ _ _ status reply =>
    !(status.ok && !reply.canceled && !reply.rejected &&
        decide (reply.worker_address.raylet_id ≠ 0)) ||
      (Map.find reply.worker_address s.worker_to_lease_entry).isNone
  | _ => true

/-- Every lease reply of a run that grants a worker grants one that has no
lease entry at that moment. -/
def freshRun (env : Env) : List Input → State → Bool
  | [], _ => true
  | i :: rest, s =>
    grantsFresh i.event s &&
      match step env i.depth i.clk i.event s with
      | Except.ok s' => freshRun env rest s'
      | Except.error _ => true

/-- Two tasks of different keys are queued and the raylet grants the same
worker to the lease request of each key. -/
def grantedTwice : List Input :=
  [{ event := Event.SubmitTask taskA },
   { event := Event.SubmitTask taskC },
   { event := Event.resolved taskA {} false },
   { event := Event.resolved taskC {} false },
   { event := Event.lease_reply keyAB 1000 "" false localRaylet {}
       { worker_address := workerW } },
   { event := Event.lease_reply keyC 1001 "" false localRaylet {}
       { worker_address := workerW } }]

/-- After the same worker was granted to two keys, the task it executes for
the first key completes and the worker is returned. -/
def grantedTwiceOneDone : List Input :=
  grantedTwice ++ [{ event := Event.push_reply taskA 1 false keyAB workerW [] {} {} false }]

/-! ## The task sets -/

/-- The three sets of task ids the submitter keeps besides its tables. -/
@[ext]
structure TaskSets where
  cancelled : List TaskID
  generators : List TaskID
  failed : List TaskID

/-- The task sets of a state: `cancelled_tasks`, `generators_to_resubmit` and
`failed_tasks_pending_failure_cause`. -/
def State.sets (s : State) : TaskSets :=
  { cancelled := s.cancelled_tasks
    generators := s.generators_to_resubmit
    failed := s.failed_tasks_pending_failure_cause }

/-- The members the lease-request machinery never writes: the lease table,
the executing tasks and the task sets. -/
@[ext]
structure Ledger where
  leases : List (Address × LeaseEntry)
  executing : List (TaskID × Address)
  sets : TaskSets

/-- The ledger of a state. -/
def State.ledger (s : State) : Ledger :=
  { leases := s.worker_to_lease_entry
    executing := s.executing_tasks
    sets := s.sets }

/-! ## Further projections of the call log -/

/-- The arguments of a `ReturnWorker` call, the client it is made on first. -/
def Call.returnedBy : Call → Option (LeaseClient × Nat × WorkerID × Bool × Message × Bool)
  | Call.ReturnWorker client port worker_id was_error error_detail worker_exiting =>
    some (client, port, worker_id, was_error, error_detail, worker_exiting)
  | _ => none

/-- The calls that tell the task manager what became of a task: that it
failed, that it is done, that it is to be retried or resubmitted. -/
def Call.outcomeOf (task_id : TaskID) : Call → Option Call
  | Call.FailPendingTask t e st ei =>
    if t = task_id then some (Call.FailPendingTask t e st ei) else none
  | Call.FailOrRetryPendingTask t e st ei m f =>
    if t = task_id then some (Call.FailOrRetryPendingTask t e st ei m f) else none
  | Call.RetryTaskIfPossible t ei =>
    if t = task_id then some (Call.RetryTaskIfPossible t ei) else none
  | Call.CompletePendingTask t r a app =>
    if t = task_id then some (Call.CompletePendingTask t r a app) else none
  | Call.MarkGeneratorFailedAndResubmit t =>
    if t = task_id then some (Call.MarkGeneratorFailedAndResubmit t) else none
  | _ => none

/-- The requests for the failure cause of a task, as client and lease id. -/
def Call.causeAsked : Call → Option (LeaseClient × TaskID)
  | Call.GetTaskFailureCause client task_id => some (client, task_id)
  | _ => none

/-! ## The push-reply closure in two parts -/

/-- The state of the push-reply closure after the statements every reply
runs: the task is taken out of `executing_tasks` and `generators_to_resubmit`,
the lease of the worker is marked not busy and the key has one busy worker
less. -/
def pushReplyStart (task_id : TaskID) (scheduling_key : SchedulingKey) (addr : Address)
    (s : State) : State :=
  let s := s.eraseExecuting task_id
  let s := s.eraseGenerator task_id
  let s := s.touchLease addr
  let lease_entry := s.lease addr
  let s := s.setLease addr { lease_entry with is_busy := false }
  let s := s.touchEntry scheduling_key
  let scheduling_key_entry := s.entry scheduling_key
  s.setEntry scheduling_key
    { scheduling_key_entry with num_busy_workers := scheduling_key_entry.num_busy_workers - 1 }

/-- The state of the push-reply closure of a failed push when it hands the
worker to `OnWorkerIdle`: the task awaits its failure cause, which is asked of
the client of the lease under the lease id. -/
def pushFailedStart (task_id : TaskID) (scheduling_key : SchedulingKey) (addr : Address)
    (status : Status) (lease_client : LeaseClient) (s : State) : State :=
  let s := pushReplyStart task_id scheduling_key addr s
  let s := s.insertFailed task_id
  let s := s.call (Call.GetTaskFailureCause lease_client (s.lease addr).task_id)
  s.register (Callback.failure_cause status task_id addr)

/-! ## One turn of the dispatch loop -/

/-- The state after one turn of the loop of `OnWorkerIdle` that dispatches the
front task of the queue to the worker: the task leaves the queue, the lease is
marked busy, the key has one busy worker more, the task is stamped with the
time of the grant, recorded in `executing_tasks` and pushed. -/
def dispatchOne (clk : Clock) (addr : Address) (scheduling_key : SchedulingKey)
    (assigned_resources : ResourceMapping) (s : State) : State :=
  let scheduling_key_entry := s.entry scheduling_key
  let lease_entry := s.lease addr
  match scheduling_key_entry.task_queue with
  | [] => s
  | front :: rest =>
    let s := s.setEntry scheduling_key { scheduling_key_entry with task_queue := rest }
    let s := s.setLease addr { lease_entry with is_busy := true }
    let scheduling_key_entry := s.entry scheduling_key
    let s := s.setEntry scheduling_key
      { scheduling_key_entry with
        num_busy_workers := scheduling_key_entry.num_busy_workers + 1 }
    let task_spec := { front with lease_grant_timestamp_ms := clk.sys }
    let s := s.emplaceExecuting task_spec.task_id addr
    PushNormalTask addr scheduling_key task_spec assigned_resources s

/-! ## Scenarios with a second worker -/

/-- A second worker of the local raylet. -/
def workerV : Address := { raylet_id := 1, worker_id := 6, port := 8 }

/-- A task is submitted and pushed to a worker, and submitted again while it
executes: the second submission is queued and a lease is requested for it. -/
def resubmittedWhileExecuting : List Input :=
  oneExecuting ++
  [{ event := Event.SubmitTask taskA },
   { event := Event.resolved taskA {} false }]

/-- The state in which `OnWorkerIdle` is called when the lease requested for
the second submission is granted: the reply closure has been taken, the lease
id removed from the pending lease requests and the lease of `workerV`
recorded. -/
def secondWorkerGranted : State :=
  match AddWorkerLeaseClient exampleEnv {} workerV LeaseClient.local_client [] keyAB 1001
      (leaseReplyStart exampleEnv keyAB 1001 localRaylet
        ((stateAfter exampleEnv resubmittedWhileExecuting).unregister
          (Callback.lease keyAB 1001 "" false localRaylet))) with
  | Except.ok s => s
  | Except.error _ => {}

/-- The run of `resubmittedWhileExecuting`, followed by the reply that grants
`workerV` to the second lease request. -/
def resubmittedAndGranted : List Input :=
  resubmittedWhileExecuting ++
  [{ event := Event.lease_reply keyAB 1001 "" false localRaylet {}
       { worker_address := workerV } }]

/-- The state after `OnWorkerIdle` is called for the worker of the actor
created in `actorCreated`, which is leased and idle, with no task queued. -/
def actorWorkerIdle : State :=
  match OnWorkerIdle exampleEnv 64 {} workerW keyC false [] false []
      (stateAfter exampleEnv actorCreated) with
  | Except.ok s => s
  | Except.error _ => {}

/-- Two tasks of different keys are queued and `workerW` is granted to the
lease request of the first: `taskA` executes on it, `taskC` is queued with its
lease request pending. -/
def oneGrantedOneQueued : List Input :=
  [{ event := Event.SubmitTask taskA },
   { event := Event.SubmitTask taskC },
   { event := Event.resolved taskA {} false },
   { event := Event.resolved taskC {} false },
   { event := Event.lease_reply keyAB 1000 "" false localRaylet {}
       { worker_address := workerW } }]

/-- The lease entry `AddWorkerLeaseClient` records for `workerW` when it is
granted to the lease request `1000` of `keyAB` at time `0`, marked busy. -/
def firstLeaseOfW : LeaseEntry :=
  { lease_client := some LeaseClient.local_client
    lease_expiration_time := 1000
    assigned_resources := []
    scheduling_key := keyAB
    task_id := 1000
    is_busy := true }

/-- The lease entry `AddWorkerLeaseClient` records for a worker granted to a
lease request. -/
def grantedLease (env : Env) (clk : Clock) (lease_client : LeaseClient)
    (assigned_resources : ResourceMapping) (scheduling_key : SchedulingKey)
    (task_id : TaskID) : LeaseEntry :=
  { lease_client := some lease_client
    lease_expiration_time := wrapInt64 (clk.mono + env.lease_timeout_ms)
    assigned_resources := assigned_resources
    scheduling_key := scheduling_key
    task_id := task_id
    is_busy := false }

/-! ## Scenarios of the cancellation of an executing task -/

/-- A task is cancelled while it executes: the cancellation is sent to its
worker. -/
def cancelledWhileExecuting : List Input :=
  oneExecuting ++ [{ event := Event.CancelTask taskA false false true }]

/-- A task is cancelled while it executes, and the cancellation sent to the
worker fails because the worker is unavailable. -/
def cancelRpcFailed : List Input :=
  cancelledWhileExecuting ++
  [{ event := Event.cancel_task_reply taskA keyAB false false unavailable {} }]

/-- The reply of a worker that could not cancel a task it is still running. -/
def stillRunning : CancelTaskReply :=
  { attempt_succeeded := false, requested_task_running := true }

/-- The state after the worker of a cancelled task has answered, at time `5`
of the high-resolution clock, that the task is still running. -/
def cancelRetryScheduled : State :=
  OnCancelTaskReply exampleEnv { hires := 5 } taskA false false {} stillRunning
    ((stateAfter exampleEnv cancelledWhileExecuting).unregister
      (Callback.cancel_task taskA keyAB false false))

/-! ## Scenarios of a lease that has expired when it is granted -/

/-- A driver whose leases time out as soon as they are granted. -/
def zeroTimeoutEnv : Env := { exampleEnv with lease_timeout_ms := 0 }

/-- The readings of a section in which one millisecond passes between the two
readings of `current_time_ms()`. -/
def tick : Clock := { mono := 5, mono_again := 6 }

/-! ## The backlog per scheduling class -/

/-- The scheduling classes that occur among the entries, each once, in the
order in which they first occur. -/
def classesAmong (entries : List (SchedulingKey × SchedulingKeyEntry)) :
    List SchedulingClass :=
  entries.foldl
    (fun acc ke =>
      if ke.1.scheduling_class ∈ acc then acc else acc ++ [ke.1.scheduling_class]) []

/-- The backlog of a scheduling class: the sum, over the entries of the class,
of `max(0, task_queue.size - pending_lease_requests.size)`. -/
def classBacklog (c : SchedulingClass) (entries : List (SchedulingKey × SchedulingKeyEntry)) :
    Int :=
  ((entries.filter (fun ke => decide (ke.1.scheduling_class = c))).map
    (fun ke => max 0 ((ke.2.task_queue.length : Int) - ke.2.pending_lease_requests.length))).sum

/-- The resource spec of the first entry of a scheduling class. -/
def classResourceSpec (c : SchedulingClass)
    (entries : List (SchedulingKey × SchedulingKeyEntry)) : TaskSpecification :=
  match entries.find? (fun ke => decide (ke.1.scheduling_class = c)) with
  | some ke => ke.2.resource_spec
  | none => {}

/-- A state with three entries of two scheduling classes: class `0` has a
backlog of one task under each of two keys, class `4` has a backlog of two. -/
def backlogged : State :=
  { scheduling_key_entries :=
      [(keyAB, { task_queue := [taskA, taskB], resource_spec := taskB,
                 pending_lease_requests := [(1000, localRaylet)] }),
       ({ scheduling_class := 4 },
        { task_queue := [{ task_id := 8, scheduling_class := 4 },
                         { task_id := 9, scheduling_class := 4 }],
          resource_spec := { task_id := 9, scheduling_class := 4 } }),
       (keyC, { task_queue := [taskC], resource_spec := taskC })] }

/-! ## Entries that are left behind -/

/-- An entry is in use: it has a pending lease request, an active worker or a
busy worker. -/
def SchedulingKeyEntry.inUse (e : SchedulingKeyEntry) : Bool :=
  !e.pending_lease_requests.isEmpty || !e.active_workers.isEmpty ||
    decide (e.num_busy_workers ≠ 0)

/-- The key has no entry, or its entry is in use. -/
def State.hold (s : State) (k : SchedulingKey) : Bool :=
  match Map.find k s.scheduling_key_entries with
  | none => true
  | some e => e.inUse

/-- From the first state to the second, the tasks pushed under the key are
tasks from the front of the queue, in queue order, and the rest of the queue is
left in its order: the queue of the first state is the tasks pushed since,
followed by the queue of the second state (tasks are compared without the
lease-grant stamp). -/
def Fifo (k : SchedulingKey) (s s' : State) : Prop :=
  ∃ pushedNow, pushedUnder k s' = pushedUnder k s ++ pushedNow ∧
    pushedNow.map unstamp ++ ((s'.entry k).task_queue).map unstamp =
      ((s.entry k).task_queue).map unstamp

/-- A lease reply that fails every queued task of its key: the lease was
cancelled because the runtime environment could not be set up, the placement
group was removed or the task is unschedulable, or the request to the local
raylet failed because the raylet is unavailable. -/
def failsQueue (env : Env) (raylet_address : Address) (status : Status)
    (reply : RequestWorkerLeaseReply) : Bool :=
  if status.ok then
    reply.canceled &&
      (decide (reply.failure_type =
          SchedulingFailureType.SCHEDULING_CANCELLED_RUNTIME_ENV_SETUP_FAILED) ||
        decide (reply.failure_type =
          SchedulingFailureType.SCHEDULING_CANCELLED_PLACEMENT_GROUP_REMOVED) ||
        decide (reply.failure_type =
          SchedulingFailureType.SCHEDULING_CANCELLED_UNSCHEDULABLE))
  else
    decide (raylet_address.raylet_id = env.local_raylet_id) && status.IsRpcError &&
      decide (status.rpc_code = grpc_UNAVAILABLE)

/-- The queue as a cancellation leaves it: if the task is not being cancelled
already and is pending, the first task of the queue with its id is removed,
and no other task. -/
def queueAfterCancel (task_id : TaskID) (is_pending : Bool) (s : State)
    (queue : List TaskSpecification) : List TaskSpecification :=
  if is_pending = true ∧ task_id ∉ s.cancelled_tasks then
    queue.eraseP (fun t => decide (t.task_id = task_id))
  else
    queue

/-- The queue of a key after an event has removed from it the tasks it does
not push: the cancellation of a task of the key removes that task, a lease
reply for the key that fails the queue removes every task, and no other event
removes a task. -/
def queueKept (env : Env) (ev : Event) (s : State) (k : SchedulingKey) :
    List TaskSpecification :=
  match ev with
  | Event.CancelTask task_spec _ _ is_pending =>
    if task_spec.GetSchedulingKey = k then
      queueAfterCancel task_spec.task_id is_pending s (s.entry k).task_queue
    else (s.entry k).task_queue
  | Event.cancel_retry_fired task_spec _ _ is_pending =>
    if task_spec.GetSchedulingKey = k then
      queueAfterCancel task_spec.task_id is_pending s (s.entry k).task_queue
    else (s.entry k).task_queue
  | Event.lease_reply scheduling_key _ _ _ raylet_address status reply =>
    if scheduling_key = k ∧ failsQueue env raylet_address status reply = true then []
    else (s.entry k).task_queue
  | _ => (s.entry k).task_queue

/-- The tasks an event appends to the queue of a key. -/
def appendedNow (clk : Clock) (ev : Event) (s : State) (k : SchedulingKey) :
    List TaskSpecification :=
  match appendedBy clk ev s with
  | some kt => if kt.1 = k then [kt.2] else []
  | none => []

/-- The ids of the tasks an event removes from the queue of a key without
pushing them. -/
def removedBy (env : Env) (ev : Event) (s : State) (k : SchedulingKey) : List TaskID :=
  ((s.entry k).task_queue.filter (fun t => decide (t ∉ queueKept env ev s k))).map
    (fun t => t.task_id)

/-- The ids of the tasks removed from the queue of a key along a run without
being pushed. -/
def removedAlong (env : Env) (k : SchedulingKey) : List Input → State → List TaskID
  | [], _ => []
  | i :: rest, s =>
    match step env i.depth i.clk i.event s with
    | Except.ok s' => removedBy env i.event s k ++ removedAlong env k rest s'
    | Except.error _ => []

/-- Two tasks are queued, the first is cancelled while it is queued, and a
worker is leased: the second task is pushed. -/
def cancelledThenLeased : List Input :=
  twoQueuedOneCancelled ++
  [{ event := Event.lease_reply keyAB 1000 "" false localRaylet {}
       { worker_address := workerW } }]

/-! ## Lemmas on association lists -/

namespace Map

variable {K V : Type} [DecidableEq K]

theorem find_append (k : K) (m₁ m₂ : List (K × V)) :
    find k (m₁ ++ m₂) = (find k m₁).orElse (fun _ => find k m₂) := by
  induction m₁ with
  | nil => simp [find]
  | cons p m ih =>
    simp only [List.cons_append, find]
    split
    · simp
    · exact ih

theorem find_erase (k k' : K) (m : List (K × V)) :
    find k' (erase k m) = if k' = k then none else find k' m := by
  induction m with
  | nil => simp [erase, find]
  | cons p m ih =>
    simp only [erase, List.filter_cons] at ih ⊢
    by_cases hp : p.1 = k
    · simp only [hp, ne_eq, not_true_eq_false, decide_False, Bool.false_eq_true, ↓reduceIte, find]
      rw [ih]
      by_cases hk : k' = k
      · simp [hk]
      · simp [hk, Ne.symm hk]
    · simp only [ne_eq, hp, not_false_eq_true, decide_True, ↓reduceIte, find]
      by_cases hpk : p.1 = k'
      · have : ¬ k' = k := fun h => hp (hpk.trans h)
        simp [hpk, this]
      · simp only [hpk, ↓reduceIte]
        exact ih

theorem find_map_set (k k' : K) (v : V) (m : List (K × V)) :
    find k' (m.map (fun p => if p.1 = k then (k, v) else p)) =
      if k' = k then (find k m).map (fun _ => v) else find k' m := by
  induction m with
  | nil => simp [find]
  | cons p m ih =>
    simp only [List.map_cons, find]
    by_cases hp : p.1 = k
    · by_cases hk : k' = k
      · simp [hp, hk]
      · simp [hp, hk, Ne.symm hk, ih]
    · by_cases hk : k' = k
      · subst hk
        simp [hp, ih]
      · by_cases hpk : p.1 = k'
        · simp [hp, hk, hpk]
        · simp [hp, hk, hpk, ih]

theorem find_set (k k' : K) (v : V) (m : List (K × V)) :
    find k' (set k v m) = if k' = k then some v else find k' m := by
  unfold set
  split
  · next w hw =>
    rw [find_map_set]
    by_cases hk : k' = k
    · simp [hk, hw]
    · simp [hk]
  · next hw =>
    rw [find_append]
    by_cases hk : k' = k
    · subst hk; simp [hw, find]
    · have : ¬ k = k' := fun h => hk h.symm
      simp [hk, find, this]

theorem find_emplace (k k' : K) (v : V) (m : List (K × V)) :
    find k' (emplace k v m) = if k' = k then some ((find k m).getD v) else find k' m := by
  unfold emplace
  split
  · next w hw =>
    by_cases hk : k' = k
    · subst hk; simp [hw]
    · simp [hk]
  · next hw =>
    rw [find_append]
    by_cases hk : k' = k
    · subst hk; simp [hw, find]
    · have : ¬ k = k' := fun h => hk h.symm
      simp [hk, find, this]

theorem length_erase_le (k : K) (m : List (K × V)) : (erase k m).length ≤ m.length := by
  unfold erase
  exact List.length_filter_le _ _

theorem mem_erase_key {k : K} {m : List (K × V)} {p : K × V} :
    p ∈ erase k m ↔ p ∈ m ∧ p.1 ≠ k := by
  simp [erase, List.mem_filter]

theorem length_emplace_le (k : K) (v : V) (m : List (K × V)) :
    (emplace k v m).length ≤ m.length + 1 := by
  unfold emplace
  split <;> simp

theorem mem_emplace {k : K} {v : V} {m : List (K × V)} {p : K × V} :
    p ∈ emplace k v m → p ∈ m ∨ p = (k, v) := by
  unfold emplace
  split
  · intro h; exact Or.inl h
  · intro h
    simpa using h

variable [Inhabited V]

theorem get_index (k k' : K) (m : List (K × V)) : get k' (index k m) = get k' m := by
  unfold get index
  rw [find_emplace]
  by_cases hk : k' = k
  · subst hk
    cases h : find k' m <;> simp
  · simp [hk]

theorem get_set (k k' : K) (v : V) (m : List (K × V)) :
    get k' (set k v m) = if k' = k then v else get k' m := by
  unfold get
  rw [find_set]
  by_cases hk : k' = k <;> simp [hk]

theorem get_erase (k k' : K) (m : List (K × V)) :
    get k' (erase k m) = if k' = k then default else get k' m := by
  unfold get
  rw [find_erase]
  by_cases hk : k' = k <;> simp [hk]

theorem get_emplace (k k' : K) (v : V) (m : List (K × V)) :
    get k' (emplace k v m) = if k' = k then (find k m).getD v else get k' m := by
  unfold get
  rw [find_emplace]
  by_cases hk : k' = k <;> simp [hk]

theorem get_of_find {k : K} {m : List (K × V)} {v : V} (h : find k m = some v) :
    get k m = v := by
  simp [get, h]

end Map

namespace HashSet

variable {A : Type} [DecidableEq A]

theorem mem_insert {a b : A} {xs : List A} : b ∈ insert a xs ↔ b = a ∨ b ∈ xs := by
  unfold insert
  split
  · next h =>
    constructor
    · intro hb; exact Or.inr hb
    · rintro (rfl | hb)
      · exact h
      · exact hb
  · simp [or_comm]

theorem mem_erase_elem {a b : A} {xs : List A} : b ∈ erase a xs ↔ b ∈ xs ∧ b ≠ a := by
  simp [erase, List.mem_filter]

end HashSet


theorem Map.find_map_val {K V : Type} [DecidableEq K] (g : K → V → V) (k : K)
    (m : List (K × V)) :
    Map.find k (m.map (fun p => (p.1, g p.1 p.2))) = (Map.find k m).map (g k) := by
  induction m with
  | nil => simp [Map.find]
  | cons p m ih =>
    simp only [List.map_cons, Map.find]
    split
    · next h => subst h; simp
    · exact ih

/-! ## The view under the primitive operations on the state -/

attribute [simp] Map.get_index Map.get_set Map.get_erase Map.get_emplace Map.find_emplace
  Map.find_erase Map.find_set

@[simp] theorem default_pending :
    (default : SchedulingKeyEntry).pending_lease_requests = [] := rfl

@[simp] theorem default_queue : (default : SchedulingKeyEntry).task_queue = [] := rfl

@[simp] theorem default_active : (default : SchedulingKeyEntry).active_workers = [] := rfl

@[simp] theorem default_busy : (default : SchedulingKeyEntry).num_busy_workers = 0 := rfl

@[simp] theorem default_is_busy : (default : LeaseEntry).is_busy = false := rfl

@[simp] theorem default_lease_client : (default : LeaseEntry).lease_client = none := rfl

@[simp] theorem view_touchEntry (s : State) (k : SchedulingKey) :
    (s.touchEntry k).view = s.view := by
  simp [State.view, State.touchEntry, State.entry, State.lease]

@[simp] theorem view_touchLease (s : State) (a : Address) :
    (s.touchLease a).view = s.view := by
  simp [State.view, State.touchLease, State.entry, State.lease]

@[simp] theorem view_setEntry (s : State) (k : SchedulingKey) (e : SchedulingKeyEntry) :
    (s.setEntry k e).view =
      { s.view with
        pending := Function.update s.view.pending k e.pending_lease_requests
        queue := Function.update s.view.queue k e.task_queue
        active := Function.update s.view.active k e.active_workers
        busy := Function.update s.view.busy k e.num_busy_workers } := by
  apply View.ext <;>
    first
      | rfl
      | (funext x
         simp only [State.view, State.setEntry, State.entry, Map.get_set,
           Function.update_apply]
         split <;> rfl)

@[simp] theorem view_eraseEntry (s : State) (k : SchedulingKey) :
    (s.eraseEntry k).view =
      { s.view with
        pending := Function.update s.view.pending k []
        queue := Function.update s.view.queue k []
        active := Function.update s.view.active k []
        busy := Function.update s.view.busy k 0 } := by
  apply View.ext <;>
    first
      | rfl
      | (funext x
         simp only [State.view, State.eraseEntry, State.entry, Map.get_erase,
           Function.update_apply]
         split <;> rfl)

@[simp] theorem view_setLease (s : State) (a : Address) (l : LeaseEntry) :
    (s.setLease a l).view =
      { s.view with lease_busy := Function.update s.view.lease_busy a l.is_busy } := by
  apply View.ext <;>
    first
      | rfl
      | (funext x
         simp only [State.view, State.setLease, State.lease, Map.get_set,
           Function.update_apply]
         split <;> rfl)

@[simp] theorem view_eraseLease (s : State) (a : Address) :
    (s.eraseLease a).view =
      { s.view with lease_busy := Function.update s.view.lease_busy a false } := by
  apply View.ext <;>
    first
      | rfl
      | (funext x
         simp only [State.view, State.eraseLease, State.lease, Map.get_erase,
           Function.update_apply]
         split <;> rfl)

theorem view_call (s : State) (c : Call) :
    (s.call c).view =
      { s.view with
        pushed := s.view.pushed ++ c.pushed.toList
        requested := s.view.requested ++ c.requested.toList } := by
  cases c <;>
    simp [State.view, State.call, State.entry, State.lease, List.filterMap_append,
      Call.pushed, Call.requested]

theorem view_call_other (s : State) (c : Call) (h₁ : c.pushed = none)
    (h₂ : c.requested = none) : (s.call c).view = s.view := by
  rw [view_call, h₁, h₂]; simp

theorem view_register (s : State) (cb : Callback) :
    (s.register cb).view =
      { s.view with
        pushes := s.view.pushes ++ (if cb.isPush then [cb] else [])
        leases := s.view.leases ++ (if cb.isLease then [cb] else []) } := by
  cases cb <;>
    simp [State.view, State.register, State.entry, State.lease, List.filter_append,
      Callback.isPush, Callback.isLease]

theorem view_register_other (s : State) (cb : Callback) (h₁ : cb.isPush = false)
    (h₂ : cb.isLease = false) : (s.register cb).view = s.view := by
  rw [view_register, h₁, h₂]; simp

/-- A state that agrees with another on the members the view reads has the
same view. -/
theorem view_congr {s s' : State}
    (h₁ : s'.scheduling_key_entries = s.scheduling_key_entries)
    (h₂ : s'.worker_to_lease_entry = s.worker_to_lease_entry)
    (h₃ : s'.executing_tasks = s.executing_tasks)
    (h₄ : s'.callbacks = s.callbacks) (h₅ : s'.calls = s.calls)
    (h₆ : s'.random_draws = s.random_draws) : s'.view = s.view := by
  simp [State.view, State.entry, State.lease, h₁, h₂, h₃, h₄, h₅, h₆]

theorem queue_eq_view (s : State) (k : SchedulingKey) :
    (s.entry k).task_queue = s.view.queue k := rfl

theorem pending_eq_view (s : State) (k : SchedulingKey) :
    (s.entry k).pending_lease_requests = s.view.pending k := rfl

theorem active_eq_view (s : State) (k : SchedulingKey) :
    (s.entry k).active_workers = s.view.active k := rfl

theorem busy_eq_view (s : State) (k : SchedulingKey) :
    (s.entry k).num_busy_workers = s.view.busy k := rfl

theorem lease_busy_eq_view (s : State) (a : Address) :
    (s.lease a).is_busy = s.view.lease_busy a := rfl

theorem filter_erase {α : Type} [DecidableEq α] (p : α → Bool) (a : α) (l : List α) :
    (l.erase a).filter p = if p a then (l.filter p).erase a else l.filter p := by
  induction l with
  | nil => simp
  | cons b l ih =>
    by_cases hba : b = a
    · subst hba
      by_cases hp : p b
      · simp [hp, List.filter_cons]
      · simp [hp, List.filter_cons]
    · have hne : ¬ (b == a) = true := by simpa using hba
      rw [List.erase_cons_tail hne]
      by_cases hpb : p b
      · simp only [List.filter_cons, hpb, ↓reduceIte, ih]
        split
        · rw [List.erase_cons_tail hne]
        · rfl
      · simp only [List.filter_cons, hpb, Bool.false_eq_true, ↓reduceIte, ih]

@[simp] theorem view_emplaceLease (s : State) (a : Address) (l : LeaseEntry)
    (h : l.is_busy = false) : (s.emplaceLease a l).view = s.view := by
  apply View.ext <;>
    first
      | rfl
      | (funext x
         simp only [State.view, State.emplaceLease, State.lease, Map.get_emplace]
         split
         · next hx =>
           subst hx
           simp only [Map.get]
           cases Map.find x s.worker_to_lease_entry with
           | none => simpa using h
           | some v => rfl
         · rfl)

@[simp] theorem view_emplaceExecuting (s : State) (t : TaskID) (a : Address) :
    (s.emplaceExecuting t a).view =
      { s.view with exec := Function.update s.view.exec t (some ((s.view.exec t).getD a)) } := by
  apply View.ext <;>
    first
      | rfl
      | (funext x
         simp only [State.view, State.emplaceExecuting, Map.find_emplace,
           Function.update_apply])

@[simp] theorem view_eraseExecuting (s : State) (t : TaskID) :
    (s.eraseExecuting t).view = { s.view with exec := Function.update s.view.exec t none } := by
  apply View.ext <;>
    first
      | rfl
      | (funext x
         simp only [State.view, State.eraseExecuting, Map.find_erase, Function.update_apply])

@[simp] theorem view_eraseCancelled (s : State) (t : TaskID) :
    (s.eraseCancelled t).view = s.view := rfl

@[simp] theorem view_insertCancelled (s : State) (t : TaskID) :
    (s.insertCancelled t).view = s.view := rfl

@[simp] theorem view_eraseGenerator (s : State) (t : TaskID) :
    (s.eraseGenerator t).view = s.view := rfl

@[simp] theorem view_insertGenerator (s : State) (t : TaskID) :
    (s.insertGenerator t).view = s.view := rfl

@[simp] theorem view_eraseFailed (s : State) (t : TaskID) :
    (s.eraseFailed t).view = s.view := rfl

@[simp] theorem view_insertFailed (s : State) (t : TaskID) :
    (s.insertFailed t).view = s.view := rfl

@[simp] theorem view_addRemoteLeaseClient (s : State) (n : NodeID) :
    (s.addRemoteLeaseClient n).view = s.view := rfl

@[simp] theorem view_countTaskSubmitted (s : State) : s.countTaskSubmitted.view = s.view := rfl

@[simp] theorem view_countLeaseRequested (s : State) :
    s.countLeaseRequested.view = s.view := rfl

@[simp] theorem view_countRandomDraw (s : State) :
    s.countRandomDraw.view = { s.view with draws := s.view.draws + 1 } := rfl

@[simp] theorem view_setTimerExpiry (s : State) (t : Int) :
    (s.setTimerExpiry t).view = s.view := rfl

theorem view_unregister (s : State) (cb : Callback) :
    (s.unregister cb).view =
      { s.view with
        pushes := if cb.isPush then s.view.pushes.erase cb else s.view.pushes
        leases := if cb.isLease then s.view.leases.erase cb else s.view.leases } := by
  apply View.ext <;>
    first
      | rfl
      | simp only [State.view, State.unregister, filter_erase]

theorem view_unregister_other (s : State) (cb : Callback) (h₁ : cb.isPush = false)
    (h₂ : cb.isLease = false) : (s.unregister cb).view = s.view := by
  rw [view_unregister, h₁, h₂]; rfl

theorem keepOnCancel_of_isPush {t : TaskID} {cb : Callback} (h : cb.isPush = true) :
    keepOnCancel t cb = true := by
  cases cb <;> simp_all [Callback.isPush, keepOnCancel]

theorem keepOnCancel_of_isLease {t : TaskID} {cb : Callback} (h : cb.isLease = true) :
    keepOnCancel t cb = true := by
  cases cb <;> simp_all [Callback.isLease, keepOnCancel]

@[simp] theorem view_keepCallbacks_keepOnCancel (s : State) (t : TaskID) :
    (s.keepCallbacks (keepOnCancel t)).view = s.view := by
  apply View.ext <;>
    first
      | rfl
      | (simp only [State.view, State.keepCallbacks, List.filter_filter]
         apply List.filter_congr
         intro cb _
         cases h : cb.isPush
         · simp
         · simp [keepOnCancel_of_isPush h])
      | (simp only [State.view, State.keepCallbacks, List.filter_filter]
         apply List.filter_congr
         intro cb _
         cases h : cb.isLease
         · simp
         · simp [keepOnCancel_of_isLease h])

@[simp] theorem view_markBacklogReported (s : State) : s.markBacklogReported.view = s.view := by
  apply View.ext <;>
    first
      | rfl
      | (funext x
         have hf := Map.find_map_val
           (fun (_ : SchedulingKey) (e : SchedulingKeyEntry) =>
             ({ e with last_reported_backlog_size := e.BacklogSize } : SchedulingKeyEntry))
           x s.scheduling_key_entries
         simp only [] at hf
         simp only [State.view, State.entry, Map.get, State.markBacklogReported]
         rw [hf]
         cases Map.find x s.scheduling_key_entries <;> rfl)

/-! ## Functions the view does not see -/

@[simp] theorem view_GetOrConnectLeaseClient (env : Env) (a : Address) (s : State) :
    (GetOrConnectLeaseClient env a s).2.view = s.view := by
  unfold GetOrConnectLeaseClient
  split
  · split
    · rfl
    · simp only [view_addRemoteLeaseClient]
      exact view_call_other s (Call.GetOrConnectByAddress a) rfl rfl
  · rfl

@[simp] theorem view_ReportWorkerBacklogInternal (env : Env) (s : State) :
    (ReportWorkerBacklogInternal env s).view = s.view := by
  unfold ReportWorkerBacklogInternal
  simp only []
  rw [view_call_other _ (Call.ReportWorkerBacklog _ _) rfl rfl]
  simp

@[simp] theorem view_ReportWorkerBacklogIfNeeded (env : Env) (k : SchedulingKey) (s : State) :
    (ReportWorkerBacklogIfNeeded env k s).view = s.view := by
  unfold ReportWorkerBacklogIfNeeded
  simp only []
  split <;> simp

@[simp] theorem view_cancelOneLease (env : Env) (k : SchedulingKey) (s : State)
    (p : TaskID × Address) : (cancelOneLease env k s p).view = s.view := by
  unfold cancelOneLease
  simp only []
  rw [view_register_other _ (Callback.cancel_lease k) rfl rfl,
    view_call_other _ (Call.CancelWorkerLease _ _) rfl rfl]
  simp

theorem view_foldl_cancelOneLease (env : Env) (k : SchedulingKey)
    (ps : List (TaskID × Address)) (s : State) :
    (ps.foldl (cancelOneLease env k) s).view = s.view := by
  induction ps generalizing s with
  | nil => rfl
  | cons p ps ih => simp [List.foldl_cons, ih]

@[simp] theorem view_CancelWorkerLeaseIfNeeded (env : Env) (k : SchedulingKey) (s : State) :
    (CancelWorkerLeaseIfNeeded env k s).view = s.view := by
  unfold CancelWorkerLeaseIfNeeded
  simp only []
  split
  · simp
  · rw [view_foldl_cancelOneLease]; simp

/-! ## Sequences of changes of the view -/

theorem MovesZ.toN {env : Env} {A B : View} (h : MovesZ env A B) : MovesN env A B := by
  induction h with
  | refl => exact Relation.ReflTransGen.refl
  | tail _ hm ih => exact Relation.ReflTransGen.tail ih ⟨Kind.neutral, by decide, hm⟩

theorem MovesZ.toR {env : Env} {A B : View} (h : MovesZ env A B) : MovesR env A B := by
  induction h with
  | refl => exact Relation.ReflTransGen.refl
  | tail _ hm ih => exact Relation.ReflTransGen.tail ih ⟨Kind.neutral, by decide, hm⟩

theorem MovesN.n_toPhased {env : Env} {A B : View} (h : MovesN env A B) : Phased env A B :=
  ⟨B, h, Relation.ReflTransGen.refl⟩

theorem MovesR.r_toPhased {env : Env} {A B : View} (h : MovesR env A B) : Phased env A B :=
  ⟨A, Relation.ReflTransGen.refl, h⟩

theorem Phased.refl (env : Env) (A : View) : Phased env A A :=
  ⟨A, Relation.ReflTransGen.refl, Relation.ReflTransGen.refl⟩

theorem Phased.after {env : Env} {A B C : View} (h₁ : MovesN env A B)
    (h₂ : Phased env B C) : Phased env A C := by
  obtain ⟨M, hn, hr⟩ := h₂
  exact ⟨M, Relation.ReflTransGen.trans h₁ hn, hr⟩

theorem Phased.before {env : Env} {A B C : View} (h₁ : Phased env A B)
    (h₂ : MovesR env B C) : Phased env A C := by
  obtain ⟨M, hn, hr⟩ := h₁
  exact ⟨M, hn, Relation.ReflTransGen.trans hr h₂⟩

/-! ## What the functions do to the view -/

/-- The view after `sendLeaseRequest`: one pending lease request, one lease
closure and one lease payload more, all with the id drawn. -/
theorem view_sendLeaseRequest (env : Env) (k : SchedulingKey) (hint : Option Address)
    (s : State) :
    ∃ (spec : TaskSpecification) (addr : Address),
      spec = { (s.entry k).resource_spec with task_id := env.from_random s.random_draws } ∧
      (sendLeaseRequest env k hint s).view =
        { s.view with
          pending := Function.update s.view.pending k
            (Map.emplace spec.task_id addr (s.view.pending k))
          leases := s.view.leases ++ [Callback.lease k spec.task_id spec.name hint.isSome addr]
          requested := s.view.requested ++ [spec]
          draws := s.view.draws + 1 } := by
  cases hint with
  | none =>
    refine ⟨{ (s.entry k).resource_spec with task_id := env.from_random s.random_draws },
      (env.best_node
        { (s.entry k).resource_spec with task_id := env.from_random s.random_draws }).1,
      rfl, ?_⟩
    unfold sendLeaseRequest
    simp only [view_ReportWorkerBacklogIfNeeded, view_setEntry]
    rw [view_register, view_call, view_GetOrConnectLeaseClient]
    simp only [view_countRandomDraw, view_countLeaseRequested]
    apply View.ext <;>
      simp [queue_eq_view, pending_eq_view, active_eq_view, busy_eq_view, Callback.isPush,
        Callback.isLease, Call.pushed, Call.requested, State.countLeaseRequested]
  | some a =>
    refine ⟨{ (s.entry k).resource_spec with task_id := env.from_random s.random_draws },
      a, rfl, ?_⟩
    unfold sendLeaseRequest
    simp only [view_ReportWorkerBacklogIfNeeded, view_setEntry]
    rw [view_register, view_call, view_GetOrConnectLeaseClient]
    simp only [view_countRandomDraw, view_countLeaseRequested]
    apply View.ext <;>
      simp [queue_eq_view, pending_eq_view, active_eq_view, busy_eq_view, Callback.isPush,
        Callback.isLease, Call.pushed, Call.requested, State.countLeaseRequested]

theorem RequestNewWorkerIfNeeded_moves (env : Env) :
    ∀ (depth : Nat) (k : SchedulingKey) (hint : Option Address) (s s' : State),
      RequestNewWorkerIfNeeded env depth k hint s = Except.ok s' →
      MovesR env s.view s'.view := by
  intro depth
  induction depth with
  | zero => intro k hint s s' h; simp [RequestNewWorkerIfNeeded] at h
  | succ d ih =>
    intro k hint s s' h
    unfold RequestNewWorkerIfNeeded at h
    simp only [] at h
    split at h
    · cases h; simp; exact Relation.ReflTransGen.refl
    · next hlim =>
      split at h
      · cases h; simp; exact Relation.ReflTransGen.refl
      · split at h
        · next hq =>
          split at h
          · next hdel =>
            cases h
            simp only [SchedulingKeyEntry.CanDelete, Bool.and_eq_true, List.isEmpty_iff] at hdel
            obtain ⟨⟨hp, hq'⟩, ha⟩ := hdel
            rw [pending_eq_view] at hp
            rw [queue_eq_view] at hq'
            rw [active_eq_view] at ha
            simp only [view_touchEntry] at hp hq' ha
            refine Relation.ReflTransGen.single ⟨Kind.neutral, by decide, ?_⟩
            have := @Move.gc env s.view k hp hq' ha
            simp only [view_eraseEntry, view_touchEntry]
            convert this using 2
            · funext x; simp only [Function.update_apply]; split <;> simp_all
            · funext x; simp only [Function.update_apply]; split <;> simp_all
            · funext x; simp only [Function.update_apply]; split <;> simp_all
          · cases h; simp; exact Relation.ReflTransGen.refl
        · split at h
          · cases h; simp; exact Relation.ReflTransGen.refl
          · next hlen =>
            have hmove : MoveBut env Kind.shrink s.view
                (sendLeaseRequest env k hint (s.touchEntry k)).view := by
              obtain ⟨spec, addr, hspec, hv⟩ := view_sendLeaseRequest env k hint (s.touchEntry k)
              rw [hv]
              simp only [view_touchEntry]
              refine ⟨Kind.request, by decide, Move.request s.view k spec spec.name _ addr ?_ ?_ ?_⟩
              · rw [pending_eq_view, view_touchEntry] at hlim; omega
              · rw [pending_eq_view, queue_eq_view, view_touchEntry] at hlen; omega
              · rw [hspec]; rfl
            split at h
            · exact Relation.ReflTransGen.head hmove (ih _ _ _ _ h)
            · cases h
              exact Relation.ReflTransGen.single hmove

theorem bind_ok {ε α β : Type} {x : Except ε α} {f : α → Except ε β} {b : β}
    (h : x >>= f = Except.ok b) : ∃ a, x = Except.ok a ∧ f a = Except.ok b := by
  cases x with
  | error e => simp [bind, Except.bind] at h
  | ok a => exact ⟨a, rfl, h⟩

theorem map_ok {ε α β : Type} {x : Except ε α} {g : α → β} {b : β}
    (h : x.map g = Except.ok b) : ∃ a, x = Except.ok a ∧ g a = b := by
  cases x with
  | error e => simp [Except.map] at h
  | ok a => exact ⟨a, rfl, by simpa [Except.map] using h⟩

/-! ### Reads of the state through the primitive operations -/

@[simp] theorem entry_touchEntry (s : State) (k k' : SchedulingKey) :
    (s.touchEntry k).entry k' = s.entry k' := by
  simp [State.entry, State.touchEntry]

@[simp] theorem entry_setEntry (s : State) (k k' : SchedulingKey) (e : SchedulingKeyEntry) :
    (s.setEntry k e).entry k' = if k' = k then e else s.entry k' := by
  simp [State.entry, State.setEntry]

@[simp] theorem entry_eraseEntry (s : State) (k k' : SchedulingKey) :
    (s.eraseEntry k).entry k' = if k' = k then default else s.entry k' := by
  simp [State.entry, State.eraseEntry]

@[simp] theorem entry_touchLease (s : State) (a : Address) (k : SchedulingKey) :
    (s.touchLease a).entry k = s.entry k := rfl

@[simp] theorem entry_setLease (s : State) (a : Address) (l : LeaseEntry) (k : SchedulingKey) :
    (s.setLease a l).entry k = s.entry k := rfl

@[simp] theorem entry_eraseLease (s : State) (a : Address) (k : SchedulingKey) :
    (s.eraseLease a).entry k = s.entry k := rfl

@[simp] theorem entry_emplaceLease (s : State) (a : Address) (l : LeaseEntry)
    (k : SchedulingKey) : (s.emplaceLease a l).entry k = s.entry k := rfl

@[simp] theorem entry_call (s : State) (c : Call) (k : SchedulingKey) :
    (s.call c).entry k = s.entry k := rfl

@[simp] theorem entry_register (s : State) (cb : Callback) (k : SchedulingKey) :
    (s.register cb).entry k = s.entry k := rfl

@[simp] theorem entry_unregister (s : State) (cb : Callback) (k : SchedulingKey) :
    (s.unregister cb).entry k = s.entry k := rfl

@[simp] theorem entry_eraseExecuting (s : State) (t : TaskID) (k : SchedulingKey) :
    (s.eraseExecuting t).entry k = s.entry k := rfl

@[simp] theorem entry_emplaceExecuting (s : State) (t : TaskID) (a : Address)
    (k : SchedulingKey) : (s.emplaceExecuting t a).entry k = s.entry k := rfl

@[simp] theorem entry_eraseGenerator (s : State) (t : TaskID) (k : SchedulingKey) :
    (s.eraseGenerator t).entry k = s.entry k := rfl

@[simp] theorem entry_eraseCancelled (s : State) (t : TaskID) (k : SchedulingKey) :
    (s.eraseCancelled t).entry k = s.entry k := rfl

@[simp] theorem entry_insertCancelled (s : State) (t : TaskID) (k : SchedulingKey) :
    (s.insertCancelled t).entry k = s.entry k := rfl

@[simp] theorem entry_insertFailed (s : State) (t : TaskID) (k : SchedulingKey) :
    (s.insertFailed t).entry k = s.entry k := rfl

@[simp] theorem lease_touchLease (s : State) (a a' : Address) :
    (s.touchLease a).lease a' = s.lease a' := by
  simp [State.lease, State.touchLease]

@[simp] theorem lease_setLease (s : State) (a a' : Address) (l : LeaseEntry) :
    (s.setLease a l).lease a' = if a' = a then l else s.lease a' := by
  simp [State.lease, State.setLease]

@[simp] theorem lease_eraseLease (s : State) (a a' : Address) :
    (s.eraseLease a).lease a' = if a' = a then default else s.lease a' := by
  simp [State.lease, State.eraseLease]

@[simp] theorem lease_touchEntry (s : State) (k : SchedulingKey) (a : Address) :
    (s.touchEntry k).lease a = s.lease a := rfl

@[simp] theorem lease_setEntry (s : State) (k : SchedulingKey) (e : SchedulingKeyEntry)
    (a : Address) : (s.setEntry k e).lease a = s.lease a := rfl

@[simp] theorem lease_eraseEntry (s : State) (k : SchedulingKey) (a : Address) :
    (s.eraseEntry k).lease a = s.lease a := rfl

@[simp] theorem lease_call (s : State) (c : Call) (a : Address) :
    (s.call c).lease a = s.lease a := rfl

@[simp] theorem lease_register (s : State) (cb : Callback) (a : Address) :
    (s.register cb).lease a = s.lease a := rfl

@[simp] theorem lease_unregister (s : State) (cb : Callback) (a : Address) :
    (s.unregister cb).lease a = s.lease a := rfl

@[simp] theorem lease_eraseExecuting (s : State) (t : TaskID) (a : Address) :
    (s.eraseExecuting t).lease a = s.lease a := rfl

@[simp] theorem lease_eraseGenerator (s : State) (t : TaskID) (a : Address) :
    (s.eraseGenerator t).lease a = s.lease a := rfl

@[simp] theorem lease_insertFailed (s : State) (t : TaskID) (a : Address) :
    (s.insertFailed t).lease a = s.lease a := rfl

/-! ### The functions that return and lease workers -/

theorem update_self_of_eq {α β : Type} [DecidableEq α] (f : α → β) (k : α) (v : β)
    (h : f k = v) : Function.update f k v = f := by
  subst h; simp

@[simp] theorem update_pending_self (s : State) (k : SchedulingKey) :
    Function.update s.view.pending k (s.entry k).pending_lease_requests = s.view.pending :=
  update_self_of_eq _ _ _ rfl

@[simp] theorem update_queue_self (s : State) (k : SchedulingKey) :
    Function.update s.view.queue k (s.entry k).task_queue = s.view.queue :=
  update_self_of_eq _ _ _ rfl

@[simp] theorem update_active_self (s : State) (k : SchedulingKey) :
    Function.update s.view.active k (s.entry k).active_workers = s.view.active :=
  update_self_of_eq _ _ _ rfl

@[simp] theorem update_busy_self (s : State) (k : SchedulingKey) :
    Function.update s.view.busy k (s.entry k).num_busy_workers = s.view.busy :=
  update_self_of_eq _ _ _ rfl

@[simp] theorem update_lease_busy_self (s : State) (a : Address) :
    Function.update s.view.lease_busy a (s.lease a).is_busy = s.view.lease_busy :=
  update_self_of_eq _ _ _ rfl

/-- Deleting an entry that can be deleted is a change of the view the
submitter may make. -/
theorem gc_move (env : Env) (s : State) (k : SchedulingKey)
    (h : (s.entry k).CanDelete = true) : Move env Kind.neutral s.view (s.eraseEntry k).view := by
  simp only [SchedulingKeyEntry.CanDelete, Bool.and_eq_true, List.isEmpty_iff] at h
  obtain ⟨⟨hp, hq⟩, ha⟩ := h
  rw [pending_eq_view] at hp
  rw [queue_eq_view] at hq
  rw [active_eq_view] at ha
  have := @Move.gc env s.view k hp hq ha
  rw [view_eraseEntry, update_self_of_eq _ _ _ hp, update_self_of_eq _ _ _ hq,
    update_self_of_eq _ _ _ ha]
  exact this

theorem ReturnWorker_moves (env : Env) (a : Address) (we : Bool) (ed : Message) (wx : Bool)
    (k : SchedulingKey) (s s' : State)
    (h : ReturnWorker env a we ed wx k s = Except.ok s') : MovesZ env s.view s'.view := by
  unfold ReturnWorker at h
  simp only [] at h
  split at h
  · simp at h
  · split at h
    · simp at h
    · next lease_client hc =>
      split at h
      · simp at h
      · next hb =>
        cases h
        have hb' : s.view.lease_busy a = false := by
          simpa [lease_busy_eq_view] using hb
        have h1 : Move env Kind.neutral s.view
            (((s.touchEntry k).touchLease a).setEntry k
              { (s.touchEntry k).entry k with
                active_workers :=
                  HashSet.erase a ((s.touchEntry k).entry k).active_workers }).view := by
          have := @Move.returned env s.view a k hb'
          simp only [view_setEntry, view_touchLease, view_touchEntry, entry_touchEntry,
            update_pending_self, update_queue_self, update_busy_self]
          exact this
        have hfin : ∀ t : State, t.view.lease_busy a = false →
            ((if !(env.return_worker_status a).ok then
                (t.call (Call.ReturnWorker lease_client a.port a.worker_id we ed wx)).call
                  (Call.LogErrorReturningWorker (env.return_worker_status a))
              else t.call (Call.ReturnWorker lease_client a.port a.worker_id we ed wx)).eraseLease
                a).view = t.view := by
          intro t ht
          rw [view_eraseLease]
          split
          · rw [view_call_other _ (Call.LogErrorReturningWorker _) rfl rfl,
              view_call_other _ (Call.ReturnWorker _ _ _ _ _ _) rfl rfl,
              update_self_of_eq _ _ _ ht]
          · rw [view_call_other _ (Call.ReturnWorker _ _ _ _ _ _) rfl rfl,
              update_self_of_eq _ _ _ ht]
        rw [hfin]
        · split
          · next hdel =>
            refine Relation.ReflTransGen.tail (Relation.ReflTransGen.single h1) ?_
            exact gc_move env _ k (by simpa using hdel)
          · exact Relation.ReflTransGen.single h1
        · split <;> simpa using hb'

theorem AddWorkerLeaseClient_moves (env : Env) (clk : Clock) (a : Address) (c : LeaseClient)
    (res : ResourceMapping) (k : SchedulingKey) (t : TaskID) (s s' : State)
    (h : AddWorkerLeaseClient env clk a c res k t s = Except.ok s') :
    Move env Kind.neutral s.view s'.view ∧ a ∈ s'.view.active k := by
  unfold AddWorkerLeaseClient at h
  simp only [] at h
  split at h
  · simp at h
  · next hmem =>
    split at h
    · cases h
      have hv : (((s.call (Call.GetOrConnect a)).emplaceLease a
          { lease_client := some c, lease_expiration_time := wrapInt64 (clk.mono + env.lease_timeout_ms),
            assigned_resources := res, scheduling_key := k, task_id := t }).touchEntry k).view
          = s.view := by
        rw [view_touchEntry, view_emplaceLease _ _ _ rfl,
          view_call_other _ (Call.GetOrConnect a) rfl rfl]
      constructor
      · have := @Move.grant env s.view a k (by simpa [active_eq_view] using hmem)
        simp only [view_setEntry, hv, entry_touchEntry, entry_emplaceLease, entry_call,
          update_pending_self, update_queue_self, update_busy_self]
        exact this
      · simp only [view_setEntry, hv, entry_touchEntry, entry_emplaceLease, entry_call,
          Function.update_same]
        exact HashSet.mem_insert.mpr (Or.inl rfl)
    · simp at h

@[simp] theorem view_PushNormalTask (a : Address) (k : SchedulingKey)
    (spec : TaskSpecification) (res : ResourceMapping) (s : State) :
    (PushNormalTask a k spec res s).view =
      { s.view with
        pushes := s.view.pushes ++
          [Callback.push spec spec.task_id spec.IsActorCreationTask k a res]
        pushed := s.view.pushed ++ [(k, spec)] } := by
  unfold PushNormalTask
  simp only []
  rw [view_register, view_call, view_call_other _ (Call.MarkTaskWaitingForExecution _ _ _) rfl rfl]
  simp [Callback.isPush, Callback.isLease, Call.pushed, Call.requested]

theorem dispatchWhile_moves (env : Env) (clk : Clock) (a : Address) (k : SchedulingKey)
    (res : ResourceMapping) :
    ∀ (n : Nat) (s s' : State), a ∈ s.view.active k →
      dispatchWhile clk a k res n s = Except.ok s' → MovesN env s.view s'.view := by
  intro n
  induction n with
  | zero =>
    intro s s' _ h
    simp only [dispatchWhile] at h
    cases h
    exact Relation.ReflTransGen.refl
  | succ n ih =>
    intro s s' ha h
    unfold dispatchWhile at h
    simp only [] at h
    split at h
    · cases h; exact Relation.ReflTransGen.refl
    · next front rest hq =>
      split at h
      · cases h; exact Relation.ReflTransGen.refl
      · next hb =>
        split at h
        · simp at h
        · have hmove := @Move.dispatch env s.view a k front rest clk.sys res
            (by rw [← queue_eq_view]; exact hq)
            (by simpa [lease_busy_eq_view] using hb) ha
          refine Relation.ReflTransGen.head ⟨Kind.shrink, by decide, ?_⟩ (ih _ _ ?_ h)
          · convert hmove using 1
            simp only [view_PushNormalTask, view_emplaceExecuting, view_setEntry, view_setLease,
              entry_setLease, entry_setEntry, if_true]
            apply View.ext <;>
              simp [pending_eq_view, active_eq_view, busy_eq_view,
                TaskSpecification.IsActorCreationTask]
          · simp only [view_PushNormalTask, view_emplaceExecuting, view_setEntry, view_setLease,
              entry_setLease, entry_setEntry, if_true, Function.update_same]
            exact ha

theorem OnWorkerIdle_moves (env : Env) (depth : Nat) (clk : Clock) (a : Address)
    (k : SchedulingKey) (we : Bool) (ed : Message) (wx : Bool) (res : ResourceMapping)
    (s s' : State) (ha : a ∈ s.view.active k)
    (h : OnWorkerIdle env depth clk a k we ed wx res s = Except.ok s') :
    Phased env s.view s'.view := by
  unfold OnWorkerIdle at h
  simp only [] at h
  split at h
  · cases h
    rw [view_touchLease]
    exact Phased.refl env _
  · split at h
    · split at h
      · simp at h
      · obtain ⟨s₁, h₁, h₂⟩ := bind_ok h
        have hr := RequestNewWorkerIfNeeded_moves env _ _ _ _ _ h₂
        split at h₁
        · have hz := ReturnWorker_moves env _ _ _ _ _ _ _ h₁
          simp only [view_touchEntry, view_touchLease] at hz
          exact ⟨_, hz.toN, hr⟩
        · cases h₁
          simp only [view_touchEntry, view_touchLease] at hr
          exact hr.r_toPhased
    · obtain ⟨s₁, h₁, h₂⟩ := bind_ok h
      have hr := RequestNewWorkerIfNeeded_moves env _ _ _ _ _ h₂
      simp only [view_CancelWorkerLeaseIfNeeded] at hr
      have hn := dispatchWhile_moves env clk a k res _ _ _ (by
        rw [view_call_other _ (Call.GetOrConnect a) rfl rfl, view_touchEntry, view_touchLease]
        exact ha) h₁
      rw [view_call_other _ (Call.GetOrConnect a) rfl rfl, view_touchEntry,
        view_touchLease] at hn
      exact ⟨_, hn, hr⟩

/-! ### The entry points and the closures -/

theorem view_SubmitTask (t : TaskSpecification) (s s' : State)
    (h : SubmitTask t s = Except.ok s') : s'.view = s.view := by
  unfold SubmitTask at h
  split at h
  · simp at h
  · cases h
    rw [view_register_other _ (Callback.resolve t) rfl rfl,
      view_call_other _ (Call.ResolveDependencies t) rfl rfl, view_countTaskSubmitted]

theorem dispatchToIdleWorker_moves (env : Env) (depth : Nat) (clk : Clock)
    (k : SchedulingKey) :
    ∀ (ws : List Address) (s s' : State), (∀ a ∈ ws, a ∈ s.view.active k) →
      dispatchToIdleWorker env depth clk k ws s = Except.ok s' → Phased env s.view s'.view := by
  intro ws
  induction ws with
  | nil =>
    intro s s' _ h
    simp only [dispatchToIdleWorker] at h
    cases h
    exact Phased.refl env _
  | cons a ws ih =>
    intro s s' hws h
    unfold dispatchToIdleWorker at h
    split at h
    · simp at h
    · split at h
      · exact OnWorkerIdle_moves env _ _ _ _ _ _ _ _ _ _ (hws a (List.mem_cons_self _ _)) h
      · exact ih _ _ (fun b hb => hws b (List.mem_cons_of_mem _ hb)) h

theorem OnDependenciesResolved_moves (env : Env) (depth : Nat) (clk : Clock)
    (t : TaskSpecification) (status : Status) (will_retry : Bool) (s s' : State)
    (h : OnDependenciesResolved env depth clk t status will_retry s = Except.ok s') :
    Phased env
      (if status.ok = true ∧ t.task_id ∉ s.cancelled_tasks then
        s.view.enqueue t.GetSchedulingKey
          { t with dependency_resolution_timestamp_ms := clk.sys }
       else s.view) s'.view := by
  unfold OnDependenciesResolved at h
  simp only [] at h
  split at h
  · next hok =>
    have hok' : ¬ (status.ok = true ∧ t.task_id ∉ s.cancelled_tasks) := by
      intro hc; simp [hc.1] at hok
    rw [if_neg hok']
    split at h <;> cases h
    · rw [view_eraseCancelled, view_call_other _ (Call.FailOrRetryPendingTask _ _ _ _ _ _) rfl rfl,
        view_call_other _ (Call.MarkDependenciesResolved _) rfl rfl]
      exact Phased.refl env _
    · rw [view_call_other _ (Call.FailOrRetryPendingTask _ _ _ _ _ _) rfl rfl,
        view_call_other _ (Call.MarkDependenciesResolved _) rfl rfl]
      exact Phased.refl env _
  · next hok =>
    split at h
    · next hc =>
      have hok' : ¬ (status.ok = true ∧ t.task_id ∉ s.cancelled_tasks) := by
        intro hc'; exact hc'.2 hc
      rw [if_neg hok']
      cases h
      rw [view_call_other _ (Call.FailPendingTask _ _ _ _) rfl rfl, view_eraseCancelled,
        view_call_other _ (Call.MarkDependenciesResolved _) rfl rfl]
      exact Phased.refl env _
    · next hc =>
      have hok' : status.ok = true ∧ t.task_id ∉ s.cancelled_tasks := by
        refine ⟨by simpa using hok, hc⟩
      rw [if_pos hok']
      obtain ⟨s₁, h₁, h₂⟩ := bind_ok h
      have hr := RequestNewWorkerIfNeeded_moves env _ _ _ _ _ h₂
      have hv : (((s.call (Call.MarkDependenciesResolved t.task_id)).touchEntry
            (TaskSpecification.GetSchedulingKey
              { t with dependency_resolution_timestamp_ms := clk.sys })).setEntry
            (TaskSpecification.GetSchedulingKey
              { t with dependency_resolution_timestamp_ms := clk.sys })
            { ((s.call (Call.MarkDependenciesResolved t.task_id)).touchEntry
                (TaskSpecification.GetSchedulingKey
                  { t with dependency_resolution_timestamp_ms := clk.sys })).entry
                (TaskSpecification.GetSchedulingKey
                  { t with dependency_resolution_timestamp_ms := clk.sys }) with
              task_queue :=
                (((s.call (Call.MarkDependenciesResolved t.task_id)).touchEntry
                  (TaskSpecification.GetSchedulingKey
                    { t with dependency_resolution_timestamp_ms := clk.sys })).entry
                  (TaskSpecification.GetSchedulingKey
                    { t with dependency_resolution_timestamp_ms := clk.sys })).task_queue ++
                  [{ t with dependency_resolution_timestamp_ms := clk.sys }]
              resource_spec := { t with dependency_resolution_timestamp_ms := clk.sys } }).view =
          s.view.enqueue t.GetSchedulingKey
            { t with dependency_resolution_timestamp_ms := clk.sys } := by
        rw [view_setEntry, view_touchEntry,
          view_call_other _ (Call.MarkDependenciesResolved _) rfl rfl]
        simp only [entry_touchEntry, entry_call, update_pending_self, update_active_self,
          update_busy_self]
        rfl
      rw [← hv]
      split at h₁
      · refine Phased.before (dispatchToIdleWorker_moves env _ _ _ _ _ _ ?_ h₁) hr
        intro a ha
        exact ha
      · cases h₁
        exact hr.r_toPhased

theorem drainQueue_moves (env : Env) (k : SchedulingKey) (et : ErrorType) (ei : RayErrorInfo)
    (es : Status) (s : State) : MovesN env s.view (drainQueue k et ei es s).state.view := by
  unfold drainQueue
  simp only []
  have h1 : Move env Kind.shrink s.view
      (s.setEntry k { s.entry k with task_queue := [] }).view := by
    have := @Move.shrinkQueue env s.view k [] (List.nil_sublist _)
    simp only [view_setEntry, update_pending_self, update_active_self, update_busy_self]
    exact this
  split
  · next hdel =>
    exact Relation.ReflTransGen.tail
      (Relation.ReflTransGen.single ⟨Kind.shrink, by decide, h1⟩)
      ⟨Kind.neutral, by decide, gc_move env _ k (by simpa using hdel)⟩
  · exact Relation.ReflTransGen.single ⟨Kind.shrink, by decide, h1⟩

theorem RequestNewWorkerIfNeeded_map_moves (env : Env) (depth : Nat) (k : SchedulingKey)
    (hint : Option Address) (s : State) (o : LeaseReplyOutcome)
    (h : (RequestNewWorkerIfNeeded env depth k hint s).map (fun s => { state := s }) =
      Except.ok o) : MovesR env s.view o.state.view := by
  obtain ⟨s₁, h₁, h₂⟩ := map_ok h
  subst h₂
  exact RequestNewWorkerIfNeeded_moves env _ _ _ _ _ h₁

/-- The locked section of the lease-reply closure, run after the closure was
taken out of the registered ones: the view first loses the pending lease
request of the reply. -/
theorem leaseReplyLocked_moves (env : Env) (depth : Nat) (clk : Clock) (k : SchedulingKey)
    (id : TaskID) (name : String) (sp : Bool) (ra : Address) (status : Status)
    (reply : RequestWorkerLeaseReply) (s : State) (o : LeaseReplyOutcome)
    (h : leaseReplyLocked env depth clk k id name sp ra status reply s = Except.ok o) :
    Phased env
      { s.view with pending := Function.update s.view.pending k (Map.erase id (s.view.pending k)) }
      o.state.view := by
  have hv : ((GetOrConnectLeaseClient env ra (s.touchEntry k)).2.setEntry k
      { (s.touchEntry k).entry k with
        pending_lease_requests :=
          Map.erase id ((s.touchEntry k).entry k).pending_lease_requests }).view =
      { s.view with
        pending := Function.update s.view.pending k (Map.erase id (s.view.pending k)) } := by
    rw [view_setEntry, view_GetOrConnectLeaseClient, view_touchEntry]
    simp only [entry_touchEntry, update_queue_self, update_active_self, update_busy_self]
    rfl
  rw [← hv]
  unfold leaseReplyLocked at h
  simp only [] at h
  split at h
  · split at h
    · split at h
      · cases h
        exact (drainQueue_moves env _ _ _ _ _).n_toPhased
      · exact (RequestNewWorkerIfNeeded_map_moves env _ _ _ _ _ h).r_toPhased
    · split at h
      · split at h
        · simp at h
        · exact (RequestNewWorkerIfNeeded_map_moves env _ _ _ _ _ h).r_toPhased
      · split at h
        · obtain ⟨s₁, h₁, h₂⟩ := bind_ok h
          obtain ⟨hg, hmem⟩ := AddWorkerLeaseClient_moves env _ _ _ _ _ _ _ _ h₁
          split at h₂
          · simp at h₂
          · obtain ⟨s₂, h₃, h₄⟩ := map_ok h₂
            subst h₄
            exact Phased.after (Relation.ReflTransGen.single ⟨Kind.neutral, by decide, hg⟩)
              (OnWorkerIdle_moves env _ _ _ _ _ _ _ _ _ _ hmem h₃)
        · split at h
          · simp at h
          · exact (RequestNewWorkerIfNeeded_map_moves env _ _ _ _ _ h).r_toPhased
  · split at h
    · exact (RequestNewWorkerIfNeeded_map_moves env _ _ _ _ _ h).r_toPhased
    · split at h
      · split at h
        · simp at h
        · split at h
          · simp at h
          · cases h
            exact (drainQueue_moves env _ _ _ _ _).n_toPhased
      · exact (RequestNewWorkerIfNeeded_map_moves env _ _ _ _ _ h).r_toPhased

@[simp] theorem view_failOneTask (et : ErrorType) (es : Status) (ei : RayErrorInfo) (s : State)
    (t : TaskSpecification) : (failOneTask et es ei s t).view = s.view := by
  unfold failOneTask
  split <;> exact view_call_other _ (Call.FailPendingTask _ _ _ _) rfl rfl

theorem view_foldl_failOneTask (et : ErrorType) (es : Status) (ei : RayErrorInfo)
    (ts : List TaskSpecification) (s : State) :
    (ts.foldl (failOneTask et es ei) s).view = s.view := by
  induction ts generalizing s with
  | nil => rfl
  | cons t ts ih => simp [List.foldl_cons, ih]

/-- The lease-reply closure, from the state in which it is still registered. -/
theorem OnLeaseReply_moves (env : Env) (depth : Nat) (clk : Clock) (k : SchedulingKey)
    (id : TaskID) (name : String) (sp : Bool) (ra : Address) (status : Status)
    (reply : RequestWorkerLeaseReply) (s s' : State)
    (hcb : Callback.lease k id name sp ra ∈ s.callbacks)
    (h : OnLeaseReply env depth clk k id name sp ra status reply
      (s.unregister (Callback.lease k id name sp ra)) = Except.ok s') :
    Phased env s.view s'.view := by
  unfold OnLeaseReply at h
  obtain ⟨o, h₁, h₂⟩ := bind_ok h
  simp only [] at h₂
  cases h₂
  rw [view_foldl_failOneTask]
  have hp := leaseReplyLocked_moves env _ _ _ _ _ _ _ _ _ _ _ h₁
  refine Phased.after (Relation.ReflTransGen.single ⟨Kind.neutral, by decide, ?_⟩) hp
  have hm := @Move.leaseReplied env s.view k id name sp ra (by
    simp only [State.view, List.mem_filter]
    exact ⟨hcb, rfl⟩)
  rw [view_unregister]
  simp only [Callback.isPush, Callback.isLease, if_true, Bool.false_eq_true, if_false]
  exact hm

theorem view_OnCancelLeaseReply (env : Env) (k : SchedulingKey) (status : Status)
    (reply : CancelWorkerLeaseReply) (s : State) :
    (OnCancelLeaseReply env k status reply s).view = s.view := by
  unfold OnCancelLeaseReply
  split <;> simp

@[simp] theorem view_HandleGetTaskFailureCause (status : Status) (t : TaskID) (a : Address)
    (rs : Status) (reply : GetTaskFailureCauseReply) (wr : Bool) (s : State) :
    (HandleGetTaskFailureCause status t a rs reply wr s).2.view = s.view := by
  unfold HandleGetTaskFailureCause
  split
  · exact view_call_other _ (Call.FailOrRetryPendingTask _ _ _ _ _ _) rfl rfl
  · exact view_call_other _ (Call.FailOrRetryPendingTask _ _ _ _ _ _) rfl rfl

theorem view_OnFailureCauseReply (status : Status) (t : TaskID) (a : Address) (rs : Status)
    (reply : GetTaskFailureCauseReply) (wr : Bool) (s : State) :
    (OnFailureCauseReply status t a rs reply wr s).view = s.view := by
  unfold OnFailureCauseReply
  simp only []
  rw [view_eraseFailed]
  split <;> simp

theorem view_OnCancelTaskReply (env : Env) (clk : Clock) (t : TaskSpecification)
    (fk rc : Bool) (status : Status) (reply : CancelTaskReply) (s : State) :
    (OnCancelTaskReply env clk t fk rc status reply s).view = s.view := by
  unfold OnCancelTaskReply
  simp only []
  split
  · simp
  · split
    · split
      · rw [view_register_other _ (Callback.cancel_retry _ _ _) rfl rfl]
        split <;> simp
      · simp
    · simp

theorem view_CancelRemoteTask (o : ObjectID) (a : Address) (fk rc : Bool) (s : State) :
    (CancelRemoteTask o a fk rc s).2.view = s.view := by
  unfold CancelRemoteTask
  simp only []
  rw [view_call_other _ (Call.RemoteCancelTask _ _) rfl rfl,
    view_call_other _ (Call.GetOrConnect _) rfl rfl]

theorem view_QueueGeneratorForResubmit (t : TaskSpecification) (s : State) :
    (QueueGeneratorForResubmit t s).2.view = s.view := by
  unfold QueueGeneratorForResubmit
  split <;> simp

theorem view_pushReplyOutcome (spec : TaskSpecification) (t : TaskID) (a : Address)
    (status : Status) (reply : PushTaskReply) (rg ra : Bool) (s : State) :
    (pushReplyOutcome spec t a status reply rg ra s).view = s.view := by
  unfold pushReplyOutcome
  simp only []
  split
  · split
    · exact view_call_other _ (Call.FailPendingTask _ _ _ _) rfl rfl
    · split
      · exact view_call_other _ (Call.MarkGeneratorFailedAndResubmit _) rfl rfl
      · split
        · exact view_call_other _ (Call.CompletePendingTask _ _ _ _) rfl rfl
        · split
          · rw [view_call_other _ (Call.CompletePendingTask _ _ _ _) rfl rfl]
            exact view_call_other _ (Call.RetryTaskIfPossible _ _) rfl rfl
          · exact view_call_other _ (Call.RetryTaskIfPossible _ _) rfl rfl
  · rfl

theorem failurePath_view (status : Status) (t : TaskID) (a : Address) (s s' : State)
    (h : (if (!status.ok) = true then
        match ((s.insertFailed t).touchLease a).lease a |>.lease_client with
        | none => Except.error Abort.check_failed
        | some lease_client =>
          Except.ok ((((s.insertFailed t).touchLease a).call
            (Call.GetTaskFailureCause lease_client
              (((s.insertFailed t).touchLease a).lease a).task_id)).register
            (Callback.failure_cause status t a))
      else Except.ok s) = Except.ok s') : s'.view = s.view := by
  split at h
  · split at h
    · simp at h
    · cases h
      rw [view_register_other _ (Callback.failure_cause _ _ _) rfl rfl,
        view_call_other _ (Call.GetTaskFailureCause _ _) rfl rfl, view_touchLease,
        view_insertFailed]
  · cases h; rfl

theorem pushReplyLocked_moves (env : Env) (depth : Nat) (clk : Clock) (t : TaskID) (ac : Bool)
    (k : SchedulingKey) (a : Address) (res : ResourceMapping) (status : Status)
    (reply : PushTaskReply) (s : State) (r : Bool × State)
    (ha : a ∈ s.view.active k)
    (h : pushReplyLocked env depth clk t ac k a res status reply s = Except.ok r) :
    s.view.lease_busy a = true ∧ 1 ≤ s.view.busy k ∧
    Phased env
      { s.view with
        exec := Function.update s.view.exec t none
        lease_busy := Function.update s.view.lease_busy a false
        busy := Function.update s.view.busy k (s.view.busy k - 1) } r.2.view := by
  unfold pushReplyLocked at h
  simp only [] at h
  split at h
  · simp at h
  · next hb =>
    split at h
    · simp at h
    · split at h
      · simp at h
      · next hn =>
        obtain ⟨s₅, h₁, h₂⟩ := bind_ok h
        obtain ⟨s₆, h₃, h₄⟩ := bind_ok h₂
        cases h₄
        have e1 := failurePath_view _ _ _ _ _ h₁
        simp only [view_setEntry, view_touchEntry, view_setLease, view_touchLease,
          view_eraseGenerator, view_eraseExecuting, entry_touchEntry, entry_setLease,
          entry_touchLease, entry_eraseGenerator, entry_eraseExecuting, lease_touchLease,
          lease_eraseGenerator, lease_eraseExecuting, update_pending_self, update_queue_self,
          update_active_self] at e1
        simp only [lease_touchLease, lease_eraseGenerator, lease_eraseExecuting,
          Bool.not_eq_true', Bool.not_eq_false] at hb
        simp only [entry_touchEntry, entry_setLease, entry_touchLease, entry_eraseGenerator,
          entry_eraseExecuting, not_lt] at hn
        refine ⟨hb, hn, ?_⟩
        have e1' : s₅.view =
            { s.view with
              exec := Function.update s.view.exec t none
              lease_busy := Function.update s.view.lease_busy a false
              busy := Function.update s.view.busy k (s.view.busy k - 1) } := by
          rw [e1]; rfl
        rw [← e1']
        split at h₃
        · refine OnWorkerIdle_moves env _ _ _ _ _ _ _ _ _ _ ?_ h₃
          rw [e1']
          exact ha
        · cases h₃
          exact Phased.refl env _

/-- The push-reply closure, from the state in which it is still registered. -/
theorem OnPushReply_moves (env : Env) (depth : Nat) (clk : Clock) (spec : TaskSpecification)
    (t : TaskID) (ac : Bool) (k : SchedulingKey) (a : Address) (res : ResourceMapping)
    (status : Status) (reply : PushTaskReply) (ra : Bool) (s s' : State)
    (hcb : Callback.push spec t ac k a res ∈ s.callbacks) (ha : a ∈ s.view.active k)
    (h : OnPushReply env depth clk spec t ac k a res status reply ra
      (s.unregister (Callback.push spec t ac k a res)) = Except.ok s') :
    Phased env s.view s'.view := by
  unfold OnPushReply at h
  obtain ⟨r, h₁, h₂⟩ := bind_ok h
  cases h₂
  rw [view_pushReplyOutcome]
  have hu : (s.unregister (Callback.push spec t ac k a res)).view =
      { s.view with pushes := s.view.pushes.erase (Callback.push spec t ac k a res) } := by
    rw [view_unregister]
    simp only [Callback.isPush, Callback.isLease, if_true, Bool.false_eq_true, if_false]
  obtain ⟨hb, hn, hp⟩ := pushReplyLocked_moves env _ _ _ _ _ _ _ _ _ _ _
    (by rw [hu]; exact ha) h₁
  rw [hu] at hb hn hp
  refine Phased.after (Relation.ReflTransGen.single ⟨Kind.neutral, by decide, ?_⟩) hp
  exact @Move.pushReplied env s.view spec t ac k a res (by
    simp only [State.view, List.mem_filter]
    exact ⟨hcb, rfl⟩) hb hn

theorem view_CancelDependencyResolution (t : TaskID) (s : State) :
    (CancelDependencyResolution t s).view = s.view := by
  unfold CancelDependencyResolution
  simp only [view_keepCallbacks_keepOnCancel]
  exact view_call_other _ (Call.CancelDependencyResolution _) rfl rfl

theorem CancelTask_moves (env : Env) (spec : TaskSpecification) (fk rc ip : Bool)
    (s : State) (r : Status × State)
    (h : CancelTask env spec fk rc ip s = Except.ok r) : MovesN env s.view r.2.view := by
  unfold CancelTask at h
  simp only [] at h
  split at h
  · cases h; exact Relation.ReflTransGen.refl
  · split at h
    · cases h
      rw [view_call_other _ (Call.IsTaskPending _) rfl rfl,
        view_call_other _ (Call.MarkTaskCanceled _) rfl rfl]
      exact Relation.ReflTransGen.refl
    · have hv0 : ((((s.eraseGenerator spec.task_id).call
          (Call.MarkTaskCanceled spec.task_id)).call
          (Call.IsTaskPending spec.task_id)).touchEntry spec.GetSchedulingKey).view = s.view := by
        rw [view_touchEntry, view_call_other _ (Call.IsTaskPending _) rfl rfl,
          view_call_other _ (Call.MarkTaskCanceled _) rfl rfl, view_eraseGenerator]
      split at h
      · next i hi =>
        cases h
        rw [view_call_other _ (Call.FailPendingTask _ _ _ _) rfl rfl,
          view_CancelWorkerLeaseIfNeeded, view_setEntry, hv0]
        simp only [entry_touchEntry, entry_call, entry_eraseGenerator, update_pending_self,
          update_active_self, update_busy_self]
        refine Relation.ReflTransGen.single ⟨Kind.shrink, by decide, ?_⟩
        exact @Move.shrinkQueue env s.view spec.GetSchedulingKey _
          (List.eraseIdx_sublist _ _)
      · split at h
        · simp at h
        · split at h
          · cases h
            have hv1 : ((((((s.eraseGenerator spec.task_id).call
                (Call.MarkTaskCanceled spec.task_id)).call
                (Call.IsTaskPending spec.task_id)).touchEntry
                  spec.GetSchedulingKey).insertCancelled spec.task_id)).view = s.view := by
              rw [view_insertCancelled, hv0]
            have hv2 : ((CancelDependencyResolution spec.task_id
                (((((s.eraseGenerator spec.task_id).call
                  (Call.MarkTaskCanceled spec.task_id)).call
                  (Call.IsTaskPending spec.task_id)).touchEntry
                    spec.GetSchedulingKey).insertCancelled spec.task_id)).call
                (Call.FailPendingTask spec.task_id ErrorType.TASK_CANCELLED none none)).view =
                s.view := by
              rw [view_call_other _ (Call.FailPendingTask _ _ _ _) rfl rfl,
                view_CancelDependencyResolution, hv1]
            simp only []
            split
            · split
              · next hdel =>
                rw [← hv1]
                exact Relation.ReflTransGen.single
                  ⟨Kind.neutral, by decide, gc_move env _ _ (by simpa using hdel)⟩
              · rw [hv1]
                exact Relation.ReflTransGen.refl
            · split
              · next hdel =>
                rw [← hv2]
                exact Relation.ReflTransGen.single
                  ⟨Kind.neutral, by decide, gc_move env _ _ (by simpa using hdel)⟩
              · rw [hv2]
                exact Relation.ReflTransGen.refl
          · cases h
            rw [view_register_other _ (Callback.cancel_task _ _ _ _) rfl rfl,
              view_call_other _ (Call.CancelTask _ _) rfl rfl,
              view_call_other _ (Call.GetOrConnect _) rfl rfl, view_insertCancelled, hv0]
            exact Relation.ReflTransGen.refl

theorem takeCallback_some {cb : Callback} {s s₁ : State} (h : takeCallback cb s = some s₁) :
    cb ∈ s.callbacks ∧ s₁ = s.unregister cb := by
  unfold takeCallback at h
  split at h
  · next hm => exact ⟨hm, by cases h; rfl⟩
  · simp at h

/-- What one step does to the view of a state in which the worker of every
registered push closure is an active worker of the closure's key. -/
theorem step_moves (env : Env) (depth : Nat) (clk : Clock) (ev : Event) (s s' : State)
    (hpa : ∀ spec t ac k a res, Callback.push spec t ac k a res ∈ s.callbacks →
      a ∈ s.view.active k)
    (h : step env depth clk ev s = Except.ok s') :
    Phased env (View.enqueueOpt (appendedBy clk ev s) s.view) s'.view := by
  cases ev with
  | SubmitTask t =>
    simp only [step] at h
    rw [view_SubmitTask _ _ _ h]
    exact Phased.refl env _
  | CancelTask t fk rc ip =>
    simp only [step] at h
    obtain ⟨r, h₁, h₂⟩ := map_ok h
    subst h₂
    exact (CancelTask_moves env _ _ _ _ _ _ h₁).n_toPhased
  | CancelRemoteTask o a fk rc =>
    simp only [step] at h
    cases h
    rw [view_CancelRemoteTask]
    exact Phased.refl env _
  | QueueGeneratorForResubmit t =>
    simp only [step] at h
    cases h
    rw [view_QueueGeneratorForResubmit]
    exact Phased.refl env _
  | ReportWorkerBacklog =>
    simp only [step] at h
    cases h
    simp only [ReportWorkerBacklog, view_ReportWorkerBacklogInternal]
    exact Phased.refl env _
  | resolved t status wr =>
    simp only [step] at h
    split at h
    · simp at h
    · next s₁ hs₁ =>
      obtain ⟨_, rfl⟩ := takeCallback_some hs₁
      have hp := OnDependenciesResolved_moves env _ _ _ _ _ _ _ h
      rw [view_unregister_other _ (Callback.resolve t) rfl rfl] at hp
      simp only [appendedBy, View.enqueueOpt]
      by_cases hc : status.ok = true ∧ t.task_id ∉ s.cancelled_tasks
      · rw [if_pos hc]
        rw [if_pos (show status.ok = true ∧
          t.task_id ∉ (s.unregister (Callback.resolve t)).cancelled_tasks from hc)] at hp
        exact hp
      · rw [if_neg hc]
        rw [if_neg (show ¬ (status.ok = true ∧
          t.task_id ∉ (s.unregister (Callback.resolve t)).cancelled_tasks) from hc)] at hp
        exact hp
  | lease_reply k id name sp ra status reply =>
    simp only [step] at h
    split at h
    · simp at h
    · next s₁ hs₁ =>
      obtain ⟨hm, rfl⟩ := takeCallback_some hs₁
      exact OnLeaseReply_moves env _ _ _ _ _ _ _ _ _ _ _ hm h
  | cancel_lease_reply k status reply =>
    simp only [step] at h
    split at h
    · simp at h
    · next s₁ hs₁ =>
      obtain ⟨_, rfl⟩ := takeCallback_some hs₁
      cases h
      rw [view_OnCancelLeaseReply, view_unregister_other _ (Callback.cancel_lease k) rfl rfl]
      exact Phased.refl env _
  | push_reply spec t ac k a res status reply ra =>
    simp only [step] at h
    split at h
    · simp at h
    · next s₁ hs₁ =>
      obtain ⟨hm, rfl⟩ := takeCallback_some hs₁
      exact OnPushReply_moves env _ _ _ _ _ _ _ _ _ _ _ _ _ hm (hpa _ _ _ _ _ _ hm) h
  | failure_cause_reply status t a rs reply wr =>
    simp only [step] at h
    split at h
    · simp at h
    · next s₁ hs₁ =>
      obtain ⟨_, rfl⟩ := takeCallback_some hs₁
      cases h
      rw [view_OnFailureCauseReply,
        view_unregister_other _ (Callback.failure_cause status t a) rfl rfl]
      exact Phased.refl env _
  | cancel_task_reply t k fk rc status reply =>
    simp only [step] at h
    split at h
    · simp at h
    · next s₁ hs₁ =>
      obtain ⟨_, rfl⟩ := takeCallback_some hs₁
      cases h
      rw [view_OnCancelTaskReply,
        view_unregister_other _ (Callback.cancel_task t k fk rc) rfl rfl]
      exact Phased.refl env _
  | cancel_retry_fired t fk rc ip =>
    simp only [step] at h
    split at h
    · simp at h
    · next s₁ hs₁ =>
      obtain ⟨_, rfl⟩ := takeCallback_some hs₁
      obtain ⟨r, h₁, h₂⟩ := map_ok h
      subst h₂
      have := CancelTask_moves env _ _ _ _ _ _ h₁
      rw [view_unregister_other _ (Callback.cancel_retry t fk rc) rfl rfl] at this
      exact this.n_toPhased

/-! ## The invariant holds in every reachable state -/

theorem pushKey_eq_some {cb : Callback} {k : SchedulingKey} (h : cb.pushKey = some k) :
    ∃ spec t ac a res, cb = Callback.push spec t ac k a res := by
  cases cb <;> simp [Callback.pushKey] at h
  subst h
  exact ⟨_, _, _, _, _, rfl⟩

theorem pushCount_erase (k : SchedulingKey) (cb : Callback) (cbs : List Callback)
    (h : cb ∈ cbs) :
    pushCount k cbs = (if cb.pushKey = some k then 1 else 0) + pushCount k (cbs.erase cb) := by
  unfold pushCount
  rw [(List.perm_cons_erase h).countP_eq, List.countP_cons]
  simp only [decide_eq_true_eq]
  omega

theorem pushAddr_erase_not_mem {cbs : List Callback} {cb : Callback} {a : Address}
    (hn : (cbs.filterMap Callback.pushAddr).Nodup) (h : cb ∈ cbs)
    (ha : cb.pushAddr = some a) : a ∉ (cbs.erase cb).filterMap Callback.pushAddr := by
  have hp := (List.perm_cons_erase h).filterMap Callback.pushAddr
  rw [List.filterMap_cons, ha] at hp
  have := hp.nodup_iff.mp hn
  exact (List.nodup_cons.mp this).1

theorem Inv.init (env : Env) : Inv env ({} : State).view := by
  constructor
  · intro k; simp [State.view, State.entry, Map.get, Map.find]
  · intro k p hp; simp [State.view, State.entry, Map.get, Map.find] at hp
  · simp [State.view]
  · intro spec t ac k a res h; simp [State.view] at h
  · intro t a h; simp [State.view, Map.find] at h
  · intro k; simp [State.view, State.entry, Map.get, Map.find, pushCount]

theorem Inv.enqueue {env : Env} {A : View} (h : Inv env A) (k : SchedulingKey)
    (t : TaskSpecification) : Inv env (A.enqueue k t) :=
  ⟨h.pending_le, h.pending_cb, h.push_nodup, h.push_busy, h.exec_push, h.busy_count⟩

theorem Inv.inv_enqueueOpt {env : Env} {A : View} (h : Inv env A)
    (o : Option (SchedulingKey × TaskSpecification)) : Inv env (A.enqueueOpt o) := by
  cases o with
  | none => exact h
  | some kt => exact h.enqueue kt.1 kt.2

theorem Inv.inv_move {env : Env} {kd : Kind} {A B : View} (hm : Move env kd A B)
    (h : Inv env A) : Inv env B := by
  cases hm with
  | gc _ k hp hq ha =>
    refine ⟨h.pending_le, h.pending_cb, h.push_nodup, h.push_busy, h.exec_push, ?_⟩
    intro k'
    simp only [Function.update_apply]
    split
    · next hk =>
      subst hk
      symm
      unfold pushCount
      rw [List.countP_eq_zero]
      intro cb hcb hkey
      obtain ⟨spec, t, ac, a, res, rfl⟩ := pushKey_eq_some (by simpa using hkey)
      have := (h.push_busy _ _ _ _ _ _ hcb).2
      rw [ha] at this
      simp at this
    · exact h.busy_count k'
  | leaseReplied _ k id name sp addr hcb =>
    refine ⟨?_, ?_, h.push_nodup, h.push_busy, h.exec_push, h.busy_count⟩
    · intro k'
      simp only [Function.update_apply]
      split
      · next hk =>
        subst hk
        exact Nat.le_trans (Map.length_erase_le _ _) (h.pending_le _)
      · exact h.pending_le k'
    · intro k' p hp
      simp only [Function.update_apply] at hp
      split at hp
      · next hk =>
        subst hk
        obtain ⟨hp₁, hp₂⟩ := Map.mem_erase_key.mp hp
        obtain ⟨n', s', hm⟩ := h.pending_cb _ _ hp₁
        refine ⟨n', s', (List.mem_erase_of_ne ?_).mpr hm⟩
        intro he
        injection he with _ h2
        exact hp₂ h2
      · next hk =>
        obtain ⟨n', s', hm⟩ := h.pending_cb _ _ hp
        refine ⟨n', s', (List.mem_erase_of_ne ?_).mpr hm⟩
        intro he
        injection he with h1
        exact hk h1
  | grant _ a k hna =>
    refine ⟨h.pending_le, h.pending_cb, h.push_nodup, ?_, h.exec_push, h.busy_count⟩
    intro spec t ac k' a' res hcb
    obtain ⟨hb, hm⟩ := h.push_busy _ _ _ _ _ _ hcb
    refine ⟨hb, ?_⟩
    simp only [Function.update_apply]
    split
    · next hk => subst hk; exact HashSet.mem_insert.mpr (Or.inr hm)
    · exact hm
  | returned _ a k hb =>
    refine ⟨h.pending_le, h.pending_cb, h.push_nodup, ?_, h.exec_push, h.busy_count⟩
    intro spec t ac k' a' res hcb
    obtain ⟨hb', hm⟩ := h.push_busy _ _ _ _ _ _ hcb
    refine ⟨hb', ?_⟩
    simp only [Function.update_apply]
    split
    · next hk =>
      subst hk
      refine HashSet.mem_erase_elem.mpr ⟨hm, ?_⟩
      intro he
      subst he
      rw [hb] at hb'
      simp at hb'
    · exact hm
  | pushReplied _ spec t ac k a res hcb hb hn =>
    refine ⟨h.pending_le, h.pending_cb, ?_, ?_, ?_, ?_⟩
    · exact h.push_nodup.sublist ((List.erase_sublist _ _).filterMap _)
    · intro spec' t' ac' k' a' res' hcb'
      have hmem := List.mem_of_mem_erase hcb'
      obtain ⟨hb', hm⟩ := h.push_busy _ _ _ _ _ _ hmem
      refine ⟨?_, hm⟩
      simp only [Function.update_apply]
      split
      · next ha =>
        subst ha
        exfalso
        refine pushAddr_erase_not_mem h.push_nodup hcb (a := a') rfl ?_
        exact List.mem_filterMap.mpr ⟨_, hcb', rfl⟩
      · exact hb'
    · intro t' a' he
      simp only [Function.update_apply] at he
      split at he
      · simp at he
      · next ht =>
        obtain ⟨spec', ac', k', res', hm⟩ := h.exec_push _ _ he
        refine ⟨spec', ac', k', res', (List.mem_erase_of_ne ?_).mpr hm⟩
        intro heq
        injection heq with _ h2
        exact ht h2
    · intro k'
      have hc := pushCount_erase k' _ _ hcb
      have hk := h.busy_count k'
      simp only [Callback.pushKey, Option.some.injEq] at hc
      simp only [Function.update_apply]
      split
      · next hk' =>
        subst hk'
        rw [if_pos rfl] at hc
        have := h.busy_count k'
        omega
      · next hk' =>
        rw [if_neg (fun he => hk' he.symm)] at hc
        omega
  | shrinkQueue _ k q hq =>
    exact ⟨h.pending_le, h.pending_cb, h.push_nodup, h.push_busy, h.exec_push, h.busy_count⟩
  | dispatch _ a k front rest sys res hq hb ha =>
    refine ⟨h.pending_le, h.pending_cb, ?_, ?_, ?_, ?_⟩
    · simp only [List.filterMap_append, List.filterMap_cons, Callback.pushAddr,
        List.filterMap_nil]
      refine List.Nodup.append h.push_nodup (List.nodup_singleton _) ?_
      intro x hx hx'
      simp only [List.mem_singleton] at hx'
      subst hx'
      obtain ⟨cb, hcb, hcba⟩ := List.mem_filterMap.mp hx
      cases cb <;> simp [Callback.pushAddr] at hcba
      subst hcba
      have := (h.push_busy _ _ _ _ _ _ hcb).1
      rw [hb] at this
      simp at this
    · intro spec' t' ac' k' a' res' hcb'
      simp only [List.mem_append, List.mem_singleton] at hcb'
      simp only [Function.update_apply]
      rcases hcb' with hold | hnew
      · obtain ⟨hb', hm⟩ := h.push_busy _ _ _ _ _ _ hold
        refine ⟨?_, hm⟩
        split
        · rfl
        · exact hb'
      · injection hnew with _ _ _ hk' ha' _
        subst hk' ha'
        exact ⟨by simp, ha⟩
    · intro t' a' he
      simp only [Function.update_apply] at he
      split at he
      · next ht =>
        subst ht
        cases hx : A.exec front.task_id with
        | none =>
          rw [hx] at he
          simp only [Option.getD_none, Option.some.injEq] at he
          subst he
          exact ⟨_, _, _, _, List.mem_append_right _ (List.mem_singleton.mpr rfl)⟩
        | some a₀ =>
          rw [hx] at he
          simp only [Option.getD_some, Option.some.injEq] at he
          subst he
          obtain ⟨spec', ac', k', res', hm⟩ := h.exec_push _ _ hx
          exact ⟨spec', ac', k', res', List.mem_append_left _ hm⟩
      · obtain ⟨spec', ac', k', res', hm⟩ := h.exec_push _ _ he
        exact ⟨spec', ac', k', res', List.mem_append_left _ hm⟩
    · intro k'
      have hk := h.busy_count k'
      simp only [pushCount, List.countP_append, List.countP_cons, List.countP_nil,
        Callback.pushKey, Option.some.injEq, decide_eq_true_eq, Function.update_apply] at hk ⊢
      split
      · next hk' =>
        subst hk'
        simp only [if_true]
        have := h.busy_count k'
        simp only [pushCount] at this
        omega
      · next hk' =>
        rw [if_neg (fun he => hk' he.symm)]
        omega
  | request _ k spec name sp addr hlim hlen hid =>
    refine ⟨?_, ?_, h.push_nodup, h.push_busy, h.exec_push, h.busy_count⟩
    · intro k'
      simp only [Function.update_apply]
      split
      · next hk =>
        subst hk
        have := Map.length_emplace_le spec.task_id addr (A.pending k')
        omega
      · exact h.pending_le k'
    · intro k' p hp
      simp only [Function.update_apply] at hp
      split at hp
      · next hk =>
        subst hk
        rcases Map.mem_emplace hp with hold | hnew
        · obtain ⟨n', s', hm⟩ := h.pending_cb _ _ hold
          exact ⟨n', s', List.mem_append_left _ hm⟩
        · subst hnew
          exact ⟨name, sp, List.mem_append_right _ (List.mem_singleton.mpr rfl)⟩
      · obtain ⟨n', s', hm⟩ := h.pending_cb _ _ hp
        exact ⟨n', s', List.mem_append_left _ hm⟩

theorem Inv.inv_movesN {env : Env} {A B : View} (hm : MovesN env A B) (h : Inv env A) :
    Inv env B := by
  induction hm with
  | refl => exact h
  | tail _ hstep ih =>
    obtain ⟨kd, _, hmv⟩ := hstep
    exact ih.inv_move hmv

theorem Inv.inv_movesR {env : Env} {A B : View} (hm : MovesR env A B) (h : Inv env A) :
    Inv env B := by
  induction hm with
  | refl => exact h
  | tail _ hstep ih =>
    obtain ⟨kd, _, hmv⟩ := hstep
    exact ih.inv_move hmv

theorem Inv.inv_phased {env : Env} {A B : View} (hm : Phased env A B) (h : Inv env A) :
    Inv env B := by
  obtain ⟨M, hn, hr⟩ := hm
  exact (h.inv_movesN hn).inv_movesR hr

theorem Inv.pushActive {env : Env} {s : State} (h : Inv env s.view) :
    ∀ spec t ac k a res, Callback.push spec t ac k a res ∈ s.callbacks →
      a ∈ s.view.active k := by
  intro spec t ac k a res hcb
  refine (h.push_busy spec t ac k a res ?_).2
  simp only [State.view, List.mem_filter]
  exact ⟨hcb, rfl⟩

/-- The invariant holds in every reachable state. -/
theorem reachable_inv {env : Env} {s : State} (h : Reachable env s) : Inv env s.view := by
  induction h with
  | init => exact Inv.init env
  | step depth clk ev _ hstep ih =>
    exact (ih.inv_enqueueOpt _).inv_phased (step_moves env depth clk ev _ _ ih.pushActive hstep)

/-- The final state of a run that starts in a reachable state is reachable. -/
theorem reachable_run {env : Env} :
    ∀ (inputs : List Input) (s s' : State), Reachable env s →
      run env inputs s = Except.ok s' → Reachable env s' := by
  intro inputs
  induction inputs with
  | nil =>
    intro s s' hs h
    simp only [run] at h
    cases h
    exact hs
  | cons i rest ih =>
    intro s s' hs h
    simp only [run] at h
    obtain ⟨s₁, h₁, h₂⟩ := bind_ok h
    exact ih _ _ (Reachable.step i.depth i.clk i.event hs h₁) h₂

theorem entry_of_find {s : State} {k : SchedulingKey} {e : SchedulingKeyEntry}
    (h : Map.find k s.scheduling_key_entries = some e) : s.entry k = e :=
  Map.get_of_find h

theorem find_lease_of_busy {s : State} {a : Address} (h : (s.lease a).is_busy = true) :
    ∃ l, Map.find a s.worker_to_lease_entry = some l ∧ l.is_busy = true := by
  unfold State.lease Map.get at h
  cases hf : Map.find a s.worker_to_lease_entry with
  | none => rw [hf] at h; simp at h
  | some l => rw [hf] at h; exact ⟨l, rfl, h⟩

theorem pushCount_filter_isPush (k : SchedulingKey) (cbs : List Callback) :
    pushCount k (cbs.filter Callback.isPush) = pushCount k cbs := by
  unfold pushCount
  rw [List.countP_filter]
  apply List.countP_congr
  intro cb _
  cases cb <;> simp [Callback.pushKey, Callback.isPush]

theorem length_filterMap_of_isSome {α β : Type} (f : α → Option β) :
    ∀ l : List α, (∀ x ∈ l, (f x).isSome = true) → (l.filterMap f).length = l.length := by
  intro l
  induction l with
  | nil => intro _; rfl
  | cons x l ih =>
    intro h
    have hx := h x (List.mem_cons_self _ _)
    obtain ⟨y, hy⟩ := Option.isSome_iff_exists.mp hx
    rw [List.filterMap_cons, hy]
    simp only [List.length_cons]
    rw [ih (fun z hz => h z (List.mem_cons_of_mem _ hz))]

/-- The busy count of a key is at most the number of its active workers. -/
theorem Inv.inv_busy_le_active {env : Env} {A : View} (h : Inv env A) (k : SchedulingKey) :
    A.busy k ≤ (A.active k).length := by
  rw [h.busy_count k]
  have hsub : (A.pushes.filter (fun cb => decide (cb.pushKey = some k))).Sublist A.pushes :=
    List.filter_sublist _
  have hlen : pushCount k A.pushes =
      ((A.pushes.filter (fun cb => decide (cb.pushKey = some k))).filterMap
        Callback.pushAddr).length := by
    unfold pushCount
    rw [List.countP_eq_length_filter, length_filterMap_of_isSome]
    intro cb hcb
    obtain ⟨_, hkey⟩ := List.mem_filter.mp hcb
    obtain ⟨spec, t, ac, a, res, rfl⟩ := pushKey_eq_some (by simpa using hkey)
    rfl
  rw [hlen]
  refine (List.subperm_of_subset (h.push_nodup.sublist (hsub.filterMap _)) ?_).length_le
  intro a ha
  obtain ⟨cb, hcb, hcba⟩ := List.mem_filterMap.mp ha
  obtain ⟨hmem, hkey⟩ := List.mem_filter.mp hcb
  obtain ⟨spec, t, ac, a', res, rfl⟩ := pushKey_eq_some (by simpa using hkey)
  simp only [Callback.pushAddr, Option.some.injEq] at hcba
  subst hcba
  exact (h.push_busy _ _ _ _ _ _ hmem).2

/-! ## The pending lease requests against the queue -/

/-- A change that is not a request adds no pending lease request. -/
theorem Move.pending_le_of_not_request {env : Env} {kd : Kind} {A B : View}
    (hm : Move env kd A B) (hk : kd ≠ Kind.request) (k : SchedulingKey) :
    (B.pending k).length ≤ (A.pending k).length := by
  cases hm with
  | gc _ k' => exact Nat.le_refl _
  | leaseReplied _ k' id name sp addr hcb =>
    simp only [Function.update_apply]
    split
    · next h => subst h; exact Map.length_erase_le _ _
    · exact Nat.le_refl _
  | grant _ a k' => exact Nat.le_refl _
  | returned _ a k' => exact Nat.le_refl _
  | pushReplied _ spec t ac k' a res => exact Nat.le_refl _
  | shrinkQueue _ k' q => exact Nat.le_refl _
  | dispatch _ a k' front rest sys res => exact Nat.le_refl _
  | request _ k' spec name sp addr => exact absurd rfl hk

/-- A change that is not a shrink keeps every queue and leaves at most as many
pending lease requests as there were before or as the queue is long. -/
theorem Move.pending_le_of_not_shrink {env : Env} {kd : Kind} {A B : View}
    (hm : Move env kd A B) (hk : kd ≠ Kind.shrink) (k : SchedulingKey) :
    B.queue k = A.queue k ∧
      (B.pending k).length ≤ max (A.pending k).length (B.queue k).length := by
  cases hm with
  | gc _ k' => exact ⟨rfl, Nat.le_max_left _ _⟩
  | leaseReplied _ k' id name sp addr hcb =>
    refine ⟨rfl, ?_⟩
    simp only [Function.update_apply]
    split
    · next h =>
      subst h
      exact Nat.le_trans (Map.length_erase_le _ _) (Nat.le_max_left _ _)
    · exact Nat.le_max_left _ _
  | grant _ a k' => exact ⟨rfl, Nat.le_max_left _ _⟩
  | returned _ a k' => exact ⟨rfl, Nat.le_max_left _ _⟩
  | pushReplied _ spec t ac k' a res => exact ⟨rfl, Nat.le_max_left _ _⟩
  | shrinkQueue _ k' q => exact absurd rfl hk
  | dispatch _ a k' front rest sys res => exact absurd rfl hk
  | request _ k' spec name sp addr hlim hlen hid =>
    refine ⟨rfl, ?_⟩
    simp only [Function.update_apply]
    split
    · next h =>
      subst h
      have := Map.length_emplace_le spec.task_id addr (A.pending k)
      have : (A.pending k).length + 1 ≤ (A.queue k).length := hlen
      omega
    · exact Nat.le_max_left _ _

theorem MovesN.pending_le_n {env : Env} {A B : View} (hm : MovesN env A B)
    (k : SchedulingKey) : (B.pending k).length ≤ (A.pending k).length := by
  induction hm with
  | refl => exact Nat.le_refl _
  | tail _ hstep ih =>
    obtain ⟨kd, hk, hmv⟩ := hstep
    exact Nat.le_trans (hmv.pending_le_of_not_request hk k) ih

theorem MovesR.pending_le_r {env : Env} {A B : View} (hm : MovesR env A B)
    (k : SchedulingKey) :
    B.queue k = A.queue k ∧
      (B.pending k).length ≤ max (A.pending k).length (B.queue k).length := by
  induction hm with
  | refl => exact ⟨rfl, Nat.le_max_left _ _⟩
  | tail _ hstep ih =>
    obtain ⟨kd, hk, hmv⟩ := hstep
    obtain ⟨hq, hp⟩ := hmv.pending_le_of_not_shrink hk k
    obtain ⟨hq', hp'⟩ := ih
    refine ⟨hq.trans hq', ?_⟩
    rw [hq] at hp ⊢
    omega

theorem Phased.pending_le_phased {env : Env} {A B : View} (hm : Phased env A B)
    (k : SchedulingKey) :
    (B.pending k).length ≤ max (A.pending k).length (B.queue k).length := by
  obtain ⟨M, hn, hr⟩ := hm
  have h1 := hn.pending_le_n k
  have h2 := (hr.pending_le_r k).2
  omega

@[simp] theorem pending_enqueueOpt (o : Option (SchedulingKey × TaskSpecification))
    (A : View) : (A.enqueueOpt o).pending = A.pending := by
  cases o <;> rfl

/-! ## The order of the pushes -/

theorem Move.served_sublist_move {env : Env} {kd : Kind} {A B : View} (hm : Move env kd A B)
    (k : SchedulingKey) : (servedThenQueued k B).Sublist (servedThenQueued k A) := by
  cases hm with
  | gc _ k' => exact List.Sublist.refl _
  | leaseReplied _ k' id name sp addr hcb => exact List.Sublist.refl _
  | grant _ a k' => exact List.Sublist.refl _
  | returned _ a k' => exact List.Sublist.refl _
  | pushReplied _ spec t ac k' a res => exact List.Sublist.refl _
  | shrinkQueue _ k' q hq =>
    unfold servedThenQueued
    simp only [Function.update_apply]
    split
    · next h => subst h; exact (List.Sublist.refl _).append (hq.map _)
    · exact List.Sublist.refl _
  | dispatch _ a k' front rest sys res hq hb ha =>
    unfold servedThenQueued
    simp only [Function.update_apply, List.filterMap_append, List.filterMap_cons,
      List.filterMap_nil]
    by_cases h : k = k'
    · subst h
      simp only [if_true, hq, List.map_append, List.map_cons, List.map_nil,
        List.append_assoc, List.singleton_append]
      exact List.Sublist.refl _
    · have h' : ¬ k' = k := fun e => h e.symm
      simp only [h, h', if_false, List.append_nil]
      exact List.Sublist.refl _
  | request _ k' spec name sp addr => exact List.Sublist.refl _

theorem MovesN.served_sublist_n {env : Env} {A B : View} (hm : MovesN env A B)
    (k : SchedulingKey) : (servedThenQueued k B).Sublist (servedThenQueued k A) := by
  induction hm with
  | refl => exact List.Sublist.refl _
  | tail _ hstep ih =>
    obtain ⟨kd, _, hmv⟩ := hstep
    exact (hmv.served_sublist_move k).trans ih

theorem MovesR.served_sublist_r {env : Env} {A B : View} (hm : MovesR env A B)
    (k : SchedulingKey) : (servedThenQueued k B).Sublist (servedThenQueued k A) := by
  induction hm with
  | refl => exact List.Sublist.refl _
  | tail _ hstep ih =>
    obtain ⟨kd, _, hmv⟩ := hstep
    exact (hmv.served_sublist_move k).trans ih

theorem Phased.served_sublist_phased {env : Env} {A B : View} (hm : Phased env A B)
    (k : SchedulingKey) : (servedThenQueued k B).Sublist (servedThenQueued k A) := by
  obtain ⟨M, hn, hr⟩ := hm
  exact (hr.served_sublist_r k).trans (hn.served_sublist_n k)

theorem served_enqueueOpt (k : SchedulingKey) (o : Option (SchedulingKey × TaskSpecification))
    (A : View) :
    servedThenQueued k (A.enqueueOpt o) =
      servedThenQueued k A ++
        (match o with
          | some kt => if kt.1 = k then [kt.2] else []
          | none => []).map unstamp := by
  cases o with
  | none => simp [View.enqueueOpt]
  | some kt =>
    simp only [View.enqueueOpt, View.enqueue, servedThenQueued, Function.update_apply]
    by_cases h : k = kt.1
    · subst h; simp
    · have h' : ¬ kt.1 = k := fun e => h e.symm
      simp [h, h']

/-! ## The ids of the lease requests -/

theorem LeaseIds.ids_move {env : Env} {kd : Kind} {A B : View} (hm : Move env kd A B)
    (h : LeaseIds env A) : LeaseIds env B := by
  cases hm with
  | gc _ k' => exact ⟨h.requested, h.pending⟩
  | leaseReplied _ k' id name sp addr hcb =>
    refine ⟨h.requested, ?_⟩
    intro k p hp
    simp only [Function.update_apply] at hp
    split at hp
    · next hk => subst hk; exact h.pending _ _ (Map.mem_erase_key.mp hp).1
    · exact h.pending _ _ hp
  | grant _ a k' => exact ⟨h.requested, h.pending⟩
  | returned _ a k' => exact ⟨h.requested, h.pending⟩
  | pushReplied _ spec t ac k' a res => exact ⟨h.requested, h.pending⟩
  | shrinkQueue _ k' q => exact ⟨h.requested, h.pending⟩
  | dispatch _ a k' front rest sys res => exact ⟨h.requested, h.pending⟩
  | request _ k' spec name sp addr hlim hlen hid =>
    constructor
    · simp only [List.map_append, List.map_cons, List.map_nil, List.range_succ, h.requested, hid]
    · intro k p hp
      simp only [Function.update_apply] at hp
      split at hp
      · next hk =>
        subst hk
        rcases Map.mem_emplace hp with hold | hnew
        · obtain ⟨i, hi, he⟩ := h.pending _ _ hold
          exact ⟨i, Nat.lt_succ_of_lt hi, he⟩
        · subst hnew
          exact ⟨A.draws, Nat.lt_succ_self _, hid⟩
      · obtain ⟨i, hi, he⟩ := h.pending _ _ hp
        exact ⟨i, Nat.lt_succ_of_lt hi, he⟩

theorem LeaseIds.ids_movesN {env : Env} {A B : View} (hm : MovesN env A B)
    (h : LeaseIds env A) : LeaseIds env B := by
  induction hm with
  | refl => exact h
  | tail _ hstep ih =>
    obtain ⟨kd, _, hmv⟩ := hstep
    exact ih.ids_move hmv

theorem LeaseIds.ids_movesR {env : Env} {A B : View} (hm : MovesR env A B)
    (h : LeaseIds env A) : LeaseIds env B := by
  induction hm with
  | refl => exact h
  | tail _ hstep ih =>
    obtain ⟨kd, _, hmv⟩ := hstep
    exact ih.ids_move hmv

theorem LeaseIds.ids_phased {env : Env} {A B : View} (hm : Phased env A B)
    (h : LeaseIds env A) : LeaseIds env B := by
  obtain ⟨M, hn, hr⟩ := hm
  exact (h.ids_movesN hn).ids_movesR hr

theorem LeaseIds.ids_enqueueOpt {env : Env} {A : View} (h : LeaseIds env A)
    (o : Option (SchedulingKey × TaskSpecification)) : LeaseIds env (A.enqueueOpt o) := by
  cases o with
  | none => exact h
  | some kt => exact ⟨h.requested, h.pending⟩

theorem reachable_leaseIds {env : Env} {s : State} (h : Reachable env s) :
    LeaseIds env s.view := by
  induction h with
  | init =>
    constructor
    · simp [State.view]
    · intro k p hp; simp [State.view, State.entry, Map.get, Map.find] at hp
  | step depth clk ev hs hstep ih =>
    exact (ih.ids_enqueueOpt _).ids_phased
      (step_moves env depth clk ev _ _ (reachable_inv hs).pushActive hstep)

/-! ## Properties of runs -/

theorem reachable_stateAfter (env : Env) (inputs : List Input) :
    Reachable env (stateAfter env inputs) := by
  unfold stateAfter
  split
  · next s h => exact reachable_run inputs _ _ Reachable.init h
  · exact Reachable.init

/-- C1 (as stated, refuted): after two tasks of one key are queued and one of
them is cancelled, the key has two pending lease requests and a queue of length
one, so the number of pending lease requests exceeds `max(1, task_queue.size)`. -/
theorem lease_bound_counterexample :
    ∃ s e, run exampleEnv twoQueuedOneCancelled {} = Except.ok s ∧
      Map.find keyAB s.scheduling_key_entries = some e ∧
      e.pending_lease_requests.length = 2 ∧ max 1 e.task_queue.length = 1 :=
  ⟨stateAfter exampleEnv twoQueuedOneCancelled,
    (stateAfter exampleEnv twoQueuedOneCancelled).entry keyAB, by rfl, by rfl, by rfl, by rfl⟩

/-- C1 (amended): in a step from a reachable state the number of pending lease
requests of a key grows at most up to the length the key's queue has after the
step: it is at most the larger of its value before the step and that length. -/
theorem pending_grows_up_to_queue (env : Env) (depth : Nat) (clk : Clock) (ev : Event)
    (s s' : State) (hs : Reachable env s) (h : step env depth clk ev s = Except.ok s')
    (k : SchedulingKey) :
    (s'.entry k).pending_lease_requests.length ≤
      max (s.entry k).pending_lease_requests.length (s'.entry k).task_queue.length := by
  have hp := (step_moves env depth clk ev s s' (reachable_inv hs).pushActive h).pending_le_phased k
  rw [pending_enqueueOpt] at hp
  exact hp

theorem pending_grows_up_to_queue_witness :
    Reachable exampleEnv (stateAfter exampleEnv (twoQueued.take 3)) ∧
      step exampleEnv 64 {} (Event.resolved taskB {} false)
        (stateAfter exampleEnv (twoQueued.take 3)) =
        Except.ok (stateAfter exampleEnv twoQueued) ∧
      ((stateAfter exampleEnv twoQueued).entry keyAB).pending_lease_requests.length ≤
        max ((stateAfter exampleEnv (twoQueued.take 3)).entry keyAB).pending_lease_requests.length
          ((stateAfter exampleEnv twoQueued).entry keyAB).task_queue.length :=
  ⟨reachable_stateAfter _ _, by rfl,
    pending_grows_up_to_queue exampleEnv 64 {} (Event.resolved taskB {} false) _ _
      (reachable_stateAfter _ _) (by rfl) keyAB⟩

/-- C2: in every reachable state every scheduling key entry has at most as many
pending lease requests as the rate limiter allows. -/
theorem pending_le_rate_limit (env : Env) (s : State) (hs : Reachable env s)
    (k : SchedulingKey) (e : SchedulingKeyEntry)
    (hk : Map.find k s.scheduling_key_entries = some e) :
    e.pending_lease_requests.length ≤ env.max_pending_lease_requests := by
  have := (reachable_inv hs).pending_le k
  rw [← entry_of_find hk]
  exact this

theorem pending_le_rate_limit_witness :
    Reachable exampleEnv (stateAfter exampleEnv twoQueued) ∧
      Map.find keyAB (stateAfter exampleEnv twoQueued).scheduling_key_entries =
        some ((stateAfter exampleEnv twoQueued).entry keyAB) ∧
      ((stateAfter exampleEnv twoQueued).entry keyAB).pending_lease_requests.length ≤
        exampleEnv.max_pending_lease_requests :=
  ⟨reachable_stateAfter _ _, by rfl,
    pending_le_rate_limit exampleEnv (stateAfter exampleEnv twoQueued)
      (reachable_stateAfter _ _) keyAB ((stateAfter exampleEnv twoQueued).entry keyAB)
      (by rfl)⟩

/-- C3: in every reachable state, a task that `executing_tasks` maps to a worker
address has a lease entry for that address whose `is_busy` flag is set. -/
theorem executing_worker_busy (env : Env) (s : State) (hs : Reachable env s) (t : TaskID)
    (a : Address) (ht : Map.find t s.executing_tasks = some a) :
    ∃ l, Map.find a s.worker_to_lease_entry = some l ∧ l.is_busy = true := by
  obtain ⟨spec, ac, k, res, hcb⟩ := (reachable_inv hs).exec_push t a ht
  exact find_lease_of_busy ((reachable_inv hs).push_busy _ _ _ _ _ _ hcb).1

theorem executing_worker_busy_witness :
    Reachable exampleEnv (stateAfter exampleEnv oneExecuting) ∧
      Map.find 1 (stateAfter exampleEnv oneExecuting).executing_tasks = some workerW ∧
      ∃ l, Map.find workerW (stateAfter exampleEnv oneExecuting).worker_to_lease_entry =
        some l ∧ l.is_busy = true :=
  ⟨reachable_stateAfter _ _, by rfl,
    executing_worker_busy exampleEnv (stateAfter exampleEnv oneExecuting)
      (reachable_stateAfter _ _) 1 workerW (by rfl)⟩

/-- C10: in every reachable state `num_busy_workers` of an entry is at most the
number of its active workers; it is the number of pushes of the key whose reply
is outstanding, so it is at least one whenever a push reply is processed; and
the worker of every such push is an active worker of the entry and busy, so a
busy worker is never removed from `active_workers`. -/
theorem busy_le_active (env : Env) (s : State) (hs : Reachable env s) (k : SchedulingKey)
    (e : SchedulingKeyEntry) (hk : Map.find k s.scheduling_key_entries = some e) :
    e.num_busy_workers ≤ e.active_workers.length ∧
      e.num_busy_workers = pushCount k s.callbacks ∧
      ∀ spec t ac a res, Callback.push spec t ac k a res ∈ s.callbacks →
        1 ≤ e.num_busy_workers ∧ a ∈ e.active_workers ∧
          ∃ l, Map.find a s.worker_to_lease_entry = some l ∧ l.is_busy = true := by
  have hinv := reachable_inv hs
  have he := entry_of_find hk
  have hcount : e.num_busy_workers = pushCount k s.callbacks := by
    have := hinv.busy_count k
    rw [← he, ← pushCount_filter_isPush]
    exact this
  refine ⟨?_, hcount, ?_⟩
  · have := hinv.inv_busy_le_active k
    rw [← he]
    exact this
  · intro spec t ac a res hcb
    have hcb' : Callback.push spec t ac k a res ∈ s.view.pushes := by
      simp only [State.view, List.mem_filter]
      exact ⟨hcb, rfl⟩
    obtain ⟨hb, ha⟩ := hinv.push_busy _ _ _ _ _ _ hcb'
    refine ⟨?_, ?_, find_lease_of_busy hb⟩
    · rw [hcount]
      unfold pushCount
      exact List.countP_pos_iff.mpr ⟨_, hcb, by simp [Callback.pushKey]⟩
    · rw [← he]
      exact ha

theorem busy_le_active_witness :
    Reachable exampleEnv (stateAfter exampleEnv oneExecuting) ∧
      Map.find keyAB (stateAfter exampleEnv oneExecuting).scheduling_key_entries =
        some ((stateAfter exampleEnv oneExecuting).entry keyAB) ∧
      ((stateAfter exampleEnv oneExecuting).entry keyAB).num_busy_workers = 1 ∧
      ((stateAfter exampleEnv oneExecuting).entry keyAB).num_busy_workers ≤
        ((stateAfter exampleEnv oneExecuting).entry keyAB).active_workers.length :=
  ⟨reachable_stateAfter _ _, by rfl, by rfl,
    (busy_le_active exampleEnv (stateAfter exampleEnv oneExecuting)
      (reachable_stateAfter _ _) keyAB ((stateAfter exampleEnv oneExecuting).entry keyAB)
      (by rfl)).1⟩

/-! ### Order of dispatch and quiescent states -/


theorem servedThenQueued_view (k : SchedulingKey) (s : State) :
    servedThenQueued k s.view =
      (pushedUnder k s).map unstamp ++ ((s.entry k).task_queue).map unstamp := rfl

/-- The tasks pushed and queued under a key at the end of a run are, in
order, among those pushed and queued at its start followed by those appended
along it. -/
theorem run_served_sublist (env : Env) (k : SchedulingKey) :
    ∀ (inputs : List Input) (s s' : State), Reachable env s →
      run env inputs s = Except.ok s' →
      (servedThenQueued k s'.view).Sublist
        (servedThenQueued k s.view ++ (appendedAlong env k inputs s).map unstamp) := by
  intro inputs
  induction inputs with
  | nil =>
    intro s s' _ h
    simp only [run] at h
    cases h
    simp [appendedAlong]
  | cons i rest ih =>
    intro s s' hs h
    simp only [run] at h
    obtain ⟨s₁, h₁, h₂⟩ := bind_ok h
    have hstep := (step_moves env i.depth i.clk i.event s s₁ (reachable_inv hs).pushActive
      h₁).served_sublist_phased k
    rw [served_enqueueOpt] at hstep
    have hrest := ih s₁ s' (Reachable.step i.depth i.clk i.event hs h₁) h₂
    simp only [appendedAlong, h₁, List.map_append]
    rw [← List.append_assoc]
    exact hrest.trans (hstep.append (List.Sublist.refl _))

theorem entry_markBacklogReported (s : State) (k : SchedulingKey) :
    s.markBacklogReported.entry k =
      { s.entry k with last_reported_backlog_size := (s.entry k).BacklogSize } := by
  have hf := Map.find_map_val
    (fun (_ : SchedulingKey) (e : SchedulingKeyEntry) =>
      ({ e with last_reported_backlog_size := e.BacklogSize } : SchedulingKeyEntry))
    k s.scheduling_key_entries
  simp only [] at hf
  simp only [State.entry, State.markBacklogReported, Map.get]
  rw [hf]
  cases Map.find k s.scheduling_key_entries <;> rfl

theorem entry_GetOrConnectLeaseClient (env : Env) (a : Address) (s : State)
    (k : SchedulingKey) : (GetOrConnectLeaseClient env a s).2.entry k = s.entry k := by
  unfold GetOrConnectLeaseClient
  split
  · split <;> rfl
  · rfl

theorem entry_ReportWorkerBacklogInternal (env : Env) (s : State) (k : SchedulingKey) :
    (ReportWorkerBacklogInternal env s).entry k =
      { s.entry k with last_reported_backlog_size := (s.entry k).BacklogSize } := by
  unfold ReportWorkerBacklogInternal
  simp only [entry_call, entry_markBacklogReported]

theorem resource_spec_ReportWorkerBacklogIfNeeded (env : Env) (k k' : SchedulingKey)
    (s : State) :
    ((ReportWorkerBacklogIfNeeded env k s).entry k').resource_spec =
      (s.entry k').resource_spec := by
  unfold ReportWorkerBacklogIfNeeded
  simp only []
  split
  · rw [entry_ReportWorkerBacklogInternal, entry_touchEntry]
  · rw [entry_touchEntry]

theorem resource_spec_sendLeaseRequest (env : Env) (k : SchedulingKey)
    (hint : Option Address) (s : State) :
    ((sendLeaseRequest env k hint s).entry k).resource_spec = (s.entry k).resource_spec := by
  unfold sendLeaseRequest
  simp only [resource_spec_ReportWorkerBacklogIfNeeded, entry_setEntry, if_true]

theorem isSome_find_emplace {K V : Type} [DecidableEq K] (k k' : K) (v : V)
    (m : List (K × V)) :
    (Map.find k' (Map.emplace k v m)).isSome = (decide (k' = k) || (Map.find k' m).isSome) := by
  rw [Map.find_emplace]
  by_cases h : k' = k
  · simp [h]
  · simp [h]

theorem leaseRequests_eq_view (s : State) : leaseRequests s = s.view.requested := rfl

theorem random_draws_eq_view (s : State) : s.random_draws = s.view.draws := rfl

/-- What `RequestNewWorkerIfNeeded` sends: a number of lease requests, each
the resource spec of the entry with the next random id as its task id, each
recorded under that id in the pending lease requests of the entry. -/
theorem RequestNewWorkerIfNeeded_requests (env : Env) :
    ∀ (depth : Nat) (k : SchedulingKey) (hint : Option Address) (s s' : State),
      RequestNewWorkerIfNeeded env depth k hint s = Except.ok s' →
      ∃ n, s'.random_draws = s.random_draws + n ∧
        leaseRequests s' = leaseRequests s ++ (List.range n).map (fun i =>
          { (s.entry k).resource_spec with
            task_id := env.from_random (s.random_draws + i) }) ∧
        ((s.entry k).pending_lease_requests ≠ [] ∨ 0 < n →
          (s'.entry k).resource_spec = (s.entry k).resource_spec) ∧
        (∀ id, (Map.find id (s.entry k).pending_lease_requests).isSome →
          (Map.find id (s'.entry k).pending_lease_requests).isSome) ∧
        (∀ i, i < n → (Map.find (env.from_random (s.random_draws + i))
          (s'.entry k).pending_lease_requests).isSome) := by
  intro depth
  induction depth with
  | zero => intro k hint s s' h; simp [RequestNewWorkerIfNeeded] at h
  | succ d ih =>
    intro k hint s s' h
    have hstay : ∀ s₁ : State, s₁.random_draws = s.random_draws →
        leaseRequests s₁ = leaseRequests s → s₁.entry k = s.entry k →
        ∃ n, s₁.random_draws = s.random_draws + n ∧
        leaseRequests s₁ = leaseRequests s ++ (List.range n).map (fun i =>
          { (s.entry k).resource_spec with
            task_id := env.from_random (s.random_draws + i) }) ∧
        ((s.entry k).pending_lease_requests ≠ [] ∨ 0 < n →
          (s₁.entry k).resource_spec = (s.entry k).resource_spec) ∧
        (∀ id, (Map.find id (s.entry k).pending_lease_requests).isSome →
          (Map.find id (s₁.entry k).pending_lease_requests).isSome) ∧
        (∀ i, i < n → (Map.find (env.from_random (s.random_draws + i))
          (s₁.entry k).pending_lease_requests).isSome) := by
      intro s₁ h1 h2 h3
      refine ⟨0, by simp [h1], by simp [h2], ?_, ?_, ?_⟩
      · intro _; rw [h3]
      · intro id hid; rw [h3]; exact hid
      · intro i hi; omega
    unfold RequestNewWorkerIfNeeded at h
    simp only [] at h
    split at h
    · cases h; exact hstay _ rfl rfl (entry_touchEntry _ _ _)
    · split at h
      · cases h; exact hstay _ rfl rfl (entry_touchEntry _ _ _)
      · split at h
        · next hq =>
          split at h
          · next hdel =>
            cases h
            simp only [SchedulingKeyEntry.CanDelete, Bool.and_eq_true, List.isEmpty_iff,
              entry_touchEntry] at hdel
            obtain ⟨⟨hp, _⟩, _⟩ := hdel
            refine ⟨0, rfl, by simp [leaseRequests, State.eraseEntry, State.touchEntry], ?_,
              ?_, ?_⟩
            · intro h0
              rcases h0 with h0 | h0
              · exact absurd hp h0
              · omega
            · intro id hid
              rw [hp] at hid
              simp [Map.find] at hid
            · intro i hi; omega
          · cases h; exact hstay _ rfl rfl (entry_touchEntry _ _ _)
        · split at h
          · cases h; exact hstay _ rfl rfl (entry_touchEntry _ _ _)
          · obtain ⟨spec, addr, hspec, hv⟩ := view_sendLeaseRequest env k hint (s.touchEntry k)
            have hdraw : (sendLeaseRequest env k hint (s.touchEntry k)).random_draws =
                s.random_draws + 1 := by
              rw [random_draws_eq_view, hv]; rfl
            have hreq : leaseRequests (sendLeaseRequest env k hint (s.touchEntry k)) =
                leaseRequests s ++ [spec] := by
              rw [leaseRequests_eq_view, hv]; simp [leaseRequests_eq_view]
            have hpend : ((sendLeaseRequest env k hint (s.touchEntry k)).entry
                k).pending_lease_requests =
                Map.emplace spec.task_id addr (s.entry k).pending_lease_requests := by
              rw [pending_eq_view, hv]
              simp [pending_eq_view]
            have hrs := resource_spec_sendLeaseRequest env k hint (s.touchEntry k)
            rw [entry_touchEntry] at hrs hspec
            have hid : spec.task_id = env.from_random s.random_draws := by
              rw [hspec]; rfl
            have hne : ((sendLeaseRequest env k hint (s.touchEntry k)).entry
                k).pending_lease_requests ≠ [] := by
              intro h0
              have := isSome_find_emplace spec.task_id spec.task_id addr
                (s.entry k).pending_lease_requests
              rw [← hpend, h0] at this
              simp [Map.find] at this
            have hmono : ∀ id, (Map.find id (s.entry k).pending_lease_requests).isSome →
                (Map.find id ((sendLeaseRequest env k hint (s.touchEntry k)).entry
                  k).pending_lease_requests).isSome := by
              intro id hid'
              rw [hpend, isSome_find_emplace, hid']
              simp
            have hnew : (Map.find (env.from_random s.random_draws)
                ((sendLeaseRequest env k hint (s.touchEntry k)).entry
                  k).pending_lease_requests).isSome := by
              rw [hpend, isSome_find_emplace, hid]
              simp
            split at h
            · obtain ⟨n, h1, h2, h3, h4, h5⟩ := ih _ _ _ _ h
              refine ⟨n + 1, by rw [h1, hdraw]; omega, ?_, ?_, ?_, ?_⟩
              · rw [h2, hreq, hrs, hdraw, List.range_succ_eq_map, List.map_cons, List.map_map,
                  List.append_assoc, hspec]
                simp only [List.singleton_append, Nat.add_zero]
                refine congrArg (fun l => leaseRequests s ++ l)
                  (congrArg₂ List.cons rfl (List.map_congr_left ?_))
                intro i _
                simp only [Function.comp, Nat.succ_eq_add_one]
                have he : s.random_draws + 1 + i = s.random_draws + (i + 1) := by omega
                rw [he]
              · intro _
                rw [h3 (Or.inl hne), hrs]
              · intro id hid'
                exact h4 id (hmono id hid')
              · intro i hi
                cases i with
                | zero => exact h4 _ hnew
                | succ j =>
                  have := h5 j (by omega)
                  rw [hdraw] at this
                  have he : s.random_draws + (j + 1) = s.random_draws + 1 + j := by omega
                  rw [he]
                  exact this
            · cases h
              refine ⟨1, hdraw, ?_, ?_, hmono, ?_⟩
              · rw [hreq, hspec]; rfl
              · intro _; exact hrs
              · intro i hi
                have : i = 0 := by omega
                subst this
                exact hnew

/-- C9: along every run from the initial state, under the assumption that
`TaskID::FromRandom` never returns the same id twice and never returns the id
of a task handed to `SubmitTask`: the task ids carried by the
`RequestWorkerLease` calls are, in order, the random ids drawn, so they are
pairwise distinct and none of them is the id of a user task, and every key of
a `pending_lease_requests` map is the id of a lease request sent.  Moreover
every call of `RequestNewWorkerIfNeeded` that returns sends lease requests
that are the `resource_spec` of the entry with the task id replaced by the
next random id, leaves the `resource_spec` of the entry as it was when it
sends a request, and records each of these ids as a key of the entry's
`pending_lease_requests`. -/
theorem lease_ids_fresh (env : Env) (inputs : List Input) (s : State)
    (h : run env inputs {} = Except.ok s)
    (hinj : Function.Injective env.from_random)
    (huser : ∀ i, env.from_random i ∉ userTaskIds inputs) :
    ((leaseRequests s).map (fun spec => spec.task_id) =
        (List.range s.random_draws).map env.from_random ∧
      ((leaseRequests s).map (fun spec => spec.task_id)).Nodup ∧
      (∀ spec, spec ∈ leaseRequests s → spec.task_id ∉ userTaskIds inputs) ∧
      (∀ k e p, Map.find k s.scheduling_key_entries = some e →
        p ∈ e.pending_lease_requests →
        p.1 ∈ (leaseRequests s).map (fun spec => spec.task_id))) ∧
    (∀ depth k hint s₁ s₂, RequestNewWorkerIfNeeded env depth k hint s₁ = Except.ok s₂ →
      ∃ n, s₂.random_draws = s₁.random_draws + n ∧
        leaseRequests s₂ = leaseRequests s₁ ++ (List.range n).map (fun i =>
          { (s₁.entry k).resource_spec with
            task_id := env.from_random (s₁.random_draws + i) }) ∧
        (0 < n → (s₂.entry k).resource_spec = (s₁.entry k).resource_spec) ∧
        (∀ i, i < n → (Map.find (env.from_random (s₁.random_draws + i))
          (s₂.entry k).pending_lease_requests).isSome)) := by
  have hs : Reachable env s := reachable_run inputs _ _ Reachable.init h
  have hl := reachable_leaseIds hs
  have hreq : (leaseRequests s).map (fun spec => spec.task_id) =
      (List.range s.random_draws).map env.from_random := hl.requested
  refine ⟨⟨hreq, ?_, ?_, ?_⟩, ?_⟩
  · rw [hreq]
    exact (List.nodup_range _).map hinj
  · intro spec hspec
    have hmem : spec.task_id ∈ (leaseRequests s).map (fun spec => spec.task_id) :=
      List.mem_map_of_mem _ hspec
    rw [hreq] at hmem
    obtain ⟨i, _, hi⟩ := List.mem_map.mp hmem
    rw [← hi]
    exact huser i
  · intro k e p hk hp
    have he := entry_of_find hk
    have hp' : p ∈ s.view.pending k := by
      show p ∈ (s.entry k).pending_lease_requests
      rw [he]
      exact hp
    obtain ⟨i, hi, hpi⟩ := hl.pending k p hp'
    rw [hreq, hpi]
    exact List.mem_map_of_mem _ (List.mem_range.mpr hi)
  · intro depth k hint s₁ s₂ hr
    obtain ⟨n, h1, h2, h3, _, h5⟩ := RequestNewWorkerIfNeeded_requests env depth k hint s₁ s₂ hr
    exact ⟨n, h1, h2, fun hn => h3 (Or.inr hn), h5⟩

theorem lease_ids_fresh_witness :
    run exampleEnv twoQueued {} = Except.ok (stateAfter exampleEnv twoQueued) ∧
    userTaskIds twoQueued = [1, 2] ∧
    (leaseRequests (stateAfter exampleEnv twoQueued)).map (fun spec => spec.task_id) =
      [1000, 1001] ∧
    ((leaseRequests (stateAfter exampleEnv twoQueued)).map
      (fun spec => spec.task_id)).Nodup :=
  ⟨by rfl, by rfl, by rfl,
    (lease_ids_fresh exampleEnv twoQueued (stateAfter exampleEnv twoQueued) (by rfl)
      (fun a b hab => Nat.add_left_cancel hab)
      (fun i hi => by
        have h2 : 1000 + i ∈ [1, 2] := hi
        simp at h2
        omega)).1.2.1⟩

/-! ### The backlog report -/

namespace Map

variable {K V : Type} [DecidableEq K]

theorem mem_keys_iff (k : K) (m : List (K × V)) :
    k ∈ m.map Prod.fst ↔ (find k m).isSome := by
  induction m with
  | nil => simp [find]
  | cons p m ih =>
    simp only [List.map_cons, List.mem_cons, find]
    by_cases h : p.1 = k
    · simp [h]
    · simp only [h, if_false, ← ih]
      constructor
      · rintro (h' | h')
        · exact absurd h'.symm h
        · exact h'
      · exact Or.inr

theorem keys_set (k : K) (v : V) (m : List (K × V)) :
    (set k v m).map Prod.fst =
      if (find k m).isSome then m.map Prod.fst else m.map Prod.fst ++ [k] := by
  unfold set
  cases hf : find k m with
  | none => simp
  | some w =>
    simp only [Option.isSome_some, if_true, List.map_map]
    apply List.map_congr_left
    intro p _
    simp only [Function.comp]
    split
    · next h => exact h.symm
    · rfl

theorem find_of_mem_nodup {m : List (K × V)} (h : (m.map Prod.fst).Nodup) {p : K × V}
    (hp : p ∈ m) : find p.1 m = some p.2 := by
  induction m with
  | nil => cases hp
  | cons q m ih =>
    simp only [List.map_cons, List.nodup_cons] at h
    simp only [find]
    rcases List.mem_cons.mp hp with rfl | hp'
    · simp
    · have hne : q.1 ≠ p.1 := by
        intro heq
        exact h.1 (heq ▸ List.mem_map_of_mem Prod.fst hp')
      simp only [hne, if_false]
      exact ih h.2 hp'

end Map

/-- The entry `backlogStep` leaves under a class. -/
theorem find_backlogStep (b : List (SchedulingClass × (TaskSpecification × Nat)))
    (ke : SchedulingKey × SchedulingKeyEntry) (c : SchedulingClass) :
    Map.find c (backlogStep b ke) =
      if c = ke.1.scheduling_class then
        some (match Map.find ke.1.scheduling_class b with
          | some v => (v.1, v.2 + ke.2.BacklogSize)
          | none => (ke.2.resource_spec, ke.2.BacklogSize))
      else Map.find c b := by
  unfold backlogStep
  simp only []
  rw [Map.find_set]
  by_cases hc : c = ke.1.scheduling_class
  · simp only [hc, if_true]
    cases hf : Map.find ke.1.scheduling_class b with
    | none => simp [Map.get, Map.find_set]
    | some v => simp [Map.get, hf]
  · simp only [hc, if_false]
    cases hf : Map.find ke.1.scheduling_class b with
    | none => simp [Map.find_set, hc]
    | some v => rfl

/-- The classes `backlogStep` leaves in the map. -/
theorem keys_backlogStep (b : List (SchedulingClass × (TaskSpecification × Nat)))
    (ke : SchedulingKey × SchedulingKeyEntry) :
    (backlogStep b ke).map Prod.fst =
      if (Map.find ke.1.scheduling_class b).isSome then b.map Prod.fst
      else b.map Prod.fst ++ [ke.1.scheduling_class] := by
  unfold backlogStep
  simp only []
  rw [Map.keys_set]
  cases hf : Map.find ke.1.scheduling_class b with
  | none => simp [Map.find_set, Map.keys_set, hf]
  | some v => simp [hf]

theorem collect_keys_nodup (entries : List (SchedulingKey × SchedulingKeyEntry)) :
    ∀ acc : List (SchedulingClass × (TaskSpecification × Nat)),
      (acc.map Prod.fst).Nodup → ((entries.foldl backlogStep acc).map Prod.fst).Nodup := by
  induction entries with
  | nil => intro acc h; exact h
  | cons ke rest ih =>
    intro acc h
    simp only [List.foldl_cons]
    apply ih
    rw [keys_backlogStep]
    split
    · exact h
    · next hf =>
      rw [List.nodup_append]
      refine ⟨h, List.nodup_singleton _, ?_⟩
      intro c hc hc'
      rw [List.mem_singleton] at hc'
      subst hc'
      exact hf ((Map.mem_keys_iff _ _).mp hc)

theorem collect_mem_keys (entries : List (SchedulingKey × SchedulingKeyEntry)) :
    ∀ (acc : List (SchedulingClass × (TaskSpecification × Nat))) (c : SchedulingClass),
      c ∈ (entries.foldl backlogStep acc).map Prod.fst ↔
        c ∈ acc.map Prod.fst ∨ ∃ ke, ke ∈ entries ∧ ke.1.scheduling_class = c := by
  induction entries with
  | nil => intro acc c; simp
  | cons ke rest ih =>
    intro acc c
    simp only [List.foldl_cons]
    rw [ih, keys_backlogStep]
    have hk := Map.mem_keys_iff ke.1.scheduling_class acc
    constructor
    · rintro (h | ⟨ke', hke', hc⟩)
      · split at h
        · exact Or.inl h
        · rcases List.mem_append.mp h with h | h
          · exact Or.inl h
          · exact Or.inr ⟨ke, List.mem_cons_self _ _, (List.mem_singleton.mp h).symm⟩
      · exact Or.inr ⟨ke', List.mem_cons_of_mem _ hke', hc⟩
    · rintro (h | ⟨ke', hke', hc⟩)
      · left
        split
        · exact h
        · exact List.mem_append_left _ h
      · rcases List.mem_cons.mp hke' with rfl | hke'
        · left
          split
          · next hs => rw [← hc]; exact hk.mpr hs
          · rw [← hc]; exact List.mem_append_right _ (List.mem_singleton_self _)
        · exact Or.inr ⟨ke', hke', hc⟩

theorem collect_size (entries : List (SchedulingKey × SchedulingKeyEntry)) :
    ∀ (acc : List (SchedulingClass × (TaskSpecification × Nat))) (c : SchedulingClass),
      ((Map.find c (entries.foldl backlogStep acc)).map (fun v => v.2)).getD 0 =
        ((Map.find c acc).map (fun v => v.2)).getD 0 +
          ((entries.filter (fun ke => decide (ke.1.scheduling_class = c))).map
            (fun ke => ke.2.BacklogSize)).sum := by
  induction entries with
  | nil => intro acc c; simp
  | cons ke rest ih =>
    intro acc c
    simp only [List.foldl_cons]
    rw [ih, find_backlogStep]
    by_cases hc : c = ke.1.scheduling_class
    · subst hc
      simp only [if_true, List.filter_cons, decide_True, List.map_cons, List.sum_cons]
      cases hf : Map.find ke.1.scheduling_class acc with
      | none => simp
      | some v => simp; omega
    · have hc' : ¬ ke.1.scheduling_class = c := fun h => hc h.symm
      simp [hc, hc', List.filter_cons]

theorem backlogSize_cast (e : SchedulingKeyEntry) :
    (e.BacklogSize : Int) =
      max 0 ((e.task_queue.length : Int) - e.pending_lease_requests.length) := by
  unfold SchedulingKeyEntry.BacklogSize
  omega

/-- The classes `collectBacklogs` has an item for, in order. -/
theorem collect_keys (entries : List (SchedulingKey × SchedulingKeyEntry)) :
    ∀ acc : List (SchedulingClass × (TaskSpecification × Nat)),
      (entries.foldl backlogStep acc).map Prod.fst =
        entries.foldl
          (fun a ke =>
            if ke.1.scheduling_class ∈ a then a else a ++ [ke.1.scheduling_class])
          (acc.map Prod.fst) := by
  induction entries with
  | nil => intro acc; rfl
  | cons ke rest ih =>
    intro acc
    simp only [List.foldl_cons]
    rw [ih, keys_backlogStep]
    congr 1
    by_cases h : ke.1.scheduling_class ∈ acc.map Prod.fst
    · rw [if_pos h, if_pos ((Map.mem_keys_iff _ _).mp h)]
    · rw [if_neg h, if_neg (fun h' => h ((Map.mem_keys_iff _ _).mpr h'))]

/-- The resource spec `collectBacklogs` keeps for a class: the one it had, or
that of the first entry of the class. -/
theorem collect_spec (entries : List (SchedulingKey × SchedulingKeyEntry)) :
    ∀ (acc : List (SchedulingClass × (TaskSpecification × Nat))) (c : SchedulingClass),
      (Map.find c (entries.foldl backlogStep acc)).map (fun v => v.1) =
        match Map.find c acc with
        | some v => some v.1
        | none => (entries.find? (fun ke => decide (ke.1.scheduling_class = c))).map
            (fun ke => ke.2.resource_spec) := by
  induction entries with
  | nil =>
    intro acc c
    simp only [List.foldl_nil]
    cases Map.find c acc <;> rfl
  | cons ke rest ih =>
    intro acc c
    simp only [List.foldl_cons]
    rw [ih, find_backlogStep]
    by_cases hc : c = ke.1.scheduling_class
    · subst hc
      rw [if_pos rfl]
      cases hf : Map.find ke.1.scheduling_class acc with
      | none => simp [List.find?_cons]
      | some v => rfl
    · rw [if_neg hc]
      cases hf : Map.find c acc with
      | none =>
        have : decide (ke.1.scheduling_class = c) = false := by
          simp; exact fun h => hc h.symm
        simp [List.find?_cons, this]
      | some v => rfl

/-- The items of the report, class by class. -/
theorem collect_items (entries : List (SchedulingKey × SchedulingKeyEntry)) :
    (backlogReports (collectBacklogs entries)).map
        (fun r => (r.resource_spec, (r.backlog_size : Int))) =
      (classesAmong entries).map
        (fun c => (classResourceSpec c entries, classBacklog c entries)) := by
  have hnd := collect_keys_nodup entries [] List.nodup_nil
  have hkeys : (collectBacklogs entries).map Prod.fst = classesAmong entries :=
    collect_keys entries []
  rw [← hkeys]
  unfold backlogReports
  rw [List.map_map, List.map_map]
  apply List.map_congr_left
  intro b hb
  simp only [Function.comp]
  have hfind := Map.find_of_mem_nodup hnd hb
  have hsize := collect_size entries [] b.1
  have hspec := collect_spec entries [] b.1
  unfold collectBacklogs at hfind
  rw [hfind] at hsize hspec
  simp only [Option.map_some', Option.getD_some, Map.find, Option.map_none',
    Option.getD_none, Nat.zero_add] at hsize hspec
  have h1 : b.2.1 = classResourceSpec b.1 entries := by
    unfold classResourceSpec
    cases hf : entries.find? (fun ke => decide (ke.1.scheduling_class = b.1)) with
    | none => rw [hf] at hspec; cases hspec
    | some ke => rw [hf] at hspec; simpa using hspec
  have h2 : (b.2.2 : Int) = classBacklog b.1 entries := by
    unfold classBacklog
    rw [hsize, Nat.cast_list_sum, List.map_map]
    congr 1
    apply List.map_congr_left
    intro ke _
    exact backlogSize_cast ke.2
  rw [h1, h2]

/-- The classes that occur among the entries are listed once each. -/
theorem classesAmong_spec (entries : List (SchedulingKey × SchedulingKeyEntry)) :
    (classesAmong entries).Nodup ∧
    ∀ c, c ∈ classesAmong entries ↔ ∃ ke, ke ∈ entries ∧ ke.1.scheduling_class = c := by
  have hkeys : (collectBacklogs entries).map Prod.fst = classesAmong entries :=
    collect_keys entries []
  rw [← hkeys]
  refine ⟨collect_keys_nodup _ [] List.nodup_nil, fun c => ?_⟩
  unfold collectBacklogs
  rw [collect_mem_keys]
  simp

/-- The first entry of a class that occurs is an entry of that class. -/
theorem classResourceSpec_mem {entries : List (SchedulingKey × SchedulingKeyEntry)}
    {c : SchedulingClass} (hc : c ∈ classesAmong entries) :
    ∃ ke, ke ∈ entries ∧ ke.1.scheduling_class = c ∧
      classResourceSpec c entries = ke.2.resource_spec := by
  obtain ⟨ke₀, hke₀, hcl⟩ := ((classesAmong_spec entries).2 c).mp hc
  unfold classResourceSpec
  cases hf : entries.find? (fun ke => decide (ke.1.scheduling_class = c)) with
  | none =>
    have := List.find?_eq_none.mp hf ke₀ hke₀
    simp [hcl] at this
  | some ke =>
    have h1 := List.find?_some hf
    exact ⟨ke, List.mem_of_find?_eq_some hf, by simpa using h1, rfl⟩

/-- C6: `ReportWorkerBacklog` makes one call, `ReportWorkerBacklog` on the
local lease client.  Its report has one item for each scheduling class that
occurs among the scheduling key entries, the classes taken once each: the item
of a class carries the resource spec of the first entry of the class and, as
backlog size, the sum over all entries of the class of
`max(0, task_queue.size - pending_lease_requests.size)`.  When the resource spec
of every entry has the scheduling class of the entry's key, the scheduling
classes of the items are those classes, pairwise distinct, and the backlog size
of every item is the sum over the entries of the item's class.  Afterwards the
`last_reported_backlog_size` of every entry is the entry's backlog size, and
`ReportWorkerBacklogIfNeeded`, for any key, makes no call. -/
theorem backlog_report_exact (env : Env) (s : State) :
    ∃ reports : List WorkerBacklogReport,
      (ReportWorkerBacklog env s).calls =
        s.calls ++ [Call.ReportWorkerBacklog env.rpc_address.worker_id reports] ∧
      reports.map (fun r => (r.resource_spec, (r.backlog_size : Int))) =
        (classesAmong s.scheduling_key_entries).map
          (fun c => (classResourceSpec c s.scheduling_key_entries,
            classBacklog c s.scheduling_key_entries)) ∧
      reports.length = (classesAmong s.scheduling_key_entries).length ∧
      (classesAmong s.scheduling_key_entries).Nodup ∧
      (∀ c, c ∈ classesAmong s.scheduling_key_entries ↔
        ∃ ke, ke ∈ s.scheduling_key_entries ∧ ke.1.scheduling_class = c) ∧
      ((∀ ke, ke ∈ s.scheduling_key_entries →
          ke.2.resource_spec.scheduling_class = ke.1.scheduling_class) →
        reports.map (fun r => r.resource_spec.scheduling_class) =
          classesAmong s.scheduling_key_entries ∧
        ∀ r, r ∈ reports →
          (r.backlog_size : Int) =
            classBacklog r.resource_spec.scheduling_class s.scheduling_key_entries) ∧
      (∀ ke, ke ∈ (ReportWorkerBacklog env s).scheduling_key_entries →
        ke.2.last_reported_backlog_size = ke.2.BacklogSize ∧
        (ke.2.last_reported_backlog_size : Int) =
          max 0 ((ke.2.task_queue.length : Int) - ke.2.pending_lease_requests.length)) ∧
      (∀ k, (ReportWorkerBacklogIfNeeded env k (ReportWorkerBacklog env s)).calls =
        (ReportWorkerBacklog env s).calls) := by
  have hitems := collect_items s.scheduling_key_entries
  have hspec := classesAmong_spec s.scheduling_key_entries
  refine ⟨backlogReports (collectBacklogs s.scheduling_key_entries), rfl, hitems, ?_,
    hspec.1, hspec.2, ?_, ?_, ?_⟩
  · have := congrArg List.length hitems
    simpa using this
  · intro hcls
    have hpair : ∀ r, r ∈ backlogReports (collectBacklogs s.scheduling_key_entries) →
        ∃ c, c ∈ classesAmong s.scheduling_key_entries ∧
          r.resource_spec = classResourceSpec c s.scheduling_key_entries ∧
          (r.backlog_size : Int) = classBacklog c s.scheduling_key_entries := by
      intro r hr
      have hm : (r.resource_spec, (r.backlog_size : Int)) ∈
          (backlogReports (collectBacklogs s.scheduling_key_entries)).map
            (fun r => (r.resource_spec, (r.backlog_size : Int))) :=
        List.mem_map_of_mem _ hr
      rw [hitems] at hm
      obtain ⟨c, hc, heq⟩ := List.mem_map.mp hm
      have h1 := congrArg Prod.fst heq
      have h2 := congrArg Prod.snd heq
      exact ⟨c, hc, h1.symm, h2.symm⟩
    have hclass : ∀ c, c ∈ classesAmong s.scheduling_key_entries →
        (classResourceSpec c s.scheduling_key_entries).scheduling_class = c := by
      intro c hc
      obtain ⟨ke, hke, hk, hrs⟩ := classResourceSpec_mem hc
      rw [hrs, hcls ke hke, hk]
    constructor
    · have h1 := congrArg (List.map (fun p : TaskSpecification × Int => p.1.scheduling_class))
        hitems
      rw [List.map_map, List.map_map] at h1
      have h2 : (classesAmong s.scheduling_key_entries).map
          ((fun p : TaskSpecification × Int => p.1.scheduling_class) ∘
            fun c => (classResourceSpec c s.scheduling_key_entries,
              classBacklog c s.scheduling_key_entries)) =
          classesAmong s.scheduling_key_entries := by
        conv_rhs => rw [← List.map_id (classesAmong s.scheduling_key_entries)]
        apply List.map_congr_left
        intro c hc
        exact hclass c hc
      rw [h2] at h1
      exact h1
    · intro r hr
      obtain ⟨c, hc, h1, h2⟩ := hpair r hr
      rw [h1, hclass c hc, h2]
  · intro ke hke
    have hent : (ReportWorkerBacklog env s).scheduling_key_entries =
        s.scheduling_key_entries.map (fun ke =>
          (ke.1, { ke.2 with last_reported_backlog_size := ke.2.BacklogSize })) := rfl
    rw [hent] at hke
    obtain ⟨ke₀, _, rfl⟩ := List.mem_map.mp hke
    have h1 : ({ ke₀.2 with last_reported_backlog_size :=
        ke₀.2.BacklogSize } : SchedulingKeyEntry).BacklogSize = ke₀.2.BacklogSize := rfl
    refine ⟨h1.symm, ?_⟩
    exact backlogSize_cast ke₀.2
  · intro k
    unfold ReportWorkerBacklogIfNeeded
    simp only [entry_touchEntry]
    have he : (ReportWorkerBacklog env s).entry k =
        { s.entry k with last_reported_backlog_size := (s.entry k).BacklogSize } :=
      entry_ReportWorkerBacklogInternal env s k
    rw [he]
    have h1 : ({ s.entry k with last_reported_backlog_size :=
        (s.entry k).BacklogSize } : SchedulingKeyEntry).BacklogSize =
        (s.entry k).BacklogSize := rfl
    rw [h1]
    simp only [ne_eq, not_true_eq_false, if_false]
    rfl

theorem backlog_report_exact_witness :
    ∃ reports : List WorkerBacklogReport,
      (ReportWorkerBacklog exampleEnv backlogged).calls =
        [Call.ReportWorkerBacklog 9 reports] ∧
      reports =
        [{ resource_spec := taskB, backlog_size := 2 },
         { resource_spec := { task_id := 9, scheduling_class := 4 }, backlog_size := 2 }] ∧
      reports.map (fun r => r.resource_spec.scheduling_class) = [0, 4] ∧
      ∀ r, r ∈ reports →
        (r.backlog_size : Int) =
          classBacklog r.resource_spec.scheduling_class backlogged.scheduling_key_entries := by
  obtain ⟨reports, hcalls, _, _, _, _, htie, _⟩ := backlog_report_exact exampleEnv backlogged
  have hr : reports = backlogReports (collectBacklogs backlogged.scheduling_key_entries) := by
    have h0 : (ReportWorkerBacklog exampleEnv backlogged).calls =
        [Call.ReportWorkerBacklog 9
          (backlogReports (collectBacklogs backlogged.scheduling_key_entries))] := rfl
    have h1 : [Call.ReportWorkerBacklog 9
        (backlogReports (collectBacklogs backlogged.scheduling_key_entries))] =
        [Call.ReportWorkerBacklog 9 reports] := h0.symm.trans hcalls
    have h2 := List.head_eq_of_cons_eq h1
    injection h2 with _ h3
    exact h3.symm
  obtain ⟨h1, h2⟩ := htie (by decide)
  refine ⟨reports, hcalls, ?_, ?_, h2⟩
  · rw [hr]; rfl
  · rw [h1]; rfl

/-! ### Cancellation -/

theorem failuresOf_call (t : TaskID) (s : State) (c : Call) :
    failuresOf t (s.call c) = failuresOf t s + if Call.failureOf t c then 1 else 0 := by
  simp [failuresOf, State.call, List.countP_append, List.countP_cons]

theorem failuresOf_GetOrConnectLeaseClient (env : Env) (t : TaskID) (a : Address)
    (s : State) : failuresOf t (GetOrConnectLeaseClient env a s).2 = failuresOf t s := by
  unfold GetOrConnectLeaseClient
  split
  · split
    · rfl
    · show failuresOf t (s.call (Call.GetOrConnectByAddress a)) = failuresOf t s
      rw [failuresOf_call]
      rfl
  · rfl

theorem failuresOf_cancelOneLease (env : Env) (t : TaskID) (k : SchedulingKey) (s : State)
    (p : TaskID × Address) : failuresOf t (cancelOneLease env k s p) = failuresOf t s := by
  unfold cancelOneLease
  show failuresOf t ((GetOrConnectLeaseClient env p.2 s).2.call _) = failuresOf t s
  rw [failuresOf_call, failuresOf_GetOrConnectLeaseClient]
  rfl

theorem failuresOf_CancelWorkerLeaseIfNeeded (env : Env) (t : TaskID) (k : SchedulingKey)
    (s : State) : failuresOf t (CancelWorkerLeaseIfNeeded env k s) = failuresOf t s := by
  unfold CancelWorkerLeaseIfNeeded
  simp only []
  have hfold : ∀ (ps : List (TaskID × Address)) (s₀ : State),
      failuresOf t (ps.foldl (cancelOneLease env k) s₀) = failuresOf t s₀ := by
    intro ps
    induction ps with
    | nil => intro s₀; rfl
    | cons p ps ih =>
      intro s₀
      rw [List.foldl_cons, ih, failuresOf_cancelOneLease]
  split
  · rfl
  · rw [hfold]; rfl

theorem cancelled_GetOrConnectLeaseClient (env : Env) (a : Address) (s : State) :
    (GetOrConnectLeaseClient env a s).2.cancelled_tasks = s.cancelled_tasks := by
  unfold GetOrConnectLeaseClient
  split
  · split <;> rfl
  · rfl

theorem cancelled_CancelWorkerLeaseIfNeeded (env : Env) (k : SchedulingKey) (s : State) :
    (CancelWorkerLeaseIfNeeded env k s).cancelled_tasks = s.cancelled_tasks := by
  unfold CancelWorkerLeaseIfNeeded
  simp only []
  have hfold : ∀ (ps : List (TaskID × Address)) (s₀ : State),
      (ps.foldl (cancelOneLease env k) s₀).cancelled_tasks = s₀.cancelled_tasks := by
    intro ps
    induction ps with
    | nil => intro s₀; rfl
    | cons p ps ih =>
      intro s₀
      rw [List.foldl_cons, ih]
      exact cancelled_GetOrConnectLeaseClient env p.2 s₀
  split
  · rfl
  · rw [hfold]; rfl

theorem erase_erase_self {A : Type} [DecidableEq A] (a : A) (xs : List A) :
    HashSet.erase a (HashSet.erase a xs) = HashSet.erase a xs := by
  simp [HashSet.erase, List.filter_filter]

/-- C7 (as stated, refuted): a task is cancelled once while it executes and
completes all the same; at the end nothing is outstanding, the task was
completed and no terminal failure of it was reported. -/
theorem cancel_once_counterexample :
    ∃ s, run exampleEnv cancelledButCompleted {} = Except.ok s ∧ s.quiescent ∧
      failuresOf taskA.task_id s = 0 ∧ s.cancelled_tasks = [] :=
  ⟨stateAfter exampleEnv cancelledButCompleted, by rfl, by decide, by rfl, by rfl⟩

/-- C7 (amended): a call of `CancelTask` that returns returns OK and reports at
most one terminal failure of the task, exactly one when the task is pending,
is not in `cancelled_tasks` and is either queued or neither executing nor
awaiting its failure cause, none otherwise.  A call made while the task is in
`cancelled_tasks` makes no call and changes nothing but
`generators_to_resubmit`, from which it removes the task; once a call has left
the task in `cancelled_tasks`, further calls change nothing. -/
theorem cancel_task_coalesced (env : Env) (task_spec : TaskSpecification)
    (force_kill recursive is_pending : Bool) (s s' : State) (st : Status)
    (h : CancelTask env task_spec force_kill recursive is_pending s = Except.ok (st, s')) :
    st.ok = true ∧
    failuresOf task_spec.task_id s' = failuresOf task_spec.task_id s +
      (if is_pending = true ∧ task_spec.task_id ∉ s.cancelled_tasks ∧
          ((queuedIndex task_spec.task_id
              (s.entry task_spec.GetSchedulingKey).task_queue).isSome ∨
            (Map.find task_spec.task_id s.executing_tasks = none ∧
              task_spec.task_id ∉ s.failed_tasks_pending_failure_cause))
        then 1 else 0) ∧
    (task_spec.task_id ∈ s.cancelled_tasks → s' = s.eraseGenerator task_spec.task_id) ∧
    (task_spec.task_id ∈ s'.cancelled_tasks →
      ∀ force_kill₁ recursive₁ is_pending₁,
        CancelTask env task_spec force_kill₁ recursive₁ is_pending₁ s' =
          Except.ok ({}, s')) := by
  have hagain : ∀ s₀ : State, task_spec.task_id ∈ s₀.cancelled_tasks →
      s₀.generators_to_resubmit =
        HashSet.erase task_spec.task_id s₀.generators_to_resubmit →
      ∀ force_kill₁ recursive₁ is_pending₁,
        CancelTask env task_spec force_kill₁ recursive₁ is_pending₁ s₀ =
          Except.ok ({}, s₀) := by
    intro s₀ hc hg fk rc ip
    unfold CancelTask
    have he : s₀.eraseGenerator task_spec.task_id = s₀ := by
      cases s₀
      simp only [State.eraseGenerator] at hg ⊢
      congr 1
      exact hg.symm
    simp only [he, hc, if_true]
  unfold CancelTask at h
  simp only [] at h
  split at h
  · next hc =>
    cases h
    have hc' : task_spec.task_id ∈ s.cancelled_tasks := hc
    refine ⟨rfl, ?_, fun _ => rfl, fun _ => ?_⟩
    · simp [hc', failuresOf, State.eraseGenerator]
    · exact hagain _ hc (erase_erase_self _ _).symm
  · next hc =>
    have hc' : task_spec.task_id ∉ s.cancelled_tasks := hc
    split at h
    · next hp =>
      cases h
      have hp' : is_pending = false := by simpa using hp
      refine ⟨rfl, ?_, fun hin => absurd hin hc', fun hin => absurd hin hc'⟩
      simp [hp', failuresOf, State.eraseGenerator, State.call, List.countP_append,
        List.countP_cons, Call.failureOf]
    · next hp =>
      have hp' : is_pending = true := by simpa using hp
      split at h
      · next i hi =>
        cases h
        have hi' : queuedIndex task_spec.task_id
            (s.entry task_spec.GetSchedulingKey).task_queue = some i := by
          simpa [State.entry, State.touchEntry, State.call, State.eraseGenerator,
            Map.get_index] using hi
        refine ⟨rfl, ?_, fun hin => absurd hin hc', ?_⟩
        · rw [failuresOf_call, failuresOf_CancelWorkerLeaseIfNeeded]
          simp [hp', hc', hi', failuresOf, State.eraseGenerator, State.call,
            State.setEntry, State.touchEntry, List.countP_append, List.countP_cons,
            Call.failureOf]
        · intro hin
          exfalso
          apply hc'
          have hin' := hin
          simp only [State.call] at hin'
          rw [cancelled_CancelWorkerLeaseIfNeeded] at hin'
          exact hin'
      · next hi =>
        have hi' : queuedIndex task_spec.task_id
            (s.entry task_spec.GetSchedulingKey).task_queue = none := by
          simpa [State.entry, State.touchEntry, State.call, State.eraseGenerator,
            Map.get_index] using hi
        split at h
        · cases h
        · split at h
          · next hex =>
            have hex' : Map.find task_spec.task_id s.executing_tasks = none := hex
            cases h
            refine ⟨rfl, ?_, fun hin => absurd hin hc', fun _ => ?_⟩
            · by_cases hf : task_spec.task_id ∈ s.failed_tasks_pending_failure_cause
              · have hf' : task_spec.task_id ∈ (((((s.eraseGenerator task_spec.task_id).call
                    (Call.MarkTaskCanceled task_spec.task_id)).call
                    (Call.IsTaskPending task_spec.task_id)).touchEntry
                    task_spec.GetSchedulingKey).insertCancelled
                    task_spec.task_id).failed_tasks_pending_failure_cause := hf
                simp only [hf', if_true]
                split <;>
                  simp [hp', hc', hi', hex', hf, failuresOf, State.eraseGenerator, State.call,
                    State.eraseEntry, State.touchEntry, State.insertCancelled,
                    List.countP_append, List.countP_cons, Call.failureOf]
              · have hf' : task_spec.task_id ∉ (((((s.eraseGenerator task_spec.task_id).call
                    (Call.MarkTaskCanceled task_spec.task_id)).call
                    (Call.IsTaskPending task_spec.task_id)).touchEntry
                    task_spec.GetSchedulingKey).insertCancelled
                    task_spec.task_id).failed_tasks_pending_failure_cause := hf
                simp only [hf', if_false]
                split <;>
                  simp [hp', hc', hi', hex', hf, failuresOf, State.eraseGenerator, State.call,
                    State.eraseEntry, State.touchEntry, State.insertCancelled,
                    CancelDependencyResolution, State.keepCallbacks,
                    List.countP_append, List.countP_cons, Call.failureOf]
            · apply hagain
              · split <;> split <;>
                  simp [State.eraseGenerator, State.call, State.eraseEntry, State.touchEntry,
                    State.insertCancelled, CancelDependencyResolution, State.keepCallbacks,
                    HashSet.mem_insert]
              · split <;> split <;>
                  simp [State.eraseGenerator, State.call, State.eraseEntry, State.touchEntry,
                    State.insertCancelled, CancelDependencyResolution, State.keepCallbacks,
                    erase_erase_self]
          · next worker_addr hex =>
            have hex' : Map.find task_spec.task_id s.executing_tasks = some worker_addr := hex
            cases h
            refine ⟨rfl, ?_, fun hin => absurd hin hc', fun _ => ?_⟩
            · simp [hp', hc', hi', hex', failuresOf, State.eraseGenerator, State.call,
                State.register, State.touchEntry, State.insertCancelled,
                List.countP_append, List.countP_cons, Call.failureOf]
            · apply hagain
              · simp [State.eraseGenerator, State.call, State.register, State.touchEntry,
                  State.insertCancelled, HashSet.mem_insert]
              · simp [State.eraseGenerator, State.call, State.register, State.touchEntry,
                  State.insertCancelled, erase_erase_self]

theorem cancel_task_coalesced_witness :
    CancelTask exampleEnv taskA false false true (stateAfter exampleEnv oneResolving) =
      Except.ok ({}, stateAfter exampleEnv cancelledWhileResolving) ∧
    failuresOf taskA.task_id (stateAfter exampleEnv oneResolving) = 0 ∧
    failuresOf taskA.task_id (stateAfter exampleEnv cancelledWhileResolving) = 1 ∧
    CancelTask exampleEnv taskA true true true (stateAfter exampleEnv cancelledWhileResolving) =
      Except.ok ({}, stateAfter exampleEnv cancelledWhileResolving) :=
  ⟨by rfl, by rfl, by rfl,
    (cancel_task_coalesced exampleEnv taskA false false true
      (stateAfter exampleEnv oneResolving) (stateAfter exampleEnv cancelledWhileResolving) {}
      (by rfl)).2.2.2 (by decide) true true true⟩

/-- C8 (the code at the failing inputs): a task is cancelled while its
dependencies are being resolved, or before it is handed to `SubmitTask`.  The
run ends with nothing outstanding, the task failed as cancelled, and its id
still in `cancelled_tasks`. -/
theorem cancelled_tasks_leak :
    (∃ s, run exampleEnv cancelledWhileResolving {} = Except.ok s ∧ s.quiescent ∧
      s.cancelled_tasks = [taskA.task_id] ∧ failuresOf taskA.task_id s = 1) ∧
    (∃ s, run exampleEnv cancelledBeforeSubmit {} = Except.ok s ∧ s.quiescent ∧
      s.cancelled_tasks = [taskA.task_id] ∧ failuresOf taskA.task_id s = 1) :=
  ⟨⟨stateAfter exampleEnv cancelledWhileResolving, by rfl, by decide, by rfl, by rfl⟩,
    ⟨stateAfter exampleEnv cancelledBeforeSubmit, by rfl, by decide, by rfl, by rfl⟩⟩

/-! ### Entries in use -/

theorem hold_of_none {s : State} {k : SchedulingKey}
    (h : Map.find k s.scheduling_key_entries = none) : s.hold k = true := by
  simp [State.hold, h]

@[simp] theorem hold_unregister (s : State) (cb : Callback) :
    (s.unregister cb).hold = s.hold := rfl
@[simp] theorem hold_keepCallbacks (s : State) (f : Callback → Bool) :
    (s.keepCallbacks f).hold = s.hold := rfl
@[simp] theorem hold_touchLease (s : State) (a : Address) : (s.touchLease a).hold = s.hold := rfl
@[simp] theorem hold_setLease (s : State) (a : Address) (l : LeaseEntry) :
    (s.setLease a l).hold = s.hold := rfl
@[simp] theorem hold_eraseLease (s : State) (a : Address) : (s.eraseLease a).hold = s.hold := rfl
@[simp] theorem hold_emplaceLease (s : State) (a : Address) (l : LeaseEntry) :
    (s.emplaceLease a l).hold = s.hold := rfl
@[simp] theorem hold_emplaceExecuting (s : State) (t : TaskID) (a : Address) :
    (s.emplaceExecuting t a).hold = s.hold := rfl
@[simp] theorem hold_eraseExecuting (s : State) (t : TaskID) :
    (s.eraseExecuting t).hold = s.hold := rfl
@[simp] theorem hold_eraseGenerator (s : State) (t : TaskID) :
    (s.eraseGenerator t).hold = s.hold := rfl
@[simp] theorem hold_insertGenerator (s : State) (t : TaskID) :
    (s.insertGenerator t).hold = s.hold := rfl
@[simp] theorem hold_insertFailed (s : State) (t : TaskID) :
    (s.insertFailed t).hold = s.hold := rfl
@[simp] theorem hold_addRemoteLeaseClient (s : State) (n : NodeID) :
    (s.addRemoteLeaseClient n).hold = s.hold := rfl
@[simp] theorem hold_countTaskSubmitted (s : State) : s.countTaskSubmitted.hold = s.hold := rfl
@[simp] theorem hold_setTimerExpiry (s : State) (x : Int) : (s.setTimerExpiry x).hold = s.hold := rfl

/-- C18: `HandleGetTaskFailureCause` makes one call, `FailOrRetryPendingTask`
with `mark_task_object_failed = true`, and returns the answer of the task
manager.  When the failure-cause reply is OK the error type is that of the
reply's failure cause if it has one (and the cause is attached) and
`WORKER_DIED` if it has none, and `fail_immediately` is the reply's
`fail_task_immediately`.  When the reply is not OK the error type is
`NODE_DIED`, `fail_immediately` is false, and the message of the attached
error info names the node id and the ip address of the worker's address. -/
theorem failure_cause_once (task_execution_status : Status) (task_id : TaskID)
    (addr : Address) (reply_status : Status) (reply : GetTaskFailureCauseReply)
    (will_retry : Bool) (s : State) :
    ∃ error_type error_info fail_immediately,
      HandleGetTaskFailureCause task_execution_status task_id addr reply_status reply
          will_retry s =
        (will_retry, s.call (Call.FailOrRetryPendingTask task_id error_type
          task_execution_status error_info true fail_immediately)) ∧
      (reply_status.ok = true → reply.has_failure_cause = true →
        error_type = reply.failure_cause.error_type ∧
          error_info = some reply.failure_cause) ∧
      (reply_status.ok = true → reply.has_failure_cause = false →
        error_type = ErrorType.WORKER_DIED) ∧
      (reply_status.ok = true → fail_immediately = reply.fail_task_immediately) ∧
      (reply_status.ok = false → error_type = ErrorType.NODE_DIED ∧
        fail_immediately = false ∧
        ∃ info, error_info = some info ∧ info.error_type = ErrorType.NODE_DIED ∧
          MsgAtom.node_id addr.raylet_id ∈ info.error_message ∧
          MsgAtom.ip_address addr.ip_address ∈ info.error_message) := by
  cases hok : reply_status.ok with
  | true =>
    cases hc : reply.has_failure_cause with
    | true =>
      refine ⟨reply.failure_cause.error_type, some reply.failure_cause,
        reply.fail_task_immediately, ?_, ?_, ?_, ?_, ?_⟩
      · simp [HandleGetTaskFailureCause, hok, hc]
      · intro _ _; exact ⟨rfl, rfl⟩
      · intro _ h; cases h
      · intro _; rfl
      · intro h; cases h
    | false =>
      refine ⟨ErrorType.WORKER_DIED, none, reply.fail_task_immediately, ?_, ?_, ?_, ?_, ?_⟩
      · simp [HandleGetTaskFailureCause, hok, hc]
      · intro _ h; cases h
      · intro _ _; rfl
      · intro _; rfl
      · intro h; cases h
  | false =>
    simp only [HandleGetTaskFailureCause, hok, Bool.false_eq_true, if_false]
    refine ⟨_, _, _, rfl, ?_, ?_, ?_, ?_⟩
    · intro h; cases h
    · intro h; cases h
    · intro h; cases h
    · intro _
      refine ⟨rfl, rfl, _, rfl, rfl, ?_, ?_⟩ <;> simp

/-! ### The lease-reply closure -/

theorem client_GetOrConnectLeaseClient (env : Env) (a : Address) (s : State) :
    (GetOrConnectLeaseClient env a s).1 = clientFor env a := by
  unfold clientFor GetOrConnectLeaseClient
  split
  · split <;> simp
  · rfl

theorem calls_GetOrConnectLeaseClient (env : Env) (a : Address) (s : State) :
    ∃ connect, (connect = [] ∨ connect = [Call.GetOrConnectByAddress a]) ∧
      (GetOrConnectLeaseClient env a s).2.calls = s.calls ++ connect := by
  unfold GetOrConnectLeaseClient
  split
  · split
    · exact ⟨[], Or.inl rfl, by simp⟩
    · exact ⟨_, Or.inr rfl, rfl⟩
  · exact ⟨[], Or.inl rfl, by simp⟩

theorem foldl_failOneTask (et : ErrorType) (es : Status) (ei : RayErrorInfo)
    (ts : List TaskSpecification) :
    ∀ s : State, ts.foldl (failOneTask et es ei) s =
      { s with calls := s.calls ++ ts.map (failCall et es ei) } := by
  induction ts with
  | nil => intro s; simp
  | cons t ts ih =>
    intro s
    rw [List.foldl_cons, ih]
    unfold failOneTask failCall State.call
    split
    · next h => simp [h]
    · next h =>
      have h' : ¬ (t.IsActorCreationTask = true ∧
          et = ErrorType.TASK_PLACEMENT_GROUP_REMOVED) := h
      simp [h']

theorem entry_leaseReplyStart (env : Env) (k : SchedulingKey) (id : TaskID) (a : Address)
    (s : State) (k' : SchedulingKey) :
    (leaseReplyStart env k id a s).entry k' =
      if k' = k then
        { s.entry k with
          pending_lease_requests := Map.erase id (s.entry k).pending_lease_requests }
      else s.entry k' := by
  unfold leaseReplyStart
  simp only [entry_setEntry, entry_GetOrConnectLeaseClient, entry_touchEntry]

theorem calls_leaseReplyStart (env : Env) (k : SchedulingKey) (id : TaskID) (a : Address)
    (s : State) :
    ∃ connect, (connect = [] ∨ connect = [Call.GetOrConnectByAddress a]) ∧
      (leaseReplyStart env k id a s).calls = s.calls ++ connect := by
  obtain ⟨c, hc, h⟩ := calls_GetOrConnectLeaseClient env a (s.touchEntry k)
  exact ⟨c, hc, h⟩

theorem leaseRequests_leaseReplyStart (env : Env) (k : SchedulingKey) (id : TaskID)
    (a : Address) (s : State) :
    leaseRequests (leaseReplyStart env k id a s) = leaseRequests s := by
  obtain ⟨c, hc, h⟩ := calls_leaseReplyStart env k id a s
  unfold leaseRequests
  rw [h]
  rcases hc with rfl | rfl <;> simp [Call.requested]

/-- What the draining branch of the lease-reply closure leaves: the queue of
the key is empty, and the entry is gone exactly when it has no pending lease
request and no active worker. -/
theorem drainQueue_spec (k : SchedulingKey) (et : ErrorType) (ei : RayErrorInfo)
    (es : Status) (s : State) :
    (drainQueue k et ei es s).tasks_to_fail = (s.entry k).task_queue ∧
    (drainQueue k et ei es s).error_type = et ∧
    (drainQueue k et ei es s).error_info = ei ∧
    (drainQueue k et ei es s).error_status = es ∧
    (drainQueue k et ei es s).state.calls = s.calls ∧
    ((drainQueue k et ei es s).state.entry k).task_queue = [] ∧
    (Map.find k (drainQueue k et ei es s).state.scheduling_key_entries =
      if (s.entry k).pending_lease_requests = [] ∧ (s.entry k).active_workers = [] then none
      else some { s.entry k with task_queue := [] }) := by
  have hcd : ({ s.entry k with task_queue := [] } : SchedulingKeyEntry).CanDelete = true ↔
      ((s.entry k).pending_lease_requests = [] ∧ (s.entry k).active_workers = []) := by
    simp [SchedulingKeyEntry.CanDelete, List.isEmpty_iff]
  refine ⟨rfl, rfl, rfl, rfl, ?_, ?_, ?_⟩
  · unfold drainQueue
    simp only []
    split <;> rfl
  · unfold drainQueue
    simp only []
    split <;> simp
  · unfold drainQueue
    simp only []
    by_cases h : (s.entry k).pending_lease_requests = [] ∧ (s.entry k).active_workers = []
    · rw [if_pos (hcd.mpr h), if_pos h]
      simp [State.eraseEntry, State.setEntry, Map.find_erase]
    · rw [if_neg (fun hd => h (hcd.mp hd)), if_neg h]
      simp [State.setEntry, Map.find_set]

/-- The lease-reply closure on a reply that cancels the request for one of
the three reasons that fail the queue. -/
theorem OnLeaseReply_cancelled (env : Env) (depth : Nat) (clk : Clock) (k : SchedulingKey)
    (id : TaskID) (name : String) (sp : Bool) (a : Address) (status : Status)
    (reply : RequestWorkerLeaseReply) (s : State) (hok : status.ok = true)
    (hc : reply.canceled = true)
    (hft : reply.failure_type =
        SchedulingFailureType.SCHEDULING_CANCELLED_RUNTIME_ENV_SETUP_FAILED ∨
      reply.failure_type =
        SchedulingFailureType.SCHEDULING_CANCELLED_PLACEMENT_GROUP_REMOVED ∨
      reply.failure_type = SchedulingFailureType.SCHEDULING_CANCELLED_UNSCHEDULABLE) :
    OnLeaseReply env depth clk k id name sp a status reply s =
      Except.ok (failedQueueState k (cancelledErrorType reply.failure_type)
        (cancelledErrorInfo reply id name) {} (leaseReplyStart env k id a s)) := by
  unfold OnLeaseReply leaseReplyLocked
  simp only [hok, hc, hft, if_true]
  simp only [bind, Except.bind]
  rw [foldl_failOneTask]
  have hs := drainQueue_spec k (cancelledErrorType reply.failure_type)
    (cancelledErrorInfo reply id name) {} (leaseReplyStart env k id a s)
  obtain ⟨h1, h2, h3, h4, h5, _, _⟩ := hs
  unfold failedQueueState
  simp only []
  rw [← h5]
  unfold cancelledErrorType cancelledErrorInfo at *
  simp only [leaseReplyStart] at *
  simp only [h1, h2, h3, h4]

/-- What `failedQueueState` is, field by field. -/
theorem failedQueueState_spec (k : SchedulingKey) (et : ErrorType) (ei : RayErrorInfo)
    (es : Status) (s : State) :
    (failedQueueState k et ei es s).calls =
      s.calls ++ (s.entry k).task_queue.map (failCall et es { ei with error_type := et }) ∧
    ((failedQueueState k et ei es s).entry k).task_queue = [] ∧
    (Map.find k (failedQueueState k et ei es s).scheduling_key_entries =
      if (s.entry k).pending_lease_requests = [] ∧ (s.entry k).active_workers = [] then none
      else some { s.entry k with task_queue := [] }) := by
  obtain ⟨_, _, _, _, _, h6, h7⟩ := drainQueue_spec k et ei es s
  exact ⟨rfl, h6, h7⟩

/-- C14: a lease reply that is OK and cancels the request because the runtime
environment could not be set up, the placement group was removed or the task
is unschedulable makes the closure return, and the calls it adds are, after at
most a connection to the raylet of the request, one `FailPendingTask` per task
of the key's queue, in queue order, and nothing else.  The error kind is
`RUNTIME_ENV_SETUP_FAILED`, `TASK_UNSCHEDULABLE_ERROR` or
`TASK_PLACEMENT_GROUP_REMOVED` respectively, except that under a removed
placement group an actor-creation task is failed with
`ACTOR_PLACEMENT_GROUP_REMOVED`. -/
theorem lease_cancelled_fails_queue (env : Env) (depth : Nat) (clk : Clock)
    (k : SchedulingKey) (id : TaskID) (name : String) (sp : Bool) (a : Address)
    (status : Status) (reply : RequestWorkerLeaseReply) (s : State)
    (hok : status.ok = true) (hc : reply.canceled = true)
    (hft : reply.failure_type =
        SchedulingFailureType.SCHEDULING_CANCELLED_RUNTIME_ENV_SETUP_FAILED ∨
      reply.failure_type =
        SchedulingFailureType.SCHEDULING_CANCELLED_PLACEMENT_GROUP_REMOVED ∨
      reply.failure_type = SchedulingFailureType.SCHEDULING_CANCELLED_UNSCHEDULABLE) :
    ∃ s' connect error_info,
      OnLeaseReply env depth clk k id name sp a status reply s = Except.ok s' ∧
      (connect = [] ∨ connect = [Call.GetOrConnectByAddress a]) ∧
      s'.calls = s.calls ++ connect ++
        (s.entry k).task_queue.map (fun t =>
          Call.FailPendingTask t.task_id
            (if reply.failure_type =
                SchedulingFailureType.SCHEDULING_CANCELLED_RUNTIME_ENV_SETUP_FAILED then
              ErrorType.RUNTIME_ENV_SETUP_FAILED
            else if reply.failure_type =
                SchedulingFailureType.SCHEDULING_CANCELLED_UNSCHEDULABLE then
              ErrorType.TASK_UNSCHEDULABLE_ERROR
            else if t.IsActorCreationTask = true then
              ErrorType.ACTOR_PLACEMENT_GROUP_REMOVED
            else ErrorType.TASK_PLACEMENT_GROUP_REMOVED)
            (some {}) (some error_info)) := by
  obtain ⟨connect, hconn, hcalls⟩ := calls_leaseReplyStart env k id a s
  refine ⟨_, connect,
    { cancelledErrorInfo reply id name with
      error_type := cancelledErrorType reply.failure_type },
    OnLeaseReply_cancelled env depth clk k id name sp a status reply s hok hc hft, hconn, ?_⟩
  rw [(failedQueueState_spec _ _ _ _ _).1, hcalls, entry_leaseReplyStart, if_pos rfl]
  congr 1
  apply List.map_congr_left
  intro t _
  unfold failCall cancelledErrorType
  rcases hft with h | h | h <;> simp [h]

theorem lease_cancelled_fails_queue_witness :
    ((stateAfter exampleEnv actorQueued).entry keyC).task_queue.map (fun t => t.task_id) =
      [3] ∧
    ∃ s', OnLeaseReply exampleEnv 64 {} keyC 1000 "" false localRaylet {} groupRemoved
        (stateAfter exampleEnv actorQueued) = Except.ok s' ∧
      s'.calls.filterMap Call.failed = [(3, ErrorType.ACTOR_PLACEMENT_GROUP_REMOVED)] := by
  refine ⟨by rfl, ?_⟩
  obtain ⟨s', connect, ei, h, hconn, hcalls⟩ :=
    lease_cancelled_fails_queue exampleEnv 64 {} keyC 1000 "" false localRaylet {}
      groupRemoved (stateAfter exampleEnv actorQueued) (by rfl) (by rfl) (Or.inr (Or.inl rfl))
  refine ⟨s', h, ?_⟩
  rw [hcalls]
  rcases hconn with rfl | rfl <;> rfl

/-- C15 (as stated, refuted): two tasks of one key are queued with two lease
requests pending, and the reply to the first request cancels it because the
placement group was removed.  The entry of the key is still there, with the
second lease request pending. -/
theorem entry_kept_counterexample :
    ∃ s e, run exampleEnv twoQueuedGroupRemoved {} = Except.ok s ∧
      Map.find keyAB s.scheduling_key_entries = some e ∧
      e.pending_lease_requests = [(1001, localRaylet)] ∧ e.task_queue = [] :=
  ⟨stateAfter exampleEnv twoQueuedGroupRemoved,
    (stateAfter exampleEnv twoQueuedGroupRemoved).entry keyAB, by rfl, by rfl, by rfl, by rfl⟩

/-- C15 (amended): after a lease reply that is OK and cancels the request
because the runtime environment could not be set up, the placement group was
removed or the task is unschedulable, the queue of the key is empty and no
`RequestWorkerLease` was sent; the entry of the key is deleted exactly when,
the lease id of the reply removed, it has no pending lease request and no
active worker, and otherwise it stays with these and an empty queue. -/
theorem lease_cancelled_entry (env : Env) (depth : Nat) (clk : Clock)
    (k : SchedulingKey) (id : TaskID) (name : String) (sp : Bool) (a : Address)
    (status : Status) (reply : RequestWorkerLeaseReply) (s : State)
    (hok : status.ok = true) (hc : reply.canceled = true)
    (hft : reply.failure_type =
        SchedulingFailureType.SCHEDULING_CANCELLED_RUNTIME_ENV_SETUP_FAILED ∨
      reply.failure_type =
        SchedulingFailureType.SCHEDULING_CANCELLED_PLACEMENT_GROUP_REMOVED ∨
      reply.failure_type = SchedulingFailureType.SCHEDULING_CANCELLED_UNSCHEDULABLE) :
    ∃ s', OnLeaseReply env depth clk k id name sp a status reply s = Except.ok s' ∧
      leaseRequests s' = leaseRequests s ∧
      (s'.entry k).task_queue = [] ∧
      (Map.find k s'.scheduling_key_entries = none ↔
        (Map.erase id (s.entry k).pending_lease_requests = [] ∧
          (s.entry k).active_workers = [])) ∧
      (∀ e, Map.find k s'.scheduling_key_entries = some e →
        e.pending_lease_requests = Map.erase id (s.entry k).pending_lease_requests ∧
        e.active_workers = (s.entry k).active_workers ∧ e.task_queue = []) := by
  refine ⟨_, OnLeaseReply_cancelled env depth clk k id name sp a status reply s hok hc hft,
    ?_, ?_, ?_, ?_⟩
  · obtain ⟨connect, hconn, hcalls⟩ := calls_leaseReplyStart env k id a s
    unfold leaseRequests
    rw [(failedQueueState_spec _ _ _ _ _).1, hcalls]
    simp only [List.filterMap_append]
    have h0 : List.filterMap Call.requested connect = [] := by
      rcases hconn with rfl | rfl <;> rfl
    rw [h0, List.append_nil]
    have h1 : ∀ ts : List TaskSpecification, List.filterMap Call.requested
        (ts.map (failCall (cancelledErrorType reply.failure_type) {}
          { cancelledErrorInfo reply id name with
            error_type := cancelledErrorType reply.failure_type })) = [] := by
      intro ts
      induction ts with
      | nil => rfl
      | cons t ts ih => simp [failCall, Call.requested, ih]
    rw [h1, List.append_nil]
  · exact (failedQueueState_spec _ _ _ _ _).2.1
  · rw [(failedQueueState_spec _ _ _ _ _).2.2, entry_leaseReplyStart, if_pos rfl]
    by_cases h : Map.erase id (s.entry k).pending_lease_requests = [] ∧
        (s.entry k).active_workers = []
    · simp [h]
    · simp [h]
  · intro e he
    rw [(failedQueueState_spec _ _ _ _ _).2.2, entry_leaseReplyStart, if_pos rfl] at he
    split at he
    · cases he
    · cases he
      exact ⟨rfl, rfl, rfl⟩

theorem lease_cancelled_entry_witness :
    ∃ s', OnLeaseReply exampleEnv 64 {} keyC 1000 "" false localRaylet {} groupRemoved
        (stateAfter exampleEnv actorQueued) = Except.ok s' ∧
      Map.find keyC s'.scheduling_key_entries = none := by
  obtain ⟨s', h, _, _, hdel, _⟩ :=
    lease_cancelled_entry exampleEnv 64 {} keyC 1000 "" false localRaylet {}
      groupRemoved (stateAfter exampleEnv actorQueued) (by rfl) (by rfl) (Or.inr (Or.inl rfl))
  exact ⟨s', h, hdel.mpr ⟨by rfl, by rfl⟩⟩

/-! ### Calls a function does not make -/

theorem filterMap_call {α : Type} (p : Call → Option α) (s : State) (c : Call) :
    (s.call c).calls.filterMap p = s.calls.filterMap p ++ (p c).toList := by
  simp only [State.call, List.filterMap_append]
  cases h : p c <;> simp [List.filterMap_cons, h]

theorem filterMap_GetOrConnectLeaseClient {α : Type} (p : Call → Option α)
    (hp : ∀ a, p (Call.GetOrConnectByAddress a) = none) (env : Env) (a : Address)
    (s : State) :
    (GetOrConnectLeaseClient env a s).2.calls.filterMap p = s.calls.filterMap p := by
  obtain ⟨c, hc, h⟩ := calls_GetOrConnectLeaseClient env a s
  rw [h]
  rcases hc with rfl | rfl
  · simp
  · simp [List.filterMap_cons, hp]

theorem filterMap_ReportWorkerBacklogIfNeeded {α : Type} (p : Call → Option α)
    (hp : ∀ w r, p (Call.ReportWorkerBacklog w r) = none) (env : Env) (k : SchedulingKey)
    (s : State) :
    (ReportWorkerBacklogIfNeeded env k s).calls.filterMap p = s.calls.filterMap p := by
  unfold ReportWorkerBacklogIfNeeded
  simp only []
  split
  · unfold ReportWorkerBacklogInternal
    rw [filterMap_call, hp]
    simp [State.markBacklogReported, State.touchEntry]
  · rfl

theorem filterMap_sendLeaseRequest {α : Type} (p : Call → Option α)
    (hp1 : ∀ a, p (Call.GetOrConnectByAddress a) = none)
    (hp2 : ∀ w r, p (Call.ReportWorkerBacklog w r) = none)
    (hp3 : ∀ c r g b l, p (Call.RequestWorkerLease c r g b l) = none)
    (env : Env) (k : SchedulingKey) (hint : Option Address) (s : State) :
    (sendLeaseRequest env k hint s).calls.filterMap p = s.calls.filterMap p := by
  unfold sendLeaseRequest
  simp only []
  rw [filterMap_ReportWorkerBacklogIfNeeded p hp2]
  show ((GetOrConnectLeaseClient env _ _).2.call _).calls.filterMap p = _
  rw [filterMap_call, hp3, filterMap_GetOrConnectLeaseClient p hp1]
  simp [State.countRandomDraw, State.countLeaseRequested]

theorem filterMap_RequestNewWorkerIfNeeded {α : Type} (p : Call → Option α)
    (hp1 : ∀ a, p (Call.GetOrConnectByAddress a) = none)
    (hp2 : ∀ w r, p (Call.ReportWorkerBacklog w r) = none)
    (hp3 : ∀ c r g b l, p (Call.RequestWorkerLease c r g b l) = none) (env : Env) :
    ∀ (depth : Nat) (k : SchedulingKey) (hint : Option Address) (s s' : State),
      RequestNewWorkerIfNeeded env depth k hint s = Except.ok s' →
      s'.calls.filterMap p = s.calls.filterMap p := by
  intro depth
  induction depth with
  | zero => intro k hint s s' h; simp [RequestNewWorkerIfNeeded] at h
  | succ d ih =>
    intro k hint s s' h
    unfold RequestNewWorkerIfNeeded at h
    simp only [] at h
    split at h
    · cases h; rfl
    · split at h
      · cases h; rfl
      · split at h
        · split at h <;> (cases h; rfl)
        · split at h
          · cases h; rfl
          · split at h
            · rw [ih _ _ _ _ h, filterMap_sendLeaseRequest p hp1 hp2 hp3]
              rfl
            · cases h
              rw [filterMap_sendLeaseRequest p hp1 hp2 hp3]
              rfl

theorem clientFor_local (env : Env) (a : Address) :
    clientFor env a = LeaseClient.local_client ↔ a.raylet_id = env.local_raylet_id := by
  unfold clientFor GetOrConnectLeaseClient
  by_cases h : a.raylet_id = env.local_raylet_id
  · simp [h]
  · simp only [ne_eq, h, not_false_eq_true, if_true, iff_false]
    split <;> simp

/-- The lease-reply closure on a failed request to the local raylet that is
unavailable, in a driver. -/
theorem OnLeaseReply_raylet_died (env : Env) (depth : Nat) (clk : Clock) (k : SchedulingKey)
    (id : TaskID) (name : String) (sp : Bool) (a : Address) (status : Status)
    (reply : RequestWorkerLeaseReply) (s : State) (hnok : status.ok = false)
    (hl : a.raylet_id = env.local_raylet_id) (hrpc : status.IsRpcError = true)
    (hu : status.rpc_code = grpc_UNAVAILABLE) (hd : env.worker_type = WorkerType.DRIVER) :
    OnLeaseReply env depth clk k id name sp a status reply s =
      Except.ok (failedQueueState k ErrorType.LOCAL_RAYLET_DIED (rayletDiedErrorInfo a) status
        (leaseReplyStart env k id a s)) := by
  have hc := (clientFor_local env a).mpr hl
  unfold OnLeaseReply leaseReplyLocked
  simp only [hnok, client_GetOrConnectLeaseClient, hc, hrpc, hu, hd]
  simp only [Bool.false_eq_true, if_false, ne_eq, not_true_eq_false, decide_True,
    Bool.and_self, if_true, reduceCtorEq]
  simp only [bind, Except.bind]
  rw [foldl_failOneTask]
  obtain ⟨h1, h2, h3, h4, h5, _, _⟩ := drainQueue_spec k ErrorType.LOCAL_RAYLET_DIED
    (rayletDiedErrorInfo a) status (leaseReplyStart env k id a s)
  unfold failedQueueState
  simp only []
  rw [← h5]
  unfold rayletDiedErrorInfo at *
  simp only [leaseReplyStart] at *
  simp only [h1, h2, h3, h4]

/-- The lease-reply closure on any other failed request: the request is made
again, without a hint. -/
theorem OnLeaseReply_retry (env : Env) (depth : Nat) (clk : Clock) (k : SchedulingKey)
    (id : TaskID) (name : String) (sp : Bool) (a : Address) (status : Status)
    (reply : RequestWorkerLeaseReply) (s : State) (hnok : status.ok = false)
    (h : ¬ (a.raylet_id = env.local_raylet_id ∧ status.IsRpcError = true ∧
      status.rpc_code = grpc_UNAVAILABLE)) :
    OnLeaseReply env depth clk k id name sp a status reply s =
      RequestNewWorkerIfNeeded env depth k none (leaseReplyStart env k id a s) := by
  have hmap : ∀ x : Except Abort State,
      (x.map (fun s => ({ state := s } : LeaseReplyOutcome)) >>= fun o =>
        Except.ok (o.tasks_to_fail.foldl
          (failOneTask o.error_type o.error_status
            { o.error_info with error_type := o.error_type }) o.state)) = x := by
    intro x
    cases x <;> rfl
  unfold OnLeaseReply leaseReplyLocked
  simp only [hnok, client_GetOrConnectLeaseClient]
  by_cases hl : a.raylet_id = env.local_raylet_id
  · have hc := (clientFor_local env a).mpr hl
    have hnu : (status.IsRpcError && decide (status.rpc_code = grpc_UNAVAILABLE)) = false := by
      cases h1 : status.IsRpcError
      · rfl
      · have : status.rpc_code ≠ grpc_UNAVAILABLE := fun h2 => h ⟨hl, h1, h2⟩
        simp [this]
    simp only [hc, hnu, Bool.false_eq_true, if_false, ne_eq, not_true_eq_false]
    exact hmap _
  · have hc : clientFor env a ≠ LeaseClient.local_client :=
      fun hc => hl ((clientFor_local env a).mp hc)
    simp only [Bool.false_eq_true, if_false, ne_eq, hc, not_false_eq_true, if_true]
    exact hmap _

theorem requested_failCalls (et : ErrorType) (es : Status) (ei : RayErrorInfo)
    (ts : List TaskSpecification) :
    List.filterMap Call.requested (ts.map (failCall et es ei)) = [] := by
  induction ts with
  | nil => rfl
  | cons t ts ih => simp [failCall, Call.requested, ih]

theorem filterMap_leaseReplyStart {α : Type} (p : Call → Option α)
    (hp : ∀ a, p (Call.GetOrConnectByAddress a) = none) (env : Env) (k : SchedulingKey)
    (id : TaskID) (a : Address) (s : State) :
    (leaseReplyStart env k id a s).calls.filterMap p = s.calls.filterMap p :=
  filterMap_GetOrConnectLeaseClient p hp env a (s.touchEntry k)

/-- C19 (as stated, refuted): two tasks of one key are queued with two lease
requests pending, and the first request fails because the local raylet is
unavailable, in a driver.  Both tasks are failed with `LOCAL_RAYLET_DIED`, but
the entry of the key is still there, with the second lease request pending. -/
theorem raylet_died_counterexample :
    ∃ s e, run exampleEnv twoQueuedRayletDied {} = Except.ok s ∧
      Map.find keyAB s.scheduling_key_entries = some e ∧
      e.pending_lease_requests = [(1001, localRaylet)] ∧ e.task_queue = [] ∧
      s.calls.filterMap Call.failed =
        [(1, ErrorType.LOCAL_RAYLET_DIED), (2, ErrorType.LOCAL_RAYLET_DIED)] :=
  ⟨stateAfter exampleEnv twoQueuedRayletDied,
    (stateAfter exampleEnv twoQueuedRayletDied).entry keyAB,
    by rfl, by rfl, by rfl, by rfl, by rfl⟩

/-- C19 (amended): on a lease reply that is not OK.  When the request went to
the local raylet, the status is an RPC error with code UNAVAILABLE and the
process is a driver, the closure returns, the calls it adds are, after at most
a connection to the raylet, one `FailPendingTask` with `LOCAL_RAYLET_DIED` per
task of the key's queue, in queue order, no lease request is sent, the queue is
emptied, and the entry is deleted exactly when, the lease id of the reply
removed, it has no pending lease request and no active worker.  In every other
case, but for the local raylet being unavailable, the closure is
`RequestNewWorkerIfNeeded` without a hint, run after the lease id of the reply
is removed, and reports no task as failed. -/
theorem lease_failed (env : Env) (depth : Nat) (clk : Clock)
    (k : SchedulingKey) (id : TaskID) (name : String) (sp : Bool) (a : Address)
    (status : Status) (reply : RequestWorkerLeaseReply) (s : State)
    (hnok : status.ok = false) :
    (a.raylet_id = env.local_raylet_id → status.IsRpcError = true →
      status.rpc_code = grpc_UNAVAILABLE → env.worker_type = WorkerType.DRIVER →
      ∃ s' connect error_info,
        OnLeaseReply env depth clk k id name sp a status reply s = Except.ok s' ∧
        (connect = [] ∨ connect = [Call.GetOrConnectByAddress a]) ∧
        s'.calls = s.calls ++ connect ++
          (s.entry k).task_queue.map (fun t =>
            Call.FailPendingTask t.task_id ErrorType.LOCAL_RAYLET_DIED (some status)
              (some error_info)) ∧
        leaseRequests s' = leaseRequests s ∧
        (s'.entry k).task_queue = [] ∧
        (Map.find k s'.scheduling_key_entries = none ↔
          (Map.erase id (s.entry k).pending_lease_requests = [] ∧
            (s.entry k).active_workers = []))) ∧
    (¬ (a.raylet_id = env.local_raylet_id ∧ status.IsRpcError = true ∧
        status.rpc_code = grpc_UNAVAILABLE) →
      OnLeaseReply env depth clk k id name sp a status reply s =
        RequestNewWorkerIfNeeded env depth k none (leaseReplyStart env k id a s) ∧
      ∀ s', OnLeaseReply env depth clk k id name sp a status reply s = Except.ok s' →
        s'.calls.filterMap Call.failed = s.calls.filterMap Call.failed) := by
  constructor
  · intro hl hrpc hu hd
    obtain ⟨connect, hconn, hcalls⟩ := calls_leaseReplyStart env k id a s
    have hspec := failedQueueState_spec k ErrorType.LOCAL_RAYLET_DIED (rayletDiedErrorInfo a)
      status (leaseReplyStart env k id a s)
    refine ⟨_, connect,
      { rayletDiedErrorInfo a with error_type := ErrorType.LOCAL_RAYLET_DIED },
      OnLeaseReply_raylet_died env depth clk k id name sp a status reply s hnok hl hrpc hu hd,
      hconn, ?_, ?_, hspec.2.1, ?_⟩
    · rw [hspec.1, hcalls, entry_leaseReplyStart, if_pos rfl]
      congr 1
      apply List.map_congr_left
      intro t _
      simp [failCall]
    · unfold leaseRequests
      rw [hspec.1, List.filterMap_append, requested_failCalls, List.append_nil]
      exact filterMap_leaseReplyStart Call.requested (fun _ => rfl) env k id a s
    · rw [hspec.2.2, entry_leaseReplyStart, if_pos rfl]
      by_cases h : Map.erase id (s.entry k).pending_lease_requests = [] ∧
          (s.entry k).active_workers = []
      · simp [h]
      · simp [h]
  · intro h
    have heq := OnLeaseReply_retry env depth clk k id name sp a status reply s hnok h
    refine ⟨heq, ?_⟩
    intro s' hs'
    rw [heq] at hs'
    rw [filterMap_RequestNewWorkerIfNeeded Call.failed (fun _ => rfl) (fun _ _ => rfl)
      (fun _ _ _ _ _ => rfl) env depth k none _ s' hs']
    exact filterMap_leaseReplyStart Call.failed (fun _ => rfl) env k id a s

theorem lease_failed_witness :
    ((stateAfter exampleEnv twoQueued).entry keyAB).task_queue.map (fun t => t.task_id) =
      [1, 2] ∧
    ∃ s', OnLeaseReply exampleEnv 64 {} keyAB 1000 "" false localRaylet unavailable {}
        (stateAfter exampleEnv twoQueued) = Except.ok s' ∧
      s'.calls.filterMap Call.failed =
        [(1, ErrorType.LOCAL_RAYLET_DIED), (2, ErrorType.LOCAL_RAYLET_DIED)] := by
  refine ⟨by rfl, ?_⟩
  obtain ⟨s', connect, ei, h, hconn, hcalls, _⟩ :=
    (lease_failed exampleEnv 64 {} keyAB 1000 "" false localRaylet unavailable {}
      (stateAfter exampleEnv twoQueued) (by rfl)).1 (by rfl) (by rfl) (by rfl) (by rfl)
  refine ⟨s', h, ?_⟩
  rw [hcalls]
  rcases hconn with rfl | rfl <;> rfl

/-! ### The resolution closure and the cancellation of a queued task -/

theorem queue_sendLeaseRequest (env : Env) (k : SchedulingKey) (hint : Option Address)
    (s : State) (k' : SchedulingKey) :
    ((sendLeaseRequest env k hint s).entry k').task_queue = (s.entry k').task_queue := by
  obtain ⟨spec, addr, _, hv⟩ := view_sendLeaseRequest env k hint s
  have := congrArg (fun v => v.queue k') hv
  exact this

theorem active_sendLeaseRequest (env : Env) (k : SchedulingKey) (hint : Option Address)
    (s : State) (k' : SchedulingKey) :
    ((sendLeaseRequest env k hint s).entry k').active_workers =
      (s.entry k').active_workers := by
  obtain ⟨spec, addr, _, hv⟩ := view_sendLeaseRequest env k hint s
  have := congrArg (fun v => v.active k') hv
  exact this

/-- `RequestNewWorkerIfNeeded` leaves the queue of its key as it is, and the
resource spec of the entry too when the queue is not empty. -/
theorem RequestNewWorkerIfNeeded_queue (env : Env) :
    ∀ (depth : Nat) (k : SchedulingKey) (hint : Option Address) (s s' : State),
      RequestNewWorkerIfNeeded env depth k hint s = Except.ok s' →
      (s'.entry k).task_queue = (s.entry k).task_queue ∧
      ((s.entry k).task_queue ≠ [] →
        (s'.entry k).resource_spec = (s.entry k).resource_spec) := by
  intro depth
  induction depth with
  | zero => intro k hint s s' h; simp [RequestNewWorkerIfNeeded] at h
  | succ d ih =>
    intro k hint s s' h
    unfold RequestNewWorkerIfNeeded at h
    simp only [] at h
    split at h
    · cases h; simp
    · split at h
      · cases h; simp
      · split at h
        · next hq =>
          have hq' : (s.entry k).task_queue = [] := by
            simpa [List.isEmpty_iff] using hq
          split at h
          · cases h
            simp [hq']
          · cases h; simp
        · split at h
          · cases h; simp
          · split at h
            · obtain ⟨h1, h2⟩ := ih _ _ _ _ h
              rw [h1, queue_sendLeaseRequest, entry_touchEntry]
              refine ⟨rfl, fun hne => ?_⟩
              rw [h2 (by rw [queue_sendLeaseRequest, entry_touchEntry]; exact hne),
                resource_spec_sendLeaseRequest, entry_touchEntry]
            · cases h
              rw [queue_sendLeaseRequest, entry_touchEntry, resource_spec_sendLeaseRequest,
                entry_touchEntry]
              exact ⟨rfl, fun _ => rfl⟩

/-- C20: the resolution closure of a task whose dependencies were resolved.
If the task id is in `cancelled_tasks`, the closure returns having removed it
from `cancelled_tasks` and reported the task as failed with `TASK_CANCELLED`:
beyond `MarkDependenciesResolved` that is its only call, and the scheduling key
entries, the executing tasks and the registered closures are untouched.  If the
task id is not in `cancelled_tasks`, the task, stamped with the resolution
time, is appended to the back of the queue of its scheduling key and becomes
the `resource_spec` of that entry, the other entries being untouched, before the
closure looks for an idle worker and for a lease to request; when every worker
of the key is busy, the queue still ends with the task, and the task is still
the `resource_spec`, when the closure returns. -/
theorem resolved_cancel_observed (env : Env) (depth : Nat) (clk : Clock)
    (task_spec : TaskSpecification) (status : Status) (will_retry : Bool) (s : State)
    (hok : status.ok = true) :
    (task_spec.task_id ∈ s.cancelled_tasks →
      ∃ s', OnDependenciesResolved env depth clk task_spec status will_retry s =
          Except.ok s' ∧
        task_spec.task_id ∉ s'.cancelled_tasks ∧
        s'.calls = s.calls ++ [Call.MarkDependenciesResolved task_spec.task_id,
          Call.FailPendingTask task_spec.task_id ErrorType.TASK_CANCELLED none none] ∧
        s'.scheduling_key_entries = s.scheduling_key_entries ∧
        s'.executing_tasks = s.executing_tasks ∧ s'.callbacks = s.callbacks) ∧
    (task_spec.task_id ∉ s.cancelled_tasks →
      ∃ s₁,
        (s₁.entry task_spec.GetSchedulingKey).task_queue =
          (s.entry task_spec.GetSchedulingKey).task_queue ++
            [{ task_spec with dependency_resolution_timestamp_ms := clk.sys }] ∧
        (s₁.entry task_spec.GetSchedulingKey).resource_spec =
          { task_spec with dependency_resolution_timestamp_ms := clk.sys } ∧
        (∀ k, k ≠ task_spec.GetSchedulingKey → s₁.entry k = s.entry k) ∧
        s₁.calls = s.calls ++ [Call.MarkDependenciesResolved task_spec.task_id] ∧
        s₁.cancelled_tasks = s.cancelled_tasks ∧
        OnDependenciesResolved env depth clk task_spec status will_retry s =
          ((if !(s₁.entry task_spec.GetSchedulingKey).AllWorkersBusy then
              dispatchToIdleWorker env depth clk.afterSys task_spec.GetSchedulingKey
                (s₁.entry task_spec.GetSchedulingKey).active_workers s₁
            else Except.ok s₁) >>= fun s₂ =>
            RequestNewWorkerIfNeeded env depth task_spec.GetSchedulingKey none s₂) ∧
        ((s.entry task_spec.GetSchedulingKey).AllWorkersBusy = true →
          ∀ s', OnDependenciesResolved env depth clk task_spec status will_retry s =
              Except.ok s' →
            (s'.entry task_spec.GetSchedulingKey).task_queue =
              (s.entry task_spec.GetSchedulingKey).task_queue ++
                [{ task_spec with dependency_resolution_timestamp_ms := clk.sys }] ∧
            (s'.entry task_spec.GetSchedulingKey).resource_spec =
              { task_spec with dependency_resolution_timestamp_ms := clk.sys })) := by
  constructor
  · intro hin
    refine ⟨((s.call (Call.MarkDependenciesResolved task_spec.task_id)).eraseCancelled
      task_spec.task_id).call
        (Call.FailPendingTask task_spec.task_id ErrorType.TASK_CANCELLED none none),
      ?_, ?_, ?_, rfl, rfl, rfl⟩
    · unfold OnDependenciesResolved
      have hin' : task_spec.task_id ∈
          (s.call (Call.MarkDependenciesResolved task_spec.task_id)).cancelled_tasks := hin
      simp only [hok, Bool.not_true, Bool.false_eq_true, if_false, hin', if_true]
    · simp [State.call, State.eraseCancelled, HashSet.mem_erase_elem]
    · simp [State.call, State.eraseCancelled]
  · intro hnin
    have hkey : ({ task_spec with dependency_resolution_timestamp_ms := clk.sys } :
        TaskSpecification).GetSchedulingKey = task_spec.GetSchedulingKey := rfl
    have hnin' : task_spec.task_id ∉
        (s.call (Call.MarkDependenciesResolved task_spec.task_id)).cancelled_tasks := hnin
    refine ⟨((s.call (Call.MarkDependenciesResolved task_spec.task_id)).touchEntry
        task_spec.GetSchedulingKey).setEntry task_spec.GetSchedulingKey
        { (s.entry task_spec.GetSchedulingKey) with
          task_queue := (s.entry task_spec.GetSchedulingKey).task_queue ++
            [{ task_spec with dependency_resolution_timestamp_ms := clk.sys }]
          resource_spec := { task_spec with dependency_resolution_timestamp_ms := clk.sys } },
      ?_, ?_, ?_, rfl, rfl, ?_, ?_⟩
    · simp
    · simp
    · intro k hk
      simp [hk]
    · unfold OnDependenciesResolved
      simp only [hok, Bool.not_true, Bool.false_eq_true, if_false, hnin', hkey,
        entry_touchEntry, entry_call]
    · intro hbusy s' hs'
      unfold OnDependenciesResolved at hs'
      simp only [hok, Bool.not_true, Bool.false_eq_true, if_false, hnin', hkey,
        entry_touchEntry, entry_call, entry_setEntry, if_true] at hs'
      have hb : ({ (s.entry task_spec.GetSchedulingKey) with
          task_queue := (s.entry task_spec.GetSchedulingKey).task_queue ++
            [{ task_spec with dependency_resolution_timestamp_ms := clk.sys }]
          resource_spec := { task_spec with dependency_resolution_timestamp_ms := clk.sys } } :
          SchedulingKeyEntry).AllWorkersBusy = true := hbusy
      simp only [hb, Bool.not_true, Bool.false_eq_true, if_false] at hs'
      obtain ⟨h1, h2⟩ := RequestNewWorkerIfNeeded_queue env depth _ _ _ _ hs'
      rw [h1, h2 (by simp)]
      simp

theorem resolved_cancel_observed_witness :
    taskA.task_id ∉ resolvingStarted.cancelled_tasks ∧
    OnDependenciesResolved exampleEnv 64 {} taskA {} false resolvingStarted =
      Except.ok (stateAfter exampleEnv oneQueued) ∧
    ((stateAfter exampleEnv oneQueued).entry taskA.GetSchedulingKey).task_queue =
      (resolvingStarted.entry taskA.GetSchedulingKey).task_queue ++
        [{ taskA with dependency_resolution_timestamp_ms := ({} : Clock).sys }] := by
  refine ⟨by decide, by rfl, ?_⟩
  obtain ⟨_, _, _, _, _, _, _, h⟩ :=
    (resolved_cancel_observed exampleEnv 64 {} taskA {} false resolvingStarted
      (by rfl)).2 (by decide)
  exact (h (by rfl) _ (by rfl)).1

theorem filterMap_cancelOneLease {α : Type} (p : Call → Option α)
    (hp : ∀ a, p (Call.GetOrConnectByAddress a) = none) (env : Env) (k : SchedulingKey)
    (s : State) (pl : TaskID × Address) :
    (cancelOneLease env k s pl).calls.filterMap p =
      s.calls.filterMap p ++ (p (Call.CancelWorkerLease (clientFor env pl.2) pl.1)).toList := by
  unfold cancelOneLease
  show ((GetOrConnectLeaseClient env pl.2 s).2.call _).calls.filterMap p = _
  rw [filterMap_call, filterMap_GetOrConnectLeaseClient p hp, client_GetOrConnectLeaseClient]

theorem filterMap_foldl_cancelOneLease {α : Type} (p : Call → Option α)
    (hp : ∀ a, p (Call.GetOrConnectByAddress a) = none) (env : Env) (k : SchedulingKey)
    (ps : List (TaskID × Address)) :
    ∀ s : State, (ps.foldl (cancelOneLease env k) s).calls.filterMap p =
      s.calls.filterMap p ++
        ps.filterMap (fun pl => p (Call.CancelWorkerLease (clientFor env pl.2) pl.1)) := by
  induction ps with
  | nil => intro s; simp
  | cons pl ps ih =>
    intro s
    rw [List.foldl_cons, ih, filterMap_cancelOneLease p hp, List.append_assoc]
    congr 1
    cases h : p (Call.CancelWorkerLease (clientFor env pl.2) pl.1) <;>
      simp [List.filterMap_cons, h]

/-- The calls `CancelWorkerLeaseIfNeeded` makes: none while the queue of the
key is not empty, else one `CancelWorkerLease` per pending lease request of
the key, each after at most a connection to its raylet. -/
theorem filterMap_CancelWorkerLeaseIfNeeded {α : Type} (p : Call → Option α)
    (hp : ∀ a, p (Call.GetOrConnectByAddress a) = none) (env : Env) (k : SchedulingKey)
    (s : State) :
    (CancelWorkerLeaseIfNeeded env k s).calls.filterMap p =
      s.calls.filterMap p ++
        if (s.entry k).task_queue = [] then
          (s.entry k).pending_lease_requests.filterMap
            (fun pl => p (Call.CancelWorkerLease (clientFor env pl.2) pl.1))
        else [] := by
  unfold CancelWorkerLeaseIfNeeded
  simp only [entry_touchEntry]
  by_cases hq : (s.entry k).task_queue = []
  · simp only [hq, List.isEmpty_nil, Bool.not_true, Bool.false_eq_true, if_false, if_true]
    rw [filterMap_foldl_cancelOneLease p hp]
    rfl
  · have : (s.entry k).task_queue.isEmpty = false := by
      cases h : (s.entry k).task_queue with
      | nil => exact absurd h hq
      | cons _ _ => rfl
    simp only [this, Bool.not_false, if_true, hq, if_false, List.append_nil]
    rfl

theorem queue_CancelWorkerLeaseIfNeeded (env : Env) (k k' : SchedulingKey) (s : State) :
    ((CancelWorkerLeaseIfNeeded env k s).entry k').task_queue = (s.entry k').task_queue := by
  have := congrArg (fun v => v.queue k') (view_CancelWorkerLeaseIfNeeded env k s)
  exact this

theorem pending_ReportWorkerBacklogIfNeeded (env : Env) (k k' : SchedulingKey) (s : State) :
    ((ReportWorkerBacklogIfNeeded env k s).entry k').pending_lease_requests =
      (s.entry k').pending_lease_requests := by
  have := congrArg (fun v => v.pending k') (view_ReportWorkerBacklogIfNeeded env k s)
  exact this

/-- The lease request `sendLeaseRequest` sends and the pending lease request
it records. -/
theorem sendLeaseRequest_sent (env : Env) (k : SchedulingKey) (hint : Option Address)
    (s : State) :
    (sendLeaseRequest env k hint s).calls.filterMap Call.leaseSent =
      s.calls.filterMap Call.leaseSent ++
        [leaseSentAt env (s.entry k).resource_spec hint s.random_draws 0] ∧
    ((sendLeaseRequest env k hint s).entry k).pending_lease_requests =
      Map.emplace (env.from_random s.random_draws)
        (hint.getD (env.best_node
          { (s.entry k).resource_spec with task_id := env.from_random s.random_draws }).1)
        (s.entry k).pending_lease_requests ∧
    (sendLeaseRequest env k hint s).random_draws = s.random_draws + 1 := by
  refine ⟨?_, ?_, ?_⟩
  · unfold sendLeaseRequest
    simp only []
    rw [filterMap_ReportWorkerBacklogIfNeeded Call.leaseSent (fun _ _ => rfl)]
    show ((GetOrConnectLeaseClient env _ _).2.call _).calls.filterMap Call.leaseSent = _
    rw [filterMap_call, filterMap_GetOrConnectLeaseClient Call.leaseSent (fun _ => rfl),
      client_GetOrConnectLeaseClient]
    cases hint <;> rfl
  · unfold sendLeaseRequest
    simp only []
    rw [pending_ReportWorkerBacklogIfNeeded, entry_setEntry, if_pos rfl]
    cases hint <;> rfl
  · obtain ⟨_, _, _, hv⟩ := view_sendLeaseRequest env k hint s
    have := congrArg (fun v => v.draws) hv
    exact this

theorem leaseSentAt_succ (env : Env) (rs : TaskSpecification) (hint : Option Address)
    (draws i : Nat) :
    leaseSentAt env rs hint draws (i + 1) = leaseSentAt env rs none (draws + 1) i := by
  have he : draws + (i + 1) = draws + 1 + i := by omega
  unfold leaseSentAt
  simp only [Nat.succ_ne_zero, if_false, he, Option.isSome_none, Option.getD_none]
  split <;> rfl

/-- The lease requests one call of `RequestNewWorkerIfNeeded` sends. -/
theorem RequestNewWorkerIfNeeded_sent (env : Env) :
    ∀ (depth : Nat) (k : SchedulingKey) (hint : Option Address) (s s' : State),
      RequestNewWorkerIfNeeded env depth k hint s = Except.ok s' →
      ∃ n, s'.calls.filterMap Call.leaseSent =
        s.calls.filterMap Call.leaseSent ++
          (List.range n).map (leaseSentAt env (s.entry k).resource_spec hint s.random_draws) := by
  intro depth
  induction depth with
  | zero => intro k hint s s' h; simp [RequestNewWorkerIfNeeded] at h
  | succ d ih =>
    intro k hint s s' h
    unfold RequestNewWorkerIfNeeded at h
    simp only [] at h
    split at h
    · cases h; exact ⟨0, by simp [State.touchEntry]⟩
    · split at h
      · cases h; exact ⟨0, by simp [State.touchEntry]⟩
      · split at h
        · split at h <;> (cases h; exact ⟨0, by simp [State.touchEntry, State.eraseEntry]⟩)
        · split at h
          · cases h; exact ⟨0, by simp [State.touchEntry]⟩
          · obtain ⟨h1, _, h3⟩ := sendLeaseRequest_sent env k hint (s.touchEntry k)
            have hrs := resource_spec_sendLeaseRequest env k hint (s.touchEntry k)
            rw [entry_touchEntry] at h1 hrs
            have hd : (s.touchEntry k).random_draws = s.random_draws := rfl
            have hc : (s.touchEntry k).calls = s.calls := rfl
            rw [hd] at h1 h3
            rw [hc] at h1
            split at h
            · obtain ⟨n, hn⟩ := ih _ _ _ _ h
              refine ⟨n + 1, ?_⟩
              rw [hn, h1, hrs, h3, List.range_succ_eq_map, List.map_cons, List.map_map,
                List.append_assoc]
              refine congrArg (fun l => _ ++ l) (congrArg₂ List.cons rfl
                (List.map_congr_left ?_))
              intro i _
              simp only [Function.comp, Nat.succ_eq_add_one]
              exact (leaseSentAt_succ env _ hint _ i).symm
            · cases h
              exact ⟨1, by rw [h1]; rfl⟩

/-- The lease-reply closure on a reply that redirects the request: the
request is made again with the raylet of the reply as hint. -/
theorem OnLeaseReply_redirect (env : Env) (depth : Nat) (clk : Clock) (k : SchedulingKey)
    (id : TaskID) (name : String) (a : Address) (status : Status)
    (reply : RequestWorkerLeaseReply) (s : State) (hok : status.ok = true)
    (hnc : reply.canceled = false) (hnr : reply.rejected = false)
    (hw : reply.worker_address.raylet_id = 0) :
    OnLeaseReply env depth clk k id name false a status reply s =
      RequestNewWorkerIfNeeded env depth k (some reply.retry_at_raylet_address)
        (leaseReplyStart env k id a s) := by
  have hmap : ∀ x : Except Abort State,
      (x.map (fun s => ({ state := s } : LeaseReplyOutcome)) >>= fun o =>
        Except.ok (o.tasks_to_fail.foldl
          (failOneTask o.error_type o.error_status
            { o.error_info with error_type := o.error_type }) o.state)) = x := by
    intro x
    cases x <;> rfl
  unfold OnLeaseReply leaseReplyLocked
  simp only [hok, hnc, hnr, hw, if_true, Bool.false_eq_true, if_false, ne_eq,
    not_true_eq_false]
  exact hmap _

theorem length_emplace_fresh {K V : Type} [DecidableEq K] (k : K) (v : V) (m : List (K × V))
    (h : Map.find k m = none) : (Map.emplace k v m).length = m.length + 1 := by
  unfold Map.emplace
  rw [h]
  simp

/-- One call of `RequestNewWorkerIfNeeded` that sends exactly one lease
request: one is needed, and with it the pending lease requests reach the
length of the queue or the limit. -/
theorem RequestNewWorkerIfNeeded_one (env : Env) (d : Nat) (k : SchedulingKey)
    (hint : Option Address) (s : State)
    (hp : (s.entry k).pending_lease_requests.length < env.max_pending_lease_requests)
    (hb : (s.entry k).AllWorkersBusy = true)
    (hq : (s.entry k).pending_lease_requests.length < (s.entry k).task_queue.length)
    (hfresh : Map.find (env.from_random s.random_draws) (s.entry k).pending_lease_requests =
      none)
    (hsat : (s.entry k).pending_lease_requests.length + 1 = (s.entry k).task_queue.length ∨
      (s.entry k).pending_lease_requests.length + 1 = env.max_pending_lease_requests) :
    RequestNewWorkerIfNeeded env (d + 1) k hint s =
      Except.ok (sendLeaseRequest env k hint (s.touchEntry k)) := by
  obtain ⟨_, h2, _⟩ := sendLeaseRequest_sent env k hint (s.touchEntry k)
  have hqs := queue_sendLeaseRequest env k hint (s.touchEntry k) k
  rw [entry_touchEntry] at h2 hqs
  have hd : (s.touchEntry k).random_draws = s.random_draws := rfl
  rw [hd] at h2
  have hlen : ((sendLeaseRequest env k hint (s.touchEntry k)).entry
      k).pending_lease_requests.length = (s.entry k).pending_lease_requests.length + 1 := by
    rw [h2]
    exact length_emplace_fresh _ _ _ hfresh
  have hne : (s.entry k).task_queue.isEmpty = false := by
    cases hq' : (s.entry k).task_queue with
    | nil => rw [hq'] at hq; simp at hq
    | cons _ _ => rfl
  unfold RequestNewWorkerIfNeeded
  simp only [entry_touchEntry, hb, hne, Bool.not_true, Bool.false_eq_true, if_false, ge_iff_le]
  rw [if_neg (by omega), if_neg (by omega), hlen, hqs, if_neg (by omega)]

/-- C16 (as stated, refuted): two tasks of one key are queued with two lease
requests pending, one of the tasks is cancelled, and the reply to the first
request redirects it.  The lease id of the reply is removed and no
`RequestWorkerLease` is sent: one pending lease request is left for the one
task in the queue. -/
theorem redirect_counterexample :
    ∃ s₀ s₁, run exampleEnv twoQueuedOneCancelled {} = Except.ok s₀ ∧
      step exampleEnv 64 {}
        (Event.lease_reply keyAB 1000 "" false localRaylet {} redirected) s₀ = Except.ok s₁ ∧
      (s₀.entry keyAB).pending_lease_requests.length = 2 ∧
      (s₁.entry keyAB).pending_lease_requests.length = 1 ∧
      (s₁.entry keyAB).task_queue.length = 1 ∧
      s₁.calls.filterMap Call.leaseSent = s₀.calls.filterMap Call.leaseSent :=
  ⟨stateAfter exampleEnv twoQueuedOneCancelled, stateAfter exampleEnv cancelledThenRedirected,
    by rfl, by rfl, by rfl, by rfl, by rfl, by rfl⟩

/-- C16 (amended): on a reply to a request that was not a spillback, that is OK,
neither cancelled nor rejected, and names no worker, the closure removes the
lease id of the reply from the pending lease requests of the key and is then
`RequestNewWorkerIfNeeded` with the raylet of the reply as hint.  When every
worker of the key is busy, the lease id of the reply is pending, and the
pending lease requests are as many as the shorter of the queue and the limit,
it returns having sent exactly one `RequestWorkerLease`, with `grant_or_reject`
set, to the raylet of the reply, and the pending lease requests are as many as
before.  In general the lease requests a call of `RequestNewWorkerIfNeeded`
sends are those of `leaseSentAt`: the first carries `grant_or_reject = true`
and goes to the hint exactly when there is a hint; every other carries
`grant_or_reject = false` and goes to the raylet the lease policy picks. -/
theorem redirect_keeps_pending (env : Env) (depth : Nat) (clk : Clock) (k : SchedulingKey)
    (id : TaskID) (name : String) (a : Address) (status : Status)
    (reply : RequestWorkerLeaseReply) (s : State) (hok : status.ok = true)
    (hnc : reply.canceled = false) (hnr : reply.rejected = false)
    (hw : reply.worker_address.raylet_id = 0) :
    (OnLeaseReply env depth clk k id name false a status reply s =
        RequestNewWorkerIfNeeded env depth k (some reply.retry_at_raylet_address)
          (leaseReplyStart env k id a s) ∧
      ((leaseReplyStart env k id a s).entry k).pending_lease_requests =
        Map.erase id (s.entry k).pending_lease_requests) ∧
    (0 < depth →
      (Map.erase id (s.entry k).pending_lease_requests).length + 1 =
        (s.entry k).pending_lease_requests.length →
      (s.entry k).AllWorkersBusy = true →
      (s.entry k).pending_lease_requests.length =
        min (s.entry k).task_queue.length env.max_pending_lease_requests →
      Map.find (env.from_random s.random_draws)
        (Map.erase id (s.entry k).pending_lease_requests) = none →
      ∃ s', OnLeaseReply env depth clk k id name false a status reply s = Except.ok s' ∧
        s'.calls.filterMap Call.leaseSent =
          s.calls.filterMap Call.leaseSent ++
            [({ (s.entry k).resource_spec with task_id := env.from_random s.random_draws },
              true, clientFor env reply.retry_at_raylet_address)] ∧
        (s'.entry k).pending_lease_requests =
          Map.emplace (env.from_random s.random_draws) reply.retry_at_raylet_address
            (Map.erase id (s.entry k).pending_lease_requests) ∧
        (s'.entry k).pending_lease_requests.length =
          (s.entry k).pending_lease_requests.length) ∧
    (∀ depth₀ k₀ hint s₀ s₁, RequestNewWorkerIfNeeded env depth₀ k₀ hint s₀ = Except.ok s₁ →
      ∃ n, s₁.calls.filterMap Call.leaseSent =
        s₀.calls.filterMap Call.leaseSent ++
          (List.range n).map
            (leaseSentAt env (s₀.entry k₀).resource_spec hint s₀.random_draws)) := by
  have heq := OnLeaseReply_redirect env depth clk k id name a status reply s hok hnc hnr hw
  have hent := entry_leaseReplyStart env k id a s k
  rw [if_pos rfl] at hent
  refine ⟨⟨heq, by rw [hent]⟩, ?_, RequestNewWorkerIfNeeded_sent env⟩
  intro hdepth herase hbusy hsat hfresh
  obtain ⟨d, rfl⟩ : ∃ d, depth = d + 1 := ⟨depth - 1, by omega⟩
  have hdraws : (leaseReplyStart env k id a s).random_draws = s.random_draws := by
    unfold leaseReplyStart GetOrConnectLeaseClient
    simp only []
    split
    · split <;> rfl
    · rfl
  have hone := RequestNewWorkerIfNeeded_one env d k (some reply.retry_at_raylet_address)
    (leaseReplyStart env k id a s)
    (by rw [hent]; simp only []; omega)
    (by rw [hent]; exact hbusy)
    (by rw [hent]; simp only []; omega)
    (by rw [hent, hdraws]; exact hfresh)
    (by rw [hent]; simp only []; omega)
  obtain ⟨h1, h2, _⟩ := sendLeaseRequest_sent env k (some reply.retry_at_raylet_address)
    ((leaseReplyStart env k id a s).touchEntry k)
  rw [entry_touchEntry, hent] at h1 h2
  have hd : ((leaseReplyStart env k id a s).touchEntry k).random_draws = s.random_draws :=
    hdraws
  rw [hd] at h1 h2
  refine ⟨_, heq.trans hone, ?_, ?_, ?_⟩
  · rw [h1]
    have hc : ((leaseReplyStart env k id a s).touchEntry k).calls.filterMap Call.leaseSent =
        s.calls.filterMap Call.leaseSent :=
      filterMap_leaseReplyStart Call.leaseSent (fun _ => rfl) env k id a s
    rw [hc]
    rfl
  · rw [h2]
    rfl
  · rw [h2]
    simp only [Option.getD_some]
    rw [length_emplace_fresh _ _ _ hfresh]
    exact herase

theorem redirect_keeps_pending_witness :
    ((stateAfter exampleEnv oneQueued).entry keyAB).pending_lease_requests =
      [(1000, localRaylet)] ∧
    ∃ s', OnLeaseReply exampleEnv 64 {} keyAB 1000 "" false localRaylet {} redirected
        (stateAfter exampleEnv oneQueued) = Except.ok s' ∧
      (s'.entry keyAB).pending_lease_requests = [(1001, remoteRaylet)] ∧
      s'.calls.filterMap Call.leaseSent =
        (stateAfter exampleEnv oneQueued).calls.filterMap Call.leaseSent ++
          [({ taskA with task_id := 1001 }, true, LeaseClient.remote_client 2)] := by
  refine ⟨by rfl, ?_⟩
  obtain ⟨s', h, hsent, hpend, _⟩ :=
    (redirect_keeps_pending exampleEnv 64 {} keyAB 1000 "" localRaylet {} redirected
      (stateAfter exampleEnv oneQueued) (by rfl) (by rfl) (by rfl) (by rfl)).2.1
      (by decide) (by rfl) (by rfl) (by rfl) (by rfl)
  exact ⟨s', h, hpend.trans (by rfl), hsent.trans (by rfl)⟩

/-! ### The happy path -/

/-- C13: the happy path of a normal task that is not an actor-creation task,
with a rate limit of at least one and a lease timeout that has not elapsed:
when `OnWorkerIdle` reads the clock after the grant, the reading is not past
the expiration `AddWorkerLeaseClient` computed, in `int64_t`, from the reading
it made itself.  The run returns; it sent one `RequestWorkerLease`, pushed the
task once, to the worker granted, completed the task once and returned the
worker once, with `was_error = false`; and at its end there is no scheduling
key entry, no lease entry and no executing task. -/
theorem happy_path (env : Env) (t : TaskSpecification) (w : Address) (d : Nat)
    (c₁ c₂ c₃ c₄ : Clock) (rs ls ps : Status) (lr : RequestWorkerLeaseReply)
    (pr : PushTaskReply) (ra : Bool)
    (hkind : t.kind = TaskKind.normal) (hmax : 1 ≤ env.max_pending_lease_requests)
    (htime : c₃.mono_again ≤ wrapInt64 (c₃.mono + env.lease_timeout_ms))
    (hrs : rs.ok = true) (hls : ls.ok = true) (hps : ps.ok = true)
    (hlc : lr.canceled = false) (hlr : lr.rejected = false) (hlw : lr.worker_address = w)
    (hw : w.raylet_id ≠ 0)
    (hpc : pr.was_cancelled_before_running = false) (hpr : pr.is_retryable_error = false) :
    ∃ s, run env (happyPath env t w d c₁ c₂ c₃ c₄ rs ls ps lr pr ra) {} = Except.ok s ∧
      (s.calls.filterMap Call.leaseSent).length = 1 ∧
      s.calls.filterMap Call.pushedTo = [(w, stampedAt t c₂.sys c₃.sys)] ∧
      s.calls.filterMap Call.completed = [t.task_id] ∧
      s.calls.filterMap Call.returned = [(w.port, w.worker_id, false)] ∧
      s.scheduling_key_entries = [] ∧ s.worker_to_lease_entry = [] ∧
      s.executing_tasks = [] := by
  have hn : t.IsNormalTask = true := by simp [TaskSpecification.IsNormalTask, hkind]
  have hkey : ∀ x, ({ t with dependency_resolution_timestamp_ms := x } :
      TaskSpecification).GetSchedulingKey = t.GetSchedulingKey := fun _ => rfl
  have hk' : (t.kind = TaskKind.actor_creation) = False := by simp [hkind]
  have hdl : (default : SchedulingKeyEntry).last_reported_backlog_size = 0 := rfl
  have hdr : (default : SchedulingKeyEntry).resource_spec = {} := rfl
  have hmax' : env.max_pending_lease_requests ≠ 0 := by omega
  have hmax2 : ¬ (env.max_pending_lease_requests ≤ 0) := by omega
  have htime' : ¬ (wrapInt64 (c₃.mono + env.lease_timeout_ms) < c₃.mono_again) :=
    not_lt.mpr htime
  subst hlw
  by_cases hloc : (env.best_node
      { t with dependency_resolution_timestamp_ms := c₂.sys, task_id := env.from_random 0 }
      ).1.raylet_id = env.local_raylet_id <;>
  by_cases hret : (env.return_worker_status lr.worker_address).ok = true <;>
  simp [happyPath, run, step, SubmitTask, hn, bind, Except.bind, takeCallback,
    State.register, State.call, State.countTaskSubmitted, State.unregister,
    OnDependenciesResolved, hrs, State.touchEntry, State.entry, State.setEntry, Map.index,
    Map.emplace, Map.find, Map.get, Map.set, SchedulingKeyEntry.AllWorkersBusy,
    RequestNewWorkerIfNeeded, hkey, hmax', hmax2, sendLeaseRequest,
    GetOrConnectLeaseClient, hloc, State.countLeaseRequested, State.countRandomDraw,
    ReportWorkerBacklogIfNeeded, SchedulingKeyEntry.BacklogSize, OnLeaseReply,
    leaseReplyLocked, hls, hlc, hlr, hw, AddWorkerLeaseClient, State.emplaceLease,
    HashSet.insert, OnWorkerIdle, State.touchLease, State.lease, dispatchWhile,
    State.setLease, State.emplaceExecuting, PushNormalTask, CancelWorkerLeaseIfNeeded,
    SchedulingKeyEntry.CanDelete, Clock.afterMono, Clock.afterSys, htime', Except.map, Map.erase,
    TaskSpecification.IsActorCreationTask, hk', hdl, hdr, OnPushReply, pushReplyLocked,
    pushReplyOutcome, hps, hpc, hpr, State.eraseExecuting, State.eraseGenerator,
    HashSet.erase, ReturnWorker, hret, State.eraseEntry, State.eraseLease,
    State.addRemoteLeaseClient, Call.leaseSent, Call.pushedTo, Call.completed, Call.returned,
    stampedAt]

theorem happy_path_witness :
    ∃ s, run exampleEnv (happyPath exampleEnv taskA workerW 63 {} {} {} {} {} {} {}
        { worker_address := workerW } {} false) {} = Except.ok s ∧
      s.calls.filterMap Call.completed = [taskA.task_id] ∧
      s.scheduling_key_entries = [] := by
  obtain ⟨s, h, _, _, hc, _, he, _⟩ :=
    happy_path exampleEnv taskA workerW 63 {} {} {} {} {} {} {}
      { worker_address := workerW } {} false (by rfl) (by decide) (by decide) (by rfl)
      (by rfl) (by rfl) (by rfl) (by rfl) (by rfl) (by decide) (by rfl) (by rfl)
  exact ⟨s, h, hc, he⟩

/-! ### The lease view under the primitive operations -/

@[simp] theorem lview_touchEntry (s : State) (k : SchedulingKey) :
    (s.touchEntry k).lview = s.lview := by
  apply LView.ext
  · funext k'; simp [State.lview]
  · rfl

@[simp] theorem lview_setEntry (s : State) (k : SchedulingKey) (e : SchedulingKeyEntry) :
    (s.setEntry k e).lview =
      { s.lview with active := Function.update s.lview.active k e.active_workers } := by
  apply LView.ext
  · funext k'
    simp only [State.lview, entry_setEntry, Function.update_apply]
    split <;> rfl
  · rfl

@[simp] theorem lview_eraseEntry (s : State) (k : SchedulingKey) :
    (s.eraseEntry k).lview =
      { s.lview with active := Function.update s.lview.active k [] } := by
  apply LView.ext
  · funext k'
    simp only [State.lview, entry_eraseEntry, Function.update_apply]
    split <;> rfl
  · rfl

@[simp] theorem lview_call (s : State) (c : Call) : (s.call c).lview = s.lview := rfl

@[simp] theorem lview_register (s : State) (cb : Callback) : (s.register cb).lview = s.lview :=
  rfl

@[simp] theorem lview_unregister (s : State) (cb : Callback) :
    (s.unregister cb).lview = s.lview := rfl

@[simp] theorem lview_eraseExecuting (s : State) (t : TaskID) :
    (s.eraseExecuting t).lview = s.lview := rfl

@[simp] theorem lview_emplaceExecuting (s : State) (t : TaskID) (a : Address) :
    (s.emplaceExecuting t a).lview = s.lview := rfl

@[simp] theorem lview_eraseGenerator (s : State) (t : TaskID) :
    (s.eraseGenerator t).lview = s.lview := rfl

@[simp] theorem lview_insertFailed (s : State) (t : TaskID) :
    (s.insertFailed t).lview = s.lview := rfl

@[simp] theorem lview_eraseFailed (s : State) (t : TaskID) :
    (s.eraseFailed t).lview = s.lview := rfl

@[simp] theorem lview_eraseCancelled (s : State) (t : TaskID) :
    (s.eraseCancelled t).lview = s.lview := rfl

@[simp] theorem lview_insertCancelled (s : State) (t : TaskID) :
    (s.insertCancelled t).lview = s.lview := rfl

@[simp] theorem lview_insertGenerator (s : State) (t : TaskID) :
    (s.insertGenerator t).lview = s.lview := rfl

@[simp] theorem lview_keepCallbacks (s : State) (f : Callback → Bool) :
    (s.keepCallbacks f).lview = s.lview := rfl

@[simp] theorem lview_setTimerExpiry (s : State) (x : Int) :
    (s.setTimerExpiry x).lview = s.lview := rfl

@[simp] theorem lview_countTaskSubmitted (s : State) : s.countTaskSubmitted.lview = s.lview :=
  rfl

@[simp] theorem lview_countLeaseRequested (s : State) :
    s.countLeaseRequested.lview = s.lview := rfl

@[simp] theorem lview_countRandomDraw (s : State) : s.countRandomDraw.lview = s.lview := rfl

@[simp] theorem lview_addRemoteLeaseClient (s : State) (n : NodeID) :
    (s.addRemoteLeaseClient n).lview = s.lview := rfl

@[simp] theorem lview_markBacklogReported (s : State) : s.markBacklogReported.lview = s.lview := by
  apply LView.ext
  · funext k
    simp only [State.lview, entry_markBacklogReported]
  · rfl

theorem touchLease_of_leased {s : State} {a : Address} {k : SchedulingKey}
    (h : s.lview.leaseKey a = some k) : s.touchLease a = s := by
  simp only [State.lview] at h
  cases hf : Map.find a s.worker_to_lease_entry with
  | none => rw [hf] at h; cases h
  | some l =>
    unfold State.touchLease Map.index Map.emplace
    rw [hf]

theorem lease_key_of_leased {s : State} {a : Address} {k : SchedulingKey}
    (h : s.lview.leaseKey a = some k) : (s.lease a).scheduling_key = k := by
  simp only [State.lview] at h
  cases hf : Map.find a s.worker_to_lease_entry with
  | none => rw [hf] at h; cases h
  | some l =>
    rw [hf] at h
    simp only [Option.map_some', Option.some.injEq] at h
    simp [State.lease, Map.get, hf, h]

@[simp] theorem lview_setLease (s : State) (a : Address) (l : LeaseEntry) :
    (s.setLease a l).lview =
      { s.lview with leaseKey := Function.update s.lview.leaseKey a (some l.scheduling_key) } := by
  apply LView.ext
  · rfl
  · funext a'
    simp only [State.lview, State.setLease, Map.find_set, Function.update_apply]
    split <;> rfl

@[simp] theorem lview_eraseLease (s : State) (a : Address) :
    (s.eraseLease a).lview =
      { s.lview with leaseKey := Function.update s.lview.leaseKey a none } := by
  apply LView.ext
  · rfl
  · funext a'
    simp only [State.lview, State.eraseLease, Map.find_erase, Function.update_apply]
    split <;> rfl

theorem lview_emplaceLease_fresh (s : State) (a : Address) (l : LeaseEntry)
    (h : Map.find a s.worker_to_lease_entry = none) :
    (s.emplaceLease a l).lview =
      { s.lview with leaseKey := Function.update s.lview.leaseKey a (some l.scheduling_key) } := by
  apply LView.ext
  · rfl
  · funext a'
    simp only [State.lview, State.emplaceLease, Map.find_emplace, Function.update_apply, h]
    split <;> rfl

/-! ### Functions that leave the lease view alone -/

@[simp] theorem lview_GetOrConnectLeaseClient (env : Env) (a : Address) (s : State) :
    (GetOrConnectLeaseClient env a s).2.lview = s.lview := by
  unfold GetOrConnectLeaseClient
  split
  · split <;> rfl
  · rfl

@[simp] theorem lview_ReportWorkerBacklogInternal (env : Env) (s : State) :
    (ReportWorkerBacklogInternal env s).lview = s.lview := by
  unfold ReportWorkerBacklogInternal
  simp

@[simp] theorem lview_ReportWorkerBacklogIfNeeded (env : Env) (k : SchedulingKey) (s : State) :
    (ReportWorkerBacklogIfNeeded env k s).lview = s.lview := by
  unfold ReportWorkerBacklogIfNeeded
  simp only []
  split <;> simp

@[simp] theorem lview_cancelOneLease (env : Env) (k : SchedulingKey) (s : State)
    (p : TaskID × Address) : (cancelOneLease env k s p).lview = s.lview := by
  unfold cancelOneLease
  simp

@[simp] theorem lview_CancelWorkerLeaseIfNeeded (env : Env) (k : SchedulingKey) (s : State) :
    (CancelWorkerLeaseIfNeeded env k s).lview = s.lview := by
  have hfold : ∀ (ps : List (TaskID × Address)) (s₀ : State),
      (ps.foldl (cancelOneLease env k) s₀).lview = s₀.lview := by
    intro ps
    induction ps with
    | nil => intro s₀; rfl
    | cons p ps ih => intro s₀; rw [List.foldl_cons, ih, lview_cancelOneLease]
  unfold CancelWorkerLeaseIfNeeded
  simp only []
  split
  · simp
  · rw [hfold]; simp

theorem lview_update_active_self (L : LView) (k : SchedulingKey) :
    ({ L with active := Function.update L.active k (L.active k) } : LView) = L := by
  apply LView.ext
  · simp
  · rfl

theorem active_eq_lview (s : State) (k : SchedulingKey) :
    (s.entry k).active_workers = s.lview.active k := rfl

@[simp] theorem lview_sendLeaseRequest (env : Env) (k : SchedulingKey)
    (hint : Option Address) (s : State) : (sendLeaseRequest env k hint s).lview = s.lview := by
  unfold sendLeaseRequest
  simp only [lview_ReportWorkerBacklogIfNeeded, lview_setEntry, lview_register, lview_call,
    lview_GetOrConnectLeaseClient, lview_countRandomDraw, lview_countLeaseRequested]
  exact lview_update_active_self s.lview k

theorem lview_RequestNewWorkerIfNeeded (env : Env) :
    ∀ (depth : Nat) (k : SchedulingKey) (hint : Option Address) (s s' : State),
      RequestNewWorkerIfNeeded env depth k hint s = Except.ok s' → s'.lview = s.lview := by
  intro depth
  induction depth with
  | zero => intro k hint s s' h; simp [RequestNewWorkerIfNeeded] at h
  | succ d ih =>
    intro k hint s s' h
    unfold RequestNewWorkerIfNeeded at h
    simp only [] at h
    split at h
    · cases h; simp
    · split at h
      · cases h; simp
      · split at h
        · split at h
          · next hdel =>
            cases h
            simp only [SchedulingKeyEntry.CanDelete, Bool.and_eq_true, List.isEmpty_iff,
              entry_touchEntry] at hdel
            rw [lview_eraseEntry, lview_touchEntry]
            have ha : s.lview.active k = [] := hdel.2
            rw [← ha]
            exact lview_update_active_self s.lview k
          · cases h; simp
        · split at h
          · cases h; simp
          · split at h
            · rw [ih _ _ _ _ h]; simp
            · cases h; simp

/-! ### The lease-table invariant under grant and return -/

theorem LInv.inv_returned {L : LView} (h : LInv L) {a : Address} {k : SchedulingKey}
    (ha : L.leaseKey a = some k) : LInv (L.returned a k) := by
  constructor
  · intro k' a' hmem
    simp only [LView.returned, Function.update_apply] at hmem ⊢
    by_cases hk : k' = k
    · subst hk
      simp only [if_true] at hmem
      obtain ⟨hm, hne⟩ := HashSet.mem_erase_elem.mp hmem
      simp only [hne, if_false]
      exact h.active_leased _ _ hm
    · simp only [hk, if_false] at hmem
      have hl := h.active_leased _ _ hmem
      have hne : a' ≠ a := by
        intro heq
        subst heq
        rw [ha] at hl
        exact hk (Option.some.inj hl).symm
      simp only [hne, if_false]
      exact hl
  · intro a' k' hl
    simp only [LView.returned, Function.update_apply] at hl ⊢
    by_cases hne : a' = a
    · simp [hne] at hl
    · simp only [hne, if_false] at hl
      have hm := h.leased_active _ _ hl
      by_cases hk : k' = k
      · subst hk
        simp only [if_true]
        exact HashSet.mem_erase_elem.mpr ⟨hm, hne⟩
      · simp only [hk, if_false]
        exact hm

theorem LInv.inv_granted {L : LView} (h : LInv L) {a : Address} (k : SchedulingKey)
    (ha : L.leaseKey a = none) : LInv (L.granted a k) := by
  constructor
  · intro k' a' hmem
    simp only [LView.granted, Function.update_apply] at hmem ⊢
    by_cases hne : a' = a
    · subst hne
      simp only [if_true]
      by_cases hk : k' = k
      · rw [hk]
      · simp only [hk, if_false] at hmem
        have := h.active_leased _ _ hmem
        rw [ha] at this
        cases this
    · simp only [hne, if_false]
      by_cases hk : k' = k
      · subst hk
        simp only [if_true] at hmem
        rcases HashSet.mem_insert.mp hmem with h1 | h1
        · exact absurd h1 hne
        · exact h.active_leased _ _ h1
      · simp only [hk, if_false] at hmem
        exact h.active_leased _ _ hmem
  · intro a' k' hl
    simp only [LView.granted, Function.update_apply] at hl ⊢
    by_cases hne : a' = a
    · subst hne
      simp only [if_true, Option.some.injEq] at hl
      subst hl
      simp only [if_true]
      exact HashSet.mem_insert.mpr (Or.inl rfl)
    · simp only [hne, if_false] at hl
      have hm := h.leased_active _ _ hl
      by_cases hk : k' = k
      · subst hk
        simp only [if_true]
        exact HashSet.mem_insert.mpr (Or.inr hm)
      · simp only [hk, if_false]
        exact hm

/-! ### Grant, dispatch and return on the lease view -/

theorem lview_PushNormalTask (a : Address) (k : SchedulingKey) (t : TaskSpecification)
    (r : ResourceMapping) (s : State) : (PushNormalTask a k t r s).lview = s.lview := rfl

theorem lview_update_leaseKey_self (L : LView) (a : Address) (k : SchedulingKey)
    (h : L.leaseKey a = some k) :
    ({ L with leaseKey := Function.update L.leaseKey a (some k) } : LView) = L := by
  apply LView.ext
  · rfl
  · simp [← h]

theorem lview_ReturnWorker {env : Env} {addr : Address} {we : Bool} {ed : Message} {wx : Bool}
    {key : SchedulingKey} {s s' : State} {k₀ : SchedulingKey}
    (hl : s.lview.leaseKey addr = some k₀)
    (h : ReturnWorker env addr we ed wx key s = Except.ok s') :
    s'.lview = s.lview.returned addr key := by
  unfold ReturnWorker at h
  simp only [] at h
  split at h
  · cases h
  · have hl' : (s.touchEntry key).lview.leaseKey addr = some k₀ := by simpa using hl
    rw [touchLease_of_leased hl'] at h
    split at h
    · cases h
    · split at h
      · cases h
      · cases h
        have hcall : ∀ (x : State) (b : Bool) (c : Call),
            (if b then x.call c else x).lview = x.lview := by
          intro x b c; split <;> rfl
        rw [lview_eraseLease, hcall, lview_call]
        split
        · next hdel =>
          simp only [SchedulingKeyEntry.CanDelete, Bool.and_eq_true, List.isEmpty_iff] at hdel
          have ha : HashSet.erase addr ((s.touchEntry key).entry key).active_workers = [] :=
            hdel.2
          rw [lview_eraseEntry, lview_setEntry, lview_touchEntry]
          simp only [entry_touchEntry] at ha
          apply LView.ext
          · funext k'
            simp only [LView.returned, Function.update_apply]
            split
            · next hk => subst hk; rw [← active_eq_lview, ha]
            · rfl
          · rfl
        · rw [lview_setEntry, lview_touchEntry]
          apply LView.ext
          · funext k'
            simp only [LView.returned, Function.update_apply, entry_touchEntry]
            split <;> rfl
          · rfl

theorem lview_dispatchWhile {clk : Clock} {addr : Address} {key : SchedulingKey}
    {res : ResourceMapping} {k₀ : SchedulingKey} :
    ∀ (n : Nat) (s s' : State), s.lview.leaseKey addr = some k₀ →
      dispatchWhile clk addr key res n s = Except.ok s' → s'.lview = s.lview := by
  intro n
  induction n with
  | zero => intro s s' _ h; simp only [dispatchWhile] at h; cases h; rfl
  | succ n ih =>
    intro s s' hl h
    unfold dispatchWhile at h
    simp only [] at h
    split at h
    · cases h; rfl
    · split at h
      · cases h; rfl
      · split at h
        · cases h
        · have hk := lease_key_of_leased hl
          have hstep : ∀ (e₁ e₂ : SchedulingKeyEntry) (t : TaskSpecification),
              e₁.active_workers = (s.entry key).active_workers →
              e₂.active_workers = (s.entry key).active_workers →
              (PushNormalTask addr key t res
                ((((s.setEntry key e₁).setLease addr
                  { s.lease addr with is_busy := true }).setEntry key e₂).emplaceExecuting
                    t.task_id addr)).lview = s.lview := by
            intro e₁ e₂ t h₁ h₂
            rw [lview_PushNormalTask, lview_emplaceExecuting, lview_setEntry, lview_setLease,
              lview_setEntry]
            apply LView.ext
            · funext k'
              simp only [Function.update_apply, h₁, h₂]
              split
              · next hk' => subst hk'; rfl
              · rfl
            · funext a'
              simp only [Function.update_apply, hk]
              split
              · next ha' => subst ha'; exact hl.symm
              · rfl
          have hX : ∀ X : State, X.lview = s.lview →
              dispatchWhile clk addr key res n X = Except.ok s' → s'.lview = s.lview :=
            fun X hx hd => (ih X s' (by rw [hx]; exact hl) hd).trans hx
          refine hX _ ?_ h
          exact hstep _ _ _ rfl (by simp)

theorem linv_congr {L L' : LView} (h : L' = L) (hi : LInv L) : LInv L' := h ▸ hi

theorem linv_RequestNewWorkerIfNeeded {env : Env} {depth : Nat} {k : SchedulingKey}
    {hint : Option Address} {s s' : State} (hi : LInv s.lview)
    (h : RequestNewWorkerIfNeeded env depth k hint s = Except.ok s') : LInv s'.lview :=
  linv_congr (lview_RequestNewWorkerIfNeeded env depth k hint s s' h) hi

theorem linv_OnWorkerIdle {env : Env} {depth : Nat} {clk : Clock} {addr : Address}
    {key : SchedulingKey} {we : Bool} {ed : Message} {wx : Bool} {res : ResourceMapping}
    {s s' : State} (hi : LInv s.lview) (hl : s.lview.leaseKey addr = some key)
    (h : OnWorkerIdle env depth clk addr key we ed wx res s = Except.ok s') :
    LInv s'.lview := by
  unfold OnWorkerIdle at h
  simp only [] at h
  rw [touchLease_of_leased hl] at h
  split at h
  · cases h; exact hi
  · split at h
    · split at h
      · cases h
      · obtain ⟨s₁, h₁, h₂⟩ := bind_ok h
        refine linv_RequestNewWorkerIfNeeded ?_ h₂
        split at h₁
        · have hl' : (s.touchEntry key).lview.leaseKey addr = some key := by simpa using hl
          rw [lview_ReturnWorker hl' h₁, lview_touchEntry]
          exact hi.inv_returned hl
        · cases h₁
          rw [lview_touchEntry]; exact hi
    · obtain ⟨s₁, h₁, h₂⟩ := bind_ok h
      refine linv_RequestNewWorkerIfNeeded ?_ h₂
      rw [lview_CancelWorkerLeaseIfNeeded]
      have hl' : ((s.touchEntry key).call (Call.GetOrConnect addr)).lview.leaseKey addr =
          some key := by simpa using hl
      rw [lview_dispatchWhile _ _ _ hl' h₁]
      simpa using hi

theorem lview_AddWorkerLeaseClient {env : Env} {clk : Clock} {addr : Address}
    {lc : LeaseClient} {res : ResourceMapping} {key : SchedulingKey} {t : TaskID}
    {s s' : State} (hf : Map.find addr s.worker_to_lease_entry = none)
    (h : AddWorkerLeaseClient env clk addr lc res key t s = Except.ok s') :
    s'.lview = s.lview.granted addr key := by
  unfold AddWorkerLeaseClient at h
  simp only [] at h
  split at h
  · cases h
  · split at h
    · cases h
      rw [lview_setEntry, lview_touchEntry,
        lview_emplaceLease_fresh (s.call (Call.GetOrConnect addr)) _ _ hf, lview_call]
      apply LView.ext
      · funext k'
        simp only [LView.granted, Function.update_apply, entry_touchEntry, entry_emplaceLease,
          entry_call]
        split <;> rfl
      · rfl
    · cases h

theorem leaseKey_none_of_find {s : State} {a : Address}
    (hf : Map.find a s.worker_to_lease_entry = none) : s.lview.leaseKey a = none := by
  simp [State.lview, hf]

theorem linv_dispatchToIdleWorker {env : Env} {depth : Nat} {clk : Clock}
    {key : SchedulingKey} :
    ∀ (ws : List Address) (s s' : State), LInv s.lview →
      (∀ a ∈ ws, a ∈ s.lview.active key) →
      dispatchToIdleWorker env depth clk key ws s = Except.ok s' → LInv s'.lview := by
  intro ws
  induction ws with
  | nil => intro s s' hi _ h; simp only [dispatchToIdleWorker] at h; cases h; exact hi
  | cons a rest ih =>
    intro s s' hi hws h
    unfold dispatchToIdleWorker at h
    split at h
    · cases h
    · split at h
      · exact linv_OnWorkerIdle hi (hi.active_leased _ _ (hws a (List.mem_cons_self _ _))) h
      · exact ih _ _ hi (fun b hb => hws b (List.mem_cons_of_mem _ hb)) h

theorem linv_OnDependenciesResolved {env : Env} {depth : Nat} {clk : Clock}
    {t : TaskSpecification} {status : Status} {wr : Bool} {s s' : State} (hi : LInv s.lview)
    (h : OnDependenciesResolved env depth clk t status wr s = Except.ok s') :
    LInv s'.lview := by
  unfold OnDependenciesResolved at h
  simp only [] at h
  split at h
  · split at h <;> cases h <;> exact hi
  · split at h
    · cases h; exact hi
    · obtain ⟨s₁, h₁, h₂⟩ := bind_ok h
      refine linv_RequestNewWorkerIfNeeded ?_ h₂
      have hq : ∀ (k : SchedulingKey) (e : SchedulingKeyEntry) (x : State),
          e.active_workers = (x.entry k).active_workers →
          ((x.touchEntry k).setEntry k e).lview = x.lview := by
        intro k e x he
        rw [lview_setEntry, lview_touchEntry, he]
        exact lview_update_active_self x.lview k
      split at h₁
      · refine linv_dispatchToIdleWorker _ _ _ ?_ ?_ h₁
        · rw [hq]
          · simpa using hi
          · simp
        · intro a ha
          exact ha
      · cases h₁
        rw [hq]
        · simpa using hi
        · simp

theorem lview_eraseEntry_canDelete (s : State) (k : SchedulingKey)
    (h : (s.entry k).CanDelete = true) : (s.eraseEntry k).lview = s.lview := by
  simp only [SchedulingKeyEntry.CanDelete, Bool.and_eq_true, List.isEmpty_iff] at h
  rw [lview_eraseEntry]
  have ha : s.lview.active k = [] := h.2
  rw [← ha]
  exact lview_update_active_self s.lview k

theorem lview_setEntry_same (s : State) (k : SchedulingKey) (e : SchedulingKeyEntry)
    (he : e.active_workers = (s.entry k).active_workers) : (s.setEntry k e).lview = s.lview := by
  rw [lview_setEntry, he]
  exact lview_update_active_self s.lview k

theorem lview_drainQueue (k : SchedulingKey) (et : ErrorType) (ei : RayErrorInfo)
    (es : Status) (s : State) : (drainQueue k et ei es s).state.lview = s.lview := by
  unfold drainQueue
  simp only []
  split
  · next hdel =>
    rw [lview_eraseEntry_canDelete]
    · exact lview_setEntry_same s k _ rfl
    · simpa using hdel
  · exact lview_setEntry_same s k _ rfl

theorem lview_foldl_failOneTask (et : ErrorType) (es : Status) (ei : RayErrorInfo) :
    ∀ (ts : List TaskSpecification) (s : State),
      (ts.foldl (failOneTask et es ei) s).lview = s.lview := by
  intro ts
  induction ts with
  | nil => intro s; rfl
  | cons t ts ih =>
    intro s
    rw [List.foldl_cons, ih]
    unfold failOneTask
    split <;> rfl

theorem lview_leaseReplyStart (env : Env) (k : SchedulingKey) (id : TaskID) (a : Address)
    (s : State) : (leaseReplyStart env k id a s).lview = s.lview := by
  unfold leaseReplyStart
  simp only []
  rw [lview_setEntry_same]
  · simp
  · simp [entry_GetOrConnectLeaseClient]

theorem find_lease_leaseReplyStart (env : Env) (k : SchedulingKey) (id : TaskID) (a : Address)
    (s : State) (w : Address) :
    Map.find w (leaseReplyStart env k id a s).worker_to_lease_entry =
      Map.find w s.worker_to_lease_entry := by
  unfold leaseReplyStart
  simp only []
  unfold GetOrConnectLeaseClient
  split
  · split <;> rfl
  · rfl

theorem linv_leaseReplyLocked {env : Env} {depth : Nat} {clk : Clock} {k : SchedulingKey}
    {id : TaskID} {name : String} {sp : Bool} {a : Address} {status : Status}
    {reply : RequestWorkerLeaseReply} {s : State} {o : LeaseReplyOutcome} (hi : LInv s.lview)
    (hfresh : status.ok = true → reply.canceled = false → reply.rejected = false →
      reply.worker_address.raylet_id ≠ 0 →
      Map.find reply.worker_address s.worker_to_lease_entry = none)
    (h : leaseReplyLocked env depth clk k id name sp a status reply s = Except.ok o) :
    LInv o.state.lview := by
  have hstart : LInv (leaseReplyStart env k id a s).lview :=
    linv_congr (lview_leaseReplyStart env k id a s) hi
  have hfind := find_lease_leaseReplyStart env k id a s reply.worker_address
  have hrn : ∀ (hint : Option Address),
      (RequestNewWorkerIfNeeded env depth k hint (leaseReplyStart env k id a s)).map
        (fun s => ({ state := s } : LeaseReplyOutcome)) = Except.ok o → LInv o.state.lview := by
    intro hint hm
    obtain ⟨s₁, h₁, h₂⟩ := map_ok hm
    subst h₂
    exact linv_RequestNewWorkerIfNeeded hstart h₁
  have hdq : ∀ (et : ErrorType) (ei : RayErrorInfo) (es : Status),
      LInv (drainQueue k et ei es (leaseReplyStart env k id a s)).state.lview := by
    intro et ei es
    exact linv_congr (lview_drainQueue k et ei es _) hstart
  unfold leaseReplyLocked at h
  simp only [] at h
  split at h
  · next hok =>
    split at h
    · split at h
      · cases h; exact hdq _ _ _
      · exact hrn _ h
    · next hc =>
      split at h
      · split at h
        · cases h
        · exact hrn _ h
      · next hr =>
        split at h
        · next hne =>
          obtain ⟨s₁, h₁, h₂⟩ := bind_ok h
          have hf := hfresh hok (by simpa using hc) (by simpa using hr) hne
          rw [← hfind] at hf
          have hv := lview_AddWorkerLeaseClient hf h₁
          split at h₂
          · cases h₂
          · obtain ⟨s₂, h₃, h₄⟩ := map_ok h₂
            subst h₄
            refine linv_OnWorkerIdle ?_ ?_ h₃
            · rw [hv]; exact hstart.inv_granted k (leaseKey_none_of_find hf)
            · rw [hv]; simp [LView.granted]
        · split at h
          · cases h
          · exact hrn _ h
  · split at h
    · exact hrn _ h
    · split at h
      · split at h
        · cases h
        · split at h
          · cases h
          · cases h; exact hdq _ _ _
      · exact hrn _ h

theorem linv_OnLeaseReply {env : Env} {depth : Nat} {clk : Clock} {k : SchedulingKey}
    {id : TaskID} {name : String} {sp : Bool} {a : Address} {status : Status}
    {reply : RequestWorkerLeaseReply} {s s' : State} (hi : LInv s.lview)
    (hfresh : status.ok = true → reply.canceled = false → reply.rejected = false →
      reply.worker_address.raylet_id ≠ 0 →
      Map.find reply.worker_address s.worker_to_lease_entry = none)
    (h : OnLeaseReply env depth clk k id name sp a status reply s = Except.ok s') :
    LInv s'.lview := by
  unfold OnLeaseReply at h
  obtain ⟨o, h₁, h₂⟩ := bind_ok h
  cases h₂
  rw [lview_foldl_failOneTask]
  exact linv_leaseReplyLocked hi hfresh h₁

theorem lview_pushReplyOutcome (spec : TaskSpecification) (t : TaskID) (a : Address)
    (status : Status) (reply : PushTaskReply) (rg ra : Bool) (s : State) :
    (pushReplyOutcome spec t a status reply rg ra s).lview = s.lview := by
  unfold pushReplyOutcome
  repeat (first | rfl | split)

theorem linv_pushReplyLocked {env : Env} {depth : Nat} {clk : Clock} {t : TaskID} {ac : Bool}
    {key : SchedulingKey} {addr : Address} {res : ResourceMapping} {status : Status}
    {reply : PushTaskReply} {s : State} {r : Bool × State} (hi : LInv s.lview)
    (hl : s.lview.leaseKey addr = some key)
    (h : pushReplyLocked env depth clk t ac key addr res status reply s = Except.ok r) :
    LInv r.2.lview := by
  unfold pushReplyLocked at h
  simp only [] at h
  have hl₁ : ((s.eraseExecuting t).eraseGenerator t).lview.leaseKey addr = some key := hl
  rw [touchLease_of_leased hl₁] at h
  split at h
  · cases h
  · split at h
    · cases h
    · split at h
      · cases h
      · obtain ⟨s₁, h₁, h₂⟩ := bind_ok h
        obtain ⟨s₂, h₃, h₄⟩ := bind_ok h₂
        cases h₄
        have hk := lease_key_of_leased hl₁
        have hmid : ∀ (l : LeaseEntry) (e : SchedulingKeyEntry),
            l.scheduling_key = key →
            e.active_workers = (s.entry key).active_workers →
            (((((s.eraseExecuting t).eraseGenerator t).setLease addr l).touchEntry
              key).setEntry key e).lview = s.lview := by
          intro l e hlk he
          rw [lview_setEntry, lview_touchEntry, lview_setLease, hlk]
          apply LView.ext
          · funext k'
            simp only [Function.update_apply, he]
            split
            · next hk' => subst hk'; rfl
            · rfl
          · funext a'
            simp only [Function.update_apply]
            split
            · next ha' => subst ha'; exact hl.symm
            · rfl
        have hl₂ : ∀ (X : State), X.lview.leaseKey addr = some key → X.touchLease addr = X :=
          fun X hX => touchLease_of_leased hX
        have hs₁ : s₁.lview = s.lview := by
          split at h₁
          · rw [hl₂] at h₁
            · split at h₁
              · cases h₁
              · cases h₁
                rw [lview_register, lview_call, lview_insertFailed]
                refine hmid _ _ ?_ ?_
                · exact hk
                · simp
            · rw [lview_insertFailed, hmid _ _ ?_ ?_]
              · exact hl
              · exact hk
              · simp
          · cases h₁
            refine hmid _ _ ?_ ?_
            · exact hk
            · simp
        split at h₃
        · exact linv_OnWorkerIdle (linv_congr hs₁ hi) (by rw [hs₁]; exact hl) h₃
        · cases h₃
          exact linv_congr hs₁ hi

theorem linv_OnPushReply {env : Env} {depth : Nat} {clk : Clock} {spec : TaskSpecification}
    {t : TaskID} {ac : Bool} {key : SchedulingKey} {addr : Address} {res : ResourceMapping}
    {status : Status} {reply : PushTaskReply} {ra : Bool} {s s' : State} (hi : LInv s.lview)
    (hl : s.lview.leaseKey addr = some key)
    (h : OnPushReply env depth clk spec t ac key addr res status reply ra s = Except.ok s') :
    LInv s'.lview := by
  unfold OnPushReply at h
  obtain ⟨r, h₁, h₂⟩ := bind_ok h
  cases h₂
  rw [lview_pushReplyOutcome]
  exact linv_pushReplyLocked hi hl h₁

theorem lview_CancelTask {env : Env} {spec : TaskSpecification} {fk rc ip : Bool}
    {s : State} {r : Status × State}
    (h : CancelTask env spec fk rc ip s = Except.ok r) : r.2.lview = s.lview := by
  unfold CancelTask at h
  simp only [] at h
  split at h
  · cases h; rfl
  · split at h
    · cases h; rfl
    · split at h
      · cases h
        simp only [lview_call, lview_CancelWorkerLeaseIfNeeded]
        rw [lview_setEntry_same]
        · simp
        · simp
      · split at h
        · cases h
        · split at h
          · cases h
            have hdel : ∀ (X : State) (k : SchedulingKey),
                (if (X.entry k).CanDelete = true then X.eraseEntry k else X).lview = X.lview := by
              intro X k
              split
              · next hd => exact lview_eraseEntry_canDelete X k hd
              · rfl
            simp only []
            rw [hdel]
            split
            · simp
            · simp [CancelDependencyResolution]
          · cases h
            simp

theorem lview_OnCancelLeaseReply (env : Env) (k : SchedulingKey) (status : Status)
    (reply : CancelWorkerLeaseReply) (s : State) :
    (OnCancelLeaseReply env k status reply s).lview = s.lview := by
  unfold OnCancelLeaseReply
  split
  · simp
  · rfl

theorem lview_OnFailureCauseReply (status : Status) (t : TaskID) (a : Address) (rs : Status)
    (reply : GetTaskFailureCauseReply) (wr : Bool) (s : State) :
    (OnFailureCauseReply status t a rs reply wr s).lview = s.lview := by
  unfold OnFailureCauseReply HandleGetTaskFailureCause
  simp only []
  rw [lview_eraseFailed]
  cases wr <;> split <;> simp

theorem lview_OnCancelTaskReply (env : Env) (clk : Clock) (spec : TaskSpecification)
    (fk rc : Bool) (status : Status) (reply : CancelTaskReply) (s : State) :
    (OnCancelTaskReply env clk spec fk rc status reply s).lview = s.lview := by
  unfold OnCancelTaskReply
  simp only []
  repeat (first | rfl | split)

theorem lview_QueueGeneratorForResubmit (spec : TaskSpecification) (s : State) :
    (QueueGeneratorForResubmit spec s).2.lview = s.lview := by
  unfold QueueGeneratorForResubmit
  split <;> rfl

theorem lview_SubmitTask {spec : TaskSpecification} {s s' : State}
    (h : SubmitTask spec s = Except.ok s') : s'.lview = s.lview := by
  unfold SubmitTask at h
  split at h
  · cases h
  · cases h; rfl

theorem lview_takeCallback {cb : Callback} {s s₁ : State} (h : takeCallback cb s = some s₁) :
    s₁.lview = s.lview ∧ s₁.worker_to_lease_entry = s.worker_to_lease_entry ∧
      cb ∈ s.callbacks := by
  unfold takeCallback at h
  split at h
  · next hm => cases h; exact ⟨rfl, rfl, hm⟩
  · cases h

/-- One step keeps the lease-table invariant, if the worker a lease reply
grants has no lease entry. -/
theorem linv_step {env : Env} {depth : Nat} {clk : Clock} {ev : Event} {s s' : State}
    (hr : Reachable env s) (hi : LInv s.lview) (hf : grantsFresh ev s = true)
    (h : step env depth clk ev s = Except.ok s') : LInv s'.lview := by
  cases ev with
  | SubmitTask spec => exact linv_congr (lview_SubmitTask h) hi
  | CancelTask spec fk rc ip =>
    obtain ⟨r, h₁, h₂⟩ := map_ok h
    subst h₂
    exact linv_congr (lview_CancelTask h₁) hi
  | CancelRemoteTask o a fk rc => cases h; exact hi
  | QueueGeneratorForResubmit spec =>
    cases h; exact linv_congr (lview_QueueGeneratorForResubmit spec s) hi
  | ReportWorkerBacklog =>
    cases h
    exact linv_congr (by simp [ReportWorkerBacklog]) hi
  | resolved spec status wr =>
    simp only [step] at h
    split at h
    · cases h
    · next s₁ ht =>
      exact linv_OnDependenciesResolved (linv_congr (lview_takeCallback ht).1 hi) h
  | lease_reply k id name sp a status reply =>
    simp only [step] at h
    split at h
    · cases h
    · next s₁ ht =>
      obtain ⟨hv, hw, _⟩ := lview_takeCallback ht
      refine linv_OnLeaseReply (linv_congr hv hi) ?_ h
      intro hok hc hrj hne
      rw [hw]
      simp only [grantsFresh, hok, hc, hrj] at hf
      simpa [hne] using hf
  | cancel_lease_reply k status reply =>
    simp only [step] at h
    split at h
    · cases h
    · next s₁ ht =>
      cases h
      rw [lview_OnCancelLeaseReply]
      exact linv_congr (lview_takeCallback ht).1 hi
  | push_reply spec t ac k a res status reply ra =>
    simp only [step] at h
    split at h
    · cases h
    · next s₁ ht =>
      obtain ⟨hv, _, hm⟩ := lview_takeCallback ht
      refine linv_OnPushReply (linv_congr hv hi) ?_ h
      rw [hv]
      exact hi.active_leased _ _ ((reachable_inv hr).pushActive _ _ _ _ _ _ hm)
  | failure_cause_reply status t a rs reply wr =>
    simp only [step] at h
    split at h
    · cases h
    · next s₁ ht =>
      cases h
      rw [lview_OnFailureCauseReply]
      exact linv_congr (lview_takeCallback ht).1 hi
  | cancel_task_reply spec k fk rc status reply =>
    simp only [step] at h
    split at h
    · cases h
    · next s₁ ht =>
      cases h
      rw [lview_OnCancelTaskReply]
      exact linv_congr (lview_takeCallback ht).1 hi
  | cancel_retry_fired spec fk rc ip =>
    simp only [step] at h
    split at h
    · cases h
    · next s₁ ht =>
      obtain ⟨r, h₁, h₂⟩ := map_ok h
      subst h₂
      exact linv_congr ((lview_CancelTask h₁).trans (lview_takeCallback ht).1) hi

theorem linv_init : LInv ({} : State).lview := by
  constructor
  · intro k a h; simp [State.lview, State.entry, Map.get, Map.find] at h
  · intro a k h; simp [State.lview, Map.find] at h

/-- The lease-table invariant holds after every run from a reachable state in
which it holds, if no lease reply of the run grants a worker that has a lease
entry. -/
theorem linv_run {env : Env} :
    ∀ (inputs : List Input) (s s' : State), Reachable env s → LInv s.lview →
      freshRun env inputs s = true → run env inputs s = Except.ok s' → LInv s'.lview := by
  intro inputs
  induction inputs with
  | nil =>
    intro s s' _ hi _ h
    simp only [run] at h
    cases h
    exact hi
  | cons i rest ih =>
    intro s s' hr hi hf h
    simp only [run] at h
    obtain ⟨s₁, h₁, h₂⟩ := bind_ok h
    simp only [freshRun, h₁, Bool.and_eq_true] at hf
    exact ih _ _ (Reachable.step i.depth i.clk i.event hr h₁) (linv_step hr hi hf.1 h₁) hf.2 h₂

/-! ### Active workers and the lease table -/

theorem find_of_mem_active {s : State} {k : SchedulingKey} {a : Address}
    (h : a ∈ (s.entry k).active_workers) :
    ∃ e, Map.find k s.scheduling_key_entries = some e ∧ a ∈ e.active_workers := by
  unfold State.entry Map.get at h
  cases hf : Map.find k s.scheduling_key_entries with
  | none => rw [hf] at h; simp at h
  | some e => rw [hf] at h; exact ⟨e, rfl, h⟩

/-- C11 (as stated, refuted): the raylet grants the same worker to the lease
requests of two keys; the worker is then in the active workers of both. -/
theorem granted_twice_counterexample :
    run exampleEnv grantedTwice {} = Except.ok (stateAfter exampleEnv grantedTwice) ∧
    ∃ e₁ e₂,
      Map.find keyAB (stateAfter exampleEnv grantedTwice).scheduling_key_entries = some e₁ ∧
      Map.find keyC (stateAfter exampleEnv grantedTwice).scheduling_key_entries = some e₂ ∧
      workerW ∈ e₁.active_workers ∧ workerW ∈ e₂.active_workers ∧ keyAB ≠ keyC :=
  ⟨rfl, _, _, rfl, rfl, by decide, by decide, by decide⟩

/-- C11 (amended): after a run in which no lease reply grants a worker
address that still has a lease entry, each worker address is in the
`active_workers` of at most one scheduling key entry. -/
theorem active_worker_unique (env : Env) (inputs : List Input) (s : State)
    (hrun : run env inputs {} = Except.ok s) (hfresh : freshRun env inputs {} = true)
    (a : Address) (k₁ k₂ : SchedulingKey) (e₁ e₂ : SchedulingKeyEntry)
    (h₁ : Map.find k₁ s.scheduling_key_entries = some e₁)
    (h₂ : Map.find k₂ s.scheduling_key_entries = some e₂)
    (ha₁ : a ∈ e₁.active_workers) (ha₂ : a ∈ e₂.active_workers) : k₁ = k₂ := by
  have hi := linv_run inputs _ _ Reachable.init linv_init hfresh hrun
  have hl₁ := hi.active_leased k₁ a (by
    show a ∈ (s.entry k₁).active_workers
    rw [entry_of_find h₁]; exact ha₁)
  have hl₂ := hi.active_leased k₂ a (by
    show a ∈ (s.entry k₂).active_workers
    rw [entry_of_find h₂]; exact ha₂)
  rw [hl₁] at hl₂
  exact Option.some.inj hl₂

theorem active_worker_unique_witness :
    run exampleEnv oneExecuting {} = Except.ok (stateAfter exampleEnv oneExecuting) ∧
    freshRun exampleEnv oneExecuting {} = true ∧
    (∃ e, Map.find keyAB (stateAfter exampleEnv oneExecuting).scheduling_key_entries = some e ∧
      workerW ∈ e.active_workers) ∧
    keyAB = keyAB :=
  ⟨rfl, rfl, ⟨_, rfl, by decide⟩,
    active_worker_unique exampleEnv oneExecuting _ rfl rfl workerW keyAB keyAB _ _ rfl rfl
      (by decide) (by decide)⟩

/-- C12 (as stated, refuted): the raylet grants the same worker to the lease
requests of two keys and the worker is returned for the first; it is then
still in the active workers of the second key, and has no lease entry. -/
theorem returned_once_counterexample :
    run exampleEnv grantedTwiceOneDone {} =
      Except.ok (stateAfter exampleEnv grantedTwiceOneDone) ∧
    Map.find workerW (stateAfter exampleEnv grantedTwiceOneDone).worker_to_lease_entry = none ∧
    ∃ e, Map.find keyC (stateAfter exampleEnv grantedTwiceOneDone).scheduling_key_entries =
        some e ∧ workerW ∈ e.active_workers :=
  ⟨rfl, rfl, _, rfl, by decide⟩

/-- C12 (amended): after a run in which no lease reply grants a worker
address that still has a lease entry, `worker_to_lease_entry` has an entry for
a worker address exactly when the address is in the `active_workers` of some
scheduling key entry, and that entry is the one of the scheduling key the
lease entry records. -/
theorem lease_entry_iff_active (env : Env) (inputs : List Input) (s : State)
    (hrun : run env inputs {} = Except.ok s) (hfresh : freshRun env inputs {} = true)
    (a : Address) :
    ((∃ l, Map.find a s.worker_to_lease_entry = some l) ↔
      ∃ k e, Map.find k s.scheduling_key_entries = some e ∧ a ∈ e.active_workers) ∧
    ∀ l, Map.find a s.worker_to_lease_entry = some l →
      ∃ e, Map.find l.scheduling_key s.scheduling_key_entries = some e ∧
        a ∈ e.active_workers := by
  have hi := linv_run inputs _ _ Reachable.init linv_init hfresh hrun
  have hkey : ∀ l, Map.find a s.worker_to_lease_entry = some l →
      ∃ e, Map.find l.scheduling_key s.scheduling_key_entries = some e ∧
        a ∈ e.active_workers := by
    intro l hl
    refine find_of_mem_active (hi.leased_active a l.scheduling_key ?_)
    simp [State.lview, hl]
  refine ⟨⟨?_, ?_⟩, hkey⟩
  · rintro ⟨l, hl⟩
    exact ⟨l.scheduling_key, hkey l hl⟩
  · rintro ⟨k, e, hk, ha⟩
    have hl := hi.active_leased k a (by
      show a ∈ (s.entry k).active_workers
      rw [entry_of_find hk]; exact ha)
    simp only [State.lview] at hl
    cases hf : Map.find a s.worker_to_lease_entry with
    | none => rw [hf] at hl; cases hl
    | some l => exact ⟨l, rfl⟩

theorem lease_entry_iff_active_witness :
    run exampleEnv actorCreated {} = Except.ok (stateAfter exampleEnv actorCreated) ∧
    freshRun exampleEnv actorCreated {} = true ∧
    ((∃ l, Map.find workerW (stateAfter exampleEnv actorCreated).worker_to_lease_entry =
        some l) ↔
      ∃ k e, Map.find k (stateAfter exampleEnv actorCreated).scheduling_key_entries = some e ∧
        workerW ∈ e.active_workers) ∧
    ∀ l, Map.find workerW (stateAfter exampleEnv actorCreated).worker_to_lease_entry = some l →
      ∃ e, Map.find l.scheduling_key
          (stateAfter exampleEnv actorCreated).scheduling_key_entries = some e ∧
        workerW ∈ e.active_workers :=
  ⟨rfl, rfl, lease_entry_iff_active exampleEnv actorCreated _ rfl rfl workerW⟩

/-! ### The ledger under the lease-request machinery -/

theorem mem_erase_self {A : Type} [DecidableEq A] (a : A) (xs : List A) :
    a ∉ HashSet.erase a xs := by
  simp [HashSet.erase]

@[simp] theorem ledger_touchEntry (s : State) (k : SchedulingKey) :
    (s.touchEntry k).ledger = s.ledger := rfl

@[simp] theorem ledger_setEntry (s : State) (k : SchedulingKey) (e : SchedulingKeyEntry) :
    (s.setEntry k e).ledger = s.ledger := rfl

@[simp] theorem ledger_eraseEntry (s : State) (k : SchedulingKey) :
    (s.eraseEntry k).ledger = s.ledger := rfl

@[simp] theorem ledger_call (s : State) (c : Call) : (s.call c).ledger = s.ledger := rfl

@[simp] theorem ledger_register (s : State) (cb : Callback) :
    (s.register cb).ledger = s.ledger := rfl

@[simp] theorem ledger_unregister (s : State) (cb : Callback) :
    (s.unregister cb).ledger = s.ledger := rfl

@[simp] theorem ledger_keepCallbacks (s : State) (f : Callback → Bool) :
    (s.keepCallbacks f).ledger = s.ledger := rfl

@[simp] theorem ledger_markBacklogReported (s : State) :
    s.markBacklogReported.ledger = s.ledger := rfl

@[simp] theorem ledger_countLeaseRequested (s : State) :
    s.countLeaseRequested.ledger = s.ledger := rfl

@[simp] theorem ledger_countRandomDraw (s : State) : s.countRandomDraw.ledger = s.ledger := rfl

@[simp] theorem ledger_GetOrConnectLeaseClient (env : Env) (a : Address) (s : State) :
    (GetOrConnectLeaseClient env a s).2.ledger = s.ledger := by
  unfold GetOrConnectLeaseClient
  split
  · split <;> rfl
  · rfl

@[simp] theorem ledger_ReportWorkerBacklogIfNeeded (env : Env) (k : SchedulingKey)
    (s : State) : (ReportWorkerBacklogIfNeeded env k s).ledger = s.ledger := by
  unfold ReportWorkerBacklogIfNeeded ReportWorkerBacklogInternal
  simp only []
  split <;> rfl

@[simp] theorem ledger_cancelOneLease (env : Env) (k : SchedulingKey) (s : State)
    (p : TaskID × Address) : (cancelOneLease env k s p).ledger = s.ledger := by
  unfold cancelOneLease
  simp

@[simp] theorem ledger_CancelWorkerLeaseIfNeeded (env : Env) (k : SchedulingKey)
    (s : State) : (CancelWorkerLeaseIfNeeded env k s).ledger = s.ledger := by
  have hfold : ∀ (ps : List (TaskID × Address)) (s₀ : State),
      (ps.foldl (cancelOneLease env k) s₀).ledger = s₀.ledger := by
    intro ps
    induction ps with
    | nil => intro s₀; rfl
    | cons p ps ih => intro s₀; rw [List.foldl_cons, ih, ledger_cancelOneLease]
  unfold CancelWorkerLeaseIfNeeded
  simp only []
  split
  · rfl
  · rw [hfold]; rfl

@[simp] theorem ledger_sendLeaseRequest (env : Env) (k : SchedulingKey)
    (hint : Option Address) (s : State) : (sendLeaseRequest env k hint s).ledger = s.ledger := by
  unfold sendLeaseRequest
  simp

theorem ledger_RequestNewWorkerIfNeeded (env : Env) :
    ∀ (depth : Nat) (k : SchedulingKey) (hint : Option Address) (s s' : State),
      RequestNewWorkerIfNeeded env depth k hint s = Except.ok s' → s'.ledger = s.ledger := by
  intro depth
  induction depth with
  | zero => intro k hint s s' h; simp [RequestNewWorkerIfNeeded] at h
  | succ d ih =>
    intro k hint s s' h
    unfold RequestNewWorkerIfNeeded at h
    simp only [] at h
    split at h
    · cases h; rfl
    · split at h
      · cases h; rfl
      · split at h
        · split at h <;> cases h <;> rfl
        · split at h
          · cases h; rfl
          · split at h
            · rw [ih _ _ _ _ h]; simp
            · cases h; simp

/-! ### The entry of the key under `RequestNewWorkerIfNeeded` -/

/-- `RequestNewWorkerIfNeeded` changes neither the queue, nor the active
workers, nor the number of busy workers of any key. -/
theorem RequestNewWorkerIfNeeded_workers (env : Env) :
    ∀ (depth : Nat) (k : SchedulingKey) (hint : Option Address) (s s' : State),
      RequestNewWorkerIfNeeded env depth k hint s = Except.ok s' →
      ∀ k', (s'.entry k').task_queue = (s.entry k').task_queue ∧
        (s'.entry k').active_workers = (s.entry k').active_workers ∧
        (s'.entry k').num_busy_workers = (s.entry k').num_busy_workers := by
  intro depth
  induction depth with
  | zero => intro k hint s s' h; simp [RequestNewWorkerIfNeeded] at h
  | succ d ih =>
    intro k hint s s' h k'
    unfold RequestNewWorkerIfNeeded at h
    simp only [] at h
    have hsend : ∀ k', ((sendLeaseRequest env k hint (s.touchEntry k)).entry k').task_queue =
          (s.entry k').task_queue ∧
        ((sendLeaseRequest env k hint (s.touchEntry k)).entry k').active_workers =
          (s.entry k').active_workers ∧
        ((sendLeaseRequest env k hint (s.touchEntry k)).entry k').num_busy_workers =
          (s.entry k').num_busy_workers := by
      intro k'
      obtain ⟨spec, addr, _, hv⟩ := view_sendLeaseRequest env k hint (s.touchEntry k)
      refine ⟨?_, ?_, ?_⟩
      · simpa using congrArg (fun v => v.queue k') hv
      · simpa using congrArg (fun v => v.active k') hv
      · simpa using congrArg (fun v => v.busy k') hv
    split at h
    · cases h; simp
    · split at h
      · cases h; simp
      · next hbusy =>
        split at h
        · next hq =>
          split at h
          · next hdel =>
            cases h
            simp only [entry_eraseEntry, entry_touchEntry]
            split
            · next hk =>
              subst hk
              simp only [SchedulingKeyEntry.CanDelete, Bool.and_eq_true, List.isEmpty_iff,
                entry_touchEntry] at hdel
              obtain ⟨⟨_, h2⟩, h3⟩ := hdel
              have hb : (s.entry k').num_busy_workers = 0 := by
                have hall : ((s.touchEntry k').entry k').AllWorkersBusy = true := by
                  simpa using hbusy
                simp only [SchedulingKeyEntry.AllWorkersBusy, entry_touchEntry, h3,
                  List.length_nil, decide_eq_true_eq] at hall
                exact hall.symm
              refine ⟨?_, ?_, ?_⟩
              · rw [h2]; rfl
              · rw [h3]; rfl
              · rw [hb]; rfl
            · exact ⟨rfl, rfl, rfl⟩
          · cases h; simp
        · split at h
          · cases h; simp
          · split at h
            · obtain ⟨h1, h2, h3⟩ := ih _ _ _ _ h k'
              obtain ⟨g1, g2, g3⟩ := hsend k'
              exact ⟨h1.trans g1, h2.trans g2, h3.trans g3⟩
            · cases h; exact hsend k'

/-! ### Cancellation and the failure-cause closure -/

/-- C29: when the failure-cause reply of a failed push is processed, the task
id is removed from `failed_tasks_pending_failure_cause` in all cases, and it is
removed from `cancelled_tasks` exactly when `HandleGetTaskFailureCause` reports
that no retry is scheduled; otherwise `cancelled_tasks` is left as it is. -/
theorem failure_cause_cleanup (status : Status) (task_id : TaskID) (addr : Address)
    (reply_status : Status) (reply : GetTaskFailureCauseReply) (will_retry : Bool)
    (s : State) :
    (OnFailureCauseReply status task_id addr reply_status reply will_retry
        s).failed_tasks_pending_failure_cause =
      HashSet.erase task_id s.failed_tasks_pending_failure_cause ∧
    task_id ∉ (OnFailureCauseReply status task_id addr reply_status reply will_retry
        s).failed_tasks_pending_failure_cause ∧
    (OnFailureCauseReply status task_id addr reply_status reply will_retry s).cancelled_tasks =
      (if (HandleGetTaskFailureCause status task_id addr reply_status reply will_retry s).1
        then s.cancelled_tasks
        else HashSet.erase task_id s.cancelled_tasks) ∧
    ((HandleGetTaskFailureCause status task_id addr reply_status reply will_retry s).1 = false →
      task_id ∉ (OnFailureCauseReply status task_id addr reply_status reply will_retry
        s).cancelled_tasks) := by
  have h1 : (HandleGetTaskFailureCause status task_id addr reply_status reply will_retry s).1 =
      will_retry := by
    unfold HandleGetTaskFailureCause; split <;> rfl
  have h2 : (HandleGetTaskFailureCause status task_id addr reply_status reply will_retry
      s).2.cancelled_tasks = s.cancelled_tasks ∧
      (HandleGetTaskFailureCause status task_id addr reply_status reply will_retry
        s).2.failed_tasks_pending_failure_cause = s.failed_tasks_pending_failure_cause := by
    unfold HandleGetTaskFailureCause; split <;> exact ⟨rfl, rfl⟩
  have h3 : (OnFailureCauseReply status task_id addr reply_status reply will_retry
        s).failed_tasks_pending_failure_cause =
      HashSet.erase task_id s.failed_tasks_pending_failure_cause := by
    unfold OnFailureCauseReply
    simp only [State.eraseFailed]
    split
    · simp only [State.eraseCancelled, h2.2]
    · simp only [h2.2]
  have h4 : (OnFailureCauseReply status task_id addr reply_status reply will_retry
        s).cancelled_tasks =
      (if (HandleGetTaskFailureCause status task_id addr reply_status reply will_retry s).1
        then s.cancelled_tasks
        else HashSet.erase task_id s.cancelled_tasks) := by
    unfold OnFailureCauseReply
    simp only [State.eraseFailed, h1]
    cases will_retry
    · simp [State.eraseCancelled, h2.1]
    · simp [h2.1]
  refine ⟨h3, ?_, h4, ?_⟩
  · rw [h3]; exact mem_erase_self _ _
  · intro hw
    rw [h4, hw]
    simp only [Bool.false_eq_true, if_false]
    exact mem_erase_self _ _

/-- `CancelTask` returns, with status OK, from every state. -/
theorem CancelTask_returns (env : Env) (task_spec : TaskSpecification)
    (force_kill recursive is_pending : Bool) (s : State) :
    ∃ s', CancelTask env task_spec force_kill recursive is_pending s = Except.ok ({}, s') := by
  unfold CancelTask
  simp only []
  split
  · exact ⟨_, rfl⟩
  · next hc =>
    split
    · exact ⟨_, rfl⟩
    · split
      · exact ⟨_, rfl⟩
      · split
        · next hc' => exact absurd hc' hc
        · split <;> exact ⟨_, rfl⟩

/-- `CancelTask` takes the task out of `generators_to_resubmit` and changes
nothing else in that set. -/
theorem CancelTask_generators {env : Env} {task_spec : TaskSpecification}
    {force_kill recursive is_pending : Bool} {s : State} {r : Status × State}
    (h : CancelTask env task_spec force_kill recursive is_pending s = Except.ok r) :
    r.2.generators_to_resubmit = HashSet.erase task_spec.task_id s.generators_to_resubmit := by
  have hl : ∀ X : State, X.ledger.sets.generators = X.generators_to_resubmit := fun _ => rfl
  unfold CancelTask at h
  simp only [] at h
  split at h
  · cases h; rfl
  · split at h
    · cases h; rfl
    · split at h
      · cases h
        rw [← hl]
        simp only [ledger_call, ledger_CancelWorkerLeaseIfNeeded, ledger_setEntry,
          ledger_touchEntry]
        rfl
      · split at h
        · cases h
        · split at h
          · cases h
            rw [← hl]
            have hdel : ∀ (X : State) (k : SchedulingKey),
                (if (X.entry k).CanDelete = true then X.eraseEntry k else X).ledger =
                  X.ledger := by
              intro X k; split <;> rfl
            simp only []
            rw [hdel]
            split
            · rfl
            · rfl
          · cases h
            rfl

/-- C22: `QueueGeneratorForResubmit` returns false and leaves the state as it
is when the task is in `cancelled_tasks`; otherwise it returns true, the task
is then in `generators_to_resubmit`, in which nothing else changes, and every
other member is unchanged.  A later `CancelTask` for the task, from any state
and with any arguments, returns and leaves the task out of
`generators_to_resubmit`. -/
theorem generator_queued_until_cancel (env : Env) (spec : TaskSpecification)
    (force_kill recursive is_pending : Bool) (s s₀ : State) :
    (spec.task_id ∈ s.cancelled_tasks → QueueGeneratorForResubmit spec s = (false, s)) ∧
    (spec.task_id ∉ s.cancelled_tasks →
      (QueueGeneratorForResubmit spec s).1 = true ∧
      spec.task_id ∈ (QueueGeneratorForResubmit spec s).2.generators_to_resubmit ∧
      (∀ t, t ≠ spec.task_id →
        (t ∈ (QueueGeneratorForResubmit spec s).2.generators_to_resubmit ↔
          t ∈ s.generators_to_resubmit)) ∧
      { (QueueGeneratorForResubmit spec s).2 with
          generators_to_resubmit := s.generators_to_resubmit } = s) ∧
    ∃ st s', CancelTask env spec force_kill recursive is_pending s₀ = Except.ok (st, s') ∧
      st.ok = true ∧ spec.task_id ∉ s'.generators_to_resubmit ∧
      ∀ t, t ≠ spec.task_id →
        (t ∈ s'.generators_to_resubmit ↔ t ∈ s₀.generators_to_resubmit) := by
  refine ⟨?_, ?_, ?_⟩
  · intro hc
    unfold QueueGeneratorForResubmit
    rw [if_pos hc]
  · intro hc
    unfold QueueGeneratorForResubmit
    rw [if_neg hc]
    refine ⟨rfl, ?_, ?_, rfl⟩
    · exact HashSet.mem_insert.mpr (Or.inl rfl)
    · intro t ht
      simp only [State.insertGenerator]
      rw [HashSet.mem_insert]
      constructor
      · rintro (h | h)
        · exact absurd h ht
        · exact h
      · exact Or.inr
  · obtain ⟨s', h⟩ := CancelTask_returns env spec force_kill recursive is_pending s₀
    have hg := CancelTask_generators h
    refine ⟨{}, s', h, rfl, ?_, ?_⟩
    · rw [hg]; exact mem_erase_self _ _
    · intro t ht
      rw [hg, HashSet.mem_erase_elem]
      exact ⟨fun h => h.1, fun h => ⟨h, ht⟩⟩

/-- C30: `CancelTask` for a pending task that is not in `cancelled_tasks`, not
in the queue of its key and not executing.  The task is put in
`cancelled_tasks` and no call is made on a worker.  If the task awaits its
failure cause, the task manager is only asked whether it is pending, and the
resolver is not called; otherwise the resolution of its dependencies is
cancelled and it is failed once, as `TASK_CANCELLED`.  `CancelTask` returns OK
from every state. -/
theorem cancel_unscheduled (env : Env) (task_spec : TaskSpecification)
    (force_kill recursive : Bool) (s : State)
    (hc : task_spec.task_id ∉ s.cancelled_tasks)
    (hq : queuedIndex task_spec.task_id (s.entry task_spec.GetSchedulingKey).task_queue = none)
    (he : Map.find task_spec.task_id s.executing_tasks = none) :
    (∃ s', CancelTask env task_spec force_kill recursive true s = Except.ok ({}, s') ∧
      s'.cancelled_tasks = HashSet.insert task_spec.task_id s.cancelled_tasks ∧
      task_spec.task_id ∈ s'.cancelled_tasks ∧
      s'.calls.filter Call.toWorker = s.calls.filter Call.toWorker ∧
      (task_spec.task_id ∈ s.failed_tasks_pending_failure_cause →
        s'.calls = s.calls ++
          [Call.MarkTaskCanceled task_spec.task_id, Call.IsTaskPending task_spec.task_id] ∧
        s'.callbacks = s.callbacks) ∧
      (task_spec.task_id ∉ s.failed_tasks_pending_failure_cause →
        s'.calls = s.calls ++
          [Call.MarkTaskCanceled task_spec.task_id, Call.IsTaskPending task_spec.task_id,
            Call.CancelDependencyResolution task_spec.task_id,
            Call.FailPendingTask task_spec.task_id ErrorType.TASK_CANCELLED none none])) ∧
    ∀ (fk rc ip : Bool) (s₀ : State),
      ∃ st s', CancelTask env task_spec fk rc ip s₀ = Except.ok (st, s') ∧ st.ok = true := by
  refine ⟨?_, ?_⟩
  · have hc₁ : task_spec.task_id ∉ (s.eraseGenerator task_spec.task_id).cancelled_tasks := hc
    have hdel : ∀ (X : State) (k : SchedulingKey),
        (if (X.entry k).CanDelete = true then X.eraseEntry k else X).calls = X.calls ∧
        (if (X.entry k).CanDelete = true then X.eraseEntry k else X).callbacks = X.callbacks ∧
        (if (X.entry k).CanDelete = true then X.eraseEntry k else X).cancelled_tasks =
          X.cancelled_tasks := by
      intro X k; split <;> exact ⟨rfl, rfl, rfl⟩
    unfold CancelTask
    simp only [hc₁, if_false, Bool.not_true, Bool.false_eq_true, entry_touchEntry, entry_call,
      entry_eraseGenerator, hq]
    have hc₂ : task_spec.task_id ∉ ((((s.eraseGenerator task_spec.task_id).call
        (Call.MarkTaskCanceled task_spec.task_id)).call
        (Call.IsTaskPending task_spec.task_id)).touchEntry
          task_spec.GetSchedulingKey).cancelled_tasks := hc
    have he₂ : Map.find task_spec.task_id (((((s.eraseGenerator task_spec.task_id).call
        (Call.MarkTaskCanceled task_spec.task_id)).call
        (Call.IsTaskPending task_spec.task_id)).touchEntry
          task_spec.GetSchedulingKey).insertCancelled task_spec.task_id).executing_tasks =
        none := he
    simp only [hc₂, if_false, he₂]
    refine ⟨_, rfl, ?_, ?_, ?_, ?_, ?_⟩
    · rw [(hdel _ _).2.2]
      split <;> rfl
    · rw [(hdel _ _).2.2]
      have : task_spec.task_id ∈ HashSet.insert task_spec.task_id s.cancelled_tasks :=
        HashSet.mem_insert.mpr (Or.inl rfl)
      split <;> exact this
    · rw [(hdel _ _).1]
      split
      · simp [State.insertCancelled, State.touchEntry, State.call, State.eraseGenerator,
          Call.toWorker]
      · simp [State.insertCancelled, State.touchEntry, State.call, State.eraseGenerator,
          Call.toWorker, CancelDependencyResolution, State.keepCallbacks]
    · intro hf
      have hf' : task_spec.task_id ∈ (((((s.eraseGenerator task_spec.task_id).call
          (Call.MarkTaskCanceled task_spec.task_id)).call
          (Call.IsTaskPending task_spec.task_id)).touchEntry
            task_spec.GetSchedulingKey).insertCancelled
              task_spec.task_id).failed_tasks_pending_failure_cause := hf
      rw [(hdel _ _).1, (hdel _ _).2.1]
      simp only [hf', if_true]
      constructor
      · simp [State.insertCancelled, State.touchEntry, State.call, State.eraseGenerator]
      · rfl
    · intro hf
      have hf' : task_spec.task_id ∉ (((((s.eraseGenerator task_spec.task_id).call
          (Call.MarkTaskCanceled task_spec.task_id)).call
          (Call.IsTaskPending task_spec.task_id)).touchEntry
            task_spec.GetSchedulingKey).insertCancelled
              task_spec.task_id).failed_tasks_pending_failure_cause := hf
      rw [(hdel _ _).1]
      simp only [hf', if_false]
      simp [State.insertCancelled, State.touchEntry, State.call, State.eraseGenerator,
        CancelDependencyResolution, State.keepCallbacks]
  · intro fk rc ip s₀
    obtain ⟨s', h⟩ := CancelTask_returns env task_spec fk rc ip s₀
    exact ⟨{}, s', h, rfl⟩

theorem cancel_unscheduled_witness :
    taskA.task_id ∉ (stateAfter exampleEnv oneResolving).cancelled_tasks ∧
    (∃ s', CancelTask exampleEnv taskA false false true (stateAfter exampleEnv oneResolving) =
        Except.ok ({}, s') ∧
      taskA.task_id ∈ s'.cancelled_tasks ∧
      s'.calls = (stateAfter exampleEnv oneResolving).calls ++
        [Call.MarkTaskCanceled taskA.task_id, Call.IsTaskPending taskA.task_id,
          Call.CancelDependencyResolution taskA.task_id,
          Call.FailPendingTask taskA.task_id ErrorType.TASK_CANCELLED none none]) := by
  refine ⟨by decide, ?_⟩
  obtain ⟨⟨s', h, _, hm, _, _, hcalls⟩, _⟩ :=
    cancel_unscheduled exampleEnv taskA false false (stateAfter exampleEnv oneResolving)
      (by decide) (by decide) (by decide)
  exact ⟨s', h, hm, hcalls (by decide)⟩

/-! ### Calls of `OnWorkerIdle` that a projection does not see -/

theorem filterMap_ReturnWorker {α : Type} (p : Call → Option α)
    (hp1 : ∀ c po w e d x, p (Call.ReturnWorker c po w e d x) = none)
    (hp2 : ∀ st, p (Call.LogErrorReturningWorker st) = none)
    {env : Env} {addr : Address} {we : Bool} {ed : Message} {wx : Bool} {key : SchedulingKey}
    {s s' : State} (h : ReturnWorker env addr we ed wx key s = Except.ok s') :
    s'.calls.filterMap p = s.calls.filterMap p := by
  unfold ReturnWorker at h
  simp only [] at h
  split at h
  · cases h
  · split at h
    · cases h
    · split at h
      · cases h
      · cases h
        have hdel : ∀ (X : State) (b : Bool), (if b then X.eraseEntry key else X).calls =
            X.calls := by
          intro X b; split <;> rfl
        show (if _ then State.call _ _ else _).calls.filterMap p = _
        split
        · rw [filterMap_call, hp2, filterMap_call, hp1, hdel]
          simp [State.setEntry, State.touchLease, State.touchEntry]
        · rw [filterMap_call, hp1, hdel]
          simp [State.setEntry, State.touchLease, State.touchEntry]

theorem filterMap_dispatchWhile {α : Type} (p : Call → Option α)
    (hp1 : ∀ t n w, p (Call.MarkTaskWaitingForExecution t n w) = none)
    (hp2 : ∀ a k r, p (Call.PushNormalTask a k r) = none)
    {clk : Clock} {addr : Address} {key : SchedulingKey} {res : ResourceMapping} :
    ∀ (n : Nat) (s s' : State), dispatchWhile clk addr key res n s = Except.ok s' →
      s'.calls.filterMap p = s.calls.filterMap p := by
  intro n
  induction n with
  | zero => intro s s' h; simp only [dispatchWhile] at h; cases h; rfl
  | succ n ih =>
    intro s s' h
    unfold dispatchWhile at h
    simp only [] at h
    split at h
    · cases h; rfl
    · split at h
      · cases h; rfl
      · split at h
        · cases h
        · rw [ih _ _ h]
          unfold PushNormalTask
          simp only []
          show ((State.call _ _).call _).calls.filterMap p = _
          rw [filterMap_call, hp2, filterMap_call, hp1]
          simp [State.emplaceExecuting, State.setEntry, State.setLease]

/-- A projection of the call log that sees none of the calls `OnWorkerIdle`
can make is the same before and after it. -/
theorem filterMap_OnWorkerIdle {α : Type} (p : Call → Option α)
    (hp1 : ∀ a, p (Call.GetOrConnectByAddress a) = none)
    (hp2 : ∀ w r, p (Call.ReportWorkerBacklog w r) = none)
    (hp3 : ∀ c r g b l, p (Call.RequestWorkerLease c r g b l) = none)
    (hp4 : ∀ c t, p (Call.CancelWorkerLease c t) = none)
    (hp5 : ∀ c po w e d x, p (Call.ReturnWorker c po w e d x) = none)
    (hp6 : ∀ st, p (Call.LogErrorReturningWorker st) = none)
    (hp7 : ∀ t n w, p (Call.MarkTaskWaitingForExecution t n w) = none)
    (hp8 : ∀ a k r, p (Call.PushNormalTask a k r) = none)
    (hp9 : ∀ a, p (Call.GetOrConnect a) = none)
    {env : Env} {depth : Nat} {clk : Clock} {addr : Address} {key : SchedulingKey}
    {we : Bool} {ed : Message} {wx : Bool} {res : ResourceMapping} {s s' : State}
    (h : OnWorkerIdle env depth clk addr key we ed wx res s = Except.ok s') :
    s'.calls.filterMap p = s.calls.filterMap p := by
  unfold OnWorkerIdle at h
  simp only [] at h
  split at h
  · cases h; rfl
  · split at h
    · split at h
      · cases h
      · obtain ⟨s₁, h₁, h₂⟩ := bind_ok h
        rw [filterMap_RequestNewWorkerIfNeeded p hp1 hp2 hp3 env _ _ _ _ _ h₂]
        split at h₁
        · rw [filterMap_ReturnWorker p hp5 hp6 h₁]; rfl
        · cases h₁; rfl
    · obtain ⟨s₁, h₁, h₂⟩ := bind_ok h
      rw [filterMap_RequestNewWorkerIfNeeded p hp1 hp2 hp3 env _ _ _ _ _ h₂,
        filterMap_CancelWorkerLeaseIfNeeded p hp1]
      have hnil : ∀ (l : List (TaskID × Address)), l.filterMap
          (fun pl => p (Call.CancelWorkerLease (clientFor env pl.2) pl.1)) = [] := by
        intro l; simp [hp4]
      rw [hnil]
      simp only [ite_self, List.append_nil]
      rw [filterMap_dispatchWhile p hp7 hp8 _ _ _ h₁, filterMap_call, hp9]
      simp [State.touchEntry, State.touchLease]

/-! ### The task sets under `OnWorkerIdle` -/

theorem sets_of_ledger {s s' : State} (h : s'.ledger = s.ledger) : s'.sets = s.sets :=
  congrArg Ledger.sets h

theorem sets_ReturnWorker {env : Env} {addr : Address} {we : Bool} {ed : Message} {wx : Bool}
    {key : SchedulingKey} {s s' : State}
    (h : ReturnWorker env addr we ed wx key s = Except.ok s') :
    s'.sets = s.sets ∧ s'.executing_tasks = s.executing_tasks ∧ s'.callbacks = s.callbacks := by
  unfold ReturnWorker at h
  simp only [] at h
  split at h
  · cases h
  · split at h
    · cases h
    · split at h
      · cases h
      · cases h
        have hdel : ∀ (X : State) (b : Bool) (k : SchedulingKey),
            (if b then X.eraseEntry k else X).sets = X.sets ∧
            (if b then X.eraseEntry k else X).executing_tasks = X.executing_tasks ∧
            (if b then X.eraseEntry k else X).callbacks = X.callbacks := by
          intro X b k; split <;> exact ⟨rfl, rfl, rfl⟩
        have hcall : ∀ (X : State) (b : Bool) (c : Call),
            (if b then X.call c else X).sets = X.sets ∧
            (if b then X.call c else X).executing_tasks = X.executing_tasks ∧
            (if b then X.call c else X).callbacks = X.callbacks := by
          intro X b c; split <;> exact ⟨rfl, rfl, rfl⟩
        refine ⟨?_, ?_, ?_⟩
        · show (State.eraseLease _ _).sets = _
          show (if _ then State.call _ _ else _).sets = _
          rw [(hcall _ _ _).1]
          show (if _ then State.eraseEntry _ _ else _).sets = _
          rw [(hdel _ _ _).1]; rfl
        · show (if _ then State.call _ _ else _).executing_tasks = _
          rw [(hcall _ _ _).2.1]
          show (if _ then State.eraseEntry _ _ else _).executing_tasks = _
          rw [(hdel _ _ _).2.1]; rfl
        · show (if _ then State.call _ _ else _).callbacks = _
          rw [(hcall _ _ _).2.2]
          show (if _ then State.eraseEntry _ _ else _).callbacks = _
          rw [(hdel _ _ _).2.2]; rfl

theorem sets_dispatchWhile {clk : Clock} {addr : Address} {key : SchedulingKey}
    {res : ResourceMapping} :
    ∀ (n : Nat) (s s' : State), dispatchWhile clk addr key res n s = Except.ok s' →
      s'.sets = s.sets := by
  intro n
  induction n with
  | zero => intro s s' h; simp only [dispatchWhile] at h; cases h; rfl
  | succ n ih =>
    intro s s' h
    unfold dispatchWhile at h
    simp only [] at h
    split at h
    · cases h; rfl
    · split at h
      · cases h; rfl
      · split at h
        · cases h
        · rw [ih _ _ h]; rfl

/-- `OnWorkerIdle` leaves `cancelled_tasks`, `generators_to_resubmit` and
`failed_tasks_pending_failure_cause` as they are. -/
theorem sets_OnWorkerIdle {env : Env} {depth : Nat} {clk : Clock} {addr : Address}
    {key : SchedulingKey} {we : Bool} {ed : Message} {wx : Bool} {res : ResourceMapping}
    {s s' : State} (h : OnWorkerIdle env depth clk addr key we ed wx res s = Except.ok s') :
    s'.sets = s.sets := by
  unfold OnWorkerIdle at h
  simp only [] at h
  split at h
  · cases h; rfl
  · split at h
    · split at h
      · cases h
      · obtain ⟨s₁, h₁, h₂⟩ := bind_ok h
        rw [sets_of_ledger (ledger_RequestNewWorkerIfNeeded env _ _ _ _ _ h₂)]
        split at h₁
        · rw [(sets_ReturnWorker h₁).1]; rfl
        · cases h₁; rfl
    · obtain ⟨s₁, h₁, h₂⟩ := bind_ok h
      rw [sets_of_ledger (ledger_RequestNewWorkerIfNeeded env _ _ _ _ _ h₂),
        sets_of_ledger (ledger_CancelWorkerLeaseIfNeeded env key s₁),
        sets_dispatchWhile _ _ _ h₁]
      rfl

/-! ### `OnWorkerIdle` case by case -/

theorem find_lease_of_client {s : State} {a : Address} {lc : LeaseClient}
    (h : (s.lease a).lease_client = some lc) :
    ∃ l, Map.find a s.worker_to_lease_entry = some l ∧ s.lease a = l := by
  unfold State.lease Map.get at h ⊢
  cases hf : Map.find a s.worker_to_lease_entry with
  | none => rw [hf] at h; simp at h
  | some l => exact ⟨l, rfl, rfl⟩

theorem touchLease_of_client {s : State} {a : Address} {lc : LeaseClient}
    (h : (s.lease a).lease_client = some lc) : s.touchLease a = s := by
  obtain ⟨l, hf, _⟩ := find_lease_of_client h
  exact @touchLease_of_leased s a l.scheduling_key (by simp [State.lview, hf])

/-- `OnWorkerIdle` for a leased worker that is not busy and must be returned:
the worker is returned, then a lease is requested if one is needed. -/
theorem OnWorkerIdle_return {env : Env} {depth : Nat} {clk : Clock} {addr : Address}
    {key : SchedulingKey} {we : Bool} {ed : Message} {wx : Bool} {res : ResourceMapping}
    {s s' : State} {lc : LeaseClient} (hl : (s.lease addr).lease_client = some lc)
    (hb : (s.lease addr).is_busy = false)
    (hmust : we = true ∨ wx = true ∨ clk.mono > (s.lease addr).lease_expiration_time ∨
      (s.entry key).task_queue = [])
    (h : OnWorkerIdle env depth clk addr key we ed wx res s = Except.ok s') :
    ∃ s₁, ReturnWorker env addr we ed wx key (s.touchEntry key) = Except.ok s₁ ∧
      RequestNewWorkerIfNeeded env depth key none s₁ = Except.ok s' := by
  unfold OnWorkerIdle at h
  simp only [] at h
  rw [touchLease_of_client hl] at h
  simp only [hl, hb, entry_touchEntry] at h
  have hc : ((we || wx || decide (clk.mono > (s.lease addr).lease_expiration_time)) ||
      (s.entry key).task_queue.isEmpty) = true := by
    rcases hmust with h1 | h1 | h1 | h1
    · simp [h1]
    · simp [h1]
    · simp [h1]
    · simp [h1]
  rw [if_pos hc] at h
  split at h
  · cases h
  · obtain ⟨s₁, h₁, h₂⟩ := bind_ok h
    simp only [Bool.not_false, if_true] at h₁
    exact ⟨s₁, h₁, h₂⟩

/-! ### One dispatch -/

theorem lease_PushNormalTask (a a' : Address) (k : SchedulingKey) (t : TaskSpecification)
    (r : ResourceMapping) (s : State) : (PushNormalTask a k t r s).lease a' = s.lease a' := rfl

theorem entry_PushNormalTask (a : Address) (k k' : SchedulingKey) (t : TaskSpecification)
    (r : ResourceMapping) (s : State) : (PushNormalTask a k t r s).entry k' = s.entry k' := rfl

theorem lease_emplaceExecuting (s : State) (t : TaskID) (a a' : Address) :
    (s.emplaceExecuting t a).lease a' = s.lease a' := rfl

/-- The loop of `OnWorkerIdle`, entered with a worker that is not busy and a
queue that is not empty, makes exactly one turn. -/
theorem dispatchWhile_one {clk : Clock} {addr : Address} {key : SchedulingKey}
    {res : ResourceMapping} {s : State} {front : TaskSpecification}
    {rest : List TaskSpecification} (n : Nat) (hb : (s.lease addr).is_busy = false)
    (hq : (s.entry key).task_queue = front :: rest)
    (ha : 1 ≤ (s.entry key).active_workers.length) :
    dispatchWhile clk addr key res (n + 1) s = Except.ok (dispatchOne clk addr key res s) := by
  have hstop : ∀ m (X : State), (X.lease addr).is_busy = true →
      dispatchWhile clk addr key res m X = Except.ok X := by
    intro m X hX
    cases m with
    | zero => rfl
    | succ m =>
      unfold dispatchWhile
      simp only [hX, if_true]
      split <;> rfl
  unfold dispatchWhile
  simp only [hq, hb, Bool.false_eq_true, if_false, entry_setLease, entry_setEntry, if_true]
  have ha' : ¬ (s.entry key).active_workers.length < 1 := by omega
  simp only [ha', if_false]
  rw [hstop n _ ?_]
  · unfold dispatchOne
    simp only [hq, entry_setLease, entry_setEntry, if_true]
  · simp [lease_PushNormalTask, lease_emplaceExecuting]

/-- `OnWorkerIdle` for a leased worker that is not busy and need not be
returned: one task is dispatched, then lease requests are cancelled or made as
needed. -/
theorem OnWorkerIdle_dispatch {env : Env} {depth : Nat} {clk : Clock} {addr : Address}
    {key : SchedulingKey} {ed : Message} {res : ResourceMapping}
    {s s' : State} {lc : LeaseClient} {front : TaskSpecification}
    {rest : List TaskSpecification} (hl : (s.lease addr).lease_client = some lc)
    (hb : (s.lease addr).is_busy = false)
    (hexp : clk.mono ≤ (s.lease addr).lease_expiration_time)
    (hq : (s.entry key).task_queue = front :: rest)
    (h : OnWorkerIdle env depth clk addr key false ed false res s = Except.ok s') :
    1 ≤ (s.entry key).active_workers.length ∧
    RequestNewWorkerIfNeeded env depth key none
      (CancelWorkerLeaseIfNeeded env key
        (dispatchOne clk addr key res ((s.touchEntry key).call (Call.GetOrConnect addr)))) =
      Except.ok s' := by
  unfold OnWorkerIdle at h
  simp only [] at h
  rw [touchLease_of_client hl] at h
  simp only [hl, entry_touchEntry, hq] at h
  have hc : ((false || false || decide (clk.mono > (s.lease addr).lease_expiration_time)) ||
      (front :: rest).isEmpty) = false := by
    have : ¬ clk.mono > (s.lease addr).lease_expiration_time := by omega
    simp [this]
  rw [hc] at h
  simp only [Bool.false_eq_true, if_false] at h
  obtain ⟨s₁, h₁, h₂⟩ := bind_ok h
  have hq' : (((s.touchEntry key).call (Call.GetOrConnect addr)).entry key).task_queue =
      front :: rest := by simpa using hq
  have hb' : (((s.touchEntry key).call (Call.GetOrConnect addr)).lease addr).is_busy =
      false := hb
  have hact : (((s.touchEntry key).call (Call.GetOrConnect addr)).entry key).active_workers =
      (s.entry key).active_workers := by simp
  rw [List.length_cons] at h₁
  by_cases ha : 1 ≤ (s.entry key).active_workers.length
  · refine ⟨ha, ?_⟩
    rw [dispatchWhile_one rest.length hb' hq' (by rw [hact]; exact ha)] at h₁
    cases h₁; exact h₂
  · exfalso
    unfold dispatchWhile at h₁
    simp only [hq', hb', Bool.false_eq_true, if_false, entry_setLease, entry_setEntry,
      if_true, hact] at h₁
    have ha' : (s.entry key).active_workers.length < 1 := by omega
    simp only [ha', if_true] at h₁
    cases h₁

/-- `OnWorkerIdle` for a leased worker that is busy: no task is dispatched and
the worker is not returned. -/
theorem OnWorkerIdle_busy {env : Env} {depth : Nat} {clk : Clock} {addr : Address}
    {key : SchedulingKey} {we : Bool} {ed : Message} {wx : Bool} {res : ResourceMapping}
    {s s' : State} {lc : LeaseClient} (hl : (s.lease addr).lease_client = some lc)
    (hb : (s.lease addr).is_busy = true)
    (h : OnWorkerIdle env depth clk addr key we ed wx res s = Except.ok s') :
    RequestNewWorkerIfNeeded env depth key none (s.touchEntry key) = Except.ok s' ∨
    RequestNewWorkerIfNeeded env depth key none
      (CancelWorkerLeaseIfNeeded env key ((s.touchEntry key).call (Call.GetOrConnect addr))) =
      Except.ok s' := by
  unfold OnWorkerIdle at h
  simp only [] at h
  rw [touchLease_of_client hl] at h
  simp only [hl, hb] at h
  split at h
  · split at h
    · cases h
    · obtain ⟨s₁, h₁, h₂⟩ := bind_ok h
      simp only [Bool.not_true, Bool.false_eq_true, if_false] at h₁
      cases h₁
      exact Or.inl h₂
  · obtain ⟨s₁, h₁, h₂⟩ := bind_ok h
    have hstop : ∀ m (X : State), (X.lease addr).is_busy = true →
        dispatchWhile clk addr key res m X = Except.ok X := by
      intro m X hX
      cases m with
      | zero => rfl
      | succ m =>
        unfold dispatchWhile
        simp only [hX, if_true]
        split <;> rfl
    have hb' : (((s.touchEntry key).call (Call.GetOrConnect addr)).lease addr).is_busy =
        true := hb
    rw [hstop _ _ hb'] at h₁
    cases h₁
    exact Or.inr h₂

/-! ### What `ReturnWorker` does -/

/-- The calls of `ReturnWorker`: the worker is returned on the client of its
lease, and a failure of that call is logged. -/
theorem calls_ReturnWorker {env : Env} {addr : Address} {we : Bool} {ed : Message} {wx : Bool}
    {key : SchedulingKey} {s s' : State} {lc : LeaseClient}
    (hl : (s.lease addr).lease_client = some lc)
    (h : ReturnWorker env addr we ed wx key s = Except.ok s') :
    s'.calls = s.calls ++ Call.ReturnWorker lc addr.port addr.worker_id we ed wx ::
      (if (env.return_worker_status addr).ok then []
        else [Call.LogErrorReturningWorker (env.return_worker_status addr)]) ∧
    (s'.entry key).task_queue = (s.entry key).task_queue := by
  unfold ReturnWorker at h
  simp only [] at h
  split at h
  · cases h
  · have hl' : ((s.touchEntry key).lease addr).lease_client = some lc := hl
    rw [touchLease_of_client hl'] at h
    simp only [hl'] at h
    split at h
    · cases h
    · cases h
      have hdel : ∀ (X : State) (b : Bool), (if b then X.eraseEntry key else X).calls =
          X.calls := by
        intro X b; split <;> rfl
      have hcc : ∀ (X : State) (c : Call), (X.call c).calls = X.calls ++ [c] :=
        fun _ _ => rfl
      constructor
      · show (if _ then State.call _ _ else _).calls = _
        cases hst : (env.return_worker_status addr).ok
        · simp only [Bool.not_false, if_true, Bool.false_eq_true, if_false]
          rw [hcc, hcc, hdel]
          simp [State.setEntry, State.touchEntry]
        · simp only [Bool.not_true, Bool.false_eq_true, if_false, if_true]
          rw [hcc, hdel]
          simp [State.setEntry, State.touchEntry]
      · simp only [entry_eraseLease]
        have hcall : ∀ (X : State) (b : Bool) (c : Call),
            (if b then X.call c else X).entry key = X.entry key := by
          intro X b c; split <;> rfl
        rw [hcall, entry_call]
        split
        · next hd =>
          simp only [SchedulingKeyEntry.CanDelete, Bool.and_eq_true, List.isEmpty_iff,
            entry_touchEntry] at hd
          simp only [entry_eraseEntry, if_true]
          rw [hd.1.2]; rfl
        · simp

theorem returnedBy_quiet :
    (∀ a, Call.returnedBy (Call.GetOrConnectByAddress a) = none) ∧
    (∀ w r, Call.returnedBy (Call.ReportWorkerBacklog w r) = none) ∧
    (∀ c r g b l, Call.returnedBy (Call.RequestWorkerLease c r g b l) = none) ∧
    (∀ c t, Call.returnedBy (Call.CancelWorkerLease c t) = none) :=
  ⟨fun _ => rfl, fun _ _ => rfl, fun _ _ _ _ _ => rfl, fun _ _ => rfl⟩

theorem pushedTo_quiet :
    (∀ a, Call.pushedTo (Call.GetOrConnectByAddress a) = none) ∧
    (∀ w r, Call.pushedTo (Call.ReportWorkerBacklog w r) = none) ∧
    (∀ c r g b l, Call.pushedTo (Call.RequestWorkerLease c r g b l) = none) ∧
    (∀ c t, Call.pushedTo (Call.CancelWorkerLease c t) = none) :=
  ⟨fun _ => rfl, fun _ _ => rfl, fun _ _ _ _ _ => rfl, fun _ _ => rfl⟩

theorem find_none_of_leaseKey {s : State} {a : Address} (h : s.lview.leaseKey a = none) :
    Map.find a s.worker_to_lease_entry = none := by
  simp only [State.lview] at h
  cases hf : Map.find a s.worker_to_lease_entry with
  | none => rfl
  | some l => rw [hf] at h; cases h

/-- What one turn of the dispatch loop leaves behind. -/
theorem dispatchOne_spec {clk : Clock} {addr : Address} {key : SchedulingKey}
    {res : ResourceMapping} {s : State} {front : TaskSpecification}
    {rest : List TaskSpecification} (hq : (s.entry key).task_queue = front :: rest) :
    (dispatchOne clk addr key res s).entry key =
      { s.entry key with
        task_queue := rest
        num_busy_workers := (s.entry key).num_busy_workers + 1 } ∧
    (dispatchOne clk addr key res s).lease addr = { s.lease addr with is_busy := true } ∧
    (dispatchOne clk addr key res s).calls = s.calls ++
      [Call.MarkTaskWaitingForExecution front.task_id addr.raylet_id addr.worker_id,
        Call.PushNormalTask addr key
          { task_spec := { front with lease_grant_timestamp_ms := clk.sys }
            resource_mapping := res
            intended_worker_id := addr.worker_id }] ∧
    (dispatchOne clk addr key res s).executing_tasks =
      Map.emplace front.task_id addr s.executing_tasks := by
  unfold dispatchOne
  simp only [hq]
  refine ⟨?_, ?_, ?_, ?_⟩
  · simp [entry_PushNormalTask]
  · simp [lease_PushNormalTask, lease_emplaceExecuting]
  · simp [PushNormalTask, State.call, State.register, State.emplaceExecuting, State.setEntry,
      State.setLease]
  · rfl

theorem leaseKey_of_client {s : State} {a : Address} {lc : LeaseClient}
    (h : (s.lease a).lease_client = some lc) :
    s.lview.leaseKey a = some (s.lease a).scheduling_key := by
  obtain ⟨l, hf, hl⟩ := find_lease_of_client h
  simp [State.lview, hf, hl]

/-- A leased worker that is not busy and must be returned: what
`OnWorkerIdle` leaves behind. -/
theorem OnWorkerIdle_return_spec {env : Env} {depth : Nat} {clk : Clock} {addr : Address}
    {key : SchedulingKey} {was_error : Bool} {error_detail : Message} {worker_exiting : Bool}
    {res : ResourceMapping} {s s' : State} {lc : LeaseClient}
    (hl : (s.lease addr).lease_client = some lc) (hb : (s.lease addr).is_busy = false)
    (hmust : was_error = true ∨ worker_exiting = true ∨
        clk.mono > (s.lease addr).lease_expiration_time ∨ (s.entry key).task_queue = [])
    (h : OnWorkerIdle env depth clk addr key was_error error_detail worker_exiting res s =
      Except.ok s') :
    s'.calls.filterMap Call.returnedBy = s.calls.filterMap Call.returnedBy ++
      [(lc, addr.port, addr.worker_id, was_error, error_detail, worker_exiting)] ∧
    (s'.entry key).active_workers = HashSet.erase addr (s.entry key).active_workers ∧
    addr ∉ (s'.entry key).active_workers ∧
    Map.find addr s'.worker_to_lease_entry = none ∧
    s'.calls.filterMap Call.pushedTo = s.calls.filterMap Call.pushedTo ∧
    (s'.entry key).task_queue = (s.entry key).task_queue := by
  obtain ⟨r1, r2, r3, r4⟩ := returnedBy_quiet
  obtain ⟨p1, p2, p3, p4⟩ := pushedTo_quiet
  have hkey := leaseKey_of_client hl
  obtain ⟨s₁, h₁, h₂⟩ := OnWorkerIdle_return hl hb hmust h
  have hl' : ((s.touchEntry key).lease addr).lease_client = some lc := hl
  obtain ⟨hcalls, hqueue⟩ := calls_ReturnWorker hl' h₁
  have hv : s'.lview = s.lview.returned addr key := by
    rw [lview_RequestNewWorkerIfNeeded env _ _ _ _ _ h₂,
      @lview_ReturnWorker _ _ _ _ _ _ _ _ (s.lease addr).scheduling_key
        (by rw [lview_touchEntry]; exact hkey) h₁, lview_touchEntry]
  have hact : (s'.entry key).active_workers =
      HashSet.erase addr (s.entry key).active_workers := by
    have := congrArg (fun L => L.active key) hv
    simpa [LView.returned, State.lview] using this
  refine ⟨?_, hact, ?_, ?_, ?_, ?_⟩
  · rw [filterMap_RequestNewWorkerIfNeeded Call.returnedBy r1 r2 r3 env _ _ _ _ _ h₂, hcalls]
    have hs : (s.touchEntry key).calls = s.calls := rfl
    rw [hs, List.filterMap_append]
    congr 1
    split <;> simp [List.filterMap_cons, Call.returnedBy]
  · rw [hact]; exact mem_erase_self _ _
  · apply find_none_of_leaseKey
    rw [hv]
    simp [LView.returned]
  · rw [filterMap_RequestNewWorkerIfNeeded Call.pushedTo p1 p2 p3 env _ _ _ _ _ h₂,
      filterMap_ReturnWorker Call.pushedTo (fun _ _ _ _ _ _ => rfl) (fun _ => rfl) h₁]
    rfl
  · rw [(RequestNewWorkerIfNeeded_workers env _ _ _ _ _ h₂ key).1, hqueue, entry_touchEntry]

/-- A leased worker that is not busy and need not be returned: no
`ReturnWorker` call is made and the lease and the active workers stay. -/
theorem OnWorkerIdle_keep_spec {env : Env} {depth : Nat} {clk : Clock} {addr : Address}
    {key : SchedulingKey} {was_error : Bool} {error_detail : Message} {worker_exiting : Bool}
    {res : ResourceMapping} {s s' : State} {lc : LeaseClient}
    (hl : (s.lease addr).lease_client = some lc) (hb : (s.lease addr).is_busy = false)
    (hnot : ¬ (was_error = true ∨ worker_exiting = true ∨
        clk.mono > (s.lease addr).lease_expiration_time ∨ (s.entry key).task_queue = []))
    (h : OnWorkerIdle env depth clk addr key was_error error_detail worker_exiting res s =
      Except.ok s') :
    s'.calls.filterMap Call.returnedBy = s.calls.filterMap Call.returnedBy ∧
    (Map.find addr s'.worker_to_lease_entry).isSome = true ∧
    (s'.entry key).active_workers = (s.entry key).active_workers := by
  obtain ⟨r1, r2, r3, r4⟩ := returnedBy_quiet
  have hkey := leaseKey_of_client hl
  have hwe : was_error = false := by
    cases was_error
    · rfl
    · exact absurd (Or.inl rfl) hnot
  have hwx : worker_exiting = false := by
    cases worker_exiting
    · rfl
    · exact absurd (Or.inr (Or.inl rfl)) hnot
  have hexp : clk.mono ≤ (s.lease addr).lease_expiration_time := by
    by_contra hc
    exact hnot (Or.inr (Or.inr (Or.inl (by omega))))
  subst hwe hwx
  cases hq : (s.entry key).task_queue with
  | nil => exact absurd (Or.inr (Or.inr (Or.inr hq))) hnot
  | cons front rest =>
    obtain ⟨ha, h₂⟩ := OnWorkerIdle_dispatch hl hb hexp hq h
    have hq' : (((s.touchEntry key).call (Call.GetOrConnect addr)).entry key).task_queue =
        front :: rest := by simpa using hq
    have hb' : (((s.touchEntry key).call (Call.GetOrConnect addr)).lease addr).is_busy =
        false := hb
    have hone := @dispatchWhile_one clk addr key res _ front rest 0 hb' hq'
      (by simpa using ha)
    have hv : s'.lview = s.lview := by
      rw [lview_RequestNewWorkerIfNeeded env _ _ _ _ _ h₂, lview_CancelWorkerLeaseIfNeeded,
        @lview_dispatchWhile clk addr key res (s.lease addr).scheduling_key _ _ _
          (by rw [lview_call, lview_touchEntry]; exact hkey) hone,
        lview_call, lview_touchEntry]
    refine ⟨?_, ?_, ?_⟩
    · rw [filterMap_RequestNewWorkerIfNeeded Call.returnedBy r1 r2 r3 env _ _ _ _ _ h₂,
        filterMap_CancelWorkerLeaseIfNeeded Call.returnedBy r1,
        (dispatchOne_spec hq').2.2.1]
      have hs : ((s.touchEntry key).call (Call.GetOrConnect addr)).calls =
          s.calls ++ [Call.GetOrConnect addr] := rfl
      rw [hs]
      simp [List.filterMap_append, List.filterMap_cons, Call.returnedBy]
    · have hk' : s'.lview.leaseKey addr = some (s.lease addr).scheduling_key := by
        rw [hv]; exact hkey
      cases hf : Map.find addr s'.worker_to_lease_entry with
      | none => simp [State.lview, hf] at hk'
      | some l => rfl
    · have := congrArg (fun L => L.active key) hv
      exact this

/-- C26: `OnWorkerIdle` for a leased worker that is not busy.  The worker is
returned exactly when `was_error` or `worker_exiting` is set, the lease has
expired or the queue of the key is empty.  Returning it takes the address out
of the active workers of the key, makes one `ReturnWorker` call on the client
of the lease with the same `was_error`, error detail and `worker_exiting`,
pushes no task and erases the lease entry, whatever status the `ReturnWorker`
call has.  Otherwise no `ReturnWorker` call is made and the lease entry and
the active workers of the key stay. -/
theorem idle_worker_returned (env : Env) (depth : Nat) (clk : Clock) (addr : Address)
    (key : SchedulingKey) (was_error : Bool) (error_detail : Message) (worker_exiting : Bool)
    (res : ResourceMapping) (s s' : State) (lc : LeaseClient)
    (hl : (s.lease addr).lease_client = some lc) (hb : (s.lease addr).is_busy = false)
    (h : OnWorkerIdle env depth clk addr key was_error error_detail worker_exiting res s =
      Except.ok s') :
    ((was_error = true ∨ worker_exiting = true ∨
        clk.mono > (s.lease addr).lease_expiration_time ∨ (s.entry key).task_queue = []) →
      s'.calls.filterMap Call.returnedBy = s.calls.filterMap Call.returnedBy ++
        [(lc, addr.port, addr.worker_id, was_error, error_detail, worker_exiting)] ∧
      (s'.entry key).active_workers = HashSet.erase addr (s.entry key).active_workers ∧
      addr ∉ (s'.entry key).active_workers ∧
      Map.find addr s'.worker_to_lease_entry = none ∧
      s'.calls.filterMap Call.pushedTo = s.calls.filterMap Call.pushedTo ∧
      (s'.entry key).task_queue = (s.entry key).task_queue) ∧
    (¬ (was_error = true ∨ worker_exiting = true ∨
        clk.mono > (s.lease addr).lease_expiration_time ∨ (s.entry key).task_queue = []) →
      s'.calls.filterMap Call.returnedBy = s.calls.filterMap Call.returnedBy ∧
      (Map.find addr s'.worker_to_lease_entry).isSome = true ∧
      (s'.entry key).active_workers = (s.entry key).active_workers) := by
  exact ⟨fun hmust => OnWorkerIdle_return_spec hl hb hmust h,
    fun hnot => OnWorkerIdle_keep_spec hl hb hnot h⟩

theorem idle_worker_returned_witness :
    ((stateAfter exampleEnv actorCreated).lease workerW).lease_client =
      some LeaseClient.local_client ∧
    ((stateAfter exampleEnv actorCreated).lease workerW).is_busy = false ∧
    OnWorkerIdle exampleEnv 64 {} workerW keyC false [] false []
      (stateAfter exampleEnv actorCreated) = Except.ok actorWorkerIdle ∧
    actorWorkerIdle.calls.filterMap Call.returnedBy =
      (stateAfter exampleEnv actorCreated).calls.filterMap Call.returnedBy ++
        [(LeaseClient.local_client, workerW.port, workerW.worker_id, false, [], false)] ∧
    Map.find workerW actorWorkerIdle.worker_to_lease_entry = none :=
  have h := (idle_worker_returned exampleEnv 64 {} workerW keyC false [] false []
    (stateAfter exampleEnv actorCreated) actorWorkerIdle LeaseClient.local_client rfl rfl
    rfl).1 (Or.inr (Or.inr (Or.inr rfl)))
  ⟨rfl, rfl, rfl, h.1, h.2.2.2.1⟩

/-- C27 (as stated, refuted): a task is submitted again while it executes on
`workerW`, and `workerV` is granted for the second submission.  `OnWorkerIdle`
is called for `workerV`, which is leased, not busy and need not be returned,
and pushes the task to it; `executing_tasks` still maps the task to
`workerW`. -/
theorem resubmitted_counterexample :
    ∃ s', run exampleEnv resubmittedAndGranted {} = Except.ok s' ∧
      OnWorkerIdle exampleEnv 64 {} workerV keyAB false [] false [] secondWorkerGranted =
        Except.ok s' ∧
      (secondWorkerGranted.lease workerV).lease_client = some LeaseClient.local_client ∧
      (secondWorkerGranted.lease workerV).is_busy = false ∧
      (secondWorkerGranted.entry keyAB).task_queue = [taskA] ∧
      s'.calls.filterMap Call.pushedTo =
        secondWorkerGranted.calls.filterMap Call.pushedTo ++ [(workerV, taskA)] ∧
      Map.find taskA.task_id s'.executing_tasks = some workerW ∧ workerW ≠ workerV :=
  ⟨stateAfter exampleEnv resubmittedAndGranted, rfl, rfl, rfl, rfl, rfl, rfl, rfl, by decide⟩

/-- A leased worker that is not busy and need not be returned: what the one
dispatch of `OnWorkerIdle` leaves behind. -/
theorem OnWorkerIdle_dispatch_spec {env : Env} {depth : Nat} {clk : Clock} {addr : Address}
    {key : SchedulingKey} {error_detail : Message} {res : ResourceMapping} {s s' : State}
    {lc : LeaseClient} {front : TaskSpecification} {rest : List TaskSpecification}
    (hl : (s.lease addr).lease_client = some lc)
    (hexp : clk.mono ≤ (s.lease addr).lease_expiration_time)
    (hq : (s.entry key).task_queue = front :: rest)
    (hb : (s.lease addr).is_busy = false)
    (h : OnWorkerIdle env depth clk addr key false error_detail false res s = Except.ok s') :
    (s'.entry key).task_queue = rest ∧
    (s'.lease addr).is_busy = true ∧
    (s'.entry key).num_busy_workers = (s.entry key).num_busy_workers + 1 ∧
    s'.calls.filterMap Call.pushedTo = s.calls.filterMap Call.pushedTo ++
      [(addr, { front with lease_grant_timestamp_ms := clk.sys })] ∧
    s'.executing_tasks = Map.emplace front.task_id addr s.executing_tasks ∧
    (Map.find front.task_id s.executing_tasks = none →
      Map.find front.task_id s'.executing_tasks = some addr) := by
  obtain ⟨p1, p2, p3, p4⟩ := pushedTo_quiet
  have hled : ∀ {X Y : State}, Y.ledger = X.ledger →
      Y.executing_tasks = X.executing_tasks ∧ ∀ a, Y.lease a = X.lease a := by
    intro X Y hXY
    have h1 : Y.worker_to_lease_entry = X.worker_to_lease_entry := congrArg Ledger.leases hXY
    exact ⟨congrArg Ledger.executing hXY, fun a => by simp [State.lease, h1]⟩
  obtain ⟨ha, h₂⟩ := OnWorkerIdle_dispatch hl hb hexp hq h
  have hq' : (((s.touchEntry key).call (Call.GetOrConnect addr)).entry key).task_queue =
      front :: rest := by simpa using hq
  obtain ⟨d1, d2, d3, d4⟩ := @dispatchOne_spec clk addr key res _ front rest hq'
  obtain ⟨w1, w2, w3⟩ := RequestNewWorkerIfNeeded_workers env _ _ _ _ _ h₂ key
  have hview := view_CancelWorkerLeaseIfNeeded env key
    (dispatchOne clk addr key res ((s.touchEntry key).call (Call.GetOrConnect addr)))
  have hledger : s'.ledger = (dispatchOne clk addr key res
      ((s.touchEntry key).call (Call.GetOrConnect addr))).ledger := by
    rw [ledger_RequestNewWorkerIfNeeded env _ _ _ _ _ h₂, ledger_CancelWorkerLeaseIfNeeded]
  obtain ⟨e1, e2⟩ := hled hledger
  have hexec : s'.executing_tasks = Map.emplace front.task_id addr s.executing_tasks := by
    rw [e1, d4]; rfl
  refine ⟨?_, ?_, ?_, ?_, hexec, ?_⟩
  · rw [w1]
    have := congrArg (fun v => v.queue key) hview
    simp only [State.view] at this
    rw [this, d1]
  · rw [e2, d2]
  · rw [w3]
    have := congrArg (fun v => v.busy key) hview
    simp only [State.view] at this
    rw [this, d1]
    simp
  · rw [filterMap_RequestNewWorkerIfNeeded Call.pushedTo p1 p2 p3 env _ _ _ _ _ h₂,
      filterMap_CancelWorkerLeaseIfNeeded Call.pushedTo p1, d3]
    have hs : ((s.touchEntry key).call (Call.GetOrConnect addr)).calls =
        s.calls ++ [Call.GetOrConnect addr] := rfl
    rw [hs]
    simp [List.filterMap_append, List.filterMap_cons, Call.pushedTo]
  · intro hnone
    rw [hexec, Map.find_emplace, if_pos rfl, hnone]
    rfl

/-- A leased worker that is busy and need not be returned: `OnWorkerIdle`
dispatches nothing. -/
theorem OnWorkerIdle_busy_spec {env : Env} {depth : Nat} {clk : Clock} {addr : Address}
    {key : SchedulingKey} {was_error : Bool} {error_detail : Message} {worker_exiting : Bool}
    {res : ResourceMapping} {s s' : State} {lc : LeaseClient}
    (hl : (s.lease addr).lease_client = some lc) (hb : (s.lease addr).is_busy = true)
    (h : OnWorkerIdle env depth clk addr key was_error error_detail worker_exiting res s =
      Except.ok s') :
    s'.calls.filterMap Call.pushedTo = s.calls.filterMap Call.pushedTo ∧
    (s'.entry key).task_queue = (s.entry key).task_queue ∧
    s'.executing_tasks = s.executing_tasks := by
  obtain ⟨p1, p2, p3, p4⟩ := pushedTo_quiet
  have hled : ∀ {X Y : State}, Y.ledger = X.ledger →
      Y.executing_tasks = X.executing_tasks ∧ ∀ a, Y.lease a = X.lease a := by
    intro X Y hXY
    have h1 : Y.worker_to_lease_entry = X.worker_to_lease_entry := congrArg Ledger.leases hXY
    exact ⟨congrArg Ledger.executing hXY, fun a => by simp [State.lease, h1]⟩
  have hcases := OnWorkerIdle_busy hl hb h
  rcases hcases with h₂ | h₂
  · obtain ⟨w1, _, _⟩ := RequestNewWorkerIfNeeded_workers env _ _ _ _ _ h₂ key
    refine ⟨?_, ?_, ?_⟩
    · rw [filterMap_RequestNewWorkerIfNeeded Call.pushedTo p1 p2 p3 env _ _ _ _ _ h₂]; rfl
    · rw [w1, entry_touchEntry]
    · rw [(hled (ledger_RequestNewWorkerIfNeeded env _ _ _ _ _ h₂)).1]; rfl
  · obtain ⟨w1, _, _⟩ := RequestNewWorkerIfNeeded_workers env _ _ _ _ _ h₂ key
    refine ⟨?_, ?_, ?_⟩
    · rw [filterMap_RequestNewWorkerIfNeeded Call.pushedTo p1 p2 p3 env _ _ _ _ _ h₂,
        filterMap_CancelWorkerLeaseIfNeeded Call.pushedTo p1]
      have hs : ((s.touchEntry key).call (Call.GetOrConnect addr)).calls =
          s.calls ++ [Call.GetOrConnect addr] := rfl
      rw [hs]
      simp [List.filterMap_append, List.filterMap_cons, Call.pushedTo]
    · rw [w1, queue_CancelWorkerLeaseIfNeeded]
      simp
    · rw [(hled (ledger_RequestNewWorkerIfNeeded env _ _ _ _ _ h₂)).1]
      rw [(hled (ledger_CancelWorkerLeaseIfNeeded env key _)).1]
      rfl

/-- C27 (amended): `OnWorkerIdle` for a leased worker that need not be
returned: no error, not exiting, the lease not expired, the queue not empty.
If the worker is not busy, exactly one task is dispatched: the front of the
queue of the key is removed, the lease is marked busy, `num_busy_workers` grows
by one, exactly one `PushNormalTask` is sent, for that task stamped with the
time of the grant, and the task is entered in `executing_tasks` by `emplace`:
it is mapped to the worker unless its id is in `executing_tasks` already, in
which case that entry is kept.  If the worker is busy, no task is dispatched
and the queue and `executing_tasks` are unchanged. -/
theorem idle_worker_dispatched (env : Env) (depth : Nat) (clk : Clock) (addr : Address)
    (key : SchedulingKey) (error_detail : Message) (res : ResourceMapping) (s s' : State)
    (lc : LeaseClient) (front : TaskSpecification) (rest : List TaskSpecification)
    (hl : (s.lease addr).lease_client = some lc)
    (hexp : clk.mono ≤ (s.lease addr).lease_expiration_time)
    (hq : (s.entry key).task_queue = front :: rest)
    (h : OnWorkerIdle env depth clk addr key false error_detail false res s = Except.ok s') :
    ((s.lease addr).is_busy = false →
      (s'.entry key).task_queue = rest ∧
      (s'.lease addr).is_busy = true ∧
      (s'.entry key).num_busy_workers = (s.entry key).num_busy_workers + 1 ∧
      s'.calls.filterMap Call.pushedTo = s.calls.filterMap Call.pushedTo ++
        [(addr, { front with lease_grant_timestamp_ms := clk.sys })] ∧
      s'.executing_tasks = Map.emplace front.task_id addr s.executing_tasks ∧
      (Map.find front.task_id s.executing_tasks = none →
        Map.find front.task_id s'.executing_tasks = some addr)) ∧
    ((s.lease addr).is_busy = true →
      s'.calls.filterMap Call.pushedTo = s.calls.filterMap Call.pushedTo ∧
      (s'.entry key).task_queue = (s.entry key).task_queue ∧
      s'.executing_tasks = s.executing_tasks) := by
  exact ⟨fun hb => OnWorkerIdle_dispatch_spec hl hexp hq hb h,
    fun hb => OnWorkerIdle_busy_spec hl hb h⟩

set_option maxRecDepth 4096 in
theorem idle_worker_dispatched_witness :
    ∃ s', OnWorkerIdle exampleEnv 64 {} workerV keyAB false [] false [] secondWorkerGranted =
        Except.ok s' ∧
      (s'.entry keyAB).task_queue = [] ∧
      (s'.lease workerV).is_busy = true ∧
      s'.calls.filterMap Call.pushedTo =
        secondWorkerGranted.calls.filterMap Call.pushedTo ++ [(workerV, taskA)] :=
  have h := (idle_worker_dispatched exampleEnv 64 {} workerV keyAB [] [] secondWorkerGranted
    (stateAfter exampleEnv resubmittedAndGranted) LeaseClient.local_client taskA []
    rfl (by decide) rfl rfl).1 rfl
  ⟨_, rfl, h.1, h.2.1, h.2.2.2.1⟩

/-! ### The push-reply closure case by case -/

theorem touchLease_of_busy {s : State} {a : Address} (h : (s.lease a).is_busy = true) :
    s.touchLease a = s := by
  obtain ⟨l, hf, _⟩ := find_lease_of_busy h
  exact @touchLease_of_leased s a l.scheduling_key (by simp [State.lview, hf])

/-- The locked section of the push-reply closure: what it requires of the
state, and what it does after the statements every reply runs. -/
theorem pushReplyLocked_spec {env : Env} {depth : Nat} {clk : Clock} {t : TaskID} {ac : Bool}
    {key : SchedulingKey} {addr : Address} {res : ResourceMapping} {status : Status}
    {reply : PushTaskReply} {s : State} {r : Bool × State}
    (h : pushReplyLocked env depth clk t ac key addr res status reply s = Except.ok r) :
    (s.lease addr).is_busy = true ∧
    1 ≤ (s.entry key).active_workers.length ∧
    1 ≤ (s.entry key).num_busy_workers ∧
    r.1 = decide (t ∈ s.generators_to_resubmit) ∧
    (status.ok = true → (!ac || reply.worker_exiting) = true →
      OnWorkerIdle env depth clk addr key false status.message reply.worker_exiting res
        (pushReplyStart t key addr s) = Except.ok r.2) ∧
    (status.ok = true → (!ac || reply.worker_exiting) = false →
      r.2 = pushReplyStart t key addr s) ∧
    (status.ok = false →
      ∃ lc, (s.lease addr).lease_client = some lc ∧
        OnWorkerIdle env depth clk addr key true status.message reply.worker_exiting res
          (pushFailedStart t key addr status lc s) = Except.ok r.2) := by
  unfold pushReplyLocked at h
  simp only [] at h
  split at h
  · cases h
  · next hbusy =>
    have hb : (s.lease addr).is_busy = true := by
      simp only [lease_touchLease, lease_eraseGenerator, lease_eraseExecuting, Bool.not_eq_true,
        Bool.not_eq_false] at hbusy
      simpa using hbusy
    split at h
    · cases h
    · next hact =>
      split at h
      · cases h
      · next hnum =>
        simp only [entry_touchEntry, entry_setLease, entry_eraseGenerator, entry_eraseExecuting,
          entry_touchLease, not_lt] at hact hnum
        obtain ⟨s₁, h₁, h₂⟩ := bind_ok h
        obtain ⟨s₂, h₃, h₄⟩ := bind_ok h₂
        cases h₄
        refine ⟨hb, hact, hnum, rfl, ?_, ?_, ?_⟩
        · intro hok hidle
          simp only [hok, Bool.not_true, Bool.false_eq_true, if_false] at h₁
          cases h₁
          simp only [hok, Bool.not_true, Bool.false_or] at h₃
          rw [if_pos hidle] at h₃
          exact h₃
        · intro hok hidle
          simp only [hok, Bool.not_true, Bool.false_eq_true, if_false] at h₁
          cases h₁
          simp only [hok, Bool.not_true, Bool.false_or, hidle, Bool.false_eq_true,
            if_false] at h₃
          cases h₃
          rfl
        · intro hnok
          simp only [hnok, Bool.not_false, if_true, Bool.true_or] at h₁ h₃
          have hstart : ((pushReplyStart t key addr s).lease addr) =
              { s.lease addr with is_busy := false } := by
            unfold pushReplyStart
            simp
          have hfind : ∃ l, Map.find addr
              ((pushReplyStart t key addr s).insertFailed t).worker_to_lease_entry = some l := by
            unfold pushReplyStart
            simp only [State.insertFailed, State.setEntry, State.touchEntry, State.setLease]
            cases hf : Map.find addr (Map.set addr _ _) with
            | none =>
              rw [Map.find_set] at hf
              simp at hf
            | some l => exact ⟨l, rfl⟩
          obtain ⟨l, hl⟩ := hfind
          have htouch : ((pushReplyStart t key addr s).insertFailed t).touchLease addr =
              (pushReplyStart t key addr s).insertFailed t :=
            @touchLease_of_leased _ addr l.scheduling_key (by simp [State.lview, hl])
          have h₁' : (match (((pushReplyStart t key addr s).insertFailed t).lease
              addr).lease_client with
            | none => Except.error Abort.check_failed
            | some lease_client =>
              Except.ok ((((pushReplyStart t key addr s).insertFailed t).call
                (Call.GetTaskFailureCause lease_client
                  (((pushReplyStart t key addr s).insertFailed t).lease addr).task_id)).register
                (Callback.failure_cause status t addr))) = Except.ok s₁ := by
            rw [← htouch]
            exact h₁
          have hlease : ((pushReplyStart t key addr s).insertFailed t).lease addr =
              { s.lease addr with is_busy := false } := hstart
          split at h₁'
          · cases h₁'
          · next lc hc =>
            cases h₁'
            rw [hlease] at hc
            exact ⟨lc, hc, h₃⟩

/-! ### The two parts of the push-reply closure -/

theorem pushReplyStart_spec (t : TaskID) (key : SchedulingKey) (addr : Address) (s : State) :
    Map.find t (pushReplyStart t key addr s).executing_tasks = none ∧
    (pushReplyStart t key addr s).lease addr = { s.lease addr with is_busy := false } ∧
    (pushReplyStart t key addr s).entry key =
      { s.entry key with num_busy_workers := (s.entry key).num_busy_workers - 1 } ∧
    (pushReplyStart t key addr s).calls = s.calls ∧
    (pushReplyStart t key addr s).sets =
      { s.sets with generators := HashSet.erase t s.generators_to_resubmit } := by
  unfold pushReplyStart
  refine ⟨?_, ?_, ?_, rfl, rfl⟩
  · show Map.find t (Map.erase t s.executing_tasks) = none
    rw [Map.find_erase]
    simp
  · simp
  · simp

theorem lview_pushReplyStart {t : TaskID} {key : SchedulingKey} {addr : Address} {s : State}
    (hb : (s.lease addr).is_busy = true) : (pushReplyStart t key addr s).lview = s.lview := by
  obtain ⟨l, hf, _⟩ := find_lease_of_busy hb
  have hk : s.lview.leaseKey addr = some l.scheduling_key := by simp [State.lview, hf]
  have hl : (s.lease addr).scheduling_key = l.scheduling_key := lease_key_of_leased hk
  unfold pushReplyStart
  simp only []
  rw [lview_setEntry_same, lview_touchEntry, lview_setLease,
    @touchLease_of_leased ((s.eraseExecuting t).eraseGenerator t) addr l.scheduling_key hk]
  · apply LView.ext
    · rfl
    · funext a'
      simp only [Function.update_apply, lview_eraseGenerator, lview_eraseExecuting,
        lease_eraseGenerator, lease_eraseExecuting, hl]
      split
      · next ha => subst ha; exact hk.symm
      · rfl
  · simp

theorem pushFailedStart_spec (t : TaskID) (key : SchedulingKey) (addr : Address)
    (status : Status) (lc : LeaseClient) (s : State) :
    (pushFailedStart t key addr status lc s).lease addr =
      { s.lease addr with is_busy := false } ∧
    (pushFailedStart t key addr status lc s).calls =
      s.calls ++ [Call.GetTaskFailureCause lc (s.lease addr).task_id] ∧
    (pushFailedStart t key addr status lc s).sets =
      { s.sets with
        generators := HashSet.erase t s.generators_to_resubmit
        failed := HashSet.insert t s.failed_tasks_pending_failure_cause } ∧
    (pushFailedStart t key addr status lc s).lview = (pushReplyStart t key addr s).lview ∧
    (pushFailedStart t key addr status lc s).entry key = (pushReplyStart t key addr s).entry key := by
  obtain ⟨h1, h2, h3, h4, h5⟩ := pushReplyStart_spec t key addr s
  unfold pushFailedStart
  simp only [lease_insertFailed, lease_call, lease_register, h2]
  refine ⟨trivial, ?_, ?_, rfl, rfl⟩
  · show (pushReplyStart t key addr s).calls ++ _ = _
    rw [h4]
  · have := h5
    simp only [State.sets] at this ⊢
    injection this with c g f
    simp [State.insertFailed, State.call, State.register, c, g, f]

/-- The part of the push-reply closure that runs after the lock is released
only calls the task manager: it leaves the tables and sets as they are, and a
projection of the call log that sees none of its four calls is unchanged. -/
theorem pushReplyOutcome_frame (spec : TaskSpecification) (t : TaskID) (a : Address)
    (status : Status) (reply : PushTaskReply) (rg ra : Bool) (s : State) :
    (pushReplyOutcome spec t a status reply rg ra s).ledger = s.ledger ∧
    (pushReplyOutcome spec t a status reply rg ra s).scheduling_key_entries =
      s.scheduling_key_entries ∧
    ∀ {α : Type} (p : Call → Option α),
      (∀ t e st ei, p (Call.FailPendingTask t e st ei) = none) →
      (∀ t, p (Call.MarkGeneratorFailedAndResubmit t) = none) →
      (∀ t r a app, p (Call.CompletePendingTask t r a app) = none) →
      (∀ t ei, p (Call.RetryTaskIfPossible t ei) = none) →
      (pushReplyOutcome spec t a status reply rg ra s).calls.filterMap p =
        s.calls.filterMap p := by
  unfold pushReplyOutcome
  refine ⟨?_, ?_, ?_⟩
  · repeat (first | rfl | split)
  · repeat (first | rfl | split)
  · intro α p q1 q2 q3 q4
    split
    · split
      · rw [filterMap_call, q1]; simp
      · split
        · rw [filterMap_call, q2]; simp
        · split
          · rw [filterMap_call, q3]; simp
          · split
            · rw [filterMap_call, q3, filterMap_call, q4]; simp
            · rw [filterMap_call, q4]; simp
    · rfl

theorem outcomeOf_quiet (t : TaskID) :
    (∀ a, Call.outcomeOf t (Call.GetOrConnectByAddress a) = none) ∧
    (∀ w r, Call.outcomeOf t (Call.ReportWorkerBacklog w r) = none) ∧
    (∀ c r g b l, Call.outcomeOf t (Call.RequestWorkerLease c r g b l) = none) ∧
    (∀ c i, Call.outcomeOf t (Call.CancelWorkerLease c i) = none) ∧
    (∀ c po w e d x, Call.outcomeOf t (Call.ReturnWorker c po w e d x) = none) ∧
    (∀ st, Call.outcomeOf t (Call.LogErrorReturningWorker st) = none) ∧
    (∀ i n w, Call.outcomeOf t (Call.MarkTaskWaitingForExecution i n w) = none) ∧
    (∀ a k r, Call.outcomeOf t (Call.PushNormalTask a k r) = none) ∧
    (∀ a, Call.outcomeOf t (Call.GetOrConnect a) = none) :=
  ⟨fun _ => rfl, fun _ _ => rfl, fun _ _ _ _ _ => rfl, fun _ _ => rfl,
    fun _ _ _ _ _ _ => rfl, fun _ => rfl, fun _ _ _ => rfl, fun _ _ _ => rfl, fun _ => rfl⟩

theorem causeAsked_quiet :
    (∀ a, Call.causeAsked (Call.GetOrConnectByAddress a) = none) ∧
    (∀ w r, Call.causeAsked (Call.ReportWorkerBacklog w r) = none) ∧
    (∀ c r g b l, Call.causeAsked (Call.RequestWorkerLease c r g b l) = none) ∧
    (∀ c i, Call.causeAsked (Call.CancelWorkerLease c i) = none) ∧
    (∀ c po w e d x, Call.causeAsked (Call.ReturnWorker c po w e d x) = none) ∧
    (∀ st, Call.causeAsked (Call.LogErrorReturningWorker st) = none) ∧
    (∀ i n w, Call.causeAsked (Call.MarkTaskWaitingForExecution i n w) = none) ∧
    (∀ a k r, Call.causeAsked (Call.PushNormalTask a k r) = none) ∧
    (∀ a, Call.causeAsked (Call.GetOrConnect a) = none) :=
  ⟨fun _ => rfl, fun _ _ => rfl, fun _ _ _ _ _ => rfl, fun _ _ => rfl,
    fun _ _ _ _ _ _ => rfl, fun _ => rfl, fun _ _ _ => rfl, fun _ _ _ => rfl, fun _ => rfl⟩

/-- The push-reply closure in its three cases: the state it ends in is the
outcome part applied to the state the locked section ends in, which is reached
through `OnWorkerIdle` unless the push of an actor-creation task succeeded and
the worker is not exiting. -/
theorem OnPushReply_spec {env : Env} {depth : Nat} {clk : Clock} {spec : TaskSpecification}
    {t : TaskID} {ac : Bool} {key : SchedulingKey} {addr : Address} {res : ResourceMapping}
    {status : Status} {reply : PushTaskReply} {ra : Bool} {s s' : State}
    (h : OnPushReply env depth clk spec t ac key addr res status reply ra s = Except.ok s') :
    (s.lease addr).is_busy = true ∧
    1 ≤ (s.entry key).num_busy_workers ∧
    ∃ s₁, s' = pushReplyOutcome spec t addr status reply
        (decide (t ∈ s.generators_to_resubmit)) ra s₁ ∧
      (status.ok = true → (!ac || reply.worker_exiting) = true →
        OnWorkerIdle env depth clk addr key false status.message reply.worker_exiting res
          (pushReplyStart t key addr s) = Except.ok s₁) ∧
      (status.ok = true → (!ac || reply.worker_exiting) = false →
        s₁ = pushReplyStart t key addr s) ∧
      (status.ok = false →
        ∃ lc, (s.lease addr).lease_client = some lc ∧
          OnWorkerIdle env depth clk addr key true status.message reply.worker_exiting res
            (pushFailedStart t key addr status lc s) = Except.ok s₁) := by
  unfold OnPushReply at h
  obtain ⟨r, h₁, h₂⟩ := bind_ok h
  cases h₂
  obtain ⟨hb, _, hn, hr, c1, c2, c3⟩ := pushReplyLocked_spec h₁
  exact ⟨hb, hn, r.2, by rw [hr], c1, c2, c3⟩

/-- C28: processing a push reply.  The statements every reply runs take the
task out of `executing_tasks`, mark the lease of the worker not busy (it was
busy) and take one from `num_busy_workers` of the key (which was at least one).
The worker then goes through `OnWorkerIdle` exactly when the status is not OK,
the task is not an actor-creation task or the reply says `worker_exiting`.
After a successful actor-creation push without `worker_exiting` the lease entry
and the active workers are as before and no `ReturnWorker` call is made; after
a failed push the worker is returned with `was_error` set. -/
theorem push_reply_frees_worker (env : Env) (depth : Nat) (clk : Clock)
    (spec : TaskSpecification) (t : TaskID) (ac : Bool) (key : SchedulingKey) (addr : Address)
    (res : ResourceMapping) (status : Status) (reply : PushTaskReply) (ra : Bool)
    (s s' : State)
    (h : OnPushReply env depth clk spec t ac key addr res status reply ra s = Except.ok s') :
    (Map.find t (pushReplyStart t key addr s).executing_tasks = none ∧
      (s.lease addr).is_busy = true ∧
      ((pushReplyStart t key addr s).lease addr).is_busy = false ∧
      ((pushReplyStart t key addr s).entry key).num_busy_workers + 1 =
        (s.entry key).num_busy_workers) ∧
    ((status.ok = false ∨ ac = false ∨ reply.worker_exiting = true) →
      ∃ s₀ s₁, (s₀ = pushReplyStart t key addr s ∨
          ∃ lc, s₀ = pushFailedStart t key addr status lc s) ∧
        OnWorkerIdle env depth clk addr key (!status.ok) status.message reply.worker_exiting
          res s₀ = Except.ok s₁ ∧
        s' = pushReplyOutcome spec t addr status reply
          (decide (t ∈ s.generators_to_resubmit)) ra s₁) ∧
    (status.ok = true → ac = true → reply.worker_exiting = false →
      s' = pushReplyOutcome spec t addr status reply
        (decide (t ∈ s.generators_to_resubmit)) ra (pushReplyStart t key addr s) ∧
      s'.calls.filterMap Call.returnedBy = s.calls.filterMap Call.returnedBy ∧
      Map.find addr s'.worker_to_lease_entry = some { s.lease addr with is_busy := false } ∧
      ∀ k, (s'.entry k).active_workers = (s.entry k).active_workers) ∧
    (status.ok = false →
      ∃ lc, (s.lease addr).lease_client = some lc ∧
        s'.calls.filterMap Call.returnedBy = s.calls.filterMap Call.returnedBy ++
          [(lc, addr.port, addr.worker_id, true, status.message, reply.worker_exiting)] ∧
        Map.find addr s'.worker_to_lease_entry = none ∧
        addr ∉ (s'.entry key).active_workers) := by
  obtain ⟨hb, hn, s₁, hs', c1, c2, c3⟩ := OnPushReply_spec h
  obtain ⟨e1, e2, e3, e4, e5⟩ := pushReplyStart_spec t key addr s
  obtain ⟨f1, f2, f3⟩ := pushReplyOutcome_frame spec t addr status reply
    (decide (t ∈ s.generators_to_resubmit)) ra s₁
  have hret : s'.calls.filterMap Call.returnedBy = s₁.calls.filterMap Call.returnedBy := by
    rw [hs']
    exact f3 Call.returnedBy (fun _ _ _ _ => rfl) (fun _ => rfl) (fun _ _ _ _ => rfl)
      (fun _ _ => rfl)
  have hlease : s'.worker_to_lease_entry = s₁.worker_to_lease_entry := by
    rw [hs']; exact congrArg Ledger.leases f1
  have hentry : ∀ k, s'.entry k = s₁.entry k := by
    intro k
    rw [hs']
    simp only [State.entry, f2]
  refine ⟨⟨e1, hb, ?_, ?_⟩, ?_, ?_, ?_⟩
  · rw [e2]
  · rw [e3]
    show (s.entry key).num_busy_workers - 1 + 1 = _
    omega
  · intro hcases
    cases hok : status.ok with
    | false =>
      obtain ⟨lc, _, h₃⟩ := c3 hok
      exact ⟨_, s₁, Or.inr ⟨lc, rfl⟩, by simpa [hok] using h₃, hs'⟩
    | true =>
      have hidle : (!ac || reply.worker_exiting) = true := by
        rcases hcases with h1 | h1 | h1
        · rw [hok] at h1; cases h1
        · simp [h1]
        · simp [h1]
      exact ⟨_, s₁, Or.inl rfl, by simpa [hok] using c1 hok hidle, hs'⟩
  · intro hok hac hwx
    have hs₁ := c2 hok (by simp [hac, hwx])
    subst hs₁
    refine ⟨hs', ?_, ?_, ?_⟩
    · rw [hret, e4]
    · rw [hlease]
      obtain ⟨l, hf, _⟩ := find_lease_of_busy hb
      have hfind : ∃ l', Map.find addr (pushReplyStart t key addr s).worker_to_lease_entry =
          some l' := by
        have hv := congrArg (fun L => L.leaseKey addr) (@lview_pushReplyStart t key addr s
          hb)
        simp only [State.lview, hf, Option.map_some'] at hv
        cases hf' : Map.find addr (pushReplyStart t key addr s).worker_to_lease_entry with
        | none => rw [hf'] at hv; cases hv
        | some l' => exact ⟨l', rfl⟩
      obtain ⟨l', hf'⟩ := hfind
      have hl' : (pushReplyStart t key addr s).lease addr = l' := by
        simp [State.lease, Map.get, hf']
      rw [hf', ← hl', e2]
    · intro k
      rw [hentry]
      exact congrArg (fun L => L.active k) (@lview_pushReplyStart t key addr s hb)
  · intro hok
    obtain ⟨lc, hlc, h₃⟩ := c3 hok
    obtain ⟨g1, g2, g3, g4, g5⟩ := pushFailedStart_spec t key addr status lc s
    have hl₀ : ((pushFailedStart t key addr status lc s).lease addr).lease_client = some lc := by
      rw [g1]; exact hlc
    have hb₀ : ((pushFailedStart t key addr status lc s).lease addr).is_busy = false := by
      rw [g1]
    obtain ⟨r1, r2, r3, r4, _, _⟩ := OnWorkerIdle_return_spec hl₀ hb₀ (Or.inl rfl) h₃
    refine ⟨lc, hlc, ?_, ?_, ?_⟩
    · rw [hret, r1, g2]
      simp [List.filterMap_append, List.filterMap_cons, Call.returnedBy]
    · rw [hlease]; exact r4
    · rw [hentry]; exact r3

set_option maxRecDepth 4096 in
theorem push_reply_frees_worker_witness :
    ∃ s', OnPushReply exampleEnv 64 {} taskA 1 false keyAB workerW [] unavailable {} false
        (stateAfter exampleEnv oneExecuting) = Except.ok s' ∧
      s'.calls.filterMap Call.returnedBy =
        [(LeaseClient.local_client, 7, 5, true, [], false)] ∧
      Map.find workerW s'.worker_to_lease_entry = none := by
  have h := push_reply_frees_worker exampleEnv 64 {} taskA 1 false keyAB workerW []
    unavailable {} false (stateAfter exampleEnv oneExecuting) _ rfl
  obtain ⟨lc, hlc, hret, hfind, _⟩ := h.2.2.2 rfl
  have hlc' : some LeaseClient.local_client = some lc := hlc
  cases hlc'
  exact ⟨_, rfl, hret, hfind⟩

/-- C21: the calls a push reply makes on the task manager for its task.  With
an OK status the closure reports exactly one outcome, chosen in this order:
`FailPendingTask(TASK_CANCELLED)` if the reply says the task was cancelled
before it ran; else `MarkGeneratorFailedAndResubmit` if the task was in
`generators_to_resubmit`; else `RetryTaskIfPossible` if the task retries on
exceptions and the reply is a retryable error, followed by
`CompletePendingTask` only if the retry is not accepted; else
`CompletePendingTask`.  The task is not in `generators_to_resubmit` afterwards.
With a status that is not OK none of these calls is made: the task is put in
`failed_tasks_pending_failure_cause` and its failure cause is asked of the
client of the lease, under the task id of the lease. -/
theorem push_reply_outcome (env : Env) (depth : Nat) (clk : Clock)
    (spec : TaskSpecification) (t : TaskID) (ac : Bool) (key : SchedulingKey) (addr : Address)
    (res : ResourceMapping) (status : Status) (reply : PushTaskReply) (ra : Bool)
    (s s' : State)
    (h : OnPushReply env depth clk spec t ac key addr res status reply ra s = Except.ok s') :
    t ∉ s'.generators_to_resubmit ∧
    (status.ok = true →
      (reply.was_cancelled_before_running = true →
        s'.calls.filterMap (Call.outcomeOf t) = s.calls.filterMap (Call.outcomeOf t) ++
          [Call.FailPendingTask t ErrorType.TASK_CANCELLED none none]) ∧
      (reply.was_cancelled_before_running = false → t ∈ s.generators_to_resubmit →
        s'.calls.filterMap (Call.outcomeOf t) = s.calls.filterMap (Call.outcomeOf t) ++
          [Call.MarkGeneratorFailedAndResubmit t]) ∧
      (reply.was_cancelled_before_running = false → t ∉ s.generators_to_resubmit →
        spec.retry_exceptions = true → reply.is_retryable_error = true → ra = true →
        s'.calls.filterMap (Call.outcomeOf t) = s.calls.filterMap (Call.outcomeOf t) ++
          [Call.RetryTaskIfPossible t
            { error_type := ErrorType.TASK_EXECUTION_EXCEPTION
              error_message := reply.task_execution_error }]) ∧
      (reply.was_cancelled_before_running = false → t ∉ s.generators_to_resubmit →
        spec.retry_exceptions = true → reply.is_retryable_error = true → ra = false →
        s'.calls.filterMap (Call.outcomeOf t) = s.calls.filterMap (Call.outcomeOf t) ++
          [Call.RetryTaskIfPossible t
              { error_type := ErrorType.TASK_EXECUTION_EXCEPTION
                error_message := reply.task_execution_error },
            Call.CompletePendingTask t reply addr reply.is_application_error]) ∧
      (reply.was_cancelled_before_running = false → t ∉ s.generators_to_resubmit →
        (spec.retry_exceptions = false ∨ reply.is_retryable_error = false) →
        s'.calls.filterMap (Call.outcomeOf t) = s.calls.filterMap (Call.outcomeOf t) ++
          [Call.CompletePendingTask t reply addr reply.is_application_error]) ∧
      s'.failed_tasks_pending_failure_cause = s.failed_tasks_pending_failure_cause ∧
      s'.calls.filterMap Call.causeAsked = s.calls.filterMap Call.causeAsked) ∧
    (status.ok = false →
      s'.calls.filterMap (Call.outcomeOf t) = s.calls.filterMap (Call.outcomeOf t) ∧
      t ∈ s'.failed_tasks_pending_failure_cause ∧
      ∃ lc, (s.lease addr).lease_client = some lc ∧
        s'.calls.filterMap Call.causeAsked = s.calls.filterMap Call.causeAsked ++
          [(lc, (s.lease addr).task_id)]) := by
  obtain ⟨hb, hn, s₁, hs', c1, c2, c3⟩ := OnPushReply_spec h
  obtain ⟨e1, e2, e3, e4, e5⟩ := pushReplyStart_spec t key addr s
  obtain ⟨f1, f2, f3⟩ := pushReplyOutcome_frame spec t addr status reply
    (decide (t ∈ s.generators_to_resubmit)) ra s₁
  obtain ⟨o1, o2, o3, o4, o5, o6, o7, o8, o9⟩ := outcomeOf_quiet t
  obtain ⟨q1, q2, q3, q4, q5, q6, q7, q8, q9⟩ := causeAsked_quiet
  have hsets : s'.sets = s₁.sets := by rw [hs']; exact congrArg Ledger.sets f1
  have hcause : s'.calls.filterMap Call.causeAsked = s₁.calls.filterMap Call.causeAsked := by
    rw [hs']
    exact f3 Call.causeAsked (fun _ _ _ _ => rfl) (fun _ => rfl) (fun _ _ _ _ => rfl)
      (fun _ _ => rfl)
  -- the state the locked section ends in
  have hlocked : s₁.sets.generators = HashSet.erase t s.generators_to_resubmit ∧
      s₁.calls.filterMap (Call.outcomeOf t) = s.calls.filterMap (Call.outcomeOf t) ∧
      (status.ok = true → s₁.sets.failed = s.failed_tasks_pending_failure_cause ∧
        s₁.calls.filterMap Call.causeAsked = s.calls.filterMap Call.causeAsked) := by
    cases hok : status.ok with
    | true =>
      cases hidle : (!ac || reply.worker_exiting) with
      | true =>
        have h₃ := c1 hok hidle
        rw [sets_OnWorkerIdle h₃,
          filterMap_OnWorkerIdle (Call.outcomeOf t) o1 o2 o3 o4 o5 o6 o7 o8 o9 h₃,
          filterMap_OnWorkerIdle Call.causeAsked q1 q2 q3 q4 q5 q6 q7 q8 q9 h₃, e4, e5]
        exact ⟨rfl, rfl, fun _ => ⟨rfl, rfl⟩⟩
      | false =>
        rw [c2 hok hidle, e4, e5]
        exact ⟨rfl, rfl, fun _ => ⟨rfl, rfl⟩⟩
    | false =>
      obtain ⟨lc, hlc, h₃⟩ := c3 hok
      obtain ⟨g1, g2, g3, _, _⟩ := pushFailedStart_spec t key addr status lc s
      rw [sets_OnWorkerIdle h₃,
        filterMap_OnWorkerIdle (Call.outcomeOf t) o1 o2 o3 o4 o5 o6 o7 o8 o9 h₃, g2, g3]
      refine ⟨rfl, ?_, fun h => by cases h⟩
      simp [List.filterMap_append, List.filterMap_cons, Call.outcomeOf]
  obtain ⟨l1, l2, l3⟩ := hlocked
  have hgen : t ∉ s'.generators_to_resubmit := by
    have : s'.generators_to_resubmit = s₁.sets.generators := congrArg TaskSets.generators hsets
    rw [this, l1]
    exact mem_erase_self _ _
  refine ⟨hgen, ?_, ?_⟩
  · intro hok
    refine ⟨?_, ?_, ?_, ?_, ?_, ?_, ?_⟩
    · intro hc
      rw [hs', ← l2]
      simp [pushReplyOutcome, hok, hc, filterMap_call, Call.outcomeOf]
    · intro hc hg
      rw [hs', ← l2]
      simp [pushReplyOutcome, hok, hc, hg, filterMap_call, Call.outcomeOf]
    · intro hc hg hre hra hacc
      rw [hs', ← l2]
      simp [pushReplyOutcome, hok, hc, hg, hre, hra, hacc, filterMap_call, Call.outcomeOf]
    · intro hc hg hre hra hacc
      rw [hs', ← l2]
      simp [pushReplyOutcome, hok, hc, hg, hre, hra, hacc, filterMap_call, Call.outcomeOf]
    · intro hc hg hno
      rw [hs', ← l2]
      rcases hno with hno | hno
      · simp [pushReplyOutcome, hok, hc, hg, hno, filterMap_call, Call.outcomeOf]
      · simp [pushReplyOutcome, hok, hc, hg, hno, filterMap_call, Call.outcomeOf]
    · have : s'.failed_tasks_pending_failure_cause = s₁.sets.failed :=
        congrArg TaskSets.failed hsets
      rw [this, (l3 hok).1]
    · rw [hcause, (l3 hok).2]
  · intro hok
    obtain ⟨lc, hlc, h₃⟩ := c3 hok
    obtain ⟨g1, g2, g3, _, _⟩ := pushFailedStart_spec t key addr status lc s
    refine ⟨?_, ?_, lc, hlc, ?_⟩
    · rw [hs', ← l2]
      simp [pushReplyOutcome, hok]
    · have : s'.failed_tasks_pending_failure_cause = s₁.sets.failed :=
        congrArg TaskSets.failed hsets
      rw [this, sets_OnWorkerIdle h₃, g3]
      exact HashSet.mem_insert.mpr (Or.inl rfl)
    · rw [hcause, filterMap_OnWorkerIdle Call.causeAsked q1 q2 q3 q4 q5 q6 q7 q8 q9 h₃, g2]
      simp [List.filterMap_append, List.filterMap_cons, Call.causeAsked]

set_option maxRecDepth 4096 in
theorem push_reply_outcome_witness :
    ∃ s', OnPushReply exampleEnv 64 {} taskA 1 false keyAB workerW [] {} {} false
        (stateAfter exampleEnv oneExecuting) = Except.ok s' ∧
      s'.calls.filterMap (Call.outcomeOf 1) =
        [Call.CompletePendingTask 1 {} workerW false] := by
  have h := push_reply_outcome exampleEnv 64 {} taskA 1 false keyAB workerW []
    {} {} false (stateAfter exampleEnv oneExecuting) _ rfl
  exact ⟨_, rfl, (h.2.1 rfl).2.2.2.2.1 rfl (by decide) (Or.inl rfl)⟩

/-! ### How many lease requests `RequestNewWorkerIfNeeded` sends -/

theorem num_leases_GetOrConnectLeaseClient (env : Env) (a : Address) (s : State) :
    (GetOrConnectLeaseClient env a s).2.num_leases_requested = s.num_leases_requested := by
  unfold GetOrConnectLeaseClient
  split
  · split <;> rfl
  · rfl

theorem num_leases_ReportWorkerBacklogIfNeeded (env : Env) (k : SchedulingKey) (s : State) :
    (ReportWorkerBacklogIfNeeded env k s).num_leases_requested = s.num_leases_requested := by
  unfold ReportWorkerBacklogIfNeeded ReportWorkerBacklogInternal
  simp only []
  split <;> rfl

theorem num_leases_sendLeaseRequest (env : Env) (k : SchedulingKey) (hint : Option Address)
    (s : State) :
    (sendLeaseRequest env k hint s).num_leases_requested = s.num_leases_requested + 1 := by
  unfold sendLeaseRequest
  simp only []
  rw [num_leases_ReportWorkerBacklogIfNeeded]
  show (GetOrConnectLeaseClient env _ _).2.num_leases_requested = _
  rw [num_leases_GetOrConnectLeaseClient]
  rfl

theorem workers_sendLeaseRequest (env : Env) (k : SchedulingKey) (hint : Option Address)
    (s : State) (k' : SchedulingKey) :
    ((sendLeaseRequest env k hint s).entry k').task_queue = (s.entry k').task_queue ∧
    ((sendLeaseRequest env k hint s).entry k').active_workers = (s.entry k').active_workers ∧
    ((sendLeaseRequest env k hint s).entry k').num_busy_workers =
      (s.entry k').num_busy_workers := by
  obtain ⟨spec, addr, _, hv⟩ := view_sendLeaseRequest env k hint s
  refine ⟨?_, ?_, ?_⟩
  · simpa using congrArg (fun v => v.queue k') hv
  · simpa using congrArg (fun v => v.active k') hv
  · simpa using congrArg (fun v => v.busy k') hv

/-- The state after `sendLeaseRequest`, when the id drawn is not pending. -/
theorem sendLeaseRequest_fresh (env : Env) (k : SchedulingKey) (hint : Option Address)
    (s : State)
    (hfresh : Map.find (env.from_random s.random_draws) (s.entry k).pending_lease_requests =
      none) :
    ((sendLeaseRequest env k hint (s.touchEntry k)).entry k).pending_lease_requests.length =
      (s.entry k).pending_lease_requests.length + 1 ∧
    (∀ id, id ≠ env.from_random s.random_draws →
      Map.find id ((sendLeaseRequest env k hint (s.touchEntry k)).entry
        k).pending_lease_requests = Map.find id (s.entry k).pending_lease_requests) := by
  obtain ⟨_, h2, _⟩ := sendLeaseRequest_sent env k hint (s.touchEntry k)
  rw [entry_touchEntry] at h2
  have hd : (s.touchEntry k).random_draws = s.random_draws := rfl
  rw [hd] at h2
  constructor
  · rw [h2]; exact length_emplace_fresh _ _ _ hfresh
  · intro id hid
    rw [h2, Map.find_emplace, if_neg hid]

/-- `RequestNewWorkerIfNeeded` for a key whose leased workers are all busy
returns, given ids that are fresh and enough depth, having sent as many lease
requests as are missing up to the shorter of the queue and the limit. -/
theorem RequestNewWorkerIfNeeded_fill (env : Env) (k : SchedulingKey) :
    ∀ (n d : Nat) (hint : Option Address) (s : State),
      min (s.entry k).task_queue.length env.max_pending_lease_requests -
        (s.entry k).pending_lease_requests.length = n →
      (s.entry k).AllWorkersBusy = true →
      (∀ i, i < n → Map.find (env.from_random (s.random_draws + i))
        (s.entry k).pending_lease_requests = none) →
      (∀ i j, i < j → j < n →
        env.from_random (s.random_draws + i) ≠ env.from_random (s.random_draws + j)) →
      n < d →
      ∃ s', RequestNewWorkerIfNeeded env d k hint s = Except.ok s' ∧
        s'.calls.filterMap Call.leaseSent = s.calls.filterMap Call.leaseSent ++
          (List.range n).map (leaseSentAt env (s.entry k).resource_spec hint s.random_draws) ∧
        s'.num_leases_requested = s.num_leases_requested + n ∧
        (s'.entry k).pending_lease_requests.length =
          max (s.entry k).pending_lease_requests.length
            (min (s.entry k).task_queue.length env.max_pending_lease_requests) := by
  intro n
  induction n with
  | zero =>
    intro d hint s hn hb _ _ hd
    obtain ⟨d', rfl⟩ : ∃ d', d = d' + 1 := ⟨d - 1, by omega⟩
    have hmax : max (s.entry k).pending_lease_requests.length
        (min (s.entry k).task_queue.length env.max_pending_lease_requests) =
        (s.entry k).pending_lease_requests.length := by
      apply Nat.max_eq_left
      omega
    rw [hmax]
    unfold RequestNewWorkerIfNeeded
    simp only [entry_touchEntry, hb, Bool.not_true, Bool.false_eq_true, if_false, ge_iff_le]
    split
    · exact ⟨_, rfl, by simp [State.touchEntry], rfl, by simp⟩
    · next hlt =>
      split
      · next hq =>
        split
        · next hdel =>
          refine ⟨_, rfl, by simp [State.touchEntry, State.eraseEntry], rfl, ?_⟩
          simp only [SchedulingKeyEntry.CanDelete, Bool.and_eq_true, List.isEmpty_iff] at hdel
          simp only [entry_eraseEntry, if_true]
          rw [hdel.1.1]; rfl
        · exact ⟨_, rfl, by simp [State.touchEntry], rfl, by simp⟩
      · next hq =>
        split
        · exact ⟨_, rfl, by simp [State.touchEntry], rfl, by simp⟩
        · next hle =>
          exfalso
          have : (s.entry k).pending_lease_requests.length <
              min (s.entry k).task_queue.length env.max_pending_lease_requests := by
            apply Nat.lt_min.mpr
            omega
          omega
  | succ n ih =>
    intro d hint s hn hb hfresh hinj hd
    obtain ⟨d', rfl⟩ : ∃ d', d = d' + 1 := ⟨d - 1, by omega⟩
    have hlt : (s.entry k).pending_lease_requests.length <
        min (s.entry k).task_queue.length env.max_pending_lease_requests := by omega
    obtain ⟨hltq, hltm⟩ := Nat.lt_min.mp hlt
    have hf0 := hfresh 0 (by omega)
    rw [Nat.add_zero] at hf0
    obtain ⟨hlen, hfind⟩ := sendLeaseRequest_fresh env k hint s hf0
    obtain ⟨h1, _, h3⟩ := sendLeaseRequest_sent env k hint (s.touchEntry k)
    have hrs := resource_spec_sendLeaseRequest env k hint (s.touchEntry k)
    obtain ⟨w1, w2, w3⟩ := workers_sendLeaseRequest env k hint (s.touchEntry k) k
    have hnl := num_leases_sendLeaseRequest env k hint (s.touchEntry k)
    rw [entry_touchEntry] at h1 hrs w1 w2 w3
    have hdr : (s.touchEntry k).random_draws = s.random_draws := rfl
    have hcl : (s.touchEntry k).calls = s.calls := rfl
    have hnr : (s.touchEntry k).num_leases_requested = s.num_leases_requested := rfl
    rw [hdr] at h1 h3
    rw [hcl] at h1
    rw [hnr] at hnl
    have hne : (s.entry k).task_queue.isEmpty = false := by
      cases hq' : (s.entry k).task_queue with
      | nil => rw [hq'] at hltq; simp at hltq
      | cons _ _ => rfl
    have hmax : max (s.entry k).pending_lease_requests.length
        (min (s.entry k).task_queue.length env.max_pending_lease_requests) =
        min (s.entry k).task_queue.length env.max_pending_lease_requests := by
      apply Nat.max_eq_right
      omega
    rw [hmax]
    unfold RequestNewWorkerIfNeeded
    simp only [entry_touchEntry, hb, hne, Bool.not_true, Bool.false_eq_true, if_false,
      ge_iff_le]
    rw [if_neg (by omega), if_neg (by omega), hlen, w1]
    split
    · next hmore =>
      have hb₁ : ((sendLeaseRequest env k hint (s.touchEntry k)).entry k).AllWorkersBusy =
          true := by
        simp only [SchedulingKeyEntry.AllWorkersBusy, w2, w3] at hb ⊢
        exact hb
      have hn₁ : min ((sendLeaseRequest env k hint (s.touchEntry k)).entry
            k).task_queue.length env.max_pending_lease_requests -
          ((sendLeaseRequest env k hint (s.touchEntry k)).entry
            k).pending_lease_requests.length = n := by
        rw [hlen, w1]; omega
      have hfresh₁ : ∀ i, i < n →
          Map.find (env.from_random ((sendLeaseRequest env k hint (s.touchEntry
            k)).random_draws + i))
            ((sendLeaseRequest env k hint (s.touchEntry k)).entry k).pending_lease_requests =
            none := by
        intro i hi
        rw [h3, hfind]
        · have := hfresh (i + 1) (by omega)
          rw [show s.random_draws + 1 + i = s.random_draws + (i + 1) by omega]
          exact this
        · rw [show s.random_draws + 1 + i = s.random_draws + (i + 1) by omega]
          have := hinj 0 (i + 1) (by omega) (by omega)
          rw [Nat.add_zero] at this
          exact this.symm
      have hinj₁ : ∀ i j, i < j → j < n →
          env.from_random ((sendLeaseRequest env k hint (s.touchEntry k)).random_draws + i) ≠
            env.from_random ((sendLeaseRequest env k hint (s.touchEntry k)).random_draws + j) := by
        intro i j hij hj
        rw [h3, show s.random_draws + 1 + i = s.random_draws + (i + 1) by omega,
          show s.random_draws + 1 + j = s.random_draws + (j + 1) by omega]
        exact hinj (i + 1) (j + 1) (by omega) (by omega)
      obtain ⟨s', hs', hsent, hnum, hpend⟩ := ih d' none _ hn₁ hb₁ hfresh₁ hinj₁ (by omega)
      refine ⟨s', hs', ?_, ?_, ?_⟩
      · rw [hsent, h1, hrs, h3, List.range_succ_eq_map, List.map_cons, List.map_map,
          List.append_assoc]
        refine congrArg (fun l => _ ++ l) (congrArg₂ List.cons rfl
          (List.map_congr_left ?_))
        intro i _
        simp only [Function.comp, Nat.succ_eq_add_one]
        exact (leaseSentAt_succ env _ hint _ i).symm
      · rw [hnum, hnl]; omega
      · rw [hpend, hlen, w1]
        apply Nat.max_eq_right
        omega
    · next hstop =>
      have hn0 : n = 0 := by
        by_contra hne0
        apply hstop
        constructor
        · omega
        · omega
      subst hn0
      refine ⟨_, rfl, ?_, hnl, ?_⟩
      · rw [h1]; rfl
      · rw [hlen]; omega

/-- C24: `RequestNewWorkerIfNeeded` for a key whose leased workers are all
busy, with `q` queued tasks, `p` pending lease requests and limit `m`.  Given
that the ids drawn are not pending and differ from each other, and a stack
deep enough for the requests missing, the call returns, has sent exactly
`min q m - p` lease requests (none if that is not positive), has added as much
to `num_leases_requested`, and leaves exactly `max p (min q m)` pending lease
requests. -/
theorem lease_requests_fill (env : Env) (k : SchedulingKey) (hint : Option Address)
    (s : State) (depth : Nat) (hb : (s.entry k).AllWorkersBusy = true)
    (hfresh : ∀ i, i < min (s.entry k).task_queue.length env.max_pending_lease_requests -
        (s.entry k).pending_lease_requests.length →
      Map.find (env.from_random (s.random_draws + i)) (s.entry k).pending_lease_requests =
        none)
    (hinj : ∀ i j, i < j →
      j < min (s.entry k).task_queue.length env.max_pending_lease_requests -
        (s.entry k).pending_lease_requests.length →
      env.from_random (s.random_draws + i) ≠ env.from_random (s.random_draws + j))
    (hd : min (s.entry k).task_queue.length env.max_pending_lease_requests -
      (s.entry k).pending_lease_requests.length < depth) :
    ∃ s', RequestNewWorkerIfNeeded env depth k hint s = Except.ok s' ∧
      s'.calls.filterMap Call.leaseSent = s.calls.filterMap Call.leaseSent ++
        (List.range (min (s.entry k).task_queue.length env.max_pending_lease_requests -
          (s.entry k).pending_lease_requests.length)).map
          (leaseSentAt env (s.entry k).resource_spec hint s.random_draws) ∧
      (s'.calls.filterMap Call.leaseSent).length = (s.calls.filterMap Call.leaseSent).length +
        (min (s.entry k).task_queue.length env.max_pending_lease_requests -
          (s.entry k).pending_lease_requests.length) ∧
      s'.num_leases_requested = s.num_leases_requested +
        (min (s.entry k).task_queue.length env.max_pending_lease_requests -
          (s.entry k).pending_lease_requests.length) ∧
      (s'.entry k).pending_lease_requests.length =
        max (s.entry k).pending_lease_requests.length
          (min (s.entry k).task_queue.length env.max_pending_lease_requests) := by
  obtain ⟨s', h1, h2, h3, h4⟩ :=
    RequestNewWorkerIfNeeded_fill env k _ depth hint s rfl hb hfresh hinj hd
  refine ⟨s', h1, h2, ?_, h3, h4⟩
  rw [h2]
  simp

theorem lease_requests_fill_witness :
    ∃ s', RequestNewWorkerIfNeeded exampleEnv 64 keyAB none
        (leaseReplyStart exampleEnv keyAB 1000 localRaylet (stateAfter exampleEnv oneQueued)) =
        Except.ok s' ∧
      (s'.calls.filterMap Call.leaseSent).length = 2 ∧
      s'.num_leases_requested = 2 ∧
      (s'.entry keyAB).pending_lease_requests.length = 1 := by
  obtain ⟨s', h1, _, h3, h4, h5⟩ := lease_requests_fill exampleEnv keyAB none
    (leaseReplyStart exampleEnv keyAB 1000 localRaylet (stateAfter exampleEnv oneQueued)) 64
    (by decide) (by decide) (by intro i j hij hj; have h1 : j < 1 := hj; omega)
    (by decide)
  exact ⟨s', h1, h3, h4, h5⟩

/-- `RequestNewWorkerIfNeeded` never leaves more pending lease requests than
the larger of what it found and the shorter of the queue and the limit. -/
theorem RequestNewWorkerIfNeeded_le (env : Env) :
    ∀ (depth : Nat) (k : SchedulingKey) (hint : Option Address) (s s' : State),
      RequestNewWorkerIfNeeded env depth k hint s = Except.ok s' →
      (s'.entry k).pending_lease_requests.length ≤
        max (s.entry k).pending_lease_requests.length
          (min (s.entry k).task_queue.length env.max_pending_lease_requests) := by
  intro depth
  induction depth with
  | zero => intro k hint s s' h; simp [RequestNewWorkerIfNeeded] at h
  | succ d ih =>
    intro k hint s s' h
    unfold RequestNewWorkerIfNeeded at h
    simp only [entry_touchEntry] at h
    split at h
    · cases h; simp
    · split at h
      · cases h; simp
      · split at h
        · split at h
          · cases h; simp [entry_eraseEntry]
          · cases h; simp
        · split at h
          · cases h; simp
          · next hlt hb hq hle =>
            obtain ⟨_, h2, _⟩ := sendLeaseRequest_sent env k hint (s.touchEntry k)
            obtain ⟨w1, _, _⟩ := workers_sendLeaseRequest env k hint (s.touchEntry k) k
            rw [entry_touchEntry] at h2 w1
            have hlen : ((sendLeaseRequest env k hint (s.touchEntry k)).entry
                k).pending_lease_requests.length ≤
                (s.entry k).pending_lease_requests.length + 1 := by
              rw [h2]; exact Map.length_emplace_le _ _ _
            split at h
            · have := ih _ _ _ _ h
              rw [w1] at this
              omega
            · cases h
              omega

/-- The early returns of `RequestNewWorkerIfNeeded` and what a returning call
that had to send a lease request leaves behind. -/
theorem RequestNewWorkerIfNeeded_guard (env : Env) (depth : Nat) (k : SchedulingKey)
    (hint : Option Address) (s : State) :
    (¬ ((s.entry k).pending_lease_requests.length < env.max_pending_lease_requests ∧
        (s.entry k).AllWorkersBusy = true ∧
        (s.entry k).pending_lease_requests.length < (s.entry k).task_queue.length) →
      ∃ s', RequestNewWorkerIfNeeded env (depth + 1) k hint s = Except.ok s' ∧
        s'.calls = s.calls ∧
        (s'.entry k).task_queue = (s.entry k).task_queue ∧
        (s'.entry k).pending_lease_requests = (s.entry k).pending_lease_requests ∧
        (s' = s.touchEntry k ∨
          (s' = (s.touchEntry k).eraseEntry k ∧ (s.entry k).task_queue = [] ∧
            (s.entry k).CanDelete = true))) ∧
    ((s.entry k).pending_lease_requests.length < env.max_pending_lease_requests →
      (s.entry k).AllWorkersBusy = true →
      (s.entry k).pending_lease_requests.length < (s.entry k).task_queue.length →
      ∀ s', RequestNewWorkerIfNeeded env depth k hint s = Except.ok s' →
        (∃ n, s'.calls.filterMap Call.leaseSent = s.calls.filterMap Call.leaseSent ++
          (List.range (n + 1)).map
            (leaseSentAt env (s.entry k).resource_spec hint s.random_draws)) ∧
        (s'.entry k).task_queue = (s.entry k).task_queue ∧
        (s'.entry k).pending_lease_requests.length ≤ (s.entry k).task_queue.length ∧
        (s'.entry k).pending_lease_requests.length ≤ env.max_pending_lease_requests) := by
  constructor
  · intro hnot
    unfold RequestNewWorkerIfNeeded
    simp only [entry_touchEntry, ge_iff_le]
    split
    · exact ⟨_, rfl, rfl, by simp, by simp, Or.inl rfl⟩
    · next hlt =>
      split
      · exact ⟨_, rfl, rfl, by simp, by simp, Or.inl rfl⟩
      · next hb =>
        split
        · next hq =>
          have hq' : (s.entry k).task_queue = [] := by simpa using hq
          split
          · next hdel =>
            refine ⟨_, rfl, rfl, ?_, ?_, Or.inr ⟨rfl, hq', hdel⟩⟩
            · simp only [entry_eraseEntry, if_true]
              rw [hq']; rfl
            · simp only [SchedulingKeyEntry.CanDelete, Bool.and_eq_true,
                List.isEmpty_iff] at hdel
              simp only [entry_eraseEntry, if_true]
              rw [hdel.1.1]; rfl
          · exact ⟨_, rfl, rfl, by simp, by simp, Or.inl rfl⟩
        · split
          · exact ⟨_, rfl, rfl, by simp, by simp, Or.inl rfl⟩
          · next hle =>
            exfalso
            apply hnot
            refine ⟨by omega, by simpa using hb, by omega⟩
  · intro hp hb hq s' h
    have hbound := RequestNewWorkerIfNeeded_le env _ _ _ _ _ h
    have hqueue := (RequestNewWorkerIfNeeded_workers env _ _ _ _ _ h k).1
    refine ⟨?_, hqueue, by omega, by omega⟩
    cases depth with
    | zero => simp [RequestNewWorkerIfNeeded] at h
    | succ d =>
      have hne : (s.entry k).task_queue.isEmpty = false := by
        cases hq' : (s.entry k).task_queue with
        | nil => rw [hq'] at hq; simp at hq
        | cons _ _ => rfl
      unfold RequestNewWorkerIfNeeded at h
      simp only [entry_touchEntry, hb, hne, Bool.not_true, Bool.false_eq_true, if_false,
        ge_iff_le] at h
      rw [if_neg (by omega), if_neg (by omega)] at h
      obtain ⟨h1, _, h3⟩ := sendLeaseRequest_sent env k hint (s.touchEntry k)
      have hrs := resource_spec_sendLeaseRequest env k hint (s.touchEntry k)
      rw [entry_touchEntry] at h1 hrs
      have hdr : (s.touchEntry k).random_draws = s.random_draws := rfl
      have hcl : (s.touchEntry k).calls = s.calls := rfl
      rw [hdr] at h1 h3
      rw [hcl] at h1
      split at h
      · obtain ⟨n, hn⟩ := RequestNewWorkerIfNeeded_sent env _ _ _ _ _ h
        refine ⟨n, ?_⟩
        rw [hn, h1, hrs, h3, List.range_succ_eq_map, List.map_cons, List.map_map,
          List.append_assoc]
        refine congrArg (fun l => _ ++ l) (congrArg₂ List.cons rfl
          (List.map_congr_left ?_))
        intro i _
        simp only [Function.comp, Nat.succ_eq_add_one]
        exact (leaseSentAt_succ env _ hint _ i).symm
      · cases h
        exact ⟨0, by rw [h1]; rfl⟩

/-- C23: the guard of `RequestNewWorkerIfNeeded`.  A lease request is needed
when the pending lease requests are fewer than the limit, no leased worker of
the key is idle and the queue is longer than the pending lease requests.  When
none is needed the call returns (given a stack one deep), makes no call and
leaves the queue and the pending lease requests as they are; the entry is
looked up, and deleted only when the queue is empty and the entry can be
deleted.  When one is needed, the call sends a lease request before it does
anything else; a call that returns has sent at least one lease request, and
the pending lease requests it leaves are at most the length of the queue and
at most the limit; and the call does return, having sent as many requests as
were missing, at least one, when the random ids it draws are new and distinct
and the stack is deeper than the number of missing requests. -/
theorem lease_request_guard (env : Env) (depth : Nat) (k : SchedulingKey)
    (hint : Option Address) (s : State) :
    (¬ ((s.entry k).pending_lease_requests.length < env.max_pending_lease_requests ∧
        (s.entry k).AllWorkersBusy = true ∧
        (s.entry k).pending_lease_requests.length < (s.entry k).task_queue.length) →
      ∃ s', RequestNewWorkerIfNeeded env (depth + 1) k hint s = Except.ok s' ∧
        s'.calls = s.calls ∧
        (s'.entry k).task_queue = (s.entry k).task_queue ∧
        (s'.entry k).pending_lease_requests = (s.entry k).pending_lease_requests ∧
        (s' = s.touchEntry k ∨
          (s' = (s.touchEntry k).eraseEntry k ∧ (s.entry k).task_queue = [] ∧
            (s.entry k).CanDelete = true))) ∧
    ((s.entry k).pending_lease_requests.length < env.max_pending_lease_requests →
      (s.entry k).AllWorkersBusy = true →
      (s.entry k).pending_lease_requests.length < (s.entry k).task_queue.length →
      (sendLeaseRequest env k hint (s.touchEntry k)).calls.filterMap Call.leaseSent =
        s.calls.filterMap Call.leaseSent ++
          [leaseSentAt env (s.entry k).resource_spec hint s.random_draws 0] ∧
      (RequestNewWorkerIfNeeded env (depth + 1) k hint s =
          Except.ok (sendLeaseRequest env k hint (s.touchEntry k)) ∨
        RequestNewWorkerIfNeeded env (depth + 1) k hint s =
          RequestNewWorkerIfNeeded env depth k none
            (sendLeaseRequest env k hint (s.touchEntry k))) ∧
      (∀ s', RequestNewWorkerIfNeeded env depth k hint s = Except.ok s' →
        (∃ n, s'.calls.filterMap Call.leaseSent = s.calls.filterMap Call.leaseSent ++
          (List.range (n + 1)).map
            (leaseSentAt env (s.entry k).resource_spec hint s.random_draws)) ∧
        (s'.entry k).task_queue = (s.entry k).task_queue ∧
        (s'.entry k).pending_lease_requests.length ≤ (s.entry k).task_queue.length ∧
        (s'.entry k).pending_lease_requests.length ≤ env.max_pending_lease_requests) ∧
      ((∀ i, i < min (s.entry k).task_queue.length env.max_pending_lease_requests -
            (s.entry k).pending_lease_requests.length →
          Map.find (env.from_random (s.random_draws + i))
            (s.entry k).pending_lease_requests = none) →
        (∀ i j, i < j →
          j < min (s.entry k).task_queue.length env.max_pending_lease_requests -
            (s.entry k).pending_lease_requests.length →
          env.from_random (s.random_draws + i) ≠ env.from_random (s.random_draws + j)) →
        min (s.entry k).task_queue.length env.max_pending_lease_requests -
            (s.entry k).pending_lease_requests.length < depth →
        ∃ s', RequestNewWorkerIfNeeded env depth k hint s = Except.ok s' ∧
          1 ≤ min (s.entry k).task_queue.length env.max_pending_lease_requests -
            (s.entry k).pending_lease_requests.length ∧
          s'.calls.filterMap Call.leaseSent = s.calls.filterMap Call.leaseSent ++
            (List.range (min (s.entry k).task_queue.length env.max_pending_lease_requests -
              (s.entry k).pending_lease_requests.length)).map
              (leaseSentAt env (s.entry k).resource_spec hint s.random_draws) ∧
          (s'.entry k).task_queue = (s.entry k).task_queue ∧
          (s'.entry k).pending_lease_requests.length ≤ (s.entry k).task_queue.length ∧
          (s'.entry k).pending_lease_requests.length ≤ env.max_pending_lease_requests)) := by
  have hold := RequestNewWorkerIfNeeded_guard env depth k hint s
  refine ⟨hold.1, fun hp hb hq => ⟨?_, ?_, hold.2 hp hb hq, ?_⟩⟩
  · obtain ⟨h1, _, _⟩ := sendLeaseRequest_sent env k hint (s.touchEntry k)
    rw [entry_touchEntry] at h1
    exact h1
  · have hne : (s.entry k).task_queue.isEmpty = false := by
      cases hq' : (s.entry k).task_queue with
      | nil => rw [hq'] at hq; simp at hq
      | cons _ _ => rfl
    rw [RequestNewWorkerIfNeeded]
    simp only [entry_touchEntry, hb, hne, Bool.not_true, Bool.false_eq_true, if_false,
      ge_iff_le]
    rw [if_neg (by omega), if_neg (by omega)]
    split
    · exact Or.inr rfl
    · exact Or.inl rfl
  · intro hfresh hinj hd
    obtain ⟨s', h, hsent, _, hlen⟩ :=
      RequestNewWorkerIfNeeded_fill env k _ depth hint s rfl hb hfresh hinj hd
    have hqueue := (RequestNewWorkerIfNeeded_workers env _ _ _ _ _ h k).1
    exact ⟨s', h, by omega, hsent, hqueue, by omega, by omega⟩

theorem lease_request_guard_witness :
    ∃ s', RequestNewWorkerIfNeeded exampleEnv 64 keyAB none
        (leaseReplyStart exampleEnv keyAB 1000 localRaylet (stateAfter exampleEnv oneQueued)) =
        Except.ok s' ∧
      s'.calls.filterMap Call.leaseSent =
        (leaseReplyStart exampleEnv keyAB 1000 localRaylet
          (stateAfter exampleEnv oneQueued)).calls.filterMap Call.leaseSent ++
          [({ taskA with task_id := 1001 }, false, LeaseClient.local_client)] ∧
      (s'.entry keyAB).task_queue = [taskA] ∧
      (s'.entry keyAB).pending_lease_requests.length ≤ 1 := by
  obtain ⟨s', h, _, hsent, hq, hlen, _⟩ :=
    ((lease_request_guard exampleEnv 64 keyAB none
      (leaseReplyStart exampleEnv keyAB 1000 localRaylet
        (stateAfter exampleEnv oneQueued))).2 (by decide) (by decide) (by decide)).2.2.2
      (by decide) (by intro i j hij hj; have h1 : j < 1 := hj; omega) (by decide)
  exact ⟨s', h, hsent, hq, hlen⟩

/-! ### The lease-reply closure kind by kind -/

theorem map_fold_outcome (x : Except Abort State) :
    (x.map (fun s => ({ state := s } : LeaseReplyOutcome)) >>= fun o =>
      Except.ok (o.tasks_to_fail.foldl
        (failOneTask o.error_type o.error_status
          { o.error_info with error_type := o.error_type }) o.state)) = x := by
  cases x <;> rfl

theorem OnLeaseReply_cancelled_other (env : Env) (depth : Nat) (clk : Clock)
    (k : SchedulingKey) (id : TaskID) (name : String) (sp : Bool) (a : Address)
    (status : Status) (reply : RequestWorkerLeaseReply) (s : State) (hok : status.ok = true)
    (hc : reply.canceled = true)
    (hft : ¬ (reply.failure_type =
        SchedulingFailureType.SCHEDULING_CANCELLED_RUNTIME_ENV_SETUP_FAILED ∨
      reply.failure_type =
        SchedulingFailureType.SCHEDULING_CANCELLED_PLACEMENT_GROUP_REMOVED ∨
      reply.failure_type = SchedulingFailureType.SCHEDULING_CANCELLED_UNSCHEDULABLE)) :
    OnLeaseReply env depth clk k id name sp a status reply s =
      RequestNewWorkerIfNeeded env depth k none (leaseReplyStart env k id a s) := by
  unfold OnLeaseReply leaseReplyLocked
  simp only [hok, hc, hft, if_true, if_false]
  exact map_fold_outcome _

theorem OnLeaseReply_rejected (env : Env) (depth : Nat) (clk : Clock)
    (k : SchedulingKey) (id : TaskID) (name : String) (sp : Bool) (a : Address)
    (status : Status) (reply : RequestWorkerLeaseReply) (s : State) (hok : status.ok = true)
    (hc : reply.canceled = false) (hr : reply.rejected = true) :
    OnLeaseReply env depth clk k id name sp a status reply s =
      if sp then RequestNewWorkerIfNeeded env depth k none (leaseReplyStart env k id a s)
      else Except.error Abort.check_failed := by
  unfold OnLeaseReply leaseReplyLocked
  simp only [hok, hc, hr, if_true, Bool.false_eq_true, if_false]
  cases sp
  · rfl
  · simp only [Bool.not_true, Bool.false_eq_true, if_false, if_true]
    exact map_fold_outcome _

theorem AddWorkerLeaseClient_active {env : Env} {clk : Clock} {addr : Address}
    {lc : LeaseClient} {res : ResourceMapping} {key : SchedulingKey} {t : TaskID}
    {s s' : State} (h : AddWorkerLeaseClient env clk addr lc res key t s = Except.ok s') :
    ¬ (s'.entry key).active_workers.length < 1 := by
  unfold AddWorkerLeaseClient at h
  simp only [] at h
  split at h
  · cases h
  · split at h
    · next hge =>
      cases h
      simp only [entry_setEntry, if_true]
      omega
    · cases h

theorem OnLeaseReply_grant (env : Env) (depth : Nat) (clk : Clock)
    (k : SchedulingKey) (id : TaskID) (name : String) (sp : Bool) (a : Address)
    (status : Status) (reply : RequestWorkerLeaseReply) (s : State) (hok : status.ok = true)
    (hc : reply.canceled = false) (hr : reply.rejected = false)
    (hw : reply.worker_address.raylet_id ≠ 0) :
    OnLeaseReply env depth clk k id name sp a status reply s =
      (AddWorkerLeaseClient env clk reply.worker_address (clientFor env a)
        reply.resource_mapping k id (leaseReplyStart env k id a s) >>= fun s₁ =>
        OnWorkerIdle env depth clk.afterMono reply.worker_address k false [] false
          reply.resource_mapping s₁) := by
  unfold OnLeaseReply leaseReplyLocked
  simp only [hok, hc, hr, hw, if_true, Bool.false_eq_true, if_false, ne_eq, not_false_eq_true,
    client_GetOrConnectLeaseClient]
  show (AddWorkerLeaseClient env clk reply.worker_address (clientFor env a)
    reply.resource_mapping k id (leaseReplyStart env k id a s) >>= _) >>= _ = _
  cases hadd : AddWorkerLeaseClient env clk reply.worker_address (clientFor env a)
    reply.resource_mapping k id (leaseReplyStart env k id a s) with
  | error e => rfl
  | ok s₁ =>
    have hact := AddWorkerLeaseClient_active hadd
    show (if _ then _ else _) >>= _ = _
    rw [if_neg hact]
    exact map_fold_outcome _

theorem OnLeaseReply_redirect_spillback (env : Env) (depth : Nat) (clk : Clock)
    (k : SchedulingKey) (id : TaskID) (name : String) (a : Address)
    (status : Status) (reply : RequestWorkerLeaseReply) (s : State) (hok : status.ok = true)
    (hc : reply.canceled = false) (hr : reply.rejected = false)
    (hw : reply.worker_address.raylet_id = 0) :
    OnLeaseReply env depth clk k id name true a status reply s =
      Except.error Abort.check_failed := by
  unfold OnLeaseReply leaseReplyLocked
  simp only [hok, hc, hr, hw, if_true, Bool.false_eq_true, if_false, ne_eq, not_true_eq_false]
  rfl

theorem OnLeaseReply_raylet_died_abort (env : Env) (depth : Nat) (clk : Clock)
    (k : SchedulingKey) (id : TaskID) (name : String) (sp : Bool) (a : Address)
    (status : Status) (reply : RequestWorkerLeaseReply) (s : State)
    (hnok : status.ok = false) (hl : a.raylet_id = env.local_raylet_id)
    (hrpc : status.IsRpcError = true) (hu : status.rpc_code = grpc_UNAVAILABLE)
    (hd : env.worker_type ≠ WorkerType.DRIVER) :
    ∃ e, OnLeaseReply env depth clk k id name sp a status reply s = Except.error e := by
  have hc := (clientFor_local env a).mpr hl
  unfold OnLeaseReply leaseReplyLocked
  simp only [hnok, client_GetOrConnectLeaseClient, hc, hrpc, hu]
  simp only [Bool.false_eq_true, if_false, ne_eq, not_true_eq_false, decide_True,
    Bool.and_self, if_true]
  split
  · exact ⟨_, rfl⟩
  · exact ⟨_, rfl⟩

/-- Whatever the reply, the lease-reply closure first removes the lease id of
the reply from the pending lease requests of the key: its result is that of
failing the queue, of `RequestNewWorkerIfNeeded`, or of recording the lease and
calling `OnWorkerIdle`, in the state with the id removed, or it aborts. -/
theorem OnLeaseReply_kinds (env : Env) (depth : Nat) (clk : Clock)
    (k : SchedulingKey) (id : TaskID) (name : String) (sp : Bool) (a : Address)
    (status : Status) (reply : RequestWorkerLeaseReply) (s : State) :
    (∃ et ei es, OnLeaseReply env depth clk k id name sp a status reply s =
      Except.ok (failedQueueState k et ei es (leaseReplyStart env k id a s))) ∨
    (∃ hint, OnLeaseReply env depth clk k id name sp a status reply s =
      RequestNewWorkerIfNeeded env depth k hint (leaseReplyStart env k id a s)) ∨
    (OnLeaseReply env depth clk k id name sp a status reply s =
      (AddWorkerLeaseClient env clk reply.worker_address (clientFor env a)
        reply.resource_mapping k id (leaseReplyStart env k id a s) >>= fun s₁ =>
        OnWorkerIdle env depth clk.afterMono reply.worker_address k false [] false
          reply.resource_mapping s₁)) ∨
    (∃ e, OnLeaseReply env depth clk k id name sp a status reply s = Except.error e) := by
  cases hok : status.ok with
  | true =>
    cases hc : reply.canceled with
    | true =>
      by_cases hft : reply.failure_type =
          SchedulingFailureType.SCHEDULING_CANCELLED_RUNTIME_ENV_SETUP_FAILED ∨
        reply.failure_type =
          SchedulingFailureType.SCHEDULING_CANCELLED_PLACEMENT_GROUP_REMOVED ∨
        reply.failure_type = SchedulingFailureType.SCHEDULING_CANCELLED_UNSCHEDULABLE
      · exact Or.inl ⟨_, _, _, OnLeaseReply_cancelled env depth clk k id name sp a status reply
          s hok hc hft⟩
      · exact Or.inr (Or.inl ⟨_, OnLeaseReply_cancelled_other env depth clk k id name sp a
          status reply s hok hc hft⟩)
    | false =>
      cases hr : reply.rejected with
      | true =>
        have h := OnLeaseReply_rejected env depth clk k id name sp a status reply s hok hc hr
        cases sp
        · exact Or.inr (Or.inr (Or.inr ⟨_, h⟩))
        · exact Or.inr (Or.inl ⟨_, h⟩)
      | false =>
        by_cases hw : reply.worker_address.raylet_id = 0
        · cases sp
          · exact Or.inr (Or.inl ⟨_, OnLeaseReply_redirect env depth clk k id name a status
              reply s hok hc hr hw⟩)
          · exact Or.inr (Or.inr (Or.inr ⟨_, OnLeaseReply_redirect_spillback env depth clk k id
              name a status reply s hok hc hr hw⟩))
        · exact Or.inr (Or.inr (Or.inl (OnLeaseReply_grant env depth clk k id name sp a status
            reply s hok hc hr hw)))
  | false =>
    by_cases hcond : a.raylet_id = env.local_raylet_id ∧ status.IsRpcError = true ∧
        status.rpc_code = grpc_UNAVAILABLE
    · obtain ⟨h1, h2, h3⟩ := hcond
      by_cases hd : env.worker_type = WorkerType.DRIVER
      · exact Or.inl ⟨_, _, _, OnLeaseReply_raylet_died env depth clk k id name sp a status
          reply s hok h1 h2 h3 hd⟩
      · exact Or.inr (Or.inr (Or.inr (OnLeaseReply_raylet_died_abort env depth clk k id name sp
          a status reply s hok h1 h2 h3 hd)))
    · exact Or.inr (Or.inl ⟨_, OnLeaseReply_retry env depth clk k id name sp a status reply s
        hok hcond⟩)

/-- A sum that fits in an `int64_t` is the integer sum. -/
theorem wrapInt64_of_range {x : Int} (hlo : -(2 ^ 63) ≤ x) (hhi : x < 2 ^ 63) :
    wrapInt64 x = x := by
  unfold wrapInt64
  norm_num at hlo hhi ⊢
  omega

/-- What `AddWorkerLeaseClient` records for a worker that has no lease
entry. -/
theorem AddWorkerLeaseClient_spec {env : Env} {clk : Clock} {addr : Address}
    {lc : LeaseClient} {res : ResourceMapping} {key : SchedulingKey} {t : TaskID}
    {s s' : State} (hf : Map.find addr s.worker_to_lease_entry = none)
    (h : AddWorkerLeaseClient env clk addr lc res key t s = Except.ok s') :
    Map.find addr s'.worker_to_lease_entry = some (grantedLease env clk lc res key t) ∧
    (s'.entry key).active_workers = HashSet.insert addr (s.entry key).active_workers ∧
    addr ∈ (s'.entry key).active_workers ∧
    (s'.entry key).task_queue = (s.entry key).task_queue ∧
    (s'.entry key).pending_lease_requests = (s.entry key).pending_lease_requests ∧
    s'.calls = s.calls ++ [Call.GetOrConnect addr] ∧
    s'.executing_tasks = s.executing_tasks := by
  unfold AddWorkerLeaseClient at h
  simp only [] at h
  split at h
  · cases h
  · split at h
    · cases h
      refine ⟨?_, ?_, ?_, ?_, ?_, rfl, rfl⟩
      · show Map.find addr (Map.emplace addr _ s.worker_to_lease_entry) = _
        rw [Map.find_emplace, if_pos rfl, hf]
        rfl
      · simp
      · simp only [entry_setEntry, if_true]
        exact HashSet.mem_insert.mpr (Or.inl rfl)
      · simp
      · simp
    · cases h

/-- C25 (as stated, refuted): two replies that are OK, neither cancelled nor
rejected, and grant `workerW`, after which the front task of the queue is not
pushed.  In the first, `workerW` executes `taskA` under its lease for `keyAB`
and is granted again, to the lease request of `keyC`: no lease entry is
created, the entry of `workerW` stays the one of the first grant, busy and
with the first lease id, and `taskC` stays queued.  In the second the lease
timeout is `0` and one millisecond passes between the reading of the clock by
`AddWorkerLeaseClient` and the one by `OnWorkerIdle`: the lease has expired,
the worker is returned and `taskA` stays queued. -/
theorem granted_again_counterexample :
    (∃ s₀ s', run exampleEnv oneGrantedOneQueued {} = Except.ok s₀ ∧
      step exampleEnv 64 {}
        (Event.lease_reply keyC 1001 "" false localRaylet {} { worker_address := workerW })
        s₀ = Except.ok s' ∧
      (s₀.entry keyC).task_queue = [taskC] ∧
      Map.find workerW s'.worker_to_lease_entry = some firstLeaseOfW ∧
      (s'.entry keyC).task_queue = [taskC] ∧
      s'.calls.filterMap Call.pushedTo = [(workerW, taskA)]) ∧
    (∃ s₀ s', run zeroTimeoutEnv oneQueued {} = Except.ok s₀ ∧
      step zeroTimeoutEnv 64 tick
        (Event.lease_reply keyAB 1000 "" false localRaylet {} { worker_address := workerW })
        s₀ = Except.ok s' ∧
      (s₀.entry keyAB).task_queue = [taskA] ∧
      (s'.entry keyAB).task_queue = [taskA] ∧
      s'.calls.filterMap Call.pushedTo = [] ∧
      s'.calls.filterMap Call.returned = [(7, 5, false)] ∧
      Map.find workerW s'.worker_to_lease_entry = none) :=
  ⟨⟨stateAfter exampleEnv oneGrantedOneQueued, stateAfter exampleEnv grantedTwice,
      by rfl, by rfl, by rfl, by rfl, by rfl, by rfl⟩,
    ⟨stateAfter zeroTimeoutEnv oneQueued,
      stateAfter zeroTimeoutEnv (oneQueued ++
        [{ event := Event.lease_reply keyAB 1000 "" false localRaylet {}
            { worker_address := workerW }, clk := tick }]),
      by rfl, by rfl, by rfl, by rfl, by rfl, by rfl, by rfl⟩⟩

/-- C25 (amended): every lease reply, whatever its kind, first removes its
lease id from the pending lease requests of the key: what the closure does
next, it does in the state with the id removed.  When the reply is OK, neither
cancelled nor rejected, and grants a worker that has no lease entry, a lease
entry is created for the worker with the expiration `now + lease_timeout_ms`,
the sum being taken in `int64_t` (it is the integer sum when that is in range),
not busy, with the resource mapping of the reply, the client of the raylet of
the request, the key and the lease id; the worker is added to the active
workers of the key, and `OnWorkerIdle` is called for it, which reads the clock
again.  If that reading is not past the expiration and the queue of the key is
not empty, the front task is pushed to the worker in the same step and the
lease is busy; if it is past the expiration, nothing is pushed and the worker
is returned. -/
theorem lease_granted (env : Env) (depth : Nat) (clk : Clock) (k : SchedulingKey)
    (id : TaskID) (name : String) (sp : Bool) (a : Address) (status : Status)
    (reply : RequestWorkerLeaseReply) (s s' : State) (hok : status.ok = true)
    (hnc : reply.canceled = false) (hnr : reply.rejected = false)
    (hw : reply.worker_address.raylet_id ≠ 0)
    (hfresh : Map.find reply.worker_address s.worker_to_lease_entry = none)
    (h : OnLeaseReply env depth clk k id name sp a status reply s = Except.ok s') :
    (∀ (depth₀ : Nat) (clk₀ : Clock) (sp₀ : Bool) (status₀ : Status)
        (reply₀ : RequestWorkerLeaseReply),
      (∃ et ei es, OnLeaseReply env depth₀ clk₀ k id name sp₀ a status₀ reply₀ s =
        Except.ok (failedQueueState k et ei es (leaseReplyStart env k id a s))) ∨
      (∃ hint, OnLeaseReply env depth₀ clk₀ k id name sp₀ a status₀ reply₀ s =
        RequestNewWorkerIfNeeded env depth₀ k hint (leaseReplyStart env k id a s)) ∨
      (OnLeaseReply env depth₀ clk₀ k id name sp₀ a status₀ reply₀ s =
        (AddWorkerLeaseClient env clk₀ reply₀.worker_address (clientFor env a)
          reply₀.resource_mapping k id (leaseReplyStart env k id a s) >>= fun s₁ =>
          OnWorkerIdle env depth₀ clk₀.afterMono reply₀.worker_address k false [] false
            reply₀.resource_mapping s₁)) ∨
      (∃ e, OnLeaseReply env depth₀ clk₀ k id name sp₀ a status₀ reply₀ s =
        Except.error e)) ∧
    ((leaseReplyStart env k id a s).entry k).pending_lease_requests =
      Map.erase id (s.entry k).pending_lease_requests ∧
    Map.find id ((leaseReplyStart env k id a s).entry k).pending_lease_requests = none ∧
    ∃ s₁ l, AddWorkerLeaseClient env clk reply.worker_address (clientFor env a)
        reply.resource_mapping k id (leaseReplyStart env k id a s) = Except.ok s₁ ∧
      OnWorkerIdle env depth clk.afterMono reply.worker_address k false [] false
        reply.resource_mapping s₁ = Except.ok s' ∧
      Map.find reply.worker_address s₁.worker_to_lease_entry = some l ∧
      l.lease_expiration_time = wrapInt64 (clk.mono + env.lease_timeout_ms) ∧
      (-(2 ^ 63) ≤ clk.mono + env.lease_timeout_ms →
        clk.mono + env.lease_timeout_ms < 2 ^ 63 →
        l.lease_expiration_time = clk.mono + env.lease_timeout_ms) ∧
      l.is_busy = false ∧
      l.assigned_resources = reply.resource_mapping ∧
      l.lease_client = some (clientFor env a) ∧
      l.scheduling_key = k ∧
      l.task_id = id ∧
      (s₁.entry k).active_workers =
        HashSet.insert reply.worker_address (s.entry k).active_workers ∧
      reply.worker_address ∈ (s₁.entry k).active_workers ∧
      (clk.mono_again ≤ l.lease_expiration_time →
        ∀ front rest, (s.entry k).task_queue = front :: rest →
        s'.calls.filterMap Call.pushedTo = s.calls.filterMap Call.pushedTo ++
          [(reply.worker_address, { front with lease_grant_timestamp_ms := clk.sys })] ∧
        (s'.entry k).task_queue = rest ∧
        (s'.lease reply.worker_address).is_busy = true ∧
        reply.worker_address ∈ (s'.entry k).active_workers) ∧
      (l.lease_expiration_time < clk.mono_again →
        s'.calls.filterMap Call.pushedTo = s.calls.filterMap Call.pushedTo ∧
        (s'.entry k).task_queue = (s.entry k).task_queue ∧
        s'.calls.filterMap Call.returnedBy = s.calls.filterMap Call.returnedBy ++
          [(clientFor env a, reply.worker_address.port, reply.worker_address.worker_id,
            false, [], false)] ∧
        Map.find reply.worker_address s'.worker_to_lease_entry = none) := by
  have hentry := entry_leaseReplyStart env k id a s k
  rw [if_pos rfl] at hentry
  refine ⟨fun d₀ c₀ sp₀ st₀ r₀ => OnLeaseReply_kinds env d₀ c₀ k id name sp₀ a st₀ r₀ s,
    by rw [hentry], ?_, ?_⟩
  · rw [hentry]
    show Map.find id (Map.erase id _) = none
    rw [Map.find_erase]
    simp
  · rw [OnLeaseReply_grant env depth clk k id name sp a status reply s hok hnc hnr hw] at h
    obtain ⟨s₁, h₁, h₂⟩ := bind_ok h
    have hf : Map.find reply.worker_address
        (leaseReplyStart env k id a s).worker_to_lease_entry = none := by
      rw [find_lease_leaseReplyStart]; exact hfresh
    obtain ⟨a1, a2, a3, a4, a5, a6, a7⟩ := AddWorkerLeaseClient_spec hf h₁
    have hlease : s₁.lease reply.worker_address =
        grantedLease env clk (clientFor env a) reply.resource_mapping k id := by
      simp [State.lease, Map.get, a1]
    refine ⟨s₁, _, h₁, h₂, a1, rfl, fun hlo hhi => wrapInt64_of_range hlo hhi, rfl, rfl, rfl,
      rfl, rfl, ?_, a3, ?_, ?_⟩
    · rw [a2, hentry]
    · intro htime front rest hq
      have hq₁ : (s₁.entry k).task_queue = front :: rest := by
        rw [a4, hentry]; exact hq
      have hl₁ : (s₁.lease reply.worker_address).lease_client = some (clientFor env a) := by
        rw [hlease]; rfl
      have hb₁ : (s₁.lease reply.worker_address).is_busy = false := by
        rw [hlease]; rfl
      have hexp : clk.afterMono.mono ≤
          (s₁.lease reply.worker_address).lease_expiration_time := by
        rw [hlease]
        exact htime
      obtain ⟨d1, d2, d3, d4, _, _⟩ := OnWorkerIdle_dispatch_spec hl₁ hexp hq₁ hb₁ h₂
      have hnot : ¬ (false = true ∨ false = true ∨
          clk.afterMono.mono > (s₁.lease reply.worker_address).lease_expiration_time ∨
          (s₁.entry k).task_queue = []) := by
        rintro (h0 | h0 | h0 | h0)
        · cases h0
        · cases h0
        · exact absurd h0 (not_lt.mpr hexp)
        · rw [hq₁] at h0; cases h0
      obtain ⟨_, _, k3⟩ := OnWorkerIdle_keep_spec hl₁ hb₁ hnot h₂
      refine ⟨?_, d1, d2, ?_⟩
      · rw [d4, a6, List.filterMap_append,
          filterMap_leaseReplyStart Call.pushedTo (fun _ => rfl)]
        simp [List.filterMap_cons, Call.pushedTo, Clock.afterMono]
      · rw [k3]; exact a3
    · intro hpast
      have hl₁ : (s₁.lease reply.worker_address).lease_client = some (clientFor env a) := by
        rw [hlease]; rfl
      have hb₁ : (s₁.lease reply.worker_address).is_busy = false := by
        rw [hlease]; rfl
      have hexp : clk.afterMono.mono >
          (s₁.lease reply.worker_address).lease_expiration_time := by
        rw [hlease]
        exact hpast
      obtain ⟨r1, _, _, r4, r5, r6⟩ :=
        OnWorkerIdle_return_spec hl₁ hb₁ (Or.inr (Or.inr (Or.inl hexp))) h₂
      refine ⟨?_, ?_, ?_, r4⟩
      · rw [r5, a6, List.filterMap_append,
          filterMap_leaseReplyStart Call.pushedTo (fun _ => rfl)]
        simp [List.filterMap_cons, Call.pushedTo]
      · rw [r6, a4, hentry]
      · rw [r1, a6, List.filterMap_append,
          filterMap_leaseReplyStart Call.returnedBy (fun _ => rfl)]
        simp [List.filterMap_cons, Call.returnedBy]

theorem lease_granted_witness :
    ∃ s', OnLeaseReply exampleEnv 64 {} keyAB 1000 "" false localRaylet {}
        { worker_address := workerW } (stateAfter exampleEnv oneQueued) = Except.ok s' ∧
      s'.calls.filterMap Call.pushedTo = [(workerW, taskA)] ∧
      (s'.lease workerW).is_busy = true := by
  obtain ⟨_, _, _, s₁, l, _, _, _, hexp, _, _, _, _, _, _, _, _, hpush, _⟩ :=
    lease_granted exampleEnv 64 {} keyAB 1000 "" false localRaylet {}
      { worker_address := workerW } (stateAfter exampleEnv oneQueued) _
      rfl rfl rfl (by decide) rfl rfl
  obtain ⟨h1, _, h3, _⟩ := hpush (by rw [hexp]; decide) taskA [] rfl
  exact ⟨_, rfl, h1, h3⟩

/-! ### The reply to the cancellation sent to a worker -/

/-- C31 (as stated, refuted): a task is cancelled while it executes and the
cancellation sent to its worker fails.  The closure does more than log: the
task, which was in `cancelled_tasks`, is removed from it. -/
theorem cancel_rpc_failed_counterexample :
    ∃ s₀ s', run exampleEnv cancelledWhileExecuting {} = Except.ok s₀ ∧
      step exampleEnv 64 {}
        (Event.cancel_task_reply taskA keyAB false false unavailable {}) s₀ = Except.ok s' ∧
      unavailable.ok = false ∧
      taskA.task_id ∈ s₀.cancelled_tasks ∧
      taskA.task_id ∉ s'.cancelled_tasks ∧
      s'.calls = s₀.calls :=
  ⟨stateAfter exampleEnv cancelledWhileExecuting, stateAfter exampleEnv cancelRpcFailed,
    by rfl, by rfl, by rfl, by decide, by decide, by rfl⟩

/-- C31 (amended): when the reply to the cancellation sent to a worker is
processed, the task is removed from `cancelled_tasks` in every case, before the
status is looked at, and no call is made.  If the status is not OK nothing else
happens.  A retry of `CancelTask` with the same task, `force_kill` and
`recursive` is scheduled exactly when the status is OK, `attempt_succeeded` is
false and `requested_task_running` is true: the one timer of the submitter is
set to expire `cancellation_retry_ms` from now only if it has expired, the
retry waits on it, and when it fires it is `CancelTask` with those arguments.
In every other case nothing but the removal happens. -/
theorem cancel_reply_processed (env : Env) (clk : Clock) (task_spec : TaskSpecification)
    (force_kill recursive : Bool) (status : Status) (reply : CancelTaskReply) (s : State) :
    (OnCancelTaskReply env clk task_spec force_kill recursive status reply s).cancelled_tasks =
      HashSet.erase task_spec.task_id s.cancelled_tasks ∧
    task_spec.task_id ∉
      (OnCancelTaskReply env clk task_spec force_kill recursive status reply
        s).cancelled_tasks ∧
    (OnCancelTaskReply env clk task_spec force_kill recursive status reply s).calls =
      s.calls ∧
    (status.ok = false →
      OnCancelTaskReply env clk task_spec force_kill recursive status reply s =
        s.eraseCancelled task_spec.task_id) ∧
    (status.ok = true ∧ reply.attempt_succeeded = false ∧
        reply.requested_task_running = true →
      (OnCancelTaskReply env clk task_spec force_kill recursive status reply s).callbacks =
        s.callbacks ++ [Callback.cancel_retry task_spec force_kill recursive] ∧
      (OnCancelTaskReply env clk task_spec force_kill recursive status reply
          s).cancel_retry_timer_expiry =
        (if s.cancel_retry_timer_expiry ≤ clk.hires then
          clk.hires + env.cancellation_retry_ms
        else s.cancel_retry_timer_expiry) ∧
      ∀ (depth : Nat) (clk₁ : Clock) (is_pending : Bool),
        step env depth clk₁
            (Event.cancel_retry_fired task_spec force_kill recursive is_pending)
            (OnCancelTaskReply env clk task_spec force_kill recursive status reply s) =
          (CancelTask env task_spec force_kill recursive is_pending
            ((OnCancelTaskReply env clk task_spec force_kill recursive status reply
              s).unregister (Callback.cancel_retry task_spec force_kill recursive))).map
            (fun r => r.2)) ∧
    (¬ (status.ok = true ∧ reply.attempt_succeeded = false ∧
        reply.requested_task_running = true) →
      OnCancelTaskReply env clk task_spec force_kill recursive status reply s =
        s.eraseCancelled task_spec.task_id) := by
  have hnot : ¬ (status.ok = true ∧ reply.attempt_succeeded = false ∧
        reply.requested_task_running = true) →
      OnCancelTaskReply env clk task_spec force_kill recursive status reply s =
        s.eraseCancelled task_spec.task_id := by
    intro h
    unfold OnCancelTaskReply
    simp only []
    cases hok : status.ok
    · simp
    · cases ha : reply.attempt_succeeded
      · cases hr : reply.requested_task_running
        · simp
        · exact absurd ⟨hok, ha, hr⟩ h
      · simp
  have hyes : status.ok = true ∧ reply.attempt_succeeded = false ∧
        reply.requested_task_running = true →
      OnCancelTaskReply env clk task_spec force_kill recursive status reply s =
        (if (s.eraseCancelled task_spec.task_id).cancel_retry_timer_expiry ≤ clk.hires then
          (s.eraseCancelled task_spec.task_id).setTimerExpiry
            (clk.hires + env.cancellation_retry_ms)
        else s.eraseCancelled task_spec.task_id).register
          (Callback.cancel_retry task_spec force_kill recursive) := by
    rintro ⟨hok, ha, hr⟩
    unfold OnCancelTaskReply
    simp [hok, ha, hr]
  have hcanc : (OnCancelTaskReply env clk task_spec force_kill recursive status reply
      s).cancelled_tasks = HashSet.erase task_spec.task_id s.cancelled_tasks ∧
      (OnCancelTaskReply env clk task_spec force_kill recursive status reply s).calls =
        s.calls := by
    by_cases h : status.ok = true ∧ reply.attempt_succeeded = false ∧
        reply.requested_task_running = true
    · rw [hyes h]
      split <;> exact ⟨rfl, rfl⟩
    · rw [hnot h]
      exact ⟨rfl, rfl⟩
  refine ⟨hcanc.1, ?_, hcanc.2, ?_, ?_, hnot⟩
  · rw [hcanc.1]; exact mem_erase_self _ _
  · intro hok
    apply hnot
    rintro ⟨h1, _, _⟩
    rw [hok] at h1
    cases h1
  · intro h
    have hcb : (OnCancelTaskReply env clk task_spec force_kill recursive status reply
        s).callbacks = s.callbacks ++ [Callback.cancel_retry task_spec force_kill recursive] := by
      rw [hyes h]
      split <;> rfl
    refine ⟨hcb, ?_, ?_⟩
    · rw [hyes h]
      show (if _ then _ else _ : State).cancel_retry_timer_expiry = _
      have he : (s.eraseCancelled task_spec.task_id).cancel_retry_timer_expiry =
          s.cancel_retry_timer_expiry := rfl
      rw [he]
      split <;> rfl
    · intro depth clk₁ is_pending
      have hmem : Callback.cancel_retry task_spec force_kill recursive ∈
          (OnCancelTaskReply env clk task_spec force_kill recursive status reply
            s).callbacks := by
        rw [hcb]; simp
      simp only [step, takeCallback, hmem, if_true]

theorem cancel_reply_processed_witness :
    cancelRetryScheduled.callbacks =
      ((stateAfter exampleEnv cancelledWhileExecuting).unregister
        (Callback.cancel_task taskA keyAB false false)).callbacks ++
        [Callback.cancel_retry taskA false false] ∧
    cancelRetryScheduled.cancel_retry_timer_expiry = 15 ∧
    taskA.task_id ∉ cancelRetryScheduled.cancelled_tasks :=
  have h := cancel_reply_processed exampleEnv { hires := 5 } taskA false false {} stillRunning
    ((stateAfter exampleEnv cancelledWhileExecuting).unregister
      (Callback.cancel_task taskA keyAB false false))
  ⟨(h.2.2.2.2.1 ⟨rfl, rfl, rfl⟩).1, (h.2.2.2.2.1 ⟨rfl, rfl, rfl⟩).2.1, h.2.1⟩

/-! ### The order of the queue -/

theorem Fifo.rfl_of {k : SchedulingKey} {s s' : State}
    (hp : s'.view.pushed = s.view.pushed) (hq : s'.view.queue k = s.view.queue k) :
    Fifo k s s' := by
  refine ⟨[], ?_, ?_⟩
  · show (s'.view.pushed).filterMap _ = (s.view.pushed).filterMap _ ++ []
    rw [hp, List.append_nil]
  · show [].map unstamp ++ (s'.view.queue k).map unstamp = (s.view.queue k).map unstamp
    rw [hq]; rfl

theorem Fifo.of_view {k : SchedulingKey} {s s' : State} (h : s'.view = s.view) :
    Fifo k s s' :=
  Fifo.rfl_of (by rw [h]) (by rw [h])

theorem Fifo.fifo_refl (k : SchedulingKey) (s : State) : Fifo k s s := Fifo.of_view rfl

theorem Fifo.trans {k : SchedulingKey} {s₁ s₂ s₃ : State} (h₁ : Fifo k s₁ s₂)
    (h₂ : Fifo k s₂ s₃) : Fifo k s₁ s₃ := by
  obtain ⟨d₁, p₁, q₁⟩ := h₁
  obtain ⟨d₂, p₂, q₂⟩ := h₂
  refine ⟨d₁ ++ d₂, ?_, ?_⟩
  · rw [p₂, p₁, List.append_assoc]
  · rw [List.map_append, List.append_assoc, q₂, q₁]

/-- A change of the view that is neither a dispatch nor a removal from a
queue leaves the pushed tasks and the queues as they are. -/
theorem Move.same_of_not_shrink {env : Env} {kd : Kind} {A B : View} (hm : Move env kd A B)
    (hk : kd ≠ Kind.shrink) : B.pushed = A.pushed ∧ B.queue = A.queue := by
  cases hm with
  | gc _ k' => exact ⟨rfl, rfl⟩
  | leaseReplied _ k' id name sp addr hcb => exact ⟨rfl, rfl⟩
  | grant _ a k' => exact ⟨rfl, rfl⟩
  | returned _ a k' => exact ⟨rfl, rfl⟩
  | pushReplied _ spec t ac k' a res => exact ⟨rfl, rfl⟩
  | shrinkQueue _ k' q hq => exact absurd rfl hk
  | dispatch _ a k' front rest sys res hq hb ha => exact absurd rfl hk
  | request _ k' spec name sp addr => exact ⟨rfl, rfl⟩

theorem MovesR.same {env : Env} {A B : View} (hm : MovesR env A B) :
    B.pushed = A.pushed ∧ B.queue = A.queue := by
  induction hm with
  | refl => exact ⟨rfl, rfl⟩
  | tail _ hstep ih =>
    obtain ⟨kd, hk, hmv⟩ := hstep
    obtain ⟨h1, h2⟩ := hmv.same_of_not_shrink hk
    exact ⟨h1.trans ih.1, h2.trans ih.2⟩

theorem MovesR.fifo {env : Env} {s s' : State} (hm : MovesR env s.view s'.view)
    (k : SchedulingKey) : Fifo k s s' :=
  Fifo.rfl_of hm.same.1 (by rw [hm.same.2])

theorem fifo_RequestNewWorkerIfNeeded {env : Env} {depth : Nat} {k : SchedulingKey}
    {hint : Option Address} {s s' : State}
    (h : RequestNewWorkerIfNeeded env depth k hint s = Except.ok s') (k' : SchedulingKey) :
    Fifo k' s s' :=
  (RequestNewWorkerIfNeeded_moves env _ _ _ _ _ h).fifo k'

theorem fifo_ReturnWorker {env : Env} {addr : Address} {we : Bool} {ed : Message}
    {wx : Bool} {k : SchedulingKey} {s s' : State}
    (h : ReturnWorker env addr we ed wx k s = Except.ok s') (k' : SchedulingKey) :
    Fifo k' s s' :=
  (ReturnWorker_moves env _ _ _ _ _ _ _ h).toR.fifo k'

theorem fifo_AddWorkerLeaseClient {env : Env} {clk : Clock} {addr : Address}
    {lc : LeaseClient} {res : ResourceMapping} {k : SchedulingKey} {t : TaskID}
    {s s' : State} (h : AddWorkerLeaseClient env clk addr lc res k t s = Except.ok s')
    (k' : SchedulingKey) : Fifo k' s s' := by
  obtain ⟨hm, _⟩ := AddWorkerLeaseClient_moves env _ _ _ _ _ _ _ _ h
  obtain ⟨h1, h2⟩ := hm.same_of_not_shrink (by decide)
  exact Fifo.rfl_of h1 (by rw [h2])

theorem unstamp_stamp (t : TaskSpecification) (x : Int) :
    unstamp { t with lease_grant_timestamp_ms := x } = unstamp t := rfl

/-- The loop of `OnWorkerIdle` pushes tasks from the front of the queue. -/
theorem fifo_dispatchWhile (clk : Clock) (addr : Address) (k : SchedulingKey)
    (res : ResourceMapping) :
    ∀ (n : Nat) (s s' : State), dispatchWhile clk addr k res n s = Except.ok s' →
      ∀ k', Fifo k' s s' := by
  intro n
  induction n with
  | zero => intro s s' h k'; simp only [dispatchWhile] at h; cases h; exact Fifo.fifo_refl _ _
  | succ n ih =>
    intro s s' h k'
    unfold dispatchWhile at h
    simp only [] at h
    split at h
    · cases h; exact Fifo.fifo_refl _ _
    · next front rest hq =>
      split at h
      · cases h; exact Fifo.fifo_refl _ _
      · split at h
        · cases h
        · refine Fifo.trans ?_ (ih _ _ h k')
          by_cases hk : k' = k
          · subst hk
            refine ⟨[{ front with lease_grant_timestamp_ms := clk.sys }], ?_, ?_⟩
            · show (State.view _).pushed.filterMap _ = _
              simp only [view_PushNormalTask, view_emplaceExecuting, view_setEntry,
                view_setLease, List.filterMap_append, List.filterMap_cons,
                List.filterMap_nil, if_true]
              rfl
            · show _ ++ ((State.view _).queue k').map unstamp = _
              simp only [view_PushNormalTask, view_emplaceExecuting, view_setEntry,
                view_setLease, entry_setLease, entry_setEntry, if_true,
                Function.update_same, List.map_cons, List.map_nil, List.singleton_append,
                hq, unstamp_stamp]
          · refine ⟨[], ?_, ?_⟩
            · show (State.view _).pushed.filterMap _ = _
              have hk' : ¬ k = k' := fun e => hk e.symm
              simp only [view_PushNormalTask, view_emplaceExecuting, view_setEntry,
                view_setLease, List.filterMap_append, List.filterMap_cons,
                List.filterMap_nil, hk', if_false, List.append_nil]
              rfl
            · show _ ++ ((State.view _).queue k').map unstamp = _
              simp only [view_PushNormalTask, view_emplaceExecuting, view_setEntry,
                view_setLease, entry_setLease, entry_setEntry, if_true,
                Function.update_noteq hk, List.map_nil, List.nil_append]
              rfl

theorem fifo_OnWorkerIdle {env : Env} {depth : Nat} {clk : Clock} {addr : Address}
    {k : SchedulingKey} {we : Bool} {ed : Message} {wx : Bool} {res : ResourceMapping}
    {s s' : State} (h : OnWorkerIdle env depth clk addr k we ed wx res s = Except.ok s')
    (k' : SchedulingKey) : Fifo k' s s' := by
  unfold OnWorkerIdle at h
  simp only [] at h
  split at h
  · cases h
    exact Fifo.of_view (view_touchLease _ _)
  · split at h
    · split at h
      · cases h
      · obtain ⟨s₁, h₁, h₂⟩ := bind_ok h
        refine Fifo.trans ?_ (fifo_RequestNewWorkerIfNeeded h₂ k')
        split at h₁
        · exact Fifo.trans (Fifo.of_view (by simp)) (fifo_ReturnWorker h₁ k')
        · cases h₁
          exact Fifo.of_view (by simp)
    · obtain ⟨s₁, h₁, h₂⟩ := bind_ok h
      refine Fifo.trans ?_ (fifo_RequestNewWorkerIfNeeded h₂ k')
      refine Fifo.trans ?_ (Fifo.of_view (view_CancelWorkerLeaseIfNeeded _ _ _))
      refine Fifo.trans ?_ (fifo_dispatchWhile _ _ _ _ _ _ _ h₁ k')
      exact Fifo.of_view (by
        rw [view_call_other _ (Call.GetOrConnect addr) rfl rfl]; simp)

theorem fifo_dispatchToIdleWorker {env : Env} {depth : Nat} {clk : Clock}
    {k : SchedulingKey} :
    ∀ (ws : List Address) (s s' : State),
      dispatchToIdleWorker env depth clk k ws s = Except.ok s' → ∀ k', Fifo k' s s' := by
  intro ws
  induction ws with
  | nil => intro s s' h k'; simp only [dispatchToIdleWorker] at h; cases h; exact Fifo.fifo_refl _ _
  | cons a rest ih =>
    intro s s' h k'
    unfold dispatchToIdleWorker at h
    split at h
    · cases h
    · split at h
      · exact fifo_OnWorkerIdle h k'
      · exact ih _ _ h k'

theorem queuedIndex_eraseP (t : TaskID) :
    ∀ (q : List TaskSpecification),
      (∀ i, queuedIndex t q = some i →
        q.eraseIdx i = q.eraseP (fun x => decide (x.task_id = t))) ∧
      (queuedIndex t q = none → q.eraseP (fun x => decide (x.task_id = t)) = q) := by
  intro q
  induction q with
  | nil => exact ⟨fun i h => by simp [queuedIndex] at h, fun _ => rfl⟩
  | cons x rest ih =>
    by_cases hx : x.task_id = t
    · refine ⟨fun i h => ?_, fun h => ?_⟩
      · simp only [queuedIndex, hx, if_true, Option.some.injEq] at h
        subst h
        simp [List.eraseP_cons, hx]
      · simp [queuedIndex, hx] at h
    · refine ⟨fun i h => ?_, fun h => ?_⟩
      · simp only [queuedIndex, hx, if_false, Option.map_eq_some'] at h
        obtain ⟨j, hj, rfl⟩ := h
        simp [List.eraseP_cons, hx, ih.1 j hj]
      · simp only [queuedIndex, hx, if_false, Option.map_eq_none'] at h
        simp [List.eraseP_cons, hx, ih.2 h]

/-- What `CancelTask` does to the queues and the pushed tasks: nothing is
pushed, and only the queue of the key of the task changes, by the removal of
the first task with the id of the cancelled task. -/
theorem queue_CancelTask {env : Env} {spec : TaskSpecification} {fk rc ip : Bool}
    {s : State} {r : Status × State}
    (h : CancelTask env spec fk rc ip s = Except.ok r) :
    r.2.view.pushed = s.view.pushed ∧
    ∀ k, (r.2.entry k).task_queue =
      if spec.GetSchedulingKey = k then
        queueAfterCancel spec.task_id ip s (s.entry k).task_queue
      else (s.entry k).task_queue := by
  unfold CancelTask at h
  simp only [] at h
  split at h
  · next hc =>
    cases h
    refine ⟨rfl, fun k => ?_⟩
    have hc' : spec.task_id ∈ s.cancelled_tasks := hc
    simp [queueAfterCancel, hc']
  · next hc =>
    have hc' : spec.task_id ∉ s.cancelled_tasks := hc
    split at h
    · next hip =>
      cases h
      refine ⟨?_, fun k => ?_⟩
      · rw [view_call_other _ (Call.IsTaskPending _) rfl rfl,
          view_call_other _ (Call.MarkTaskCanceled _) rfl rfl]
        rfl
      · have : ip = false := by simpa using hip
        simp [queueAfterCancel, this]
    · next hip =>
      have hip' : ip = true := by simpa using hip
      have hentry : ∀ k, ((((s.eraseGenerator spec.task_id).call
          (Call.MarkTaskCanceled spec.task_id)).call
            (Call.IsTaskPending spec.task_id)).touchEntry spec.GetSchedulingKey).entry k =
            s.entry k := by
        intro k; rw [entry_touchEntry]; rfl
      have hview : ((((s.eraseGenerator spec.task_id).call
          (Call.MarkTaskCanceled spec.task_id)).call
            (Call.IsTaskPending spec.task_id)).touchEntry spec.GetSchedulingKey).view =
            s.view := by
        rw [view_touchEntry, view_call_other _ (Call.IsTaskPending _) rfl rfl,
          view_call_other _ (Call.MarkTaskCanceled _) rfl rfl]
        rfl
      rw [hentry] at h
      have hqa : ∀ q, queueAfterCancel spec.task_id ip s q =
          q.eraseP (fun x => decide (x.task_id = spec.task_id)) := by
        intro q
        simp [queueAfterCancel, hip', hc']
      split at h
      · next i hi =>
        cases h
        refine ⟨?_, fun k => ?_⟩
        · rw [view_call_other _ (Call.FailPendingTask _ _ _ _) rfl rfl,
            view_CancelWorkerLeaseIfNeeded, view_setEntry, hview]
        · show ((State.call _ _).entry k).task_queue = _
          rw [entry_call, queue_CancelWorkerLeaseIfNeeded, entry_setEntry]
          by_cases hk : spec.GetSchedulingKey = k
          · subst hk
            rw [if_pos rfl, if_pos rfl, hqa]
            exact (queuedIndex_eraseP _ _).1 i hi
          · have hk' : ¬ k = spec.GetSchedulingKey := fun e => hk e.symm
            rw [if_neg hk', if_neg hk, hentry]
      · next hi =>
        have hsame : ∀ k, (if spec.GetSchedulingKey = k then
            queueAfterCancel spec.task_id ip s (s.entry k).task_queue
            else (s.entry k).task_queue) = (s.entry k).task_queue := by
          intro k
          split
          · next hk =>
            subst hk
            rw [hqa]
            exact (queuedIndex_eraseP _ _).2 hi
          · rfl
        split at h
        · cases h
        · split at h
          · cases h
            have hc2 : ∀ X : State, X.view = s.view →
                (∀ k, X.entry k = s.entry k) →
                (if (X.entry spec.GetSchedulingKey).CanDelete = true then
                  X.eraseEntry spec.GetSchedulingKey else X).view.pushed = s.view.pushed ∧
                ∀ k, ((if (X.entry spec.GetSchedulingKey).CanDelete = true then
                  X.eraseEntry spec.GetSchedulingKey else X).entry k).task_queue =
                    (s.entry k).task_queue := by
              intro X hX hXe
              split
              · next hdel =>
                refine ⟨?_, fun k => ?_⟩
                · show (State.view _).pushed = _
                  rw [view_eraseEntry, ← hX]
                · rw [entry_eraseEntry]
                  split
                  · next hk =>
                    subst hk
                    simp only [SchedulingKeyEntry.CanDelete, Bool.and_eq_true,
                      List.isEmpty_iff] at hdel
                    rw [← hXe, hdel.1.2]
                    rfl
                  · rw [hXe]
              · exact ⟨by rw [hX], fun k => by rw [hXe]⟩
            simp only [hsame]
            split
            · refine hc2 _ ?_ ?_
              · show (State.insertCancelled _ _).view = _
                rw [view_insertCancelled, hview]
              · intro k; exact hentry k
            · refine hc2 _ ?_ ?_
              · rw [view_call_other _ (Call.FailPendingTask _ _ _ _) rfl rfl,
                  view_CancelDependencyResolution, view_insertCancelled, hview]
              · intro k; exact hentry k
          · cases h
            simp only [hsame]
            refine ⟨?_, fun k => ?_⟩
            · rw [view_register_other _ (Callback.cancel_task _ _ _ _) rfl rfl,
                view_call_other _ (Call.CancelTask _ _) rfl rfl,
                view_call_other _ (Call.GetOrConnect _) rfl rfl, view_insertCancelled, hview]
            · exact congrArg SchedulingKeyEntry.task_queue (hentry k)

/-- The pushes made since a state whose queue of the key was `q` and whose
pushed tasks were those of `s₀` are the front of `q`. -/
theorem Fifo.since {k : SchedulingKey} {s₀ : State} (s₁ : State) {s' : State}
    {q : List TaskSpecification}
    (hp : s₁.view.pushed = s₀.view.pushed) (hq : (s₁.entry k).task_queue = q)
    (h : Fifo k s₁ s') :
    ∃ pushedNow, pushedUnder k s' = pushedUnder k s₀ ++ pushedNow ∧
      pushedNow.map unstamp ++ ((s'.entry k).task_queue).map unstamp = q.map unstamp := by
  obtain ⟨d, h1, h2⟩ := h
  refine ⟨d, ?_, ?_⟩
  · rw [h1]
    show (s₁.view.pushed).filterMap _ ++ d = (s₀.view.pushed).filterMap _ ++ d
    rw [hp]
  · rw [h2, hq]

theorem fifo_OnDependenciesResolved {env : Env} {depth : Nat} {clk : Clock}
    {t : TaskSpecification} {status : Status} {wr : Bool} {s s' : State}
    (h : OnDependenciesResolved env depth clk t status wr s = Except.ok s')
    (k : SchedulingKey) :
    ∃ pushedNow, pushedUnder k s' = pushedUnder k s ++ pushedNow ∧
      pushedNow.map unstamp ++ ((s'.entry k).task_queue).map unstamp =
        ((s.entry k).task_queue ++
          appendedNow clk (Event.resolved t status wr) s k).map unstamp := by
  have hmark : (s.call (Call.MarkDependenciesResolved t.task_id)).view = s.view :=
    view_call_other _ (Call.MarkDependenciesResolved _) rfl rfl
  unfold OnDependenciesResolved at h
  simp only [] at h
  split at h
  · next hok =>
    have hok' : status.ok = false := by simpa using hok
    have hnow : appendedNow clk (Event.resolved t status wr) s k = [] := by
      simp [appendedNow, appendedBy, hok']
    rw [hnow, List.append_nil]
    refine Fifo.since s rfl rfl (Fifo.of_view ?_)
    split at h <;>
      (cases h
       first
        | (rw [view_eraseCancelled,
            view_call_other _ (Call.FailOrRetryPendingTask _ _ _ _ _ _) rfl rfl, hmark])
        | (rw [view_call_other _ (Call.FailOrRetryPendingTask _ _ _ _ _ _) rfl rfl, hmark]))
  · next hok =>
    have hok' : status.ok = true := by simpa using hok
    split at h
    · next hc =>
      have hc' : t.task_id ∈ s.cancelled_tasks := hc
      have hnow : appendedNow clk (Event.resolved t status wr) s k = [] := by
        simp [appendedNow, appendedBy, hc']
      rw [hnow, List.append_nil]
      cases h
      refine Fifo.since s rfl rfl (Fifo.of_view ?_)
      rw [view_call_other _ (Call.FailPendingTask _ _ _ _) rfl rfl, view_eraseCancelled, hmark]
    · next hc =>
      have hc' : t.task_id ∉ s.cancelled_tasks := hc
      have hnow : appendedNow clk (Event.resolved t status wr) s k =
          if t.GetSchedulingKey = k then
            [{ t with dependency_resolution_timestamp_ms := clk.sys }] else [] := by
        simp only [appendedNow, appendedBy, hok', hc', not_false_eq_true, and_self, if_true]
      obtain ⟨s₁, h₁, h₂⟩ := bind_ok h
      have hr := fifo_RequestNewWorkerIfNeeded h₂ k
      have hmid : Fifo k
          (((s.call (Call.MarkDependenciesResolved t.task_id)).touchEntry
            t.GetSchedulingKey).setEntry t.GetSchedulingKey
            { ((s.call (Call.MarkDependenciesResolved t.task_id)).touchEntry
                t.GetSchedulingKey).entry t.GetSchedulingKey with
              task_queue := (((s.call (Call.MarkDependenciesResolved t.task_id)).touchEntry
                t.GetSchedulingKey).entry t.GetSchedulingKey).task_queue ++
                  [{ t with dependency_resolution_timestamp_ms := clk.sys }]
              resource_spec := { t with dependency_resolution_timestamp_ms := clk.sys } })
          s' := by
        refine Fifo.trans ?_ hr
        split at h₁
        · exact fifo_dispatchToIdleWorker _ _ _ h₁ k
        · cases h₁; exact Fifo.fifo_refl _ _
      refine Fifo.since _ ?_ ?_ hmid
      · rw [view_setEntry, view_touchEntry, hmark]
      · rw [entry_setEntry, hnow]
        by_cases hk : t.GetSchedulingKey = k
        · subst hk
          rw [if_pos rfl, if_pos rfl, entry_touchEntry]
          rfl
        · have hk' : ¬ k = t.GetSchedulingKey := fun e => hk e.symm
          rw [if_neg hk', if_neg hk, List.append_nil, entry_touchEntry]
          rfl

theorem queue_drainQueue (k : SchedulingKey) (et : ErrorType) (ei : RayErrorInfo)
    (es : Status) (s : State) :
    (drainQueue k et ei es s).state.view.pushed = s.view.pushed ∧
    ∀ k', ((drainQueue k et ei es s).state.entry k').task_queue =
      if k' = k then [] else (s.entry k').task_queue := by
  unfold drainQueue
  simp only []
  split
  · refine ⟨by rw [view_eraseEntry, view_setEntry], fun k' => ?_⟩
    rw [entry_eraseEntry]
    split
    · rfl
    · next hk => rw [entry_setEntry, if_neg hk]
  · refine ⟨by rw [view_setEntry], fun k' => ?_⟩
    rw [entry_setEntry]
    split <;> rfl

/-- What the locked section of the lease-reply closure does to the queues and
the pushed tasks: a reply that fails the queue empties the queue of its key and
pushes nothing; any other reply pushes tasks from the front of the queue. -/
theorem fifo_leaseReplyLocked {env : Env} {depth : Nat} {clk : Clock} {k : SchedulingKey}
    {id : TaskID} {name : String} {sp : Bool} {a : Address} {status : Status}
    {reply : RequestWorkerLeaseReply} {s : State} {o : LeaseReplyOutcome}
    (h : leaseReplyLocked env depth clk k id name sp a status reply s = Except.ok o) :
    (failsQueue env a status reply = true →
      o.state.view.pushed = s.view.pushed ∧
      ∀ k', (o.state.entry k').task_queue = if k' = k then [] else (s.entry k').task_queue) ∧
    (failsQueue env a status reply = false → ∀ k', Fifo k' s o.state) := by
  have hv : ((GetOrConnectLeaseClient env a (s.touchEntry k)).2.setEntry k
      { (s.touchEntry k).entry k with
        pending_lease_requests :=
          Map.erase id ((s.touchEntry k).entry k).pending_lease_requests }).view.pushed =
        s.view.pushed ∧
      ∀ k', (((GetOrConnectLeaseClient env a (s.touchEntry k)).2.setEntry k
        { (s.touchEntry k).entry k with
          pending_lease_requests :=
            Map.erase id ((s.touchEntry k).entry k).pending_lease_requests }).entry
              k').task_queue = (s.entry k').task_queue := by
    refine ⟨by rw [view_setEntry, view_GetOrConnectLeaseClient, view_touchEntry], fun k' => ?_⟩
    rw [entry_setEntry]
    split
    · next hk => subst hk; rw [entry_touchEntry]
    · rw [entry_GetOrConnectLeaseClient, entry_touchEntry]
  have hstart : ∀ k', Fifo k' s
      ((GetOrConnectLeaseClient env a (s.touchEntry k)).2.setEntry k
        { (s.touchEntry k).entry k with
          pending_lease_requests :=
            Map.erase id ((s.touchEntry k).entry k).pending_lease_requests }) :=
    fun k' => Fifo.rfl_of hv.1 (hv.2 k')
  have hdrain : ∀ et ei es,
      (drainQueue k et ei es ((GetOrConnectLeaseClient env a (s.touchEntry k)).2.setEntry k
        { (s.touchEntry k).entry k with
          pending_lease_requests :=
            Map.erase id ((s.touchEntry k).entry k).pending_lease_requests })
        ).state.view.pushed = s.view.pushed ∧
      ∀ k', ((drainQueue k et ei es
        ((GetOrConnectLeaseClient env a (s.touchEntry k)).2.setEntry k
          { (s.touchEntry k).entry k with
            pending_lease_requests :=
              Map.erase id ((s.touchEntry k).entry k).pending_lease_requests })
        ).state.entry k').task_queue = if k' = k then [] else (s.entry k').task_queue := by
    intro et ei es
    obtain ⟨d1, d2⟩ := queue_drainQueue k et ei es
      ((GetOrConnectLeaseClient env a (s.touchEntry k)).2.setEntry k
        { (s.touchEntry k).entry k with
          pending_lease_requests :=
            Map.erase id ((s.touchEntry k).entry k).pending_lease_requests })
    refine ⟨d1.trans hv.1, fun k' => ?_⟩
    rw [d2 k']
    split
    · rfl
    · exact hv.2 k'
  have hreq : ∀ (hint : Option Address),
      (RequestNewWorkerIfNeeded env depth k hint
        ((GetOrConnectLeaseClient env a (s.touchEntry k)).2.setEntry k
          { (s.touchEntry k).entry k with
            pending_lease_requests :=
              Map.erase id ((s.touchEntry k).entry k).pending_lease_requests })).map
        (fun s => ({ state := s } : LeaseReplyOutcome)) = Except.ok o →
      ∀ k', Fifo k' s o.state := by
    intro hint hr k'
    obtain ⟨s₁, h₁, h₂⟩ := map_ok hr
    subst h₂
    exact Fifo.trans (hstart k') (fifo_RequestNewWorkerIfNeeded h₁ k')
  have hcl : (GetOrConnectLeaseClient env a (s.touchEntry k)).1 = LeaseClient.local_client ↔
      a.raylet_id = env.local_raylet_id := by
    rw [client_GetOrConnectLeaseClient]; exact clientFor_local env a
  unfold leaseReplyLocked at h
  simp only [] at h
  split at h
  · next hok =>
    split at h
    · next hcan =>
      split at h
      · next hft =>
        cases h
        refine ⟨fun _ => hdrain _ _ _, fun hf => ?_⟩
        exfalso
        rcases hft with h1 | h1 | h1 <;> simp [failsQueue, hok, hcan, h1] at hf
      · next hft =>
        refine ⟨fun hf => ?_, fun _ => hreq _ h⟩
        exfalso
        simp only [not_or] at hft
        simp [failsQueue, hok, hcan, hft.1, hft.2.1, hft.2.2] at hf
    · next hcan =>
      have hff : failsQueue env a status reply = false := by
        simp [failsQueue, hok, hcan]
      refine ⟨fun hf => (by rw [hff] at hf; cases hf), fun _ => ?_⟩
      split at h
      · split at h
        · cases h
        · exact hreq _ h
      · split at h
        · obtain ⟨s₁, h₁, h₂⟩ := bind_ok h
          split at h₂
          · cases h₂
          · obtain ⟨s₂, h₃, h₄⟩ := map_ok h₂
            subst h₄
            intro k'
            exact Fifo.trans (hstart k')
              (Fifo.trans (fifo_AddWorkerLeaseClient h₁ k') (fifo_OnWorkerIdle h₃ k'))
        · split at h
          · cases h
          · exact hreq _ h
  · next hok =>
    have hok' : status.ok = false := by simpa using hok
    split at h
    · next hlc =>
      have hloc : ¬ a.raylet_id = env.local_raylet_id := fun e => hlc (hcl.mpr e)
      have hff : failsQueue env a status reply = false := by
        simp [failsQueue, hok', hloc]
      exact ⟨fun hf => (by rw [hff] at hf; cases hf), fun _ => hreq _ h⟩
    · next hlc =>
      have hloc : a.raylet_id = env.local_raylet_id := hcl.mp (by simpa using hlc)
      split at h
      · next hrpc =>
        simp only [Bool.and_eq_true, decide_eq_true_eq] at hrpc
        split at h
        · cases h
        · split at h
          · cases h
          · cases h
            refine ⟨fun _ => hdrain _ _ _, fun hf => ?_⟩
            simp [failsQueue, hok', hloc, hrpc.1, hrpc.2] at hf
      · next hrpc =>
        have hff : failsQueue env a status reply = false := by
          simp only [Bool.and_eq_true, decide_eq_true_eq, not_and] at hrpc
          simp only [failsQueue, hok', Bool.false_eq_true, if_false, hloc, decide_True,
            Bool.true_and, Bool.and_eq_false_imp, decide_eq_false_iff_not]
          exact hrpc
        exact ⟨fun hf => (by rw [hff] at hf; cases hf), fun _ => hreq _ h⟩

theorem fifo_pushReplyLocked {env : Env} {depth : Nat} {clk : Clock} {t : TaskID}
    {ac : Bool} {k : SchedulingKey} {addr : Address} {res : ResourceMapping}
    {status : Status} {reply : PushTaskReply} {s : State} {r : Bool × State}
    (h : pushReplyLocked env depth clk t ac k addr res status reply s = Except.ok r)
    (k' : SchedulingKey) : Fifo k' s r.2 := by
  unfold pushReplyLocked at h
  simp only [] at h
  split at h
  · cases h
  · split at h
    · cases h
    · split at h
      · cases h
      · obtain ⟨s₁, h₁, h₂⟩ := bind_ok h
        obtain ⟨s₂, h₃, h₄⟩ := bind_ok h₂
        cases h₄
        have hbase : ∀ X : State, X.view.pushed = s.view.pushed →
            (∀ k', (X.entry k').task_queue = (s.entry k').task_queue) →
            Fifo k' s ((X.touchEntry k).setEntry k
              { (X.touchEntry k).entry k with
                num_busy_workers := ((X.touchEntry k).entry k).num_busy_workers - 1 }) := by
          intro X hX hXq
          refine Fifo.rfl_of ?_ ?_
          · rw [view_setEntry, view_touchEntry]; exact hX
          · show ((State.setEntry _ _ _).entry k').task_queue = _
            rw [entry_setEntry]
            split
            · next hk => subst hk; rw [entry_touchEntry]; exact hXq _
            · rw [entry_touchEntry]; exact hXq _
        have hb := hbase (((s.eraseExecuting t).eraseGenerator t).touchLease addr |>.setLease addr
          { (((s.eraseExecuting t).eraseGenerator t).touchLease addr).lease addr with
            is_busy := false })
          (by rw [view_setLease, view_touchLease, view_eraseGenerator, view_eraseExecuting])
          (fun k' => rfl)
        have h1 : Fifo k' s s₁ := by
          refine Fifo.trans hb ?_
          split at h₁
          · split at h₁
            · cases h₁
            · cases h₁
              refine Fifo.of_view ?_
              rw [view_register_other _ (Callback.failure_cause _ _ _) rfl rfl,
                view_call_other _ (Call.GetTaskFailureCause _ _) rfl rfl, view_touchLease,
                view_insertFailed]
          · cases h₁
            exact Fifo.fifo_refl _ _
        refine Fifo.trans h1 ?_
        split at h₃
        · exact fifo_OnWorkerIdle h₃ k'
        · cases h₃
          exact Fifo.fifo_refl _ _

theorem takeCallback_same {cb : Callback} {s s₀ : State} (h : takeCallback cb s = some s₀) :
    s₀.view.pushed = s.view.pushed ∧
    (∀ k, s₀.entry k = s.entry k) ∧ s₀.cancelled_tasks = s.cancelled_tasks := by
  unfold takeCallback at h
  split at h
  · cases h; exact ⟨rfl, fun _ => rfl, rfl⟩
  · cases h

/-- What one step does to the queue of a key: the event first removes from the
queue the tasks it does not push and appends the task it appends; the tasks
pushed in the step are then the front of that queue, in order, and the queue
the step leaves is the rest of it, in order. -/
theorem fifo_step {env : Env} {depth : Nat} {clk : Clock} {ev : Event} {s s' : State}
    (h : step env depth clk ev s = Except.ok s') (k : SchedulingKey) :
    ∃ pushedNow, pushedUnder k s' = pushedUnder k s ++ pushedNow ∧
      pushedNow.map unstamp ++ ((s'.entry k).task_queue).map unstamp =
        (queueKept env ev s k ++ appendedNow clk ev s k).map unstamp := by
  have hplain : ∀ {X : State}, X.view.pushed = s.view.pushed →
      (X.entry k).task_queue = (s.entry k).task_queue →
      ∃ pushedNow, pushedUnder k X = pushedUnder k s ++ pushedNow ∧
        pushedNow.map unstamp ++ ((X.entry k).task_queue).map unstamp =
          ((s.entry k).task_queue ++ []).map unstamp := by
    intro X hX hq
    rw [List.append_nil]
    exact Fifo.since s rfl rfl (Fifo.rfl_of hX hq)
  cases ev with
  | SubmitTask t =>
    simp only [step, SubmitTask] at h
    split at h
    · cases h
    · cases h
      refine hplain ?_ rfl
      rw [view_register_other _ (Callback.resolve _) rfl rfl,
        view_call_other _ (Call.ResolveDependencies _) rfl rfl]
      rfl
  | CancelTask spec fk rc ip =>
    simp only [step] at h
    obtain ⟨r, h₁, h₂⟩ := map_ok h
    subst h₂
    obtain ⟨c1, c2⟩ := queue_CancelTask h₁
    have hnow : appendedNow clk (Event.CancelTask spec fk rc ip) s k = [] := rfl
    rw [hnow, List.append_nil]
    refine Fifo.since r.2 c1 ?_ (Fifo.fifo_refl _ _)
    rw [c2 k]
    rfl
  | CancelRemoteTask o w fk rc =>
    simp only [step] at h
    cases h
    refine hplain ?_ rfl
    show (State.view (State.call (State.call s _) _)).pushed = _
    rw [view_call_other _ (Call.RemoteCancelTask _ _) rfl rfl,
      view_call_other _ (Call.GetOrConnect _) rfl rfl]
  | QueueGeneratorForResubmit spec =>
    simp only [step, QueueGeneratorForResubmit] at h
    cases h
    split
    · exact hplain rfl rfl
    · exact hplain rfl rfl
  | ReportWorkerBacklog =>
    simp only [step, ReportWorkerBacklog] at h
    cases h
    refine hplain ?_ ?_
    · rw [view_ReportWorkerBacklogInternal]
    · rw [entry_ReportWorkerBacklogInternal]
  | resolved t status wr =>
    simp only [step] at h
    split at h
    · cases h
    · next s₀ htake =>
      obtain ⟨t1, t2, t3⟩ := takeCallback_same htake
      obtain ⟨d, hd1, hd2⟩ := fifo_OnDependenciesResolved h k
      refine ⟨d, ?_, ?_⟩
      · rw [hd1]
        show (s₀.view.pushed).filterMap _ ++ d = (s.view.pushed).filterMap _ ++ d
        rw [t1]
      · rw [hd2, t2 k]
        have : appendedNow clk (Event.resolved t status wr) s₀ k =
            appendedNow clk (Event.resolved t status wr) s k := by
          simp only [appendedNow, appendedBy, t3]
        rw [this]
        rfl
  | lease_reply k₀ id name sp a status reply =>
    simp only [step] at h
    split at h
    · cases h
    · next s₀ htake =>
      obtain ⟨t1, t2, _⟩ := takeCallback_same htake
      unfold OnLeaseReply at h
      obtain ⟨o, h₁, h₂⟩ := bind_ok h
      cases h₂
      obtain ⟨f1, f2⟩ := fifo_leaseReplyLocked h₁
      have hnow : appendedNow clk (Event.lease_reply k₀ id name sp a status reply) s k = [] :=
        rfl
      rw [hnow, List.append_nil]
      have hfold : ∀ X : State, (o.tasks_to_fail.foldl
          (failOneTask o.error_type o.error_status
            { o.error_info with error_type := o.error_type }) X).view = X.view :=
        fun X => view_foldl_failOneTask _ _ _ _ X
      cases hf : failsQueue env a status reply with
      | true =>
        obtain ⟨g1, g2⟩ := f1 hf
        refine Fifo.since (o.state) (g1.trans t1) ?_ (Fifo.of_view (hfold _))
        rw [g2 k, t2 k]
        simp only [queueKept, hf, and_true]
        by_cases hk : k₀ = k
        · subst hk; simp
        · have hk' : ¬ k = k₀ := fun e => hk e.symm
          simp [hk, hk']
      | false =>
        have hq : queueKept env (Event.lease_reply k₀ id name sp a status reply) s k =
            (s.entry k).task_queue := by
          simp [queueKept, hf]
        rw [hq]
        refine Fifo.since (s₀) t1 (by rw [t2 k]) ?_
        exact Fifo.trans (f2 hf k) (Fifo.of_view (hfold _))
  | cancel_lease_reply k₀ status reply =>
    simp only [step] at h
    split at h
    · cases h
    · next s₀ htake =>
      obtain ⟨t1, t2, _⟩ := takeCallback_same htake
      cases h
      refine hplain ?_ ?_
      · rw [view_OnCancelLeaseReply]; exact t1
      · show ((OnCancelLeaseReply env k₀ status reply s₀).view.queue k) = _
        rw [view_OnCancelLeaseReply]
        exact congrArg SchedulingKeyEntry.task_queue (t2 k)
  | push_reply spec t ac k₀ addr res status reply ra =>
    simp only [step] at h
    split at h
    · cases h
    · next s₀ htake =>
      obtain ⟨t1, t2, _⟩ := takeCallback_same htake
      unfold OnPushReply at h
      obtain ⟨r, h₁, h₂⟩ := bind_ok h
      cases h₂
      have hnow : appendedNow clk
          (Event.push_reply spec t ac k₀ addr res status reply ra) s k = [] := rfl
      rw [hnow, List.append_nil]
      refine Fifo.since (s₀) t1 (by rw [t2 k]; rfl) ?_
      exact Fifo.trans (fifo_pushReplyLocked h₁ k)
        (Fifo.of_view (view_pushReplyOutcome _ _ _ _ _ _ _ _))
  | failure_cause_reply status t addr rs reply wr =>
    simp only [step] at h
    split at h
    · cases h
    · next s₀ htake =>
      obtain ⟨t1, t2, _⟩ := takeCallback_same htake
      cases h
      refine hplain ?_ ?_
      · rw [view_OnFailureCauseReply]; exact t1
      · show ((OnFailureCauseReply status t addr rs reply wr s₀).view.queue k) = _
        rw [view_OnFailureCauseReply]
        exact congrArg SchedulingKeyEntry.task_queue (t2 k)
  | cancel_task_reply spec k₀ fk rc status reply =>
    simp only [step] at h
    split at h
    · cases h
    · next s₀ htake =>
      obtain ⟨t1, t2, _⟩ := takeCallback_same htake
      cases h
      refine hplain ?_ ?_
      · rw [view_OnCancelTaskReply]; exact t1
      · show ((OnCancelTaskReply env clk spec fk rc status reply s₀).view.queue k) = _
        rw [view_OnCancelTaskReply]
        exact congrArg SchedulingKeyEntry.task_queue (t2 k)
  | cancel_retry_fired spec fk rc ip =>
    simp only [step] at h
    split at h
    · cases h
    · next s₀ htake =>
      obtain ⟨t1, t2, t3⟩ := takeCallback_same htake
      obtain ⟨r, h₁, h₂⟩ := map_ok h
      subst h₂
      obtain ⟨c1, c2⟩ := queue_CancelTask h₁
      have hnow : appendedNow clk (Event.cancel_retry_fired spec fk rc ip) s k = [] := rfl
      rw [hnow, List.append_nil]
      refine Fifo.since (r.2) (c1.trans t1) ?_ (Fifo.fifo_refl _ _)
      rw [c2 k, t2 k]
      simp only [queueKept, queueAfterCancel, t3]

/-- A sublist of a list without duplicates is the list filtered by
membership in the sublist. -/
theorem sublist_eq_filter_mem {α : Type} [DecidableEq α] :
    ∀ {L Q : List α}, Q.Nodup → L.Sublist Q → Q.filter (fun t => decide (t ∈ L)) = L := by
  intro L Q hnd hs
  induction hs with
  | slnil => rfl
  | @cons L' Q' a hs ih =>
    have hnd' := List.nodup_cons.mp hnd
    have ha : a ∉ L' := fun h => hnd'.1 (hs.subset h)
    rw [List.filter_cons, if_neg (by simpa using ha)]
    exact ih hnd'.2
  | @cons₂ L' Q' a hs ih =>
    have hnd' := List.nodup_cons.mp hnd
    rw [List.filter_cons, if_pos (by simp)]
    congr 1
    refine (List.filter_congr ?_).trans (ih hnd'.2)
    intro t ht
    have hne : t ≠ a := fun e => hnd'.1 (e ▸ ht)
    simp [hne]

/-- A sublist of a list whose keys are distinct is the list without the
elements whose key is the key of an element left out. -/
theorem sublist_eq_filter_key {α β : Type} [DecidableEq α] [DecidableEq β] (f : α → β)
    {L Q : List α} (hnd : (Q.map f).Nodup) (hs : L.Sublist Q) :
    Q.filter (fun t => decide (f t ∉ (Q.filter (fun t => decide (t ∉ L))).map f)) = L := by
  have hq : Q.Nodup := List.Nodup.of_map f hnd
  refine (List.filter_congr ?_).trans (sublist_eq_filter_mem hq hs)
  intro t ht
  have hinj : ∀ t', t' ∈ Q → f t' = f t → t' = t :=
    fun t' ht' e => List.inj_on_of_nodup_map hnd ht' ht e
  by_cases hL : t ∈ L
  · have : f t ∉ (Q.filter (fun t => decide (t ∉ L))).map f := by
      intro hm
      obtain ⟨t', ht', e⟩ := List.mem_map.mp hm
      have ht'' := List.mem_filter.mp ht'
      have := hinj t' ht''.1 e
      subst this
      simp [hL] at ht''
    rw [decide_eq_decide]
    exact ⟨fun _ => hL, fun _ => this⟩
  · have : f t ∈ (Q.filter (fun t => decide (t ∉ L))).map f :=
      List.mem_map.mpr ⟨t, List.mem_filter.mpr ⟨ht, by simpa using hL⟩, rfl⟩
    rw [decide_eq_decide]
    exact ⟨fun h => absurd this h, fun h => absurd h hL⟩

theorem queueKept_sublist (env : Env) (ev : Event) (s : State) (k : SchedulingKey) :
    (queueKept env ev s k).Sublist (s.entry k).task_queue := by
  have hc : ∀ t ip, (queueAfterCancel t ip s (s.entry k).task_queue).Sublist
      (s.entry k).task_queue := by
    intro t ip
    unfold queueAfterCancel
    split
    · exact List.eraseP_sublist _
    · exact List.Sublist.refl _
  unfold queueKept
  cases ev <;> simp only [] <;>
    first
      | exact List.Sublist.refl _
      | (split
         · first
            | exact hc _ _
            | exact List.nil_sublist _
         · exact List.Sublist.refl _)

theorem task_id_unstamp (t : TaskSpecification) : (unstamp t).task_id = t.task_id := rfl

theorem map_id_unstamp (l : List TaskSpecification) :
    (l.map unstamp).map (fun t => t.task_id) = l.map (fun t => t.task_id) := by
  rw [List.map_map]
  rfl

theorem filter_id_unstamp (l : List TaskSpecification) (r : List TaskID) :
    (l.map unstamp).filter (fun t => decide (t.task_id ∉ r)) =
      (l.filter (fun t => decide (t.task_id ∉ r))).map unstamp := by
  rw [List.filter_map]
  rfl

theorem filter_id_of_disjoint {l : List TaskSpecification} {r : List TaskID}
    (h : ∀ t, t ∈ l → t.task_id ∉ r) :
    l.filter (fun t => decide (t.task_id ∉ r)) = l := by
  apply List.filter_eq_self.mpr
  intro t ht
  simpa using h t ht

/-- The tasks pushed and queued under a key at the end of a run are those
pushed and queued at its start followed by those appended along it, without
the tasks removed along it, when the ids of all these tasks are distinct. -/
theorem run_served (env : Env) (k : SchedulingKey) :
    ∀ (inputs : List Input) (s s' : State), run env inputs s = Except.ok s' →
      (((pushedUnder k s).map unstamp ++ ((s.entry k).task_queue).map unstamp ++
        (appendedAlong env k inputs s).map unstamp).map (fun t => t.task_id)).Nodup →
      (pushedUnder k s').map unstamp ++ ((s'.entry k).task_queue).map unstamp =
        ((pushedUnder k s).map unstamp ++ ((s.entry k).task_queue).map unstamp ++
          (appendedAlong env k inputs s).map unstamp).filter
          (fun t => decide (t.task_id ∉ removedAlong env k inputs s)) := by
  intro inputs
  induction inputs with
  | nil =>
    intro s s' h _
    simp only [run] at h
    cases h
    simp [appendedAlong, removedAlong]
  | cons i rest ih =>
    intro s s' h hnd
    simp only [run] at h
    obtain ⟨s₁, h₁, h₂⟩ := bind_ok h
    obtain ⟨d, hd1, hd2⟩ := fifo_step h₁ k
    have happ : appendedAlong env k (i :: rest) s =
        appendedNow i.clk i.event s k ++ appendedAlong env k rest s₁ := by
      simp only [appendedAlong, h₁]
      rfl
    have hrem : removedAlong env k (i :: rest) s =
        removedBy env i.event s k ++ removedAlong env k rest s₁ := by
      simp only [removedAlong, h₁]
    rw [happ, hrem]
    rw [happ] at hnd
    simp only [List.map_append, List.append_assoc] at hnd
    -- the three parts of the list of ids
    have hnd1 := hnd
    rw [List.nodup_append] at hnd1
    obtain ⟨hP, hrest, hPdis⟩ := hnd1
    rw [List.nodup_append] at hrest
    obtain ⟨hQ, hrest2, hQdis⟩ := hrest
    rw [List.nodup_append] at hrest2
    obtain ⟨ha, hA, haAdis⟩ := hrest2
    have hQ' : ((s.entry k).task_queue.map (fun t => t.task_id)).Nodup := by
      rw [← map_id_unstamp]; exact hQ
    -- what the step removes
    have hkept : (s.entry k).task_queue.filter
        (fun t => decide (t.task_id ∉ removedBy env i.event s k)) =
        queueKept env i.event s k :=
      sublist_eq_filter_key (fun t => t.task_id) hQ' (queueKept_sublist env i.event s k)
    have hr_sub : ∀ x, x ∈ removedBy env i.event s k →
        x ∈ ((s.entry k).task_queue.map unstamp).map (fun t => t.task_id) := by
      intro x hx
      rw [map_id_unstamp]
      obtain ⟨t, ht, e⟩ := List.mem_map.mp hx
      exact List.mem_map.mpr ⟨t, (List.mem_filter.mp ht).1, e⟩
    -- the served list after the step
    have hS1 : (pushedUnder k s₁).map unstamp ++ ((s₁.entry k).task_queue).map unstamp =
        ((pushedUnder k s).map unstamp ++ ((s.entry k).task_queue).map unstamp ++
          (appendedNow i.clk i.event s k).map unstamp).filter
          (fun t => decide (t.task_id ∉ removedBy env i.event s k)) := by
      have hPf : ((pushedUnder k s).map unstamp).filter
          (fun t => decide (t.task_id ∉ removedBy env i.event s k)) =
          (pushedUnder k s).map unstamp := by
        apply filter_id_of_disjoint
        intro t ht hr
        exact hPdis (List.mem_map_of_mem _ ht)
          (List.mem_append_left _ (hr_sub _ hr))
      have haf : ((appendedNow i.clk i.event s k).map unstamp).filter
          (fun t => decide (t.task_id ∉ removedBy env i.event s k)) =
          (appendedNow i.clk i.event s k).map unstamp := by
        apply filter_id_of_disjoint
        intro t ht hr
        exact hQdis (hr_sub _ hr)
          (List.mem_append_left _ (List.mem_map_of_mem _ ht))
      rw [hd1, List.map_append, List.append_assoc, hd2, List.map_append, ← hkept,
        List.filter_append, List.filter_append, hPf, haf, filter_id_unstamp,
        List.append_assoc]
    -- the induction hypothesis applies to the rest of the run
    have hsub : ((pushedUnder k s₁).map unstamp ++ ((s₁.entry k).task_queue).map unstamp ++
        (appendedAlong env k rest s₁).map unstamp).Sublist
        ((pushedUnder k s).map unstamp ++ ((s.entry k).task_queue).map unstamp ++
          (appendedNow i.clk i.event s k).map unstamp ++
          (appendedAlong env k rest s₁).map unstamp) := by
      rw [hS1]
      exact (List.filter_sublist _).append (List.Sublist.refl _)
    have hnd₁ : (((pushedUnder k s₁).map unstamp ++ ((s₁.entry k).task_queue).map unstamp ++
        (appendedAlong env k rest s₁).map unstamp).map (fun t => t.task_id)).Nodup := by
      refine List.Nodup.sublist (hsub.map _) ?_
      simp only [List.map_append, List.append_assoc]
      exact hnd
    rw [ih s₁ s' h₂ hnd₁, hS1]
    simp only [List.filter_append, List.filter_filter, List.map_append, List.append_assoc]
    have hcomb : ∀ l : List TaskSpecification,
        l.filter (fun t => decide (t.task_id ∉ removedAlong env k rest s₁) &&
          decide (t.task_id ∉ removedBy env i.event s k)) =
        l.filter (fun t => decide (t.task_id ∉
          removedBy env i.event s k ++ removedAlong env k rest s₁)) := by
      intro l
      apply List.filter_congr
      intro t _
      simp only [List.mem_append, not_or, Bool.decide_and]
      exact Bool.and_comm _ _
    rw [hcomb, hcomb, hcomb]
    congr 3
    -- the tasks appended later are not removed by this step
    apply List.filter_congr
    intro t ht
    have hnot : t.task_id ∉ removedBy env i.event s k := by
      intro hr
      have h1 := hr_sub _ hr
      have h2 : t.task_id ∈ ((appendedAlong env k rest s₁).map unstamp).map
          (fun t => t.task_id) := List.mem_map_of_mem _ ht
      exact hQdis h1 (List.mem_append_right _ h2)
    simp [hnot]

/-- C4: within one scheduling key the tasks are pushed in the order in which
the successful resolution closures appended them to the queue.
(1) `OnWorkerIdle` pushes tasks from the front of the queue, in queue order, and
leaves the rest of the queue in its order.
(2) The cancellation of a queued task that is not being cancelled already
removes the first task of the queue with the cancelled id and no other task,
keeps the order of the others, leaves every other queue as it is and pushes
nothing.
(3) Every step keeps the order: what it pushes under the key, followed by the
queue it leaves, is the queue it found, without the task a cancellation removes
or the tasks a failed lease fails, followed by the task it appends.
(4) At the end of every run from the initial state in which the ids of the
tasks appended to the queue of the key are distinct, the tasks pushed under the
key, in the order of the pushes, followed by the tasks still queued, in queue
order, are exactly the tasks appended to the queue, in the order of the
appends, without the tasks a cancellation or a failed lease removed.
Tasks are compared without the lease-grant stamp `OnWorkerIdle` puts on a task
it pushes. -/
theorem queue_fifo (env : Env) (k : SchedulingKey) :
    (∀ depth clk addr k₀ was_error error_detail worker_exiting assigned_resources s s',
      OnWorkerIdle env depth clk addr k₀ was_error error_detail worker_exiting
          assigned_resources s = Except.ok s' →
        ∃ pushedNow, pushedUnder k s' = pushedUnder k s ++ pushedNow ∧
          pushedNow.map unstamp ++ ((s'.entry k).task_queue).map unstamp =
            ((s.entry k).task_queue).map unstamp) ∧
    (∀ task_spec force_kill recursive s r pre t post,
      CancelTask env task_spec force_kill recursive true s = Except.ok r →
      task_spec.task_id ∉ s.cancelled_tasks →
      (s.entry task_spec.GetSchedulingKey).task_queue = pre ++ t :: post →
      t.task_id = task_spec.task_id →
      (∀ x ∈ pre, x.task_id ≠ task_spec.task_id) →
        (r.2.entry task_spec.GetSchedulingKey).task_queue = pre ++ post ∧
        (∀ k', k' ≠ task_spec.GetSchedulingKey →
          (r.2.entry k').task_queue = (s.entry k').task_queue) ∧
        ∀ k', pushedUnder k' r.2 = pushedUnder k' s) ∧
    (∀ depth clk ev s s', step env depth clk ev s = Except.ok s' →
      ∃ pushedNow, pushedUnder k s' = pushedUnder k s ++ pushedNow ∧
        pushedNow.map unstamp ++ ((s'.entry k).task_queue).map unstamp =
          (queueKept env ev s k ++ appendedNow clk ev s k).map unstamp) ∧
    (∀ inputs s, run env inputs {} = Except.ok s →
      ((appendedAlong env k inputs {}).map (fun t => t.task_id)).Nodup →
        (pushedUnder k s).map unstamp ++ ((s.entry k).task_queue).map unstamp =
          ((appendedAlong env k inputs {}).filter
            (fun t => decide (t.task_id ∉ removedAlong env k inputs {}))).map unstamp) := by
  refine ⟨?_, ?_, ?_, ?_⟩
  · intro depth clk addr k₀ we ed wx res s s' h
    exact fifo_OnWorkerIdle h k
  · intro spec fk rc s r pre t post h hnc hq ht hpre
    obtain ⟨hp, hqs⟩ := queue_CancelTask h
    refine ⟨?_, ?_, ?_⟩
    · rw [hqs, if_pos rfl, hq]
      unfold queueAfterCancel
      rw [if_pos ⟨rfl, hnc⟩, List.eraseP_append_right, List.eraseP_cons_of_pos]
      · simpa using ht
      · intro x hx
        simpa using hpre x hx
    · intro k' hk'
      rw [hqs, if_neg (fun e => hk' e.symm)]
    · intro k'
      have : r.2.calls.filterMap Call.pushed = s.calls.filterMap Call.pushed := hp
      simp only [pushedUnder, this]
  · intro depth clk ev s s' h
    exact fifo_step h k
  · intro inputs s h hnd
    have hpush : pushedUnder k ({} : State) = [] := rfl
    have hqueue : (({} : State).entry k).task_queue = [] := rfl
    have := run_served env k inputs {} s h (by
      rw [hpush, hqueue]
      simp only [List.map_nil, List.nil_append]
      rw [map_id_unstamp]
      exact hnd)
    rw [this, hpush, hqueue]
    simp only [List.map_nil, List.nil_append]
    rw [filter_id_unstamp]

set_option maxRecDepth 8192 in
theorem queue_fifo_witness :
    (∃ s', OnWorkerIdle exampleEnv 64 {} workerV keyAB false [] false [] secondWorkerGranted =
        Except.ok s' ∧
      ∃ pushedNow, pushedUnder keyAB s' = pushedUnder keyAB secondWorkerGranted ++ pushedNow ∧
        pushedNow.map unstamp ++ ((s'.entry keyAB).task_queue).map unstamp =
          ((secondWorkerGranted.entry keyAB).task_queue).map unstamp) ∧
    (∃ r, CancelTask exampleEnv taskA false false true (stateAfter exampleEnv twoQueued) =
        Except.ok r ∧
      ((stateAfter exampleEnv twoQueued).entry keyAB).task_queue = [taskA, taskB] ∧
      (r.2.entry keyAB).task_queue = [taskB] ∧
      pushedUnder keyAB r.2 = pushedUnder keyAB (stateAfter exampleEnv twoQueued)) ∧
    run exampleEnv cancelledThenLeased {} =
      Except.ok (stateAfter exampleEnv cancelledThenLeased) ∧
    (appendedAlong exampleEnv keyAB cancelledThenLeased {}).map (fun t => t.task_id) = [1, 2] ∧
    removedAlong exampleEnv keyAB cancelledThenLeased {} = [1] ∧
    (pushedUnder keyAB (stateAfter exampleEnv cancelledThenLeased)).map
        (fun t => t.task_id) = [2] ∧
    ((stateAfter exampleEnv cancelledThenLeased).entry keyAB).task_queue = [] ∧
    (pushedUnder keyAB (stateAfter exampleEnv cancelledThenLeased)).map unstamp ++
        (((stateAfter exampleEnv cancelledThenLeased).entry keyAB).task_queue).map unstamp =
      ((appendedAlong exampleEnv keyAB cancelledThenLeased {}).filter
        (fun t => decide (t.task_id ∉ removedAlong exampleEnv keyAB cancelledThenLeased {}))).map
        unstamp :=
  ⟨⟨_, rfl, (queue_fifo exampleEnv keyAB).1 64 {} workerV keyAB false [] false []
      secondWorkerGranted _ rfl⟩,
    ⟨_, rfl, by rfl,
      ((queue_fifo exampleEnv keyAB).2.1 taskA false false (stateAfter exampleEnv twoQueued)
        _ [] taskA [taskB] rfl (by decide) (by rfl) rfl (by simp)).1,
      ((queue_fifo exampleEnv keyAB).2.1 taskA false false (stateAfter exampleEnv twoQueued)
        _ [] taskA [taskB] rfl (by decide) (by rfl) rfl (by simp)).2.2 keyAB⟩,
    by rfl, by rfl, by rfl, by rfl, by rfl,
    (queue_fifo exampleEnv keyAB).2.2.2 cancelledThenLeased
      (stateAfter exampleEnv cancelledThenLeased) (by rfl) (by decide)⟩

end NormalTaskSubmitter
